import Mathlib

/-!
# Roost: ordered lists, paging, search, updates and reactions

A shallow embedding of code of `roost.go` (`randomPosition`, `Todos`, `Topics`,
`MoveTodo`, `MoveTopic`, `Messages`, `CreateTodo`, `CreateTopicPinned`,
`SetReaction`, `Search`, `NextPage`, `Updates.Next`, `Updates.Type`,
`TodoUpdater.Commit`, `Todo.Complete`, `Topics.Topic`, `makeTransportStates`)
together with the properties proved about it.

Conventions of the embedding.

* `float64` values (positions, timestamps) are rationals: arithmetic is exact,
  where the source rounds every result to a `float64`.  What is proved of
  positions is proved in exact arithmetic.  It carries over to the source as
  long as the two bounds handed to `randomPosition` are far enough apart for
  a `float64` to lie strictly between them; between two adjacent `float64`
  values the source returns one of the bounds, the embedding a number strictly
  inside.
* Identifiers are fixed-length byte strings in the source; SQLite compares
  them bytewise, which is the order of the big-endian number they spell, so an
  identifier is kept as that number.
* Go `int` indices are integers; an index expression `xs[i]` outside
  `0 <= i < len(xs)` is a run-time panic, which is kept apart from a returned
  `error`.  The only sums the code forms on indices are `to+1`, `to-1` and
  `len-1`; where 64-bit wrap-around could change one of them (`to` at the
  smallest or largest `int`) the wrapped and the unwrapped value both lie
  outside the slice, so unbounded integers give the same outcome.
* The storage layer is a list of rows per view.  A query filters the rows by its
  `WHERE` clause and sorts them by its `ORDER BY` clause with a stable sort;
  `writer.Execute()` applies the batched updates to the rows they address.
  An insert adds a row after the stored ones, with the identifier and the
  creation time that the storage layer hands out passed as arguments.
* `rand.Float64()` is an explicit argument `u` with `0 <= u < 1`, and `now()`
  an explicit argument `nowTs`.
* A Go map is the list of its entries, with pairwise distinct keys; the order
  of the list stands for the unspecified order in which `range` and
  `maps.Keys` yield the entries.
* Functions of other libraries are parameters: `strconv` (`Strconv`), the
  grapheme cluster count of `uniseg` (`Uniseg`) and the full-text functions of
  SQLite (`Fts`).  `plainLetters`, `plainFts` and `wholeNumbers` are samples of
  them for concrete inputs; `decimalNumerals` is `strconv` in exact arithmetic
  on decimal numerals, after the documentation of `FormatFloat` and
  `ParseFloat`.
* `SearchResults.Offset` is an unbounded integer: the sum `Offset + PageSize`
  does not wrap around.
* The update channel is the queue of its buffered items with a closed flag.  A
  send or receive that would block has no result (`none`); a run of the
  producers and the reader is the list of their operations in the order in
  which they complete.
-/

namespace Roost

/-! ## Results of a call -/

/-- What a call of a Go function produces: a value with a nil error, a non-nil
error, or a run-time panic. -/
inductive Outcome (α : Type) where
  | ok : α → Outcome α
  | error : String → Outcome α
  | panic : Outcome α
deriving Repr, DecidableEq

/-- Sequencing of calls: the first failure ends the computation. -/
def Outcome.bind {α β : Type} (x : Outcome α) (f : α → Outcome β) : Outcome β :=
  match x with
  | .ok a => f a
  | .error e => .error e
  | .panic => .panic

/-- The index expression `xs[i]` of Go on a slice. -/
def index {α : Type} (xs : List α) (i : Int) : Outcome α :=
  if 0 ≤ i then
    match xs.get? i.toNat with
    | some a => .ok a
    | none => .panic
  else .panic

/-! ## Constants -/

/-- Page size of `Messages`. -/
def MessagesPageSize : Nat := 20

/-! ## PositionAllocator -/

/-- The source's
`r := rand.Float64()*0.8 + 0.1; return (end-start)*r + start`,
with the draw `rand.Float64()` passed as `u`, computed in exact arithmetic.
The source computes in `float64` and rounds: when `start` and `end` are
adjacent `float64` values its result is one of the two bounds, while the exact
result lies strictly between them for `start < end`. -/
def randomPosition (u : ℚ) (start end_ : ℚ) : ℚ :=
  let r := u * (8 / 10) + 1 / 10
  (end_ - start) * r + start

/-! ## Rows of the storage views

Only the columns that the queries and writes of the embedded functions read or
set are kept; `_mtime`, `_wtime`, the identity tags and the derived counters of
a topic play no part in ordering or paging. -/

/-- Todo item within a topic (`type Todo struct`). -/
structure Todo where
  ID : Nat
  GroupID : Nat
  CtimeSec : ℚ
  TopicID : Nat
  Body : String
  CompletedAt : ℚ
  CompletedPosition : ℚ
  Deleted : Bool
  Read : Bool
  Position : ℚ
deriving Repr, DecidableEq

/-- Topic of a group (`type Topic struct`). -/
structure Topic where
  ID : Nat
  GroupID : Nat
  CtimeSec : ℚ
  Label : String
  MessageLastRead : ℚ
  ShowCompleted : Bool
  Pinned : Bool
  Position : ℚ
  PinPosition : ℚ
deriving Repr, DecidableEq

/-- Chat message of a topic (`type Message struct`). -/
structure Message where
  ID : Nat
  GroupID : Nat
  CtimeSec : ℚ
  TopicID : Nat
  Body : String
deriving Repr, DecidableEq

/-- Reaction of an identity to an entity (`type Reaction struct`). -/
structure Reaction where
  ID : Nat
  GroupID : Nat
  IdentityID : Nat
  Rune : String
  Active : Bool
  EntityID : Nat
deriving Repr, DecidableEq

/-- Row of the table `fs_contents`, which the full-text index
`fs_content_fts_idx` mirrors row by row (`content='fs_contents'`,
`content_rowid='id'`). -/
structure Content where
  id : Nat
  group_id : Nat
  topic_id : Nat
  entity_id : Nat
  type_ : String
  text : String
deriving Repr, DecidableEq

/-- The rows of the views `todos`, `topics`, `messages` and `reactions` and of
the table `fs_contents`. -/
structure DB where
  todos : List Todo
  topics : List Topic
  messages : List Message
  reactions : List Reaction := []
  contents : List Content := []
deriving Repr, DecidableEq

/-- A group handle: the group whose rows its methods read and write, and the
identity under which it writes. -/
structure RoostGroup where
  GroupID : Nat
  IdentityTag : Nat
deriving Repr, DecidableEq

/-! ## Writes -/

/-- A value handed to the writer (`interface{}` in the property map). -/
inductive Value where
  | real : ℚ → Value
  | bool : Bool → Value
  | text : String → Value
  | blob : Nat → Value
deriving Repr, DecidableEq

/-- One `writer.Update(view, id, props)` of a batch. -/
structure Update where
  view : String
  id : Nat
  props : List (String × Value)
deriving Repr, DecidableEq

/-- Setting one column of a todo row. -/
def Todo.setProp (t : Todo) (name : String) (v : Value) : Todo :=
  match name, v with
  | "body", .text s => { t with Body := s }
  | "topic_id", .blob n => { t with TopicID := n }
  | "position", .real q => { t with Position := q }
  | "completed_at", .real q => { t with CompletedAt := q }
  | "completed_position", .real q => { t with CompletedPosition := q }
  | "deleted", .bool b => { t with Deleted := b }
  | "read", .bool b => { t with Read := b }
  | _, _ => t

/-- Setting one column of a topic row. -/
def Topic.setProp (t : Topic) (name : String) (v : Value) : Topic :=
  match name, v with
  | "label", .text s => { t with Label := s }
  | "message_last_read", .real q => { t with MessageLastRead := q }
  | "show_completed", .bool b => { t with ShowCompleted := b }
  | "pinned", .bool b => { t with Pinned := b }
  | "position", .real q => { t with Position := q }
  | "pin_position", .real q => { t with PinPosition := q }
  | _, _ => t

/-- Setting one column of a message row. -/
def Message.setProp (m : Message) (name : String) (v : Value) : Message :=
  match name, v with
  | "body", .text s => { m with Body := s }
  | "topic_id", .blob n => { m with TopicID := n }
  | _, _ => m

/-- Setting one column of a reaction row. -/
def Reaction.setProp (r : Reaction) (name : String) (v : Value) : Reaction :=
  match name, v with
  | "active", .bool b => { r with Active := b }
  | "rune", .text s => { r with Rune := s }
  | "entity_id", .blob n => { r with EntityID := n }
  | _, _ => r

/-- Effect of one update on a todo row: the row of the writer's group with the
update's id takes the new column values, every other row is left as it is. -/
def Todo.applyUpdate (g : Nat) (w : Update) (t : Todo) : Todo :=
  if w.view = "todos" ∧ t.GroupID = g ∧ t.ID = w.id then
    w.props.foldl (fun r p => r.setProp p.1 p.2) t
  else t

/-- Effect of one update on a topic row. -/
def Topic.applyUpdate (g : Nat) (w : Update) (t : Topic) : Topic :=
  if w.view = "topics" ∧ t.GroupID = g ∧ t.ID = w.id then
    w.props.foldl (fun r p => r.setProp p.1 p.2) t
  else t

/-- Effect of one update on a reaction row. -/
def Reaction.applyUpdate (g : Nat) (w : Update) (r : Reaction) : Reaction :=
  if w.view = "reactions" ∧ r.GroupID = g ∧ r.ID = w.id then
    w.props.foldl (fun x p => x.setProp p.1 p.2) r
  else r

/-- The storage effect of `writer.Execute()` on a batch of updates of the
group `g`, applied in the order in which they were added. -/
def Execute (g : Nat) (ws : List Update) (db : DB) : DB :=
  ws.foldl
    (fun d w =>
      { d with
        todos := d.todos.map (Todo.applyUpdate g w)
        topics := d.topics.map (Topic.applyUpdate g w)
        reactions := d.reactions.map (Reaction.applyUpdate g w) })
    db

/-- One `writer.Insert(view, props)`. -/
structure Insert where
  view : String
  props : List (String × Value)
deriving Repr, DecidableEq

/-- The storage effect of `writer.Execute()` on a batch that holds one insert:
a new row of the writer's group, with the identifier `newID` that the storage
layer hands out (`writer.InsertIDs[0]`), the creation time `nowTs`, the given
columns and the view's default for every other column, is added after the
stored rows. -/
def ExecuteInsert (rg : RoostGroup) (newID : Nat) (nowTs : ℚ) (ins : Insert) (db : DB) : DB :=
  if ins.view = "todos" then
    { db with
      todos := db.todos ++
        [ins.props.foldl (fun r p => r.setProp p.1 p.2)
          { ID := newID, GroupID := rg.GroupID, CtimeSec := nowTs, TopicID := 0, Body := "",
            CompletedAt := 0, CompletedPosition := 0, Deleted := false, Read := false,
            Position := 0 }] }
  else if ins.view = "topics" then
    { db with
      topics := db.topics ++
        [ins.props.foldl (fun r p => r.setProp p.1 p.2)
          { ID := newID, GroupID := rg.GroupID, CtimeSec := nowTs, Label := "",
            MessageLastRead := 0, ShowCompleted := false, Pinned := false, Position := 0,
            PinPosition := 0 }] }
  else if ins.view = "messages" then
    { db with
      messages := db.messages ++
        [ins.props.foldl (fun r p => r.setProp p.1 p.2)
          { ID := newID, GroupID := rg.GroupID, CtimeSec := nowTs, TopicID := 0, Body := "" }] }
  else if ins.view = "reactions" then
    { db with
      reactions := db.reactions ++
        [ins.props.foldl (fun r p => r.setProp p.1 p.2)
          { ID := newID, GroupID := rg.GroupID, IdentityID := rg.IdentityTag, Rune := "",
            Active := true, EntityID := 0 }] }
  else db

/-! ## Queries -/

/-- The comparison of `ORDER BY k1, k2`: ascending in `k1`, ties broken by
ascending `k2`. -/
def sqlLE {α κ : Type} [LinearOrder κ] (k1 : α → ℚ) (k2 : α → κ) (a b : α) : Prop :=
  k1 a < k1 b ∨ (k1 a = k1 b ∧ k2 a ≤ k2 b)

instance sqlLE.decidable {α κ : Type} [LinearOrder κ] (k1 : α → ℚ) (k2 : α → κ) :
    DecidableRel (sqlLE k1 k2) :=
  fun a b => by unfold sqlLE; exact inferInstance

/-- The rows in the order of `ORDER BY k1, k2` (a stable sort of the stored
rows). -/
def orderBy {α κ : Type} [LinearOrder κ] (k1 : α → ℚ) (k2 : α → κ) (rows : List α) :
    List α :=
  rows.insertionSort (sqlLE k1 k2)

/-- Result of `RoostGroup.Todos` (`type Todos struct`). -/
structure Todos where
  IncompleteCount : Nat
  CompleteCount : Nat
  incompleteTodos : List Todo
  completeTodos : List Todo
deriving Repr, DecidableEq

/-- Result of `RoostGroup.Topics` (`type Topics struct`). -/
structure Topics where
  Count : Nat
  pinnedTopics : List Topic
  unpinnedTopics : List Topic
deriving Repr, DecidableEq

/-- The two selects of `RoostGroup.Todos`:
`... where group_id = ? AND topic_id = ? AND deleted = 0 AND completed_at = 0
order by position, id` and
`... AND completed_at != 0 order by completed_position, id`. -/
def RoostGroup.Todos (rg : RoostGroup) (db : DB) (topicID : Nat) : Todos :=
  let incompleteTodos :=
    orderBy Todo.Position Todo.ID
      (db.todos.filter fun t =>
        t.GroupID = rg.GroupID ∧ t.TopicID = topicID ∧ t.Deleted = false ∧ t.CompletedAt = 0)
  let completeTodos :=
    orderBy Todo.CompletedPosition Todo.ID
      (db.todos.filter fun t =>
        t.GroupID = rg.GroupID ∧ t.TopicID = topicID ∧ t.Deleted = false ∧ t.CompletedAt ≠ 0)
  { IncompleteCount := incompleteTodos.length
    CompleteCount := completeTodos.length
    incompleteTodos := incompleteTodos
    completeTodos := completeTodos }

/-- The two selects of `RoostGroup.Topics`:
`... WHERE group_id = ? AND pinned != 0 order by pin_position, _ctime` and
`... WHERE group_id = ? AND pinned = 0 order by position, _ctime`. -/
def RoostGroup.Topics (rg : RoostGroup) (db : DB) : Topics :=
  let pinnedTopics :=
    orderBy Topic.PinPosition Topic.CtimeSec
      (db.topics.filter fun t => t.GroupID = rg.GroupID ∧ t.Pinned = true)
  let unpinnedTopics :=
    orderBy Topic.Position Topic.CtimeSec
      (db.topics.filter fun t => t.GroupID = rg.GroupID ∧ t.Pinned = false)
  { Count := pinnedTopics.length + unpinnedTopics.length
    pinnedTopics := pinnedTopics
    unpinnedTopics := unpinnedTopics }

/-! ## OrderedListReorder -/

/-- The list `targetTodos` that `MoveTodo` works on. -/
def RoostGroup.MoveTodo.targetTodos (complete : Bool) (todos : Roost.Todos) : List Todo :=
  if complete then todos.completeTodos else todos.incompleteTodos

/-- The accessor `pos` that `MoveTodo` reads positions with. -/
def RoostGroup.MoveTodo.pos (complete : Bool) (t : Todo) : ℚ :=
  if complete then t.CompletedPosition else t.Position

/-- The column `posProp` that `MoveTodo` writes. -/
def RoostGroup.MoveTodo.posProp (complete : Bool) : String :=
  if complete then "completed_position" else "position"

/-- The writer batch that `MoveTodo` has built when it reaches
`writer.Execute()`.  `todo := targetTodos[from]` is evaluated first, then the
four-way choice of the bounds handed to `randomPosition`. -/
def RoostGroup.MoveTodo.writer (rg : RoostGroup) (db : DB) (u : ℚ) (complete : Bool)
    (topicID : Nat) (from_ to_ : Int) : Outcome (List Update) :=
  let targetTodos := RoostGroup.MoveTodo.targetTodos complete (rg.Todos db topicID)
  let pos := RoostGroup.MoveTodo.pos complete
  let posProp := RoostGroup.MoveTodo.posProp complete
  (index targetTodos from_).bind fun todo =>
  (if to_ = 0 then
    (index targetTodos 0).bind fun a =>
    .ok (randomPosition u (pos a - 2) (pos a))
  else if to_ = (targetTodos.length : Int) - 1 then
    (index targetTodos ((targetTodos.length : Int) - 1)).bind fun a =>
    .ok (randomPosition u (pos a) (pos a + 2))
  else if to_ > from_ then
    (index targetTodos to_).bind fun a =>
    (index targetTodos (to_ + 1)).bind fun b =>
    .ok (randomPosition u (pos a) (pos b))
  else
    (index targetTodos (to_ - 1)).bind fun a =>
    (index targetTodos to_).bind fun b =>
    .ok (randomPosition u (pos a) (pos b))).bind fun newPosition =>
  .ok [{ view := "todos", id := todo.ID, props := [(posProp, .real newPosition)] }]

/-- The call `MoveTodo(complete, topicID, from, to)`: the storage after the
batch has been executed, or the failure that ended the call before that. -/
def RoostGroup.MoveTodo (rg : RoostGroup) (db : DB) (u : ℚ) (complete : Bool)
    (topicID : Nat) (from_ to_ : Int) : Outcome DB :=
  (RoostGroup.MoveTodo.writer rg db u complete topicID from_ to_).bind fun ws =>
  .ok (Execute rg.GroupID ws db)

/-- The list `targetTopics` that `MoveTopic` works on, as read. -/
def RoostGroup.MoveTopic.targetTopics (pinned : Bool) (topics : Roost.Topics) : List Topic :=
  if pinned then topics.pinnedTopics else topics.unpinnedTopics

/-- The accessor `pos` that `MoveTopic` reads positions with. -/
def RoostGroup.MoveTopic.pos (pinned : Bool) (t : Topic) : ℚ :=
  if pinned then t.PinPosition else t.Position

/-- The column `posProp` that `MoveTopic` writes. -/
def RoostGroup.MoveTopic.posProp (pinned : Bool) : String :=
  if pinned then "pin_position" else "position"

/-- The flag `atZero` of `MoveTopic`: no topic of the list has a non-zero
position. -/
def RoostGroup.MoveTopic.atZero (pinned : Bool) (targetTopics : List Topic) : Bool :=
  targetTopics.all fun t => RoostGroup.MoveTopic.pos pinned t = 0

/-- The repair loop of `MoveTopic` over `targetTopics`, started at index `i`:
every topic takes its index as position in memory, and every topic other than
the one at `from` gets an update of that position added to the batch. -/
def RoostGroup.MoveTopic.repair (pinned : Bool) (from_ : Int) :
    Nat → List Topic → List Topic × List Update
  | _, [] => ([], [])
  | i, t :: ts =>
    let t1 := if pinned then { t with PinPosition := (i : ℚ) } else { t with Position := (i : ℚ) }
    let rest := RoostGroup.MoveTopic.repair pinned from_ (i + 1) ts
    (t1 :: rest.1,
      if (i : Int) = from_ then rest.2
      else
        { view := "topics", id := t.ID,
          props := [(RoostGroup.MoveTopic.posProp pinned, .real (i : ℚ))] } :: rest.2)

/-- The `if atZero` block of `MoveTopic`: the list after the block and the
updates that the block has added to the batch. -/
def RoostGroup.MoveTopic.repaired (pinned : Bool) (from_ : Int) (read : List Topic) :
    List Topic × List Update :=
  if RoostGroup.MoveTopic.atZero pinned read then
    RoostGroup.MoveTopic.repair pinned from_ 0 read
  else (read, [])

/-- The writer batch that `MoveTopic` has built when it reaches
`writer.Execute()`: the repair updates of a list whose positions are all zero,
followed by the update of the moved topic. -/
def RoostGroup.MoveTopic.writer (rg : RoostGroup) (db : DB) (u : ℚ) (pinned : Bool)
    (from_ to_ : Int) : Outcome (List Update) :=
  let read := RoostGroup.MoveTopic.targetTopics pinned (rg.Topics db)
  let pos := RoostGroup.MoveTopic.pos pinned
  let posProp := RoostGroup.MoveTopic.posProp pinned
  let repaired := RoostGroup.MoveTopic.repaired pinned from_ read
  let targetTopics := repaired.1
  (index targetTopics from_).bind fun topic =>
  (if to_ = 0 then
    (index targetTopics 0).bind fun a =>
    .ok (randomPosition u (pos a - 2) (pos a))
  else if to_ = (targetTopics.length : Int) - 1 then
    (index targetTopics ((targetTopics.length : Int) - 1)).bind fun a =>
    .ok (randomPosition u (pos a) (pos a + 2))
  else if to_ > from_ then
    (index targetTopics to_).bind fun a =>
    (index targetTopics (to_ + 1)).bind fun b =>
    .ok (randomPosition u (pos a) (pos b))
  else
    (index targetTopics (to_ - 1)).bind fun a =>
    (index targetTopics to_).bind fun b =>
    .ok (randomPosition u (pos a) (pos b))).bind fun newPosition =>
  .ok (repaired.2 ++
    [{ view := "topics", id := topic.ID, props := [(posProp, .real newPosition)] }])

/-- The call `MoveTopic(pinned, from, to)`: the storage after the batch has been
executed, or the failure that ended the call before that. -/
def RoostGroup.MoveTopic (rg : RoostGroup) (db : DB) (u : ℚ) (pinned : Bool)
    (from_ to_ : Int) : Outcome DB :=
  (RoostGroup.MoveTopic.writer rg db u pinned from_ to_).bind fun ws =>
  .ok (Execute rg.GroupID ws db)

/-! ## CursorPager -/

/-- The two functions of Go's `strconv` that `Messages` calls, which are not
part of the repository: `ParseFloat(s, 64)`, with `none` for a non-nil error,
and `FormatFloat(x, 'f', -1, 64)`. -/
structure Strconv where
  ParseFloat : String → Option ℚ
  FormatFloat : ℚ → String

/-- Result of `Messages` (`type PagedMessages struct`). -/
structure PagedMessages where
  AtEnd : Bool
  Cursor : String
  Count : Nat
  values : List Message
deriving Repr, DecidableEq

/-- The select of `Messages` for the empty cursor,
`... where group_id = ? AND topic_id = ? order by _ctime desc, id limit ?`;
descending `_ctime` is ascending order of its negation. -/
def RoostGroup.selectMessages (rg : RoostGroup) (db : DB) (topicID : Nat) : List Message :=
  (orderBy (fun m => -m.CtimeSec) Message.ID
    (db.messages.filter fun m => m.GroupID = rg.GroupID ∧ m.TopicID = topicID)).take
      MessagesPageSize

/-- The select of `Messages` for a parsed cursor,
`... where group_id = ? AND topic_id = ? AND _ctime < ? order by _ctime desc, id limit ?`. -/
def RoostGroup.selectMessagesBefore (rg : RoostGroup) (db : DB) (topicID : Nat)
    (cursorFloat : ℚ) : List Message :=
  (orderBy (fun m => -m.CtimeSec) Message.ID
    (db.messages.filter fun m =>
      m.GroupID = rg.GroupID ∧ m.TopicID = topicID ∧ m.CtimeSec < cursorFloat)).take
      MessagesPageSize

/-- The tail of `Messages`, which fills in `Count`, `AtEnd` and `Cursor` from
the selected rows: `Cursor` stays the empty string unless there is a last
row. -/
def RoostGroup.Messages.result (sc : Strconv) (values : List Message) : PagedMessages :=
  { Count := values.length
    AtEnd := values.length != MessagesPageSize
    Cursor :=
      match values.getLast? with
      | some m => sc.FormatFloat m.CtimeSec
      | none => ""
    values := values }

/-- The call `Messages(topicID, cursor)`. -/
def RoostGroup.Messages (sc : Strconv) (rg : RoostGroup) (db : DB) (topicID : Nat)
    (cursor : String) : Outcome PagedMessages :=
  let selected : Outcome (List Message) :=
    if cursor = "" then
      .ok (rg.selectMessages db topicID)
    else
      match sc.ParseFloat cursor with
      | none => .error "strconv.ParseFloat: invalid syntax"
      | some cursorFloat => .ok (rg.selectMessagesBefore db topicID cursorFloat)
  selected.bind fun values => .ok (RoostGroup.Messages.result sc values)

/-- The full message sequence of a topic: descending creation time, ties
broken by identity. -/
def RoostGroup.allMessages (rg : RoostGroup) (db : DB) (topicID : Nat) : List Message :=
  orderBy (fun m => -m.CtimeSec) Message.ID
    (db.messages.filter fun m => m.GroupID = rg.GroupID ∧ m.TopicID = topicID)

/-- The paging procedure of a caller: fetch a page with the given cursor and,
unless the page reports `AtEnd`, go on with the page's `Cursor`.  The result is
`none` when a call fails or when `fuel` calls were not enough to reach a page
with `AtEnd`. -/
def RoostGroup.pagesFrom (sc : Strconv) (rg : RoostGroup) (db : DB) (topicID : Nat) :
    Nat → String → Option (List PagedMessages)
  | 0, _ => none
  | fuel + 1, cursor =>
    match rg.Messages sc db topicID cursor with
    | .ok page =>
      if page.AtEnd then some [page]
      else
        match RoostGroup.pagesFrom sc rg db topicID fuel page.Cursor with
        | some pages => some (page :: pages)
        | none => none
    | _ => none

/-- Reading a run of decimal digits as a number. -/
def readDigits : List Char → Nat → Option Nat
  | [], n => some n
  | c :: cs, n => if c.isDigit then readDigits cs (10 * n + (c.toNat - 48)) else none

/-- A sample of the two conversions on whole non-negative numbers, where
`FormatFloat` prints the decimal digits and `ParseFloat` reads them back. -/
def wholeNumbers : Strconv where
  ParseFloat s :=
    match s.data with
    | [] => none
    | c :: cs => (readDigits (c :: cs) 0).map fun n => (n : ℚ)
  FormatFloat x := Nat.repr x.num.toNat

/-- The search of `decimalPlaces`: the first `k` from the given one on, among
`fuel` candidates, for which `den` divides `10 ^ k`. -/
def decimalPlaces.search (den : Nat) : Nat → Nat → Nat
  | 0, _ => 0
  | fuel + 1, k => if den ∣ 10 ^ k then k else decimalPlaces.search den fuel (k + 1)

/-- The number of digits after the point in the decimal expansion of a number
with the reduced denominator `den`: the least `k` for which `den` divides
`10 ^ k`.  A denominator that divides no power of ten, which no `float64` value
has, gives 0. -/
def decimalPlaces (den : Nat) : Nat :=
  decimalPlaces.search den (den + 1) 0

/-- The `k` decimal digits of a number below `10 ^ k`, leading zeros
included. -/
def fractionDigits : Nat → Nat → List Char
  | 0, _ => []
  | k + 1, r => Nat.digitChar (r / 10 ^ k) :: fractionDigits k (r % 10 ^ k)

/-- Go's `strconv.FormatFloat(x, 'f', -1, 64)` in exact arithmetic.  Format
`'f'` prints `-ddd.ddd` without an exponent, and precision `-1` asks for the
smallest number of digits that represents the value uniquely, so that
`ParseFloat` returns it exactly; for a number taken exactly that is its decimal
expansion without trailing zeros: a sign for a negative number, the digits of
the whole part, and, when there are digits after the point, the point and
those digits. -/
def formatDecimal (x : ℚ) : String :=
  let k := decimalPlaces x.den
  let n := x.num.natAbs * 10 ^ k / x.den
  String.mk ((if x.num < 0 then ['-'] else []) ++ Nat.toDigits 10 (n / 10 ^ k) ++
    (if k = 0 then [] else '.' :: fractionDigits k (n % 10 ^ k)))

/-- A numeral cut at its first decimal point: the characters before it and,
when there is a point, the characters after it. -/
def splitAtPoint : List Char → List Char × Option (List Char)
  | [] => ([], none)
  | c :: cs =>
    if c = '.' then ([], some cs)
    else (c :: (splitAtPoint cs).1, (splitAtPoint cs).2)

/-- The value of an unsigned decimal numeral `ddd`, `ddd.ddd`, `ddd.` or
`.ddd`; `none` when a character is no digit or when there is no digit at
all. -/
def readDecimal (cs : List Char) : Option ℚ :=
  match splitAtPoint cs with
  | (whole, none) =>
    if whole = [] then none else (readDigits whole 0).map fun n => (n : ℚ)
  | (whole, some fraction) =>
    if whole = [] ∧ fraction = [] then none
    else
      match readDigits whole 0, readDigits fraction 0 with
      | some n, some r => some ((n : ℚ) + (r : ℚ) / 10 ^ fraction.length)
      | _, _ => none

/-- Go's `strconv.ParseFloat(s, 64)` in exact arithmetic, on decimal numerals
with an optional sign, which are the strings that `FormatFloat(x, 'f', -1, 64)`
prints for a finite number: the result is the value of the numeral.  Numerals
with an exponent, hexadecimal numerals, infinities and NaN, which that call
never prints for a finite number, are not read. -/
def parseDecimal (s : String) : Option ℚ :=
  match s.data with
  | '-' :: cs => (readDecimal cs).map fun x => -x
  | '+' :: cs => readDecimal cs
  | cs => readDecimal cs

/-- The two conversions of `strconv` on decimal numerals, in exact
arithmetic. -/
def decimalNumerals : Strconv where
  ParseFloat := parseDecimal
  FormatFloat := formatDecimal

/-! ## Creating todos and topics -/

/-- The aggregate `max(...)` of SQL: `none` stands for the NULL of an empty
selection. -/
def sqlMax : List ℚ → Option ℚ
  | [] => none
  | x :: xs => some (xs.foldl max x)

/-- Lookup of one todo by id, `Todo(id)`: the first row of the group with that
id, or the error of an empty result. -/
def RoostGroup.Todo (rg : RoostGroup) (db : DB) (id : Nat) : Outcome Roost.Todo :=
  match db.todos.find? fun t => t.GroupID = rg.GroupID ∧ t.ID = id with
  | some t => .ok t
  | none => .error "sql: no rows in result set"

/-- Lookup of one topic by id, `Topic(id)`. -/
def RoostGroup.Topic (rg : RoostGroup) (db : DB) (id : Nat) : Outcome Roost.Topic :=
  match db.topics.find? fun t => t.GroupID = rg.GroupID ∧ t.ID = id with
  | some t => .ok t
  | none => .error "sql: no rows in result set"

/-- The call `CreateTodo(topicID, label)`: the created todo as read back and
the storage after the insert.  The position is 0 when
`select max(position) ... where group_id = ? AND topic_id = ? AND deleted = 0
AND completed_at = 0` is NULL and `randomPosition(max, max+2)` otherwise. -/
def RoostGroup.CreateTodo (rg : RoostGroup) (db : DB) (u : ℚ) (newID : Nat) (nowTs : ℚ)
    (topicID : Nat) (label : String) : Outcome (Roost.Todo × DB) :=
  let maxPositionRow :=
    sqlMax ((db.todos.filter fun t =>
      t.GroupID = rg.GroupID ∧ t.TopicID = topicID ∧ t.Deleted = false ∧
        t.CompletedAt = 0).map Todo.Position)
  let maxPosition : ℚ :=
    match maxPositionRow with
    | some m => randomPosition u m (m + 2)
    | none => 0
  let db1 :=
    ExecuteInsert rg newID nowTs
      { view := "todos",
        props := [("body", .text label), ("topic_id", .blob topicID),
          ("position", .real maxPosition), ("read", .bool true)] } db
  (rg.Todo db1 newID).bind fun todo => .ok (todo, db1)

/-- The helper `createTopicPinned(label, pinned, position)`. -/
def RoostGroup.createTopicPinned (rg : RoostGroup) (db : DB) (newID : Nat) (nowTs : ℚ)
    (label : String) (pinned : Bool) (position : ℚ) : Outcome (Roost.Topic × DB) :=
  let positionProp := if pinned then "pin_position" else "position"
  let db1 :=
    ExecuteInsert rg newID nowTs
      { view := "topics",
        props := [("label", .text label), ("pinned", .bool pinned),
          (positionProp, .real position)] } db
  (rg.Topic db1 newID).bind fun topic => .ok (topic, db1)

/-- The call `CreateTopicPinned(label, pinned)`, with
`select max(pin_position) ... where group_id = ? AND pinned != 0` for a pinned
topic and `select max(position) ... where group_id = ? AND pinned = 0`
otherwise. -/
def RoostGroup.CreateTopicPinned (rg : RoostGroup) (db : DB) (u : ℚ) (newID : Nat)
    (nowTs : ℚ) (label : String) (pinned : Bool) : Outcome (Roost.Topic × DB) :=
  let maxPositionRow :=
    if pinned then
      sqlMax ((db.topics.filter fun t =>
        t.GroupID = rg.GroupID ∧ t.Pinned = true).map Topic.PinPosition)
    else
      sqlMax ((db.topics.filter fun t =>
        t.GroupID = rg.GroupID ∧ t.Pinned = false).map Topic.Position)
  let maxPosition : ℚ :=
    match maxPositionRow with
    | some m => randomPosition u m (m + 2)
    | none => 0
  rg.createTopicPinned db newID nowTs label pinned maxPosition

/-- The call `CreateTopic(label)`. -/
def RoostGroup.CreateTopic (rg : RoostGroup) (db : DB) (u : ℚ) (newID : Nat) (nowTs : ℚ)
    (label : String) : Outcome (Roost.Topic × DB) :=
  rg.CreateTopicPinned db u newID nowTs label false

/-! ## Reactions -/

/-- The function of `github.com/rivo/uniseg` that `SetReaction` calls, which is
not part of the repository. -/
structure Uniseg where
  GraphemeClusterCount : String → Nat

/-- The call `SetReaction(entityID, r, active)`: the storage after the write, or
the error that ended the call before any write.  The caller's reaction with the
same marker on the entity is looked up first; only when there is none is the
marker validated and a row inserted. -/
def RoostGroup.SetReaction (us : Uniseg) (rg : RoostGroup) (db : DB) (newID : Nat)
    (nowTs : ℚ) (entityID : Nat) (r : String) (active : Bool) : Outcome DB :=
  match db.reactions.find? fun x =>
      x.GroupID = rg.GroupID ∧ x.EntityID = entityID ∧ x.IdentityID = rg.IdentityTag ∧
        x.Rune = r with
  | none =>
    let c := us.GraphemeClusterCount r
    if c ≠ 1 then
      .error ("expected 1 grapheme cluster, got " ++ Nat.repr c)
    else
      .ok (ExecuteInsert rg newID nowTs
        { view := "reactions",
          props := [("active", .bool active), ("rune", .text r),
            ("entity_id", .blob entityID)] } db)
  | some reaction =>
    .ok (Execute rg.GroupID
      [{ view := "reactions", id := reaction.ID,
         props := [("active", .bool active), ("rune", .text r),
           ("entity_id", .blob entityID)] }] db)

/-- A sample of the cluster count that is right for markers made of plain
letters: one cluster per character. -/
def plainLetters : Uniseg where
  GraphemeClusterCount s := s.length

/-! ## OffsetPager -/

/-- Page size of `Search` and `NextPage`. -/
def PageSize : Nat := 100

/-- One search hit (`type Result struct`). -/
structure Result where
  RowID : Nat
  Text : String
  EntityID : Nat
  GroupID : Nat
  TopicID : Nat
  TopicName : String
  Type_ : String
deriving Repr, DecidableEq

/-- A page of search hits with the search it belongs to
(`type SearchResults struct`). -/
structure SearchResults where
  GroupID : Nat
  Term : String
  HighlightStart : String
  HighlightEnd : String
  Offset : Int
  Total : Nat
  Count : Nat
  results : List Result
deriving Repr, DecidableEq

/-- The full-text functions of SQLite's FTS5 that the two search statements
use, which are not part of the repository: `text MATCH ?` (`none` for a term
that is not a query), the rank `bm25(fs_content_fts_idx)` of a row of the index
for a term, and `snippet(...)` with the two highlight marks. -/
structure Fts where
  match_ : String → Option (String → Bool)
  bm25 : List Content → String → Content → ℚ
  snippet : String → String → String → String → String

/-- Reading the selected rows into `Result` values: a row whose `LEFT JOIN`
found no topic has a NULL `topic_name`, which does not scan into a Go
string. -/
def scanResults (fts : Fts) (term highlightStart highlightEnd : String) :
    List (Content × Option String) → Outcome (List Result)
  | [] => .ok []
  | (c, some name) :: rows =>
    (scanResults fts term highlightStart highlightEnd rows).bind fun rest =>
    .ok ({ RowID := c.id, Text := fts.snippet highlightStart highlightEnd term c.text,
           EntityID := c.entity_id, GroupID := c.group_id, TopicID := c.topic_id,
           TopicName := name, Type_ := c.type_ } :: rest)
  | (_, none) :: _ => .error "sql: Scan error: converting NULL to string is unsupported"

/-- The select of `generateResultsGroup`:
`FROM fs_content_fts_idx LEFT JOIN fs_contents c ... LEFT JOIN topics t ON
t.group_id = c.group_id AND t.id = c.topic_id WHERE c.group_id = ? AND
fs_content_fts_idx.text MATCH ? ORDER BY bm25(fs_content_fts_idx) LIMIT ?
OFFSET ?`, where a negative offset counts as 0 and rows of equal rank stay in
storage order. -/
def generateResultsGroup (fts : Fts) (db : DB) (groupID : Nat)
    (term highlightStart highlightEnd : String) (offset : Int) : Outcome (List Result) :=
  match fts.match_ term with
  | none => .error "fts5: syntax error"
  | some m =>
    let joined : List (Content × Option String) :=
      (db.contents.filter fun c => c.group_id = groupID ∧ m c.text = true).flatMap fun c =>
        match db.topics.filter fun t => t.GroupID = c.group_id ∧ t.ID = c.topic_id with
        | [] => [(c, none)]
        | t :: ts => (t :: ts).map fun x => (c, some x.Label)
    let page :=
      ((orderBy (fun r => fts.bm25 db.contents term r.1) (fun _ => (0 : Nat)) joined).drop
        offset.toNat).take PageSize
    scanResults fts term highlightStart highlightEnd page

/-- The select of `generateTotal`:
`select count(rowid) FROM fs_content_fts_idx WHERE text MATCH ?`. -/
def generateTotal (fts : Fts) (db : DB) (term : String) : Outcome Nat :=
  match fts.match_ term with
  | none => .error "fts5: syntax error"
  | some m => .ok (db.contents.filter fun c => m c.text = true).length

/-- The call `Search(groupID, term, highlightStart, highlightEnd)`. -/
def Search (fts : Fts) (db : DB) (groupID : Nat)
    (term highlightStart highlightEnd : String) : Outcome SearchResults :=
  (generateResultsGroup fts db groupID term highlightStart highlightEnd 0).bind fun resultList =>
  (generateTotal fts db term).bind fun total =>
  .ok
    { GroupID := groupID
      Term := term
      Offset := 0
      HighlightStart := highlightStart
      HighlightEnd := highlightEnd
      Total := total
      Count := resultList.length
      results := resultList }

/-- The call `NextPage(results)`: the record it was given with `results`,
`Count` and `Offset` overwritten. -/
def NextPage (fts : Fts) (db : DB) (results : SearchResults) : Outcome SearchResults :=
  let newOffset := results.Offset + (PageSize : Int)
  (generateResultsGroup fts db results.GroupID results.Term results.HighlightStart
    results.HighlightEnd newOffset).bind fun resultList =>
  .ok { results with results := resultList, Count := resultList.length, Offset := newOffset }

/-- Whether the characters `p` occur in `t` as a contiguous run. -/
def hasInfix (p : List Char) : List Char → Bool
  | [] => p.isEmpty
  | c :: cs => p.isPrefixOf (c :: cs) || hasInfix p cs

/-- A sample of the full-text functions: a term matches the texts that contain
it, all ranks are equal and the snippet is the text itself. -/
def plainFts : Fts where
  match_ term := if term = "" then none else some fun text => hasInfix term.data text.data
  bm25 _ _ _ := 0
  snippet _ _ _ text := text

/-! ## UpdateDispatcher -/

/-- `StateNew = iota`, the first constant of the block. -/
def StateNew : Nat := 0

/-- Second constant of the block. -/
def StateLocked : Nat := 1

/-- Third constant of the block. -/
def StateRunning : Nat := 2

/-- `UpdateAppState = iota` is the fourth constant of the same block, and
`iota` counts the constants of the block, so the tag is 3. -/
def UpdateAppState : Nat := 3

/-- Tag of a group update. -/
def UpdateGroupUpdate : Nat := 4

/-- Tag of a view update. -/
def UpdateViewUpdate : Nat := 5

/-- Tag of an entity update. -/
def UpdateEntityUpdate : Nat := 6

/-- Tag of an intro update. -/
def UpdateIntroUpdate : Nat := 7

/-- Tag of a transport state update. -/
def UpdateTransportStateUpdate : Nat := 8

/-- Tag of the messages-fetched update. -/
def UpdateMessagesFetched : Nat := 9

/-- Tag of a payload of any other type. -/
def UpdateUnknown : Nat := 10

/-- Tag of the nil item. -/
def UpdateFinished : Nat := 11

/-- What a non-nil item of the update channel points to: one of the seven
payload types that `Updates.Type` knows, or a value of some other type. -/
inductive Payload where
  | appState (State : Int)
  | groupUpdate (ID : Nat) (AckedMemberCount GroupState MemberCount ConnectedMemberCount : Int)
      (Seq PendingMessageCount : Int)
  | viewUpdate (viewName : String)
  | entityUpdate (viewName : String) (GroupID EntityID : Nat)
  | introUpdate (GroupID : Nat) (Initiator : Bool) (Stage Type_ : Int)
  | transportStateUpdate (URL State : String)
  | messagesFetched
  | other (typeName : String)
deriving Repr, DecidableEq

/-- State of a buffered Go channel of `interface{}` as its users see it: the
queued items, oldest first, `none` being the nil interface value, and whether
the channel has been closed. -/
structure Chan where
  buffer : List (Option Payload)
  closed : Bool
deriving Repr, DecidableEq

/-- Capacity of the update channel, `make(chan interface{}, 100)`. -/
def Chan.capacity : Nat := 100

/-- The send `updates <- x`, when it completes: the item joins the end of the
queue.  The result is `none` while the buffer is full, where the sender
blocks, and for a closed channel, where Go panics. -/
def Chan.send (c : Chan) (x : Option Payload) : Option Chan :=
  if c.closed = false ∧ c.buffer.length < Chan.capacity then
    some { c with buffer := c.buffer ++ [x] }
  else none

/-- The receive `<-updates`, when it completes: the oldest queued item, or the
nil value once the channel is closed and empty.  The result is `none` while the
channel is open and empty, where the receiver blocks. -/
def Chan.recv (c : Chan) : Option (Option Payload × Chan) :=
  match c.buffer with
  | x :: rest => some (x, { c with buffer := rest })
  | [] => if c.closed then some (none, c) else none

/-- The reader of the update channel (`type Updates struct`), together with
the state of the channel it reads. -/
structure Updates where
  updates : Chan
  item : Option Payload
deriving Repr, DecidableEq

/-- The call `Roost.Updates()`, which is `&Updates{r.updates, nil}`. -/
def Updates.make (updates : Chan) : Updates :=
  { updates := updates, item := none }

/-- The call `Next()`, which is `u.item = <-u.updates`; `none` while the receive
blocks. -/
def Updates.Next (u : Updates) : Option Updates :=
  match u.updates.recv with
  | some (x, c) => some { updates := c, item := x }
  | none => none

/-- The call `Type()`. -/
def Updates.Type_ (u : Updates) : Nat :=
  match u.item with
  | none => UpdateFinished
  | some (.appState _) => UpdateAppState
  | some (.groupUpdate _ _ _ _ _ _ _) => UpdateGroupUpdate
  | some (.viewUpdate _) => UpdateViewUpdate
  | some (.entityUpdate _ _ _) => UpdateEntityUpdate
  | some (.introUpdate _ _ _ _) => UpdateIntroUpdate
  | some (.transportStateUpdate _ _) => UpdateTransportStateUpdate
  | some .messagesFetched => UpdateMessagesFetched
  | some (.other _) => UpdateUnknown

/-- A send by a producer, as seen from the reader's record. -/
def Updates.push (u : Updates) (x : Option Payload) : Option Updates :=
  match u.updates.send x with
  | some c => some { u with updates := c }
  | none => none

/-- One completed operation on the channel: a send by a producer or a `Next()`
by the reader. -/
inductive ChanOp where
  | push (x : Option Payload)
  | next
deriving Repr, DecidableEq

/-- A run of completed operations in the order in which they complete: the
final state and the items that the `Next()` calls have made current, in call
order.  The result is `none` when the sequence asks for an operation that
cannot complete in the state it meets. -/
def Updates.run : Updates → List ChanOp → Option (Updates × List (Option Payload))
  | u, [] => some (u, [])
  | u, .push x :: ops =>
    match u.push x with
    | some u1 => Updates.run u1 ops
    | none => none
  | u, .next :: ops =>
    match u.Next with
    | some u1 =>
      match Updates.run u1 ops with
      | some (u2, got) => some (u2, u1.item :: got)
      | none => none
    | none => none

/-- The items that a sequence of operations sends, in order. -/
def ChanOp.pushed : List ChanOp → List (Option Payload)
  | [] => []
  | .push x :: ops => x :: ChanOp.pushed ops
  | .next :: ops => ChanOp.pushed ops

/-! ## TodoUpdater -/

/-- The batch of pending marks of a group (`type TodoUpdater struct`).  The two
Go maps are kept as the lists of their entries, with pairwise distinct keys, in
the order in which `range` yields them. -/
structure TodoUpdater where
  rg : RoostGroup
  completed : List (Nat × Bool)
  read : List (Nat × Bool)
deriving Repr, DecidableEq

/-- The map assignment `m[k] = v`. -/
def mapAssign (m : List (Nat × Bool)) (k : Nat) (v : Bool) : List (Nat × Bool) :=
  if m.any fun e => decide (e.1 = k) then m.map fun e => if e.1 = k then (k, v) else e
  else m ++ [(k, v)]

/-- The call `rg.TodoUpdater()`: an updater with two empty maps. -/
def RoostGroup.TodoUpdater (rg : RoostGroup) : Roost.TodoUpdater :=
  { rg := rg, completed := [], read := [] }

/-- The call `MarkComplete(id, complete)`. -/
def TodoUpdater.MarkComplete (tu : Roost.TodoUpdater) (id : Nat) (complete : Bool) :
    Roost.TodoUpdater :=
  { tu with completed := mapAssign tu.completed id complete }

/-- The call `MarkRead(id, read)`. -/
def TodoUpdater.MarkRead (tu : Roost.TodoUpdater) (id : Nat) (read : Bool) :
    Roost.TodoUpdater :=
  { tu with read := mapAssign tu.read id read }

/-- The writer batch that `Commit` has built when it reaches `writer.Execute()`,
with `nowTs := now()`: for each entry of `completed` an update of
`completed_at` and `completed_position`, to `nowTs` and `-nowTs` for a todo
marked complete and to 0 and 0 otherwise, then for each entry of `read` an
update of `read`. -/
def TodoUpdater.Commit.writer (tu : Roost.TodoUpdater) (nowTs : ℚ) : List Update :=
  (tu.completed.map fun e =>
    if e.2 then
      Update.mk "todos" e.1 [("completed_at", .real nowTs), ("completed_position", .real (-nowTs))]
    else
      Update.mk "todos" e.1 [("completed_at", .real 0), ("completed_position", .real 0)]) ++
  tu.read.map fun e => Update.mk "todos" e.1 [("read", .bool e.2)]

/-- The call `Commit()` at the time `nowTs`: the updater with its maps emptied
and the storage after the batch has been executed. -/
def TodoUpdater.Commit (tu : Roost.TodoUpdater) (db : DB) (nowTs : ℚ) :
    Outcome (Roost.TodoUpdater × DB) :=
  .ok ({ tu with completed := [], read := [] },
    Execute tu.rg.GroupID (TodoUpdater.Commit.writer tu nowTs) db)

/-! ## Accessors -/

/-- The method `Complete()` of a todo, which is `return t.CompletedAt == 0`. -/
def Todo.Complete (t : Todo) : Bool :=
  decide (t.CompletedAt = 0)

/-- The accessor `Topics.Topic(i)`:
`if i < len(t.pinnedTopics) { return t.pinnedTopics[i] }` and
`return t.unpinnedTopics[i+len(t.pinnedTopics)]`. -/
def Topics.Topic (t : Topics) (i : Int) : Outcome Roost.Topic :=
  if i < (t.pinnedTopics.length : Int) then index t.pinnedTopics i
  else index t.unpinnedTopics (i + (t.pinnedTopics.length : Int))

/-! ## Transport states -/

/-- The states of the transports by URL (`type TransportStates struct`). -/
structure TransportStates where
  urls : List String
  states : List String
deriving Repr, DecidableEq

/-- The call `sort.Strings(keys)`: the strings in increasing order, which for
Go strings is the lexicographic order of their bytes and so, for UTF-8 text, of
their characters. -/
def sortStrings (keys : List String) : List String :=
  keys.insertionSort fun a b => a.data ≤ b.data

/-- The map index expression `m[k]` on a `map[string]string`, kept as the list of
its entries: the value stored under `k`, or the empty string. -/
def mapIndex (m : List (String × String)) (k : String) : String :=
  (m.lookup k).getD ""

/-- The function `makeTransportStates(m)`: `keys := maps.Keys(m)`, in whatever
order the map yields them (here the order of the entries), sorted, and
`values[i] = m[k]` for the key `k` at index `i`. -/
def makeTransportStates (m : List (String × String)) : TransportStates :=
  let keys := sortStrings (m.map Prod.fst)
  let values := keys.map fun k => mapIndex m k
  { urls := keys, states := values }

/-- The method `Len()`. -/
def TransportStates.Len (t : TransportStates) : Int :=
  (t.urls.length : Int)

/-- The method `URL(i)`. -/
def TransportStates.URL (t : TransportStates) (i : Int) : Outcome String :=
  index t.urls i

/-- The method `State(i)`. -/
def TransportStates.State (t : TransportStates) (i : Int) : Outcome String :=
  index t.states i

/-! ## Specification-side definitions -/

/-- The list `l` with the row at index `i` taken out and the row `a` put in
at index `j` of what is left. -/
def relocated {α : Type} (l : List α) (i j : Nat) (a : α) : List α :=
  (l.eraseIdx i).take j ++ a :: (l.eraseIdx i).drop j

/-- Step 2 of the reorder algorithm as the specification words it, on the list
`p` of the positions in list order: allocate in `(p[0] - 2, p[0])` if
`to == 0`, in `(p[n-1], p[n-1] + 2)` if `to == n-1`, in `(p[to], p[to+1])` if
`to > from`, and in `(p[to-1], p[to])` otherwise. -/
def targetPosition (u : ℚ) (p : List ℚ) (i j : Nat) : ℚ :=
  if j = 0 then randomPosition u (p.getD 0 0 - 2) (p.getD 0 0)
  else if j = p.length - 1 then
    randomPosition u (p.getD (p.length - 1) 0) (p.getD (p.length - 1) 0 + 2)
  else if j > i then randomPosition u (p.getD j 0) (p.getD (j + 1) 0)
  else randomPosition u (p.getD (j - 1) 0) (p.getD j 0)

/-- The `WHERE` clause of the select behind `targetTodos`. -/
def RoostGroup.MoveTodo.sel (rg : RoostGroup) (complete : Bool) (topicID : Nat)
    (t : Roost.Todo) :
    Bool :=
  if complete then
    decide (t.GroupID = rg.GroupID ∧ t.TopicID = topicID ∧ t.Deleted = false ∧ t.CompletedAt ≠ 0)
  else
    decide (t.GroupID = rg.GroupID ∧ t.TopicID = topicID ∧ t.Deleted = false ∧ t.CompletedAt = 0)

/-- The `WHERE` clause of the select behind `targetTopics`. -/
def RoostGroup.MoveTopic.sel (rg : RoostGroup) (pinned : Bool) (t : Roost.Topic) : Bool :=
  if pinned then decide (t.GroupID = rg.GroupID ∧ t.Pinned = true)
  else decide (t.GroupID = rg.GroupID ∧ t.Pinned = false)

/-- Successive calls `MoveTodo(complete, topicID, from, 0)`, one for each pair
of an index `from` and a draw of `rand.Float64()`, each on the storage that the
call before it left. -/
def RoostGroup.moveTodosToTop (rg : RoostGroup) (complete : Bool) (topicID : Nat) :
    List (Nat × ℚ) → DB → Outcome DB
  | [], db => .ok db
  | m :: ms, db =>
    (rg.MoveTodo db m.2 complete topicID (m.1 : Int) 0).bind
      (RoostGroup.moveTodosToTop rg complete topicID ms)

/-- Successive calls `MoveTopic(pinned, from, 0)`, one for each pair of an
index `from` and a draw of `rand.Float64()`. -/
def RoostGroup.moveTopicsToTop (rg : RoostGroup) (pinned : Bool) :
    List (Nat × ℚ) → DB → Outcome DB
  | [], db => .ok db
  | m :: ms, db =>
    (rg.MoveTopic db m.2 pinned (m.1 : Int) 0).bind (RoostGroup.moveTopicsToTop rg pinned ms)

/-! ## Sample data -/

/-- Five todos "1" to "5" of topic 9 in group 7, in list order. -/
def fiveTodos : DB :=
  { todos :=
      [ { ID := 1, GroupID := 7, CtimeSec := 10, TopicID := 9, Body := "1", CompletedAt := 0,
          CompletedPosition := 0, Deleted := false, Read := true, Position := 0 },
        { ID := 2, GroupID := 7, CtimeSec := 11, TopicID := 9, Body := "2", CompletedAt := 0,
          CompletedPosition := 0, Deleted := false, Read := true, Position := 1 },
        { ID := 3, GroupID := 7, CtimeSec := 12, TopicID := 9, Body := "3", CompletedAt := 0,
          CompletedPosition := 0, Deleted := false, Read := true, Position := 2 },
        { ID := 4, GroupID := 7, CtimeSec := 13, TopicID := 9, Body := "4", CompletedAt := 0,
          CompletedPosition := 0, Deleted := false, Read := true, Position := 3 },
        { ID := 5, GroupID := 7, CtimeSec := 14, TopicID := 9, Body := "5", CompletedAt := 0,
          CompletedPosition := 0, Deleted := false, Read := true, Position := 4 } ]
    topics := []
    messages := [] }

/-- Three todos of topic 9 that one `TodoUpdater.Commit` at time 100 has marked
complete: all three carry the completed position `-100`. -/
def committedTogether : DB :=
  { todos :=
      [ { ID := 1, GroupID := 7, CtimeSec := 10, TopicID := 9, Body := "a", CompletedAt := 100,
          CompletedPosition := -100, Deleted := false, Read := true, Position := 0 },
        { ID := 2, GroupID := 7, CtimeSec := 11, TopicID := 9, Body := "b", CompletedAt := 100,
          CompletedPosition := -100, Deleted := false, Read := true, Position := 1 },
        { ID := 3, GroupID := 7, CtimeSec := 12, TopicID := 9, Body := "c", CompletedAt := 100,
          CompletedPosition := -100, Deleted := false, Read := true, Position := 2 } ]
    topics := []
    messages := [] }

/-- Three todos of topic 9 that `UpdateTodo` has marked complete, which sets
`completed_at` and leaves `completed_position` at its default 0. -/
def completedByUpdate : DB :=
  { todos :=
      [ { ID := 1, GroupID := 7, CtimeSec := 10, TopicID := 9, Body := "a", CompletedAt := 100,
          CompletedPosition := 0, Deleted := false, Read := true, Position := 0 },
        { ID := 2, GroupID := 7, CtimeSec := 11, TopicID := 9, Body := "b", CompletedAt := 101,
          CompletedPosition := 0, Deleted := false, Read := true, Position := 1 },
        { ID := 3, GroupID := 7, CtimeSec := 12, TopicID := 9, Body := "c", CompletedAt := 102,
          CompletedPosition := 0, Deleted := false, Read := true, Position := 2 } ]
    topics := []
    messages := [] }

/-- The topics of `TestRoostMoveTopicInListFromZeroList`: the unpinned topics
home, four, five, six, seven and the pinned topics one, two, three, every
position 0. -/
def zeroTopics : DB :=
  { todos := []
    topics :=
      [ { ID := 1, GroupID := 7, CtimeSec := 1, Label := "home", MessageLastRead := 0,
          ShowCompleted := false, Pinned := false, Position := 0, PinPosition := 0 },
        { ID := 2, GroupID := 7, CtimeSec := 2, Label := "one", MessageLastRead := 0,
          ShowCompleted := false, Pinned := true, Position := 0, PinPosition := 0 },
        { ID := 3, GroupID := 7, CtimeSec := 3, Label := "two", MessageLastRead := 0,
          ShowCompleted := false, Pinned := true, Position := 0, PinPosition := 0 },
        { ID := 4, GroupID := 7, CtimeSec := 4, Label := "three", MessageLastRead := 0,
          ShowCompleted := false, Pinned := true, Position := 0, PinPosition := 0 },
        { ID := 5, GroupID := 7, CtimeSec := 5, Label := "four", MessageLastRead := 0,
          ShowCompleted := false, Pinned := false, Position := 0, PinPosition := 0 },
        { ID := 6, GroupID := 7, CtimeSec := 6, Label := "five", MessageLastRead := 0,
          ShowCompleted := false, Pinned := false, Position := 0, PinPosition := 0 },
        { ID := 7, GroupID := 7, CtimeSec := 7, Label := "six", MessageLastRead := 0,
          ShowCompleted := false, Pinned := false, Position := 0, PinPosition := 0 },
        { ID := 8, GroupID := 7, CtimeSec := 8, Label := "seven", MessageLastRead := 0,
          ShowCompleted := false, Pinned := false, Position := 0, PinPosition := 0 } ]
    messages := [] }

/-- The topics of `TestRoostMoveTopicInList` with positions in creation
order: the unpinned topics home, four, five, six, seven and the pinned topics
one, two, three. -/
def listedTopics : DB :=
  { todos := []
    topics :=
      [ { ID := 1, GroupID := 7, CtimeSec := 1, Label := "home", MessageLastRead := 0,
          ShowCompleted := false, Pinned := false, Position := 0, PinPosition := 0 },
        { ID := 2, GroupID := 7, CtimeSec := 2, Label := "one", MessageLastRead := 0,
          ShowCompleted := false, Pinned := true, Position := 0, PinPosition := 0 },
        { ID := 3, GroupID := 7, CtimeSec := 3, Label := "two", MessageLastRead := 0,
          ShowCompleted := false, Pinned := true, Position := 0, PinPosition := 1 },
        { ID := 4, GroupID := 7, CtimeSec := 4, Label := "three", MessageLastRead := 0,
          ShowCompleted := false, Pinned := true, Position := 0, PinPosition := 2 },
        { ID := 5, GroupID := 7, CtimeSec := 5, Label := "four", MessageLastRead := 0,
          ShowCompleted := false, Pinned := false, Position := 1, PinPosition := 0 },
        { ID := 6, GroupID := 7, CtimeSec := 6, Label := "five", MessageLastRead := 0,
          ShowCompleted := false, Pinned := false, Position := 2, PinPosition := 0 },
        { ID := 7, GroupID := 7, CtimeSec := 7, Label := "six", MessageLastRead := 0,
          ShowCompleted := false, Pinned := false, Position := 3, PinPosition := 0 },
        { ID := 8, GroupID := 7, CtimeSec := 8, Label := "seven", MessageLastRead := 0,
          ShowCompleted := false, Pinned := false, Position := 4, PinPosition := 0 } ]
    messages := [] }

/-- Three messages of topic 9 in group 7, created at seconds 1, 2 and 3. -/
def threeMessages : DB :=
  { todos := []
    topics := []
    messages :=
      [ { ID := 1, GroupID := 7, CtimeSec := 1, TopicID := 9, Body := "hello 0" },
        { ID := 2, GroupID := 7, CtimeSec := 2, TopicID := 9, Body := "hello 1" },
        { ID := 3, GroupID := 7, CtimeSec := 3, TopicID := 9, Body := "hello 2" } ] }

/-- Three messages of topic 9 in group 7 with fractions of a second in their
creation times: 1700000000.123456, 1700000001.5 and 1700000002.25, each given
as a fraction of whole numbers. -/
def fractionMessages : DB :=
  { todos := []
    topics := []
    messages :=
      [ { ID := 1, GroupID := 7, CtimeSec := mkRat 1700000000123456 1000000, TopicID := 9,
          Body := "hello 0" },
        { ID := 2, GroupID := 7, CtimeSec := mkRat 17000000015 10, TopicID := 9,
          Body := "hello 1" },
        { ID := 3, GroupID := 7, CtimeSec := mkRat 170000000225 100, TopicID := 9,
          Body := "hello 2" } ] }

/-- As many messages of topic 9 in group 7 as asked for, created one per
second from second 0 on. -/
def helloMessages (n : Nat) : DB :=
  { todos := []
    topics := []
    messages := (List.range n).map fun i =>
      { ID := i + 1, GroupID := 7, CtimeSec := (i : ℚ), TopicID := 9, Body := "hello" } }

/-- Twenty-one messages of topic 9 in group 7 that all carry the creation
time 5. -/
def sameSecond : DB :=
  { todos := []
    topics := []
    messages := (List.range 21).map fun i =>
      { ID := i + 1, GroupID := 7, CtimeSec := 5, TopicID := 9, Body := "hello" } }


/-- The position that `CreateTodo` assigns. -/
def RoostGroup.CreateTodo.position (rg : RoostGroup) (db : DB) (u : ℚ) (topicID : Nat) : ℚ :=
  match sqlMax ((db.todos.filter fun t =>
      t.GroupID = rg.GroupID ∧ t.TopicID = topicID ∧ t.Deleted = false ∧
        t.CompletedAt = 0).map Todo.Position) with
  | some m => randomPosition u m (m + 2)
  | none => 0

/-- The row that `CreateTodo` inserts. -/
def RoostGroup.CreateTodo.row (rg : RoostGroup) (db : DB) (u : ℚ) (newID : Nat) (nowTs : ℚ)
    (topicID : Nat) (label : String) : Roost.Todo :=
  { ID := newID, GroupID := rg.GroupID, CtimeSec := nowTs, TopicID := topicID, Body := label,
    CompletedAt := 0, CompletedPosition := 0, Deleted := false, Read := true,
    Position := RoostGroup.CreateTodo.position rg db u topicID }

/-- The position that `CreateTopicPinned` assigns. -/
def RoostGroup.CreateTopicPinned.position (rg : RoostGroup) (db : DB) (u : ℚ)
    (pinned : Bool) : ℚ :=
  match
    (if pinned then
      sqlMax ((db.topics.filter fun t =>
        t.GroupID = rg.GroupID ∧ t.Pinned = true).map Topic.PinPosition)
    else
      sqlMax ((db.topics.filter fun t =>
        t.GroupID = rg.GroupID ∧ t.Pinned = false).map Topic.Position)) with
  | some m => randomPosition u m (m + 2)
  | none => 0

/-- The row that `CreateTopicPinned` inserts. -/
def RoostGroup.CreateTopicPinned.row (rg : RoostGroup) (db : DB) (u : ℚ) (newID : Nat)
    (nowTs : ℚ) (label : String) (pinned : Bool) : Roost.Topic :=
  { ID := newID, GroupID := rg.GroupID, CtimeSec := nowTs, Label := label,
    MessageLastRead := 0, ShowCompleted := false, Pinned := pinned,
    Position := if pinned then 0 else RoostGroup.CreateTopicPinned.position rg db u pinned,
    PinPosition := if pinned then RoostGroup.CreateTopicPinned.position rg db u pinned else 0 }

/-- The list that a new topic joins. -/
def RoostGroup.CreateTopicPinned.targetTopics (pinned : Bool) (topics : Roost.Topics) :
    List Roost.Topic :=
  if pinned then topics.pinnedTopics else topics.unpinnedTopics

/-- The position by which that list is ordered. -/
def RoostGroup.CreateTopicPinned.pos (pinned : Bool) (t : Roost.Topic) : ℚ :=
  if pinned then t.PinPosition else t.Position

/-- A storage with one reaction: the marker "a" of identity 1 on entity 3 in
group 7. -/
def oneReaction : DB :=
  { todos := []
    topics := []
    messages := []
    reactions :=
      [ { ID := 11, GroupID := 7, IdentityID := 1, Rune := "a", Active := true,
          EntityID := 3 } ] }

/-- A storage with one reaction whose marker has two letters: the marker "ab"
of identity 1 on entity 3 in group 7, active. -/
def twoLetterReaction : DB :=
  { todos := []
    topics := []
    messages := []
    reactions :=
      [ { ID := 11, GroupID := 7, IdentityID := 1, Rune := "ab", Active := true,
          EntityID := 3 } ] }

/-- Indexed contents of two groups: "buy milk" and "walk dog" in topic 1 of
group 7, "milk run" in topic 2 of group 8. -/
def twoGroups : DB :=
  { todos := []
    topics :=
      [ { ID := 1, GroupID := 7, CtimeSec := 1, Label := "home", MessageLastRead := 0,
          ShowCompleted := false, Pinned := false, Position := 0, PinPosition := 0 },
        { ID := 2, GroupID := 8, CtimeSec := 2, Label := "away", MessageLastRead := 0,
          ShowCompleted := false, Pinned := false, Position := 0, PinPosition := 0 } ]
    messages := []
    contents :=
      [ { id := 1, group_id := 7, topic_id := 1, entity_id := 101, type_ := "todo",
          text := "buy milk" },
        { id := 2, group_id := 8, topic_id := 2, entity_id := 102, type_ := "message",
          text := "milk run" },
        { id := 3, group_id := 7, topic_id := 1, entity_id := 103, type_ := "todo",
          text := "walk dog" } ] }

/-- The same storage after "more milk" and "milk tea" have been added to
topic 1 of group 7. -/
def twoGroupsLater : DB :=
  { twoGroups with
    contents := twoGroups.contents ++
      [ { id := 4, group_id := 7, topic_id := 1, entity_id := 104, type_ := "message",
          text := "more milk" },
        { id := 5, group_id := 7, topic_id := 1, entity_id := 105, type_ := "todo",
          text := "milk tea" } ] }

/-- The record that `Search` returns for "milk" in group 7 of `twoGroups`. -/
def milkSearch : SearchResults :=
  { GroupID := 7, Term := "milk", HighlightStart := "<b>", HighlightEnd := "</b>", Offset := 0,
    Total := 2, Count := 1,
    results :=
      [ { RowID := 1, Text := "buy milk", EntityID := 101, GroupID := 7, TopicID := 1,
          TopicName := "home", Type_ := "todo" } ] }

/-- Successive `NextPage` calls, each on the record that the call before it
returned, the storage being `dbs[i]` at the time of call `i`. -/
def nextPages (fts : Fts) : List DB → SearchResults → Outcome SearchResults
  | [], results => .ok results
  | db :: dbs, results => (NextPage fts db results).bind (nextPages fts dbs)

/-- The `n`-th `Next()` in a row, counted from the state `u`. -/
def Updates.nextN : Nat → Updates → Option Updates
  | 0, u => some u
  | n + 1, u =>
    match u.Next with
    | some v => Updates.nextN n v
    | none => none

/-- The schedule in which each item is received right after it is sent. -/
def ChanOp.alternate (xs : List (Option Payload)) : List ChanOp :=
  xs.flatMap fun x => [.push x, .next]

/-- The schedule in which all items are sent before the first is received. -/
def ChanOp.batch (xs : List (Option Payload)) : List ChanOp :=
  xs.map .push ++ List.replicate xs.length .next

/-- One pinned topic "one" and the unpinned topics "home", "four", "five" of
group 7. -/
def onePinned : DB :=
  { todos := []
    topics :=
      [ { ID := 1, GroupID := 7, CtimeSec := 1, Label := "home", MessageLastRead := 0,
          ShowCompleted := false, Pinned := false, Position := 0, PinPosition := 0 },
        { ID := 2, GroupID := 7, CtimeSec := 2, Label := "one", MessageLastRead := 0,
          ShowCompleted := false, Pinned := true, Position := 0, PinPosition := 0 },
        { ID := 5, GroupID := 7, CtimeSec := 5, Label := "four", MessageLastRead := 0,
          ShowCompleted := false, Pinned := false, Position := 1, PinPosition := 0 },
        { ID := 6, GroupID := 7, CtimeSec := 6, Label := "five", MessageLastRead := 0,
          ShowCompleted := false, Pinned := false, Position := 2, PinPosition := 0 } ]
    messages := [] }

/-- The bounds of the interval of step 2 of the reorder algorithm as the
specification words it, on the list `p` of the positions in list order:
`(p[0] - 2, p[0])` if `to == 0`, otherwise `(p[n-1], p[n-1] + 2)` if
`to == n-1`, otherwise `(p[to], p[to+1])` if `to > from`, and
`(p[to-1], p[to])` otherwise. -/
def targetInterval (p : List ℚ) (i j : Nat) : ℚ × ℚ :=
  if j = 0 then (p.getD 0 0 - 2, p.getD 0 0)
  else if j = p.length - 1 then (p.getD (p.length - 1) 0, p.getD (p.length - 1) 0 + 2)
  else if j > i then (p.getD j 0, p.getD (j + 1) 0)
  else (p.getD (j - 1) 0, p.getD j 0)

/-- Five todos and eight topics of group 7: the todos of `fiveTodos` with the
topics of `listedTopics`. -/
def todosAndTopics : DB :=
  { todos := fiveTodos.todos, topics := listedTopics.topics, messages := [] }

/-- The todos of `fiveTodos` with the topics of `zeroTopics`, whose positions
are all 0. -/
def todosAndZeroTopics : DB :=
  { todos := fiveTodos.todos, topics := zeroTopics.topics, messages := [] }

/-- The five todos of `fiveTodos` after a `Commit` at time 100 has marked todo 1
complete. -/
def oneCommitted : DB :=
  { todos :=
      [ { ID := 1, GroupID := 7, CtimeSec := 10, TopicID := 9, Body := "1", CompletedAt := 100,
          CompletedPosition := -100, Deleted := false, Read := true, Position := 0 },
        { ID := 2, GroupID := 7, CtimeSec := 11, TopicID := 9, Body := "2", CompletedAt := 0,
          CompletedPosition := 0, Deleted := false, Read := true, Position := 1 },
        { ID := 3, GroupID := 7, CtimeSec := 12, TopicID := 9, Body := "3", CompletedAt := 0,
          CompletedPosition := 0, Deleted := false, Read := true, Position := 2 },
        { ID := 4, GroupID := 7, CtimeSec := 13, TopicID := 9, Body := "4", CompletedAt := 0,
          CompletedPosition := 0, Deleted := false, Read := true, Position := 3 },
        { ID := 5, GroupID := 7, CtimeSec := 14, TopicID := 9, Body := "5", CompletedAt := 0,
          CompletedPosition := 0, Deleted := false, Read := true, Position := 4 } ]
    topics := []
    messages := [] }

/-- What the batch of `Commit` does to one row of the group. -/
def TodoUpdater.Commit.row (tu : Roost.TodoUpdater) (nowTs : ℚ) (t : Todo) : Todo :=
  (TodoUpdater.Commit.writer tu nowTs).foldl (fun r w => Todo.applyUpdate tu.rg.GroupID w r) t

/-! # Properties -/





/-! ## PositionAllocator: bounds -/

theorem randomPosition_eq (u low high : ℚ) :
    randomPosition u low high = low + (u * (8 / 10) + 1 / 10) * (high - low) := by
  unfold randomPosition
  ring

theorem randomPosition_gt (u low high : ℚ) (h : low < high) (hu : 0 ≤ u) :
    low < randomPosition u low high := by
  rw [randomPosition_eq]
  have h1 : 0 < high - low := sub_pos.mpr h
  have h2 : 0 < u * (8 / 10) + 1 / 10 := by linarith
  have := mul_pos h2 h1
  linarith

theorem randomPosition_lt (u low high : ℚ) (h : low < high) (hu : u ≤ 1) :
    randomPosition u low high < high := by
  rw [randomPosition_eq]
  have h1 : 0 < high - low := sub_pos.mpr h
  have h2 : 0 < 1 - (u * (8 / 10) + 1 / 10) := by linarith
  have := mul_pos h2 h1
  nlinarith

/-! ## Sorting -/

section Sorting

variable {α κ : Type} [LinearOrder κ] (k1 : α → ℚ) (k2 : α → κ)

theorem sqlLE_total (a b : α) : sqlLE k1 k2 a b ∨ sqlLE k1 k2 b a := by
    unfold sqlLE
    rcases lt_trichotomy (k1 a) (k1 b) with h | h | h
    · exact Or.inl (Or.inl h)
    · rcases le_total (k2 a) (k2 b) with h2 | h2
      · exact Or.inl (Or.inr ⟨h, h2⟩)
      · exact Or.inr (Or.inr ⟨h.symm, h2⟩)
    · exact Or.inr (Or.inl h)

theorem sqlLE_trans (a b c : α) : sqlLE k1 k2 a b → sqlLE k1 k2 b c → sqlLE k1 k2 a c := by
    unfold sqlLE
    rintro (h1 | ⟨h1, h1'⟩) (h2 | ⟨h2, h2'⟩)
    · exact Or.inl (lt_trans h1 h2)
    · exact Or.inl (h2 ▸ h1)
    · exact Or.inl (h1 ▸ h2)
    · exact Or.inr ⟨h1.trans h2, le_trans h1' h2'⟩

theorem orderBy_perm (rows : List α) : (orderBy k1 k2 rows).Perm rows :=
  List.perm_insertionSort _ rows

theorem orderBy_sorted (rows : List α) : (orderBy k1 k2 rows).Sorted (sqlLE k1 k2) := by
  haveI : IsTotal α (sqlLE k1 k2) := ⟨sqlLE_total k1 k2⟩
  haveI : IsTrans α (sqlLE k1 k2) := ⟨sqlLE_trans k1 k2⟩
  exact List.sorted_insertionSort _ rows

theorem orderBy_length (rows : List α) : (orderBy k1 k2 rows).length = rows.length :=
  (orderBy_perm k1 k2 rows).length_eq

/-- Two arrangements of the same rows that both ascend strictly in the first
sort key are the same list. -/
theorem eq_of_perm_of_strict {l e : List α} (hp : l.Perm e)
    (hl : l.Pairwise fun a b => k1 a < k1 b) (he : e.Pairwise fun a b => k1 a < k1 b) :
    l = e := by
  haveI : IsAntisymm α (fun a b => k1 a < k1 b) :=
    ⟨fun a b h1 h2 => absurd (lt_trans h1 h2) (lt_irrefl _)⟩
  exact List.eq_of_perm_of_sorted hp hl he

/-- A list sorted by `ORDER BY k1, k2` whose first keys are pairwise distinct
ascends strictly in the first key. -/
theorem strict_of_sorted_of_distinct {l : List α} (hs : l.Sorted (sqlLE k1 k2))
    (hd : l.Pairwise fun a b => k1 a ≠ k1 b) : l.Pairwise fun a b => k1 a < k1 b := by
  have := List.Pairwise.and hs hd
  refine this.imp ?_
  rintro a b ⟨h | ⟨h, _⟩, hne⟩
  · exact h
  · exact absurd h hne

/-- The rows, once sorted, are the one strictly ascending arrangement of
them. -/
theorem orderBy_eq_of_perm_of_strict {rows e : List α} (hp : rows.Perm e)
    (he : e.Pairwise fun a b => k1 a < k1 b) : orderBy k1 k2 rows = e := by
  have hp2 : (orderBy k1 k2 rows).Perm e := (orderBy_perm k1 k2 rows).trans hp
  have hd : e.Pairwise fun a b => k1 a ≠ k1 b := he.imp fun h => ne_of_lt h
  have hd2 : (orderBy k1 k2 rows).Pairwise fun a b => k1 a ≠ k1 b :=
    (List.Perm.pairwise_iff (fun h => Ne.symm h) hp2).mpr hd
  exact eq_of_perm_of_strict k1 hp2
    (strict_of_sorted_of_distinct k1 k2 (orderBy_sorted k1 k2 rows) hd2) he

end Sorting
section Relocate
variable {α : Type}

theorem relocated_get (l : List α) (i j : Nat) (a : α)
    (hj : j ≤ (l.eraseIdx i).length) : (relocated l i j a)[j]? = some a := by
  unfold relocated
  have hlen : ((l.eraseIdx i).take j).length = j := by
    rw [List.length_take]; exact min_eq_left hj
  rw [List.getElem?_append_right (by omega)]
  simp [hlen]

theorem relocated_eraseIdx (l : List α) (i j : Nat) (a : α)
    (hj : j ≤ (l.eraseIdx i).length) : (relocated l i j a).eraseIdx j = l.eraseIdx i := by
  unfold relocated
  have hlen : ((l.eraseIdx i).take j).length = j := by
    rw [List.length_take]; exact min_eq_left hj
  rw [List.eraseIdx_append_of_length_le (by omega)]
  simp [hlen]

theorem set_perm_cons_eraseIdx (l : List α) (i : Nat) (a : α) (hi : i < l.length) :
    (l.set i a).Perm (a :: l.eraseIdx i) := by
  induction l generalizing i with
  | nil => simp at hi
  | cons x xs ih =>
    cases i with
    | zero => simp
    | succ n =>
      simp only [List.set_cons_succ, List.eraseIdx_cons_succ]
      have := ih n (by simpa using hi)
      exact (List.Perm.cons x this).trans (List.Perm.swap a x _)

theorem set_perm_relocated (l : List α) (i j : Nat) (a : α) (hi : i < l.length) :
    (l.set i a).Perm (relocated l i j a) := by
  unfold relocated
  refine (set_perm_cons_eraseIdx l i a hi).trans ?_
  have h : (a :: l.eraseIdx i).Perm (a :: ((l.eraseIdx i).take j ++ (l.eraseIdx i).drop j)) := by
    rw [List.take_append_drop]
  exact h.trans List.perm_middle.symm

/-- The relocated list ascends strictly in `f` when the list did, the rows that
end up before the moved one lie below it and the rows that end up after it lie
above it. -/
theorem relocated_strict (f : α → ℚ) (l : List α) (i j : Nat) (a : α)
    (hl : l.Pairwise fun x y => f x < f y)
    (hA : ∀ (k : Nat) (hk : k < l.length), k ≠ i → (k < j ∨ (k = j ∧ i < j)) → f l[k] < f a)
    (hB : ∀ (k : Nat) (hk : k < l.length), k ≠ i → (j < k ∨ (k = j ∧ j < i)) → f a < f l[k]) :
    (relocated l i j a).Pairwise fun x y => f x < f y := by
  unfold relocated
  have hsub : (l.eraseIdx i).Pairwise fun x y => f x < f y :=
    hl.sublist (List.eraseIdx_sublist l i)
  have hbefore : ∀ x ∈ (l.eraseIdx i).take j, f x < f a := by
    intro x hx
    obtain ⟨m, hm, rfl⟩ := List.mem_take_iff_getElem.mp hx
    have hm1 : m < j := lt_of_lt_of_le hm (min_le_left _ _)
    have hm2 : m < (l.eraseIdx i).length := lt_of_lt_of_le hm (min_le_right _ _)
    have hlen := List.length_eraseIdx_le l i
    rw [List.getElem_eraseIdx]
    split
    · rename_i h
      exact hA m (by omega) (by omega) (Or.inl hm1)
    · rename_i h
      have hlt : m + 1 < l.length := by
        by_cases hil : i < l.length
        · rw [List.length_eraseIdx, if_pos hil] at hm2; omega
        · omega
      refine hA (m + 1) hlt (by omega) ?_
      by_cases h2 : m + 1 < j
      · exact Or.inl h2
      · exact Or.inr ⟨by omega, by omega⟩
  have hafter : ∀ y ∈ (l.eraseIdx i).drop j, f a < f y := by
    intro y hy
    obtain ⟨m, hm, rfl⟩ := List.mem_drop_iff_getElem.mp hy
    rw [List.getElem_eraseIdx]
    split
    · rename_i h
      have hlen := List.length_eraseIdx_le l i
      refine hB (j + m) (by omega) (by omega) ?_
      by_cases h2 : j < j + m
      · exact Or.inl h2
      · exact Or.inr ⟨by omega, by omega⟩
    · rename_i h
      have hlen := List.length_eraseIdx_le l i
      have hlt : j + m + 1 < l.length := by
        by_cases hil : i < l.length
        · rw [List.length_eraseIdx, if_pos hil] at hm; omega
        · omega
      exact hB (j + m + 1) hlt (by omega) (Or.inl (by omega))
  rw [List.pairwise_append]
  refine ⟨hsub.sublist (List.take_sublist _ _), ?_, ?_⟩
  · rw [List.pairwise_cons]
    exact ⟨hafter, hsub.sublist (List.drop_sublist _ _)⟩
  · intro x hx y hy
    rcases List.mem_cons.mp hy with rfl | hy
    · exact hbefore x hx
    · exact lt_trans (hbefore x hx) (hafter y hy)

end Relocate






theorem strict_getElem_le {p : List ℚ} (hp : p.Pairwise (· < ·)) (a b : Nat) (ha : a < p.length)
    (hb : b < p.length) (hab : a ≤ b) : p[a] ≤ p[b] := by
  rcases Nat.eq_or_lt_of_le hab with h | h
  · subst h; exact le_refl _
  · exact le_of_lt (List.pairwise_iff_getElem.mp hp a b _ hb h)

theorem targetPosition_above (u : ℚ) (p : List ℚ) (i j : Nat) (hp : p.Pairwise (· < ·))
    (hj : j < p.length) (hu0 : 0 ≤ u)
    (k : Nat) (hk : k < p.length) (hc : k < j ∨ (k = j ∧ i < j)) :
    p[k] < targetPosition u p i j := by
  unfold targetPosition
  have hmono := List.pairwise_iff_getElem.mp hp
  split_ifs with h0 h1 h2
  · omega
  · rw [List.getD_eq_getElem _ _ (by omega)]
    refine lt_of_le_of_lt (strict_getElem_le hp k (p.length - 1) hk (by omega) (by omega)) ?_
    exact randomPosition_gt u _ _ (by linarith) hu0
  · rw [List.getD_eq_getElem _ _ hj, List.getD_eq_getElem _ _ (by omega : j + 1 < p.length)]
    refine lt_of_le_of_lt (strict_getElem_le hp k j hk hj (by omega)) ?_
    exact randomPosition_gt u _ _ (hmono j (j + 1) hj (by omega) (by omega)) hu0
  · rw [List.getD_eq_getElem _ _ hj, List.getD_eq_getElem _ _ (by omega : j - 1 < p.length)]
    refine lt_of_le_of_lt (strict_getElem_le hp k (j - 1) hk (by omega) (by omega)) ?_
    exact randomPosition_gt u _ _ (hmono (j - 1) j (by omega) hj (by omega)) hu0

theorem targetPosition_below (u : ℚ) (p : List ℚ) (i j : Nat) (hp : p.Pairwise (· < ·))
    (hi : i < p.length) (hj : j < p.length) (hu1 : u ≤ 1)
    (k : Nat) (hk : k < p.length) (hc : j < k ∨ (k = j ∧ j < i)) :
    targetPosition u p i j < p[k] := by
  unfold targetPosition
  have hmono := List.pairwise_iff_getElem.mp hp
  split_ifs with h0 h1 h2
  · rw [List.getD_eq_getElem _ _ (by omega : 0 < p.length)]
    refine lt_of_lt_of_le ?_ (strict_getElem_le hp 0 k (by omega) hk (by omega))
    exact randomPosition_lt u _ _ (by linarith) hu1
  · omega
  · rw [List.getD_eq_getElem _ _ hj, List.getD_eq_getElem _ _ (by omega : j + 1 < p.length)]
    refine lt_of_lt_of_le ?_ (strict_getElem_le hp (j + 1) k (by omega) hk (by omega))
    exact randomPosition_lt u _ _ (hmono j (j + 1) hj (by omega) (by omega)) hu1
  · rw [List.getD_eq_getElem _ _ hj, List.getD_eq_getElem _ _ (by omega : j - 1 < p.length)]
    refine lt_of_lt_of_le ?_ (strict_getElem_le hp j k hj hk (by omega))
    exact randomPosition_lt u _ _ (hmono (j - 1) j (by omega) hj (by omega)) hu1




theorem index_natCast {α : Type} (xs : List α) (n : Nat) (h : n < xs.length) :
    index xs (n : Int) = .ok xs[n] := by
  unfold index
  simp [List.getElem?_eq_getElem h]

theorem index_of_nat {α : Type} (xs : List α) (z : Int) (n : Nat) (hz : z = (n : Int))
    (h : n < xs.length) : index xs z = .ok xs[n] := by
  subst hz; exact index_natCast xs n h

theorem index_neg {α : Type} (xs : List α) (z : Int) (h : z < 0) : index xs z = .panic := by
  unfold index
  rw [if_neg (by omega)]

theorem index_ge {α : Type} (xs : List α) (z : Int) (h : (xs.length : Int) ≤ z) :
    index xs z = .panic := by
  unfold index
  have h0 : 0 ≤ z := le_trans (Int.ofNat_nonneg _) h
  rw [if_pos h0]
  have : xs.get? z.toNat = none := by
    rw [List.get?_eq_none]
    omega
  rw [this]

theorem getD_map_pos {α : Type} (xs : List α) (pos : α → ℚ) (k : Nat) (h : k < xs.length) :
    (xs.map pos).getD k 0 = pos xs[k] := by
  rw [List.getD_eq_getElem _ _ (by simpa using h)]
  simp

/-- For indices within the list the four-way choice of `MoveTodo` and
`MoveTopic` returns the position described by `targetPosition`. -/
theorem choice_ok {α : Type} (xs : List α) (pos : α → ℚ) (u : ℚ) (i j : Nat)
    (hj : j < xs.length) :
    (if (j : Int) = 0 then
      (index xs 0).bind fun a =>
      .ok (randomPosition u (pos a - 2) (pos a))
    else if (j : Int) = (xs.length : Int) - 1 then
      (index xs ((xs.length : Int) - 1)).bind fun a =>
      .ok (randomPosition u (pos a) (pos a + 2))
    else if (j : Int) > (i : Int) then
      (index xs (j : Int)).bind fun a =>
      (index xs ((j : Int) + 1)).bind fun b =>
      .ok (randomPosition u (pos a) (pos b))
    else
      (index xs ((j : Int) - 1)).bind fun a =>
      (index xs (j : Int)).bind fun b =>
      .ok (randomPosition u (pos a) (pos b))) =
    (Outcome.ok (targetPosition u (xs.map pos) i j) : Outcome ℚ) := by
  unfold targetPosition
  have hlen : (xs.map pos).length = xs.length := List.length_map _ _
  by_cases h0 : j = 0
  · subst h0
    rw [if_pos (by simp), if_pos rfl, index_of_nat xs 0 0 rfl hj]
    rw [getD_map_pos xs pos _ hj]
    rfl
  · by_cases h1 : j = xs.length - 1
    · rw [if_neg (by omega), if_pos (by omega), if_neg h0, if_pos (by omega),
        index_of_nat xs _ (xs.length - 1) (by omega) (by omega)]
      rw [getD_map_pos xs pos _ (by omega)]
      simp [Outcome.bind]
    · by_cases h2 : j > i
      · rw [if_neg (by omega), if_neg (by omega), if_pos (by omega), if_neg h0,
          if_neg (by omega), if_pos h2, index_natCast xs j hj,
          index_of_nat xs _ (j + 1) (by omega) (by omega)]
        rw [getD_map_pos xs pos _ hj, getD_map_pos xs pos _ (by omega : j + 1 < xs.length)]
        rfl
      · rw [if_neg (by omega), if_neg (by omega), if_neg (by omega), if_neg h0,
          if_neg (by omega), if_neg h2, index_natCast xs j hj,
          index_of_nat xs _ (j - 1) (by omega) (by omega)]
        rw [getD_map_pos xs pos _ hj, getD_map_pos xs pos _ (by omega : j - 1 < xs.length)]
        rfl

theorem moveTodo_writer_ok (rg : RoostGroup) (db : DB) (u : ℚ) (complete : Bool)
    (topicID : Nat) (i j : Nat)
    (hi : i < (RoostGroup.MoveTodo.targetTodos complete (rg.Todos db topicID)).length)
    (hj : j < (RoostGroup.MoveTodo.targetTodos complete (rg.Todos db topicID)).length) :
    RoostGroup.MoveTodo.writer rg db u complete topicID (i : Int) (j : Int) =
      .ok [{ view := "todos"
             id := ((RoostGroup.MoveTodo.targetTodos complete (rg.Todos db topicID))[i]).ID
             props := [(RoostGroup.MoveTodo.posProp complete,
               .real (targetPosition u
                 ((RoostGroup.MoveTodo.targetTodos complete (rg.Todos db topicID)).map
                   (RoostGroup.MoveTodo.pos complete)) i j))] }] := by
  unfold RoostGroup.MoveTodo.writer
  simp only []
  rw [choice_ok _ _ u i j hj, index_natCast _ i hi]
  rfl


section Table
variable {α κ : Type} [LinearOrder κ] (k1 : α → ℚ) (k2 : α → κ)

theorem map_eq_set (l : List α) (upd : α → α) (i : Nat) (hi : i < l.length)
    (h : ∀ (k : Nat) (hk : k < l.length), k ≠ i → upd l[k] = l[k]) :
    l.map upd = l.set i (upd l[i]) := by
  apply List.ext_getElem
  · simp
  · intro k h1 h2
    rw [List.getElem_map, List.getElem_set]
    by_cases hk : i = k
    · subst hk; simp
    · rw [if_neg hk]
      exact h k (by simpa using h1) (Ne.symm hk)

/-- Re-reading a view after an update of its rows that leaves the selection
untouched: when the updated rows of the list are a strictly ascending list up to
order, that list is what the query returns. -/
theorem orderBy_filter_map (rows : List α) (sel : α → Bool) (upd : α → α)
    (hsel : ∀ a, sel (upd a) = sel a) (e : List α)
    (hperm : ((orderBy k1 k2 (rows.filter sel)).map upd).Perm e)
    (he : e.Pairwise fun a b => k1 a < k1 b) :
    orderBy k1 k2 ((rows.map upd).filter sel) = e := by
  have h1 : (rows.map upd).filter sel = (rows.filter sel).map upd := by
    rw [List.filter_map]
    have : sel ∘ upd = sel := funext hsel
    rw [this]
  rw [h1]
  refine orderBy_eq_of_perm_of_strict k1 k2 ?_ he
  exact ((orderBy_perm k1 k2 (rows.filter sel)).symm.map upd).trans hperm

/-- With the moved row at the position that step 2 allocates, the relocated
list ascends strictly. -/
theorem relocated_target_strict (l2 : List α) (i j : Nat) (moved : α) (u : ℚ)
    (hl2 : l2.Pairwise fun a b => k1 a < k1 b)
    (hi : i < l2.length) (hj : j < l2.length)
    (hmoved : k1 moved = targetPosition u (l2.map k1) i j)
    (hu0 : 0 ≤ u) (hu1 : u ≤ 1) :
    (relocated l2 i j moved).Pairwise fun a b => k1 a < k1 b := by
  have hp : (l2.map k1).Pairwise (· < ·) := List.pairwise_map.mpr hl2
  have hlen : (l2.map k1).length = l2.length := List.length_map _ _
  refine relocated_strict k1 l2 i j moved hl2 ?_ ?_
  · intro k hk _ hc
    rw [hmoved]
    have := targetPosition_above u (l2.map k1) i j hp (by omega) hu0 k (by omega) hc
    simpa using this
  · intro k hk _ hc
    rw [hmoved]
    have := targetPosition_below u (l2.map k1) i j hp (by omega) (by omega) hu1 k
      (by omega) hc
    simpa using this

/-- Re-reading after a move: the list is the repaired list with the moved row
taken out and put back at the target index. -/
theorem reread_relocated (rows : List α) (sel : α → Bool) (upd : α → α) (l2 : List α)
    (i j : Nat) (moved : α) (u : ℚ)
    (hsel : ∀ a, sel (upd a) = sel a)
    (hupd : (orderBy k1 k2 (rows.filter sel)).map upd = l2.set i moved)
    (hl2 : l2.Pairwise fun a b => k1 a < k1 b)
    (hi : i < l2.length) (hj : j < l2.length)
    (hmoved : k1 moved = targetPosition u (l2.map k1) i j)
    (hu0 : 0 ≤ u) (hu1 : u ≤ 1) :
    orderBy k1 k2 ((rows.map upd).filter sel) = relocated l2 i j moved := by
  refine orderBy_filter_map k1 k2 rows sel upd hsel _ ?_
    (relocated_target_strict k1 l2 i j moved u hl2 hi hj hmoved hu0 hu1)
  rw [hupd]
  exact set_perm_relocated l2 i j moved hi

/-- Rows of one group that a query returns have pairwise distinct
identifiers when (group, identifier) is a key of the view. -/
theorem ids_distinct (gid ident : α → Nat) (rows l : List α) (sel : α → Bool) (g : Nat)
    (hkey : (rows.map fun t => (gid t, ident t)).Nodup)
    (hp : l.Perm (rows.filter sel))
    (hg : ∀ a, sel a = true → gid a = g) :
    l.Pairwise fun a b => ident a ≠ ident b := by
  have h1 : rows.Pairwise fun a b => (gid a, ident a) ≠ (gid b, ident b) :=
    List.pairwise_map.mp hkey
  have h2 : (rows.filter sel).Pairwise fun a b => (gid a, ident a) ≠ (gid b, ident b) :=
    h1.sublist (List.filter_sublist _)
  have h3 : l.Pairwise fun a b => (gid a, ident a) ≠ (gid b, ident b) :=
    (List.Perm.pairwise_iff (fun h => Ne.symm h) hp).mpr h2
  refine h3.imp_of_mem ?_
  intro a b ha hb hne hid
  have ha2 := hg a (List.mem_filter.mp (hp.mem_iff.mp ha)).2
  have hb2 := hg b (List.mem_filter.mp (hp.mem_iff.mp hb)).2
  exact hne (by rw [ha2, hb2, hid])

end Table



theorem Execute_single_todos (g : Nat) (w : Update) (db : DB) :
    (Execute g [w] db).todos = db.todos.map (Todo.applyUpdate g w) := rfl

theorem todo_applyUpdate_pos (g : Nat) (complete : Bool) (ident : Nat) (q : ℚ) (t : Todo) :
    Todo.applyUpdate g
      { view := "todos", id := ident,
        props := [(RoostGroup.MoveTodo.posProp complete, .real q)] } t =
      if t.GroupID = g ∧ t.ID = ident then
        t.setProp (RoostGroup.MoveTodo.posProp complete) (.real q)
      else t := by
  simp [Todo.applyUpdate]

theorem todo_pos_setProp (complete : Bool) (q : ℚ) (t : Todo) :
    RoostGroup.MoveTodo.pos complete
      (t.setProp (RoostGroup.MoveTodo.posProp complete) (.real q)) = q := by
  cases complete <;> simp [RoostGroup.MoveTodo.pos, RoostGroup.MoveTodo.posProp, Todo.setProp]

theorem todo_sel_setProp (complete : Bool) (q : ℚ) (t : Todo) :
    (t.setProp (RoostGroup.MoveTodo.posProp complete) (.real q)).ID = t.ID ∧
    (t.setProp (RoostGroup.MoveTodo.posProp complete) (.real q)).GroupID = t.GroupID ∧
    (t.setProp (RoostGroup.MoveTodo.posProp complete) (.real q)).TopicID = t.TopicID ∧
    (t.setProp (RoostGroup.MoveTodo.posProp complete) (.real q)).Deleted = t.Deleted ∧
    (t.setProp (RoostGroup.MoveTodo.posProp complete) (.real q)).CompletedAt = t.CompletedAt := by
  cases complete <;> simp [RoostGroup.MoveTodo.posProp, Todo.setProp]

theorem moveTodo_targetTodos_eq (rg : RoostGroup) (db : DB) (complete : Bool) (topicID : Nat) :
    RoostGroup.MoveTodo.targetTodos complete (rg.Todos db topicID) =
      orderBy (RoostGroup.MoveTodo.pos complete) Todo.ID
        (db.todos.filter (RoostGroup.MoveTodo.sel rg complete topicID)) := by
  cases complete <;> rfl

/-- The rows that `MoveTodo` reads back after a move within a list of strictly
ascending positions. -/
theorem MoveTodo_reread (rg : RoostGroup) (db : DB) (u : ℚ) (complete : Bool) (topicID : Nat)
    (i j : Nat) (l : List Todo)
    (hl : RoostGroup.MoveTodo.targetTodos complete (rg.Todos db topicID) = l)
    (hkey : (db.todos.map fun t => (t.GroupID, t.ID)).Nodup)
    (hstrict : l.Pairwise
      fun a b => RoostGroup.MoveTodo.pos complete a < RoostGroup.MoveTodo.pos complete b)
    (hi : i < l.length) (hj : j < l.length) (hu0 : 0 ≤ u) (hu1 : u ≤ 1) :
    rg.MoveTodo db u complete topicID (i : Int) (j : Int) =
      .ok (Execute rg.GroupID
        [{ view := "todos", id := l[i].ID,
           props := [(RoostGroup.MoveTodo.posProp complete,
             .real (targetPosition u (l.map (RoostGroup.MoveTodo.pos complete)) i j))] }] db) ∧
    RoostGroup.MoveTodo.targetTodos complete
      (rg.Todos (Execute rg.GroupID
        [{ view := "todos", id := l[i].ID,
           props := [(RoostGroup.MoveTodo.posProp complete,
             .real (targetPosition u (l.map (RoostGroup.MoveTodo.pos complete)) i j))] }] db)
        topicID) =
      relocated l i j (l[i].setProp (RoostGroup.MoveTodo.posProp complete)
        (.real (targetPosition u (l.map (RoostGroup.MoveTodo.pos complete)) i j))) := by
  subst hl
  refine ⟨?_, ?_⟩
  · unfold RoostGroup.MoveTodo
    rw [moveTodo_writer_ok rg db u complete topicID i j hi hj]
    rfl
  · rw [moveTodo_targetTodos_eq, Execute_single_todos]
    have hl := moveTodo_targetTodos_eq rg db complete topicID
    have hperm : (RoostGroup.MoveTodo.targetTodos complete (rg.Todos db topicID)).Perm
        (db.todos.filter (RoostGroup.MoveTodo.sel rg complete topicID)) := by
      rw [hl]; exact orderBy_perm _ _ _
    have hg : ∀ a, RoostGroup.MoveTodo.sel rg complete topicID a = true →
        a.GroupID = rg.GroupID := by
      intro a ha
      cases complete <;> simp [RoostGroup.MoveTodo.sel] at ha <;> exact ha.1
    have hids := ids_distinct Todo.GroupID Todo.ID db.todos _ _ rg.GroupID hkey hperm hg
    have hmem : (RoostGroup.MoveTodo.targetTodos complete (rg.Todos db topicID))[i] ∈
        db.todos.filter (RoostGroup.MoveTodo.sel rg complete topicID) :=
      hperm.mem_iff.mp (List.getElem_mem _)
    have hgi := hg _ (List.mem_filter.mp hmem).2
    refine reread_relocated _ _ db.todos _ _ _ i j _ u ?_ ?_ hstrict hi hj ?_ hu0 hu1
    · intro a
      rw [todo_applyUpdate_pos]
      split
      · obtain ⟨h1, h2, h3, h4, h5⟩ := todo_sel_setProp complete
          (targetPosition u ((RoostGroup.MoveTodo.targetTodos complete
            (rg.Todos db topicID)).map (RoostGroup.MoveTodo.pos complete)) i j) a
        cases complete <;> simp [RoostGroup.MoveTodo.sel, h2, h3, h4, h5]
      · rfl
    · rw [← hl]
      rw [map_eq_set _ _ i hi]
      · rw [todo_applyUpdate_pos, if_pos ⟨hgi, rfl⟩]
      · intro k hk hki
        rw [todo_applyUpdate_pos, if_neg]
        rintro ⟨_, h2⟩
        have := List.pairwise_iff_getElem.mp hids
        rcases Nat.lt_or_gt_of_ne hki with h | h
        · exact this k i hk hi h h2
        · exact this i k hi hk h h2.symm
    · exact todo_pos_setProp _ _ _


theorem Execute_topics (g : Nat) (ws : List Update) (db : DB) :
    (Execute g ws db).topics =
      db.topics.map fun t => ws.foldl (fun r w => Topic.applyUpdate g w r) t := by
  unfold Execute
  induction ws generalizing db with
  | nil => simp
  | cons w ws ih =>
    rw [List.foldl_cons, ih]
    simp [List.map_map, Function.comp]

theorem topic_applyUpdate_pos (g : Nat) (pinned : Bool) (ident : Nat) (q : ℚ) (t : Topic) :
    Topic.applyUpdate g
      { view := "topics", id := ident,
        props := [(RoostGroup.MoveTopic.posProp pinned, .real q)] } t =
      if t.GroupID = g ∧ t.ID = ident then
        t.setProp (RoostGroup.MoveTopic.posProp pinned) (.real q)
      else t := by
  simp [Topic.applyUpdate]

theorem topic_pos_setProp (pinned : Bool) (q : ℚ) (t : Topic) :
    RoostGroup.MoveTopic.pos pinned
      (t.setProp (RoostGroup.MoveTopic.posProp pinned) (.real q)) = q := by
  cases pinned <;> simp [RoostGroup.MoveTopic.pos, RoostGroup.MoveTopic.posProp, Topic.setProp]

theorem topic_sel_setProp (pinned : Bool) (q : ℚ) (t : Topic) :
    (t.setProp (RoostGroup.MoveTopic.posProp pinned) (.real q)).ID = t.ID ∧
    (t.setProp (RoostGroup.MoveTopic.posProp pinned) (.real q)).GroupID = t.GroupID ∧
    (t.setProp (RoostGroup.MoveTopic.posProp pinned) (.real q)).Pinned = t.Pinned := by
  cases pinned <;> simp [RoostGroup.MoveTopic.posProp, Topic.setProp]

theorem topic_setProp_setProp (pinned : Bool) (q r : ℚ) (t : Topic) :
    (t.setProp (RoostGroup.MoveTopic.posProp pinned) (.real q)).setProp
      (RoostGroup.MoveTopic.posProp pinned) (.real r) =
    t.setProp (RoostGroup.MoveTopic.posProp pinned) (.real r) := by
  cases pinned <;> simp [RoostGroup.MoveTopic.posProp, Topic.setProp]

theorem moveTopic_targetTopics_eq (rg : RoostGroup) (db : DB) (pinned : Bool) :
    RoostGroup.MoveTopic.targetTopics pinned (rg.Topics db) =
      orderBy (RoostGroup.MoveTopic.pos pinned) Topic.CtimeSec
        (db.topics.filter (RoostGroup.MoveTopic.sel rg pinned)) := by
  cases pinned <;> rfl

theorem fold_positionBatch_keeps (g : Nat) (pinned : Bool) (ws : List Update)
    (hws : ∀ w ∈ ws, ∃ ident q, w =
      ({ view := "topics", id := ident,
         props := [(RoostGroup.MoveTopic.posProp pinned, .real q)] } : Update))
    (t : Topic) :
    (ws.foldl (fun r w => Topic.applyUpdate g w r) t).ID = t.ID ∧
    (ws.foldl (fun r w => Topic.applyUpdate g w r) t).GroupID = t.GroupID ∧
    (ws.foldl (fun r w => Topic.applyUpdate g w r) t).Pinned = t.Pinned := by
  induction ws generalizing t with
  | nil => simp
  | cons w ws ih =>
    rw [List.foldl_cons]
    obtain ⟨ident, q, rfl⟩ := hws w (List.mem_cons_self _ _)
    have h := ih (fun w hw => hws w (List.mem_cons_of_mem _ hw))
      (Topic.applyUpdate g
        { view := "topics", id := ident,
          props := [(RoostGroup.MoveTopic.posProp pinned, .real q)] } t)
    rw [topic_applyUpdate_pos] at h ⊢
    split at h
    · obtain ⟨h1, h2, h3⟩ := topic_sel_setProp pinned q t
      rw [if_pos (by assumption)]
      rw [h1, h2, h3] at h
      exact h
    · rw [if_neg (by assumption)]
      exact h

theorem fold_miss (g : Nat) (pinned : Bool) (ws : List Update)
    (hws : ∀ w ∈ ws, ∃ ident q, w =
      ({ view := "topics", id := ident,
         props := [(RoostGroup.MoveTopic.posProp pinned, .real q)] } : Update))
    (t : Topic) (hmiss : ∀ w ∈ ws, w.id ≠ t.ID) :
    ws.foldl (fun r w => Topic.applyUpdate g w r) t = t := by
  induction ws with
  | nil => simp
  | cons w ws ih =>
    rw [List.foldl_cons]
    obtain ⟨ident, q, rfl⟩ := hws w (List.mem_cons_self _ _)
    have hne := hmiss _ (List.mem_cons_self _ _)
    rw [topic_applyUpdate_pos, if_neg (fun h => hne h.2.symm)]
    exact ih (fun w hw => hws w (List.mem_cons_of_mem _ hw))
      (fun w hw => hmiss w (List.mem_cons_of_mem _ hw))

theorem repair_batch (pinned : Bool) (f : Int) (k : Nat) (l : List Topic) :
    ∀ w ∈ (RoostGroup.MoveTopic.repair pinned f k l).2, ∃ a ∈ l, ∃ q, w =
      ({ view := "topics", id := a.ID,
         props := [(RoostGroup.MoveTopic.posProp pinned, .real q)] } : Update) := by
  induction l generalizing k with
  | nil => simp [RoostGroup.MoveTopic.repair]
  | cons t ts ih =>
    intro w hw
    simp only [RoostGroup.MoveTopic.repair] at hw
    split at hw
    · obtain ⟨a, ha, q, rfl⟩ := ih (k + 1) w hw
      exact ⟨a, List.mem_cons_of_mem _ ha, q, rfl⟩
    · rcases List.mem_cons.mp hw with rfl | hw
      · exact ⟨t, List.mem_cons_self _ _, _, rfl⟩
      · obtain ⟨a, ha, q, rfl⟩ := ih (k + 1) w hw
        exact ⟨a, List.mem_cons_of_mem _ ha, q, rfl⟩

theorem repair_fst_length (pinned : Bool) (f : Int) (k : Nat) (l : List Topic) :
    (RoostGroup.MoveTopic.repair pinned f k l).1.length = l.length := by
  induction l generalizing k with
  | nil => simp [RoostGroup.MoveTopic.repair]
  | cons t ts ih => simp [RoostGroup.MoveTopic.repair, ih]

theorem repair_fst_getElem (pinned : Bool) (f : Int) (k : Nat) (l : List Topic) (m : Nat)
    (hm : m < l.length) (hm2 : m < (RoostGroup.MoveTopic.repair pinned f k l).1.length) :
    (RoostGroup.MoveTopic.repair pinned f k l).1[m] =
      l[m].setProp (RoostGroup.MoveTopic.posProp pinned) (.real ((k + m : Nat) : ℚ)) := by
  induction l generalizing k m with
  | nil => simp at hm
  | cons t ts ih =>
    cases m with
    | zero =>
      cases pinned <;>
        simp [RoostGroup.MoveTopic.repair, RoostGroup.MoveTopic.posProp, Topic.setProp]
    | succ n =>
      simp only [RoostGroup.MoveTopic.repair, List.getElem_cons_succ]
      rw [ih (k + 1) n (by simpa using hm)]
      have : k + 1 + n = k + (n + 1) := by omega
      rw [this]


theorem repair_fold (g : Nat) (pinned : Bool) (f : Int) (k : Nat) (l : List Topic)
    (hids : l.Pairwise fun a b => a.ID ≠ b.ID) (hg : ∀ a ∈ l, a.GroupID = g)
    (m : Nat) (hm : m < l.length) :
    (RoostGroup.MoveTopic.repair pinned f k l).2.foldl (fun r w => Topic.applyUpdate g w r) l[m] =
      if ((k + m : Nat) : Int) = f then l[m]
      else l[m].setProp (RoostGroup.MoveTopic.posProp pinned) (.real ((k + m : Nat) : ℚ)) := by
  induction l generalizing k m with
  | nil => simp at hm
  | cons t ts ih =>
    obtain ⟨hhead, htail⟩ := List.pairwise_cons.mp hids
    have hbatch : ∀ w ∈ (RoostGroup.MoveTopic.repair pinned f (k + 1) ts).2, ∃ ident q, w =
        ({ view := "topics", id := ident,
           props := [(RoostGroup.MoveTopic.posProp pinned, .real q)] } : Update) := by
      intro w hw
      obtain ⟨a, _, q, rfl⟩ := repair_batch pinned f (k + 1) ts w hw
      exact ⟨_, _, rfl⟩
    have hmiss : ∀ w ∈ (RoostGroup.MoveTopic.repair pinned f (k + 1) ts).2, w.id ≠ t.ID := by
      intro w hw
      obtain ⟨a, ha, q, rfl⟩ := repair_batch pinned f (k + 1) ts w hw
      exact fun h => hhead a ha h.symm
    cases m with
    | zero =>
      simp only [RoostGroup.MoveTopic.repair, List.getElem_cons_zero, Nat.add_zero]
      by_cases hk : (k : Int) = f
      · rw [if_pos hk, if_pos hk]
        exact fold_miss g pinned _ hbatch t hmiss
      · rw [if_neg hk, if_neg hk, List.foldl_cons, topic_applyUpdate_pos,
          if_pos ⟨hg t (List.mem_cons_self _ _), rfl⟩]
        refine fold_miss g pinned _ hbatch _ ?_
        rw [(topic_sel_setProp pinned _ t).1]
        exact hmiss
    | succ n =>
      have hn : n < ts.length := by simpa using hm
      have hne : ¬(ts[n].GroupID = g ∧ ts[n].ID = t.ID) :=
        fun h => hhead ts[n] (List.getElem_mem _) h.2.symm
      have hidx : k + 1 + n = k + (n + 1) := by omega
      have hih := ih (k + 1) htail (fun a ha => hg a (List.mem_cons_of_mem _ ha)) n hn
      rw [hidx] at hih
      simp only [RoostGroup.MoveTopic.repair, List.getElem_cons_succ]
      by_cases hk : (k : Int) = f
      · rw [if_pos hk]
        exact hih
      · rw [if_neg hk, List.foldl_cons, topic_applyUpdate_pos, if_neg hne]
        exact hih


theorem repaired_fst_length (pinned : Bool) (f : Int) (l : List Topic) :
    (RoostGroup.MoveTopic.repaired pinned f l).1.length = l.length := by
  unfold RoostGroup.MoveTopic.repaired
  split
  · exact repair_fst_length pinned f 0 l
  · rfl

theorem repaired_fst_getElem_ID (pinned : Bool) (f : Int) (l : List Topic) (m : Nat)
    (hm : m < l.length) (hm2 : m < (RoostGroup.MoveTopic.repaired pinned f l).1.length) :
    (RoostGroup.MoveTopic.repaired pinned f l).1[m].ID = l[m].ID := by
  unfold RoostGroup.MoveTopic.repaired at hm2 ⊢
  split
  · rw [repair_fst_getElem pinned f 0 l m hm]
    exact (topic_sel_setProp pinned _ _).1
  · rfl

theorem repaired_batch (pinned : Bool) (f : Int) (l : List Topic) :
    ∀ w ∈ (RoostGroup.MoveTopic.repaired pinned f l).2, ∃ ident q, w =
      ({ view := "topics", id := ident,
         props := [(RoostGroup.MoveTopic.posProp pinned, .real q)] } : Update) := by
  intro w hw
  unfold RoostGroup.MoveTopic.repaired at hw
  split at hw
  · obtain ⟨a, _, q, rfl⟩ := repair_batch pinned f 0 l w hw
    exact ⟨_, _, rfl⟩
  · simp at hw

theorem repaired_fold (g : Nat) (pinned : Bool) (i : Nat) (l : List Topic)
    (hids : l.Pairwise fun a b => a.ID ≠ b.ID) (hg : ∀ a ∈ l, a.GroupID = g)
    (m : Nat) (hm : m < l.length)
    (hm2 : m < (RoostGroup.MoveTopic.repaired pinned (i : Int) l).1.length) :
    (RoostGroup.MoveTopic.repaired pinned (i : Int) l).2.foldl
        (fun r w => Topic.applyUpdate g w r) l[m] =
      if m = i then l[m] else (RoostGroup.MoveTopic.repaired pinned (i : Int) l).1[m] := by
  unfold RoostGroup.MoveTopic.repaired at hm2 ⊢
  split
  · rw [repair_fold g pinned (i : Int) 0 l hids hg m hm, repair_fst_getElem pinned (i : Int) 0 l m hm]
    simp
  · simp

theorem moveTopic_writer_ok (rg : RoostGroup) (db : DB) (u : ℚ) (pinned : Bool) (i j : Nat)
    (l : List Topic) (hl : RoostGroup.MoveTopic.targetTopics pinned (rg.Topics db) = l)
    (hi : i < l.length) (hj : j < l.length) :
    RoostGroup.MoveTopic.writer rg db u pinned (i : Int) (j : Int) =
      .ok ((RoostGroup.MoveTopic.repaired pinned (i : Int) l).2 ++
        [{ view := "topics", id := l[i].ID,
           props := [(RoostGroup.MoveTopic.posProp pinned,
             .real (targetPosition u
               ((RoostGroup.MoveTopic.repaired pinned (i : Int) l).1.map
                 (RoostGroup.MoveTopic.pos pinned)) i j))] }]) := by
  subst hl
  have hlen := repaired_fst_length pinned (i : Int)
    (RoostGroup.MoveTopic.targetTopics pinned (rg.Topics db))
  unfold RoostGroup.MoveTopic.writer
  simp only []
  rw [choice_ok _ _ u i j (by omega), index_natCast _ i (by omega)]
  simp only [Outcome.bind]
  rw [repaired_fst_getElem_ID pinned _ _ i hi]


/-- The rows that `MoveTopic` reads back after a move, when the list after
the repair block ascends strictly. -/
theorem MoveTopic_reread (rg : RoostGroup) (db : DB) (u : ℚ) (pinned : Bool) (i j : Nat)
    (l : List Topic) (hl : RoostGroup.MoveTopic.targetTopics pinned (rg.Topics db) = l)
    (hkey : (db.topics.map fun t => (t.GroupID, t.ID)).Nodup)
    (hstrict : (RoostGroup.MoveTopic.repaired pinned (i : Int) l).1.Pairwise
      fun a b => RoostGroup.MoveTopic.pos pinned a < RoostGroup.MoveTopic.pos pinned b)
    (hi : i < l.length) (hj : j < l.length) (hu0 : 0 ≤ u) (hu1 : u ≤ 1) :
    rg.MoveTopic db u pinned (i : Int) (j : Int) =
      .ok (Execute rg.GroupID
        ((RoostGroup.MoveTopic.repaired pinned (i : Int) l).2 ++
          [{ view := "topics", id := l[i].ID,
             props := [(RoostGroup.MoveTopic.posProp pinned,
               .real (targetPosition u
                 ((RoostGroup.MoveTopic.repaired pinned (i : Int) l).1.map
                   (RoostGroup.MoveTopic.pos pinned)) i j))] }]) db) ∧
    RoostGroup.MoveTopic.targetTopics pinned
      (rg.Topics (Execute rg.GroupID
        ((RoostGroup.MoveTopic.repaired pinned (i : Int) l).2 ++
          [{ view := "topics", id := l[i].ID,
             props := [(RoostGroup.MoveTopic.posProp pinned,
               .real (targetPosition u
                 ((RoostGroup.MoveTopic.repaired pinned (i : Int) l).1.map
                   (RoostGroup.MoveTopic.pos pinned)) i j))] }]) db)) =
      relocated (RoostGroup.MoveTopic.repaired pinned (i : Int) l).1 i j
        (l[i].setProp (RoostGroup.MoveTopic.posProp pinned)
          (.real (targetPosition u
            ((RoostGroup.MoveTopic.repaired pinned (i : Int) l).1.map
              (RoostGroup.MoveTopic.pos pinned)) i j))) := by
  refine ⟨?_, ?_⟩
  · unfold RoostGroup.MoveTopic
    rw [moveTopic_writer_ok rg db u pinned i j l hl hi hj]
    rfl
  · have hl2 := moveTopic_targetTopics_eq rg db pinned
    rw [hl] at hl2
    have hlen := repaired_fst_length pinned (i : Int) l
    have hperm : l.Perm (db.topics.filter (RoostGroup.MoveTopic.sel rg pinned)) := by
      rw [hl2]; exact orderBy_perm _ _ _
    have hg : ∀ a, RoostGroup.MoveTopic.sel rg pinned a = true → a.GroupID = rg.GroupID := by
      intro a ha
      cases pinned <;> simp [RoostGroup.MoveTopic.sel] at ha <;> exact ha.1
    have hgl : ∀ a ∈ l, a.GroupID = rg.GroupID :=
      fun a ha => hg a (List.mem_filter.mp (hperm.mem_iff.mp ha)).2
    have hids := ids_distinct Topic.GroupID Topic.ID db.topics l _ rg.GroupID hkey hperm hg
    have hidx := List.pairwise_iff_getElem.mp hids
    have hbatch : ∀ w ∈ (RoostGroup.MoveTopic.repaired pinned (i : Int) l).2 ++
        [({ view := "topics", id := l[i].ID,
            props := [(RoostGroup.MoveTopic.posProp pinned,
              .real (targetPosition u
                ((RoostGroup.MoveTopic.repaired pinned (i : Int) l).1.map
                  (RoostGroup.MoveTopic.pos pinned)) i j))] } : Update)],
        ∃ ident q, w = Update.mk "topics" ident
          [(RoostGroup.MoveTopic.posProp pinned, .real q)] := by
      intro w hw
      rcases List.mem_append.mp hw with hw | hw
      · exact repaired_batch pinned _ l w hw
      · rw [List.mem_singleton] at hw
        exact ⟨_, _, hw⟩
    rw [moveTopic_targetTopics_eq, Execute_topics]
    refine reread_relocated _ _ db.topics _ _ _ i j _ u ?_ ?_ hstrict (by omega) (by omega)
      ?_ hu0 hu1
    · intro a
      obtain ⟨_, h2, h3⟩ := fold_positionBatch_keeps rg.GroupID pinned _ hbatch a
      cases pinned <;> simp only [RoostGroup.MoveTopic.sel, h2, h3]
    · rw [← hl2]
      apply List.ext_getElem
      · simp [hlen]
      · intro m h1 h2
        have hm : m < l.length := by simpa using h1
        rw [List.getElem_map, List.foldl_append,
          repaired_fold rg.GroupID pinned i l hids hgl m hm (by omega), List.getElem_set]
        by_cases hmi : m = i
        · subst hmi
          rw [if_pos rfl, if_pos rfl]
          simp only [List.foldl_cons, List.foldl_nil]
          rw [topic_applyUpdate_pos, if_pos ⟨hgl _ (List.getElem_mem _), rfl⟩]
        · rw [if_neg hmi, if_neg (Ne.symm hmi)]
          simp only [List.foldl_cons, List.foldl_nil]
          rw [topic_applyUpdate_pos, if_neg]
          rintro ⟨_, h⟩
          rw [repaired_fst_getElem_ID pinned _ l m hm] at h
          rcases Nat.lt_or_gt_of_ne hmi with h' | h'
          · exact hidx m i hm hi h' h
          · exact hidx i m hi hm h' h.symm
    · exact topic_pos_setProp _ _ _


theorem repaired_of_not_atZero (pinned : Bool) (f : Int) (l : List Topic)
    (h : RoostGroup.MoveTopic.atZero pinned l = false) :
    RoostGroup.MoveTopic.repaired pinned f l = (l, []) := by
  unfold RoostGroup.MoveTopic.repaired
  rw [h]
  rfl

theorem repaired_of_atZero (pinned : Bool) (f : Int) (l : List Topic)
    (h : RoostGroup.MoveTopic.atZero pinned l = true) :
    RoostGroup.MoveTopic.repaired pinned f l = RoostGroup.MoveTopic.repair pinned f 0 l := by
  unfold RoostGroup.MoveTopic.repaired
  rw [h]
  rfl

theorem atZero_iff (pinned : Bool) (l : List Topic) :
    RoostGroup.MoveTopic.atZero pinned l = true ↔
      ∀ t ∈ l, RoostGroup.MoveTopic.pos pinned t = 0 := by
  unfold RoostGroup.MoveTopic.atZero
  simp [List.all_eq_true]

/-- The list that the repair loop leaves ascends strictly: its positions are
the indices. -/
theorem repair_fst_strict (pinned : Bool) (f : Int) (l : List Topic) :
    (RoostGroup.MoveTopic.repair pinned f 0 l).1.Pairwise
      fun a b => RoostGroup.MoveTopic.pos pinned a < RoostGroup.MoveTopic.pos pinned b := by
  rw [List.pairwise_iff_getElem]
  intro a b ha hb hab
  have hlen := repair_fst_length pinned f 0 l
  rw [repair_fst_getElem pinned f 0 l a (by omega), repair_fst_getElem pinned f 0 l b (by omega),
    topic_pos_setProp, topic_pos_setProp]
  exact_mod_cast (by omega : 0 + a < 0 + b)

/-- A list that is both all zero and strictly ascending has at most one
row. -/
theorem length_le_one_of_zero_of_strict (pinned : Bool) (l : List Topic)
    (hz : ∀ t ∈ l, RoostGroup.MoveTopic.pos pinned t = 0)
    (hs : l.Pairwise
      fun a b => RoostGroup.MoveTopic.pos pinned a < RoostGroup.MoveTopic.pos pinned b) :
    l.length ≤ 1 := by
  by_contra h
  have h2 : 1 < l.length := by omega
  have := List.pairwise_iff_getElem.mp hs 0 1 (by omega) h2 (by omega)
  rw [hz _ (List.getElem_mem _), hz _ (List.getElem_mem _)] at this
  exact lt_irrefl _ this

/-- On a strictly ascending list the repair block changes nothing that the
move can observe: the list after it ascends strictly and, without the moved
row, is the list as read without the moved row. -/
theorem repaired_of_strict (pinned : Bool) (i : Nat) (l : List Topic)
    (hs : l.Pairwise
      fun a b => RoostGroup.MoveTopic.pos pinned a < RoostGroup.MoveTopic.pos pinned b)
    (hi : i < l.length) :
    (RoostGroup.MoveTopic.repaired pinned (i : Int) l).1.Pairwise
      (fun a b => RoostGroup.MoveTopic.pos pinned a < RoostGroup.MoveTopic.pos pinned b) ∧
    (RoostGroup.MoveTopic.repaired pinned (i : Int) l).1.eraseIdx i = l.eraseIdx i ∧
    (RoostGroup.MoveTopic.repaired pinned (i : Int) l).2 = [] := by
  cases hz : RoostGroup.MoveTopic.atZero pinned l with
  | false =>
    rw [repaired_of_not_atZero pinned _ l hz]
    exact ⟨hs, rfl, rfl⟩
  | true =>
    rw [repaired_of_atZero pinned _ l hz]
    have hlen := length_le_one_of_zero_of_strict pinned l ((atZero_iff pinned l).mp hz) hs
    obtain ⟨a, rfl⟩ : ∃ a, l = [a] := by
      match l, hi, hlen with
      | [a], _, _ => exact ⟨a, rfl⟩
      | [], h, _ => simp at h
      | _ :: _ :: _, _, h => simp at h
    have h0 : i = 0 := by simpa using hi
    subst h0
    refine ⟨repair_fst_strict pinned _ [a], ?_, ?_⟩
    · simp [RoostGroup.MoveTopic.repair]
    · simp [RoostGroup.MoveTopic.repair]

/-- A list as read whose positions are pairwise distinct ascends strictly
(todos). -/
theorem todos_strict_of_distinct (rg : RoostGroup) (db : DB) (complete : Bool) (topicID : Nat)
    (l : List Todo) (hl : RoostGroup.MoveTodo.targetTodos complete (rg.Todos db topicID) = l)
    (hd : (l.map (RoostGroup.MoveTodo.pos complete)).Nodup) :
    l.Pairwise
      fun a b => RoostGroup.MoveTodo.pos complete a < RoostGroup.MoveTodo.pos complete b := by
  subst hl
  rw [moveTodo_targetTodos_eq] at hd ⊢
  exact strict_of_sorted_of_distinct _ Todo.ID (orderBy_sorted _ _ _) (List.pairwise_map.mp hd)

/-- A list as read whose positions are pairwise distinct ascends strictly
(topics). -/
theorem topics_strict_of_distinct (rg : RoostGroup) (db : DB) (pinned : Bool)
    (l : List Topic) (hl : RoostGroup.MoveTopic.targetTopics pinned (rg.Topics db) = l)
    (hd : (l.map (RoostGroup.MoveTopic.pos pinned)).Nodup) :
    l.Pairwise
      fun a b => RoostGroup.MoveTopic.pos pinned a < RoostGroup.MoveTopic.pos pinned b := by
  subst hl
  rw [moveTopic_targetTopics_eq] at hd ⊢
  exact strict_of_sorted_of_distinct _ Topic.CtimeSec (orderBy_sorted _ _ _)
    (List.pairwise_map.mp hd)

theorem relocated_length {α : Type} (l : List α) (i j : Nat) (a : α) (hi : i < l.length) :
    (relocated l i j a).length = l.length := by
  unfold relocated
  have h := congrArg List.length (List.take_append_drop j (l.eraseIdx i))
  rw [List.length_append, List.length_eraseIdx, if_pos hi] at h
  rw [List.length_append, List.length_cons]
  omega

theorem repair_fst_eq (pinned : Bool) (f : Int) (k : Nat) (l : List Topic) :
    (RoostGroup.MoveTopic.repair pinned f k l).1 =
      (l.enumFrom k).map fun p =>
        p.2.setProp (RoostGroup.MoveTopic.posProp pinned) (.real (p.1 : ℚ)) := by
  induction l generalizing k with
  | nil => rfl
  | cons t ts ih =>
    simp only [RoostGroup.MoveTopic.repair, List.enumFrom_cons, List.map_cons, ih]
    cases pinned <;> simp [RoostGroup.MoveTopic.posProp, Topic.setProp]

theorem repair_snd_eq (pinned : Bool) (i : Nat) (k : Nat) (l : List Topic) :
    (RoostGroup.MoveTopic.repair pinned (i : Int) k l).2 =
      ((l.enumFrom k).filter fun p => decide (p.1 ≠ i)).map fun p =>
        ({ view := "topics", id := p.2.ID,
           props := [(RoostGroup.MoveTopic.posProp pinned, .real (p.1 : ℚ))] } : Update) := by
  induction l generalizing k with
  | nil => rfl
  | cons t ts ih =>
    simp only [RoostGroup.MoveTopic.repair, List.enumFrom_cons, ih]
    by_cases h : k = i
    · subst h
      simp
    · have h2 : ¬ ((k : Int) = (i : Int)) := by exact_mod_cast h
      rw [if_neg h2, List.filter_cons_of_pos (by simpa using h)]
      rfl

/-- With `to` outside the list the four-way choice of `MoveTodo` and
`MoveTopic` ends in an index panic. -/
theorem choice_panic {α : Type} (xs : List α) (pos : α → ℚ) (u : ℚ) (i j : Int)
    (hi0 : 0 ≤ i) (hi : i < xs.length) (hj : j < 0 ∨ (xs.length : Int) ≤ j) :
    (if j = 0 then
      (index xs 0).bind fun a =>
      .ok (randomPosition u (pos a - 2) (pos a))
    else if j = (xs.length : Int) - 1 then
      (index xs ((xs.length : Int) - 1)).bind fun a =>
      .ok (randomPosition u (pos a) (pos a + 2))
    else if j > i then
      (index xs j).bind fun a =>
      (index xs (j + 1)).bind fun b =>
      .ok (randomPosition u (pos a) (pos b))
    else
      (index xs (j - 1)).bind fun a =>
      (index xs j).bind fun b =>
      .ok (randomPosition u (pos a) (pos b))) =
    (Outcome.panic : Outcome ℚ) := by
  rw [if_neg (by omega), if_neg (by omega)]
  by_cases h : j > i
  · rw [if_pos h, index_ge xs j (by omega)]
    rfl
  · rw [if_neg h, index_neg xs (j - 1) (by omega)]
    rfl

theorem index_outside {α : Type} (xs : List α) (z : Int)
    (h : z < 0 ∨ (xs.length : Int) ≤ z) : index xs z = .panic := by
  rcases h with h | h
  · exact index_neg xs z h
  · exact index_ge xs z h

theorem index_inside {α : Type} (xs : List α) (z : Int) (h0 : 0 ≤ z) (h1 : z < xs.length) :
    ∃ a, index xs z = .ok a := by
  exact ⟨_, index_of_nat xs z z.toNat (by omega) (by omega)⟩

/-! ## Paging -/

theorem selectMessages_eq (rg : RoostGroup) (db : DB) (topicID : Nat) :
    rg.selectMessages db topicID = (rg.allMessages db topicID).take MessagesPageSize := rfl

theorem allMessages_sorted (rg : RoostGroup) (db : DB) (topicID : Nat) :
    (rg.allMessages db topicID).Sorted (sqlLE (fun m => -m.CtimeSec) Message.ID) :=
  orderBy_sorted _ _ _

/-- Sorting the rows that pass a further condition gives the sorted rows that
pass it, when the first sort keys are pairwise distinct. -/
theorem orderBy_filter {α κ : Type} [LinearOrder κ] (k1 : α → ℚ) (k2 : α → κ)
    (rows : List α) (p : α → Bool)
    (hd : ((orderBy k1 k2 rows).map k1).Nodup) :
    orderBy k1 k2 (rows.filter p) = (orderBy k1 k2 rows).filter p := by
  have hs := strict_of_sorted_of_distinct k1 k2 (orderBy_sorted k1 k2 rows)
    (List.pairwise_map.mp hd)
  refine orderBy_eq_of_perm_of_strict k1 k2 ?_ (hs.sublist (List.filter_sublist _))
  exact ((orderBy_perm k1 k2 rows).filter p).symm

theorem selectMessagesBefore_eq (rg : RoostGroup) (db : DB) (topicID : Nat) (c : ℚ)
    (hd : ((rg.allMessages db topicID).map Message.CtimeSec).Nodup) :
    rg.selectMessagesBefore db topicID c =
      ((rg.allMessages db topicID).filter fun m => decide (m.CtimeSec < c)).take
        MessagesPageSize := by
  unfold RoostGroup.selectMessagesBefore RoostGroup.allMessages
  congr 1
  have h1 : (db.messages.filter fun m =>
      decide (m.GroupID = rg.GroupID ∧ m.TopicID = topicID ∧ m.CtimeSec < c)) =
      (db.messages.filter fun m => decide (m.GroupID = rg.GroupID ∧ m.TopicID = topicID)).filter
        fun m => decide (m.CtimeSec < c) := by
    rw [List.filter_filter]
    congr 1
    funext m
    rw [Bool.eq_iff_iff]
    simp only [Bool.and_eq_true, decide_eq_true_eq]
    tauto
  rw [h1]
  apply orderBy_filter
  have hd2 : ((rg.allMessages db topicID).map fun m => -m.CtimeSec).Nodup := by
    have : ((rg.allMessages db topicID).map fun m => -m.CtimeSec) =
        ((rg.allMessages db topicID).map Message.CtimeSec).map Neg.neg := by
      rw [List.map_map]; rfl
    rw [this]
    exact hd.map neg_injective
  exact hd2

/-- In a list with strictly descending timestamps the rows older than the row
at index `k - 1` are the rows from index `k` on. -/
theorem filter_before_eq_drop (s : List Message)
    (hs : s.Pairwise fun a b => b.CtimeSec < a.CtimeSec) (k : Nat) (hk : k < s.length)
    (t : ℚ) (ht : s[k].CtimeSec = t) :
    (s.filter fun m => decide (m.CtimeSec < t)) = s.drop (k + 1) := by
  have hidx := List.pairwise_iff_getElem.mp hs
  have h1 : ((s.take (k + 1)).filter fun m => decide (m.CtimeSec < t)) = [] := by
    rw [List.filter_eq_nil_iff]
    intro m hm
    obtain ⟨i, hi, rfl⟩ := List.mem_take_iff_getElem.mp hm
    have hi1 : i < k + 1 := lt_of_lt_of_le hi (min_le_left _ _)
    have hi2 : i < s.length := lt_of_lt_of_le hi (min_le_right _ _)
    simp only [decide_eq_true_eq, not_lt]
    rw [← ht]
    rcases Nat.lt_or_ge i k with h | h
    · exact le_of_lt (hidx i k hi2 hk h)
    · have : i = k := by omega
      subst this; exact le_refl _
  have h2 : ((s.drop (k + 1)).filter fun m => decide (m.CtimeSec < t)) =
      s.drop (k + 1) := by
    rw [List.filter_eq_self]
    intro m hm
    obtain ⟨i, hi, rfl⟩ := List.mem_drop_iff_getElem.mp hm
    simp only [decide_eq_true_eq]
    rw [← ht]
    exact hidx k (k + 1 + i) hk (by omega) (by omega)
  calc (s.filter fun m => decide (m.CtimeSec < t))
      = ((s.take (k + 1) ++ s.drop (k + 1)).filter fun m => decide (m.CtimeSec < t)) := by
        rw [List.take_append_drop]
    _ = s.drop (k + 1) := by rw [List.filter_append, h1, h2, List.nil_append]

theorem allMessages_strict (rg : RoostGroup) (db : DB) (topicID : Nat)
    (hd : ((rg.allMessages db topicID).map Message.CtimeSec).Nodup) :
    (rg.allMessages db topicID).Pairwise fun a b => b.CtimeSec < a.CtimeSec := by
  have hd2 : (rg.allMessages db topicID).Pairwise
      fun a b => (fun m : Message => -m.CtimeSec) a ≠ (fun m : Message => -m.CtimeSec) b :=
    (List.pairwise_map.mp hd).imp fun h h2 => h (neg_injective h2)
  have := strict_of_sorted_of_distinct (fun m : Message => -m.CtimeSec) Message.ID
    (allMessages_sorted rg db topicID) hd2
  exact this.imp fun h => neg_lt_neg_iff.mp h

theorem Messages_empty_cursor (sc : Strconv) (rg : RoostGroup) (db : DB) (topicID : Nat) :
    rg.Messages sc db topicID "" =
      .ok (RoostGroup.Messages.result sc (rg.selectMessages db topicID)) := by
  unfold RoostGroup.Messages
  simp [Outcome.bind]

theorem Messages_parsed_cursor (sc : Strconv) (rg : RoostGroup) (db : DB) (topicID : Nat)
    (cursor : String) (t : ℚ) (hc : cursor ≠ "") (hp : sc.ParseFloat cursor = some t) :
    rg.Messages sc db topicID cursor =
      .ok (RoostGroup.Messages.result sc (rg.selectMessagesBefore db topicID t)) := by
  unfold RoostGroup.Messages
  simp [Outcome.bind, hc, hp]

theorem Messages_malformed_cursor (sc : Strconv) (rg : RoostGroup) (db : DB) (topicID : Nat)
    (cursor : String) (hc : cursor ≠ "") (hp : sc.ParseFloat cursor = none) :
    rg.Messages sc db topicID cursor = .error "strconv.ParseFloat: invalid syntax" := by
  unfold RoostGroup.Messages
  simp [Outcome.bind, hc, hp]

/-- Every successful call returns the record built from some selected rows,
at most a page of them. -/
theorem Messages_ok_result (sc : Strconv) (rg : RoostGroup) (db : DB) (topicID : Nat)
    (cursor : String) (page : PagedMessages) (h : rg.Messages sc db topicID cursor = .ok page) :
    page = RoostGroup.Messages.result sc page.values ∧ page.values.length ≤ MessagesPageSize := by
  by_cases hc : cursor = ""
  · subst hc
    rw [Messages_empty_cursor] at h
    injection h with h
    subst h
    exact ⟨rfl, by
      show (rg.selectMessages db topicID).length ≤ _
      unfold RoostGroup.selectMessages
      rw [List.length_take]; exact min_le_left _ _⟩
  · cases hp : sc.ParseFloat cursor with
    | none =>
      rw [Messages_malformed_cursor sc rg db topicID cursor hc hp] at h
      exact Outcome.noConfusion h
    | some t =>
      rw [Messages_parsed_cursor sc rg db topicID cursor t hc hp] at h
      injection h with h
      subst h
      exact ⟨rfl, by
        show (rg.selectMessagesBefore db topicID t).length ≤ _
        unfold RoostGroup.selectMessagesBefore
        rw [List.length_take]; exact min_le_left _ _⟩

/-- The rows of a page are sorted by `_ctime desc, id` and are stored rows. -/
theorem Messages_values_sorted (sc : Strconv) (rg : RoostGroup) (db : DB) (topicID : Nat)
    (cursor : String) (page : PagedMessages) (h : rg.Messages sc db topicID cursor = .ok page) :
    page.values.Sorted (sqlLE (fun m => -m.CtimeSec) Message.ID) ∧
    ∀ m ∈ page.values, m ∈ db.messages := by
  by_cases hc : cursor = ""
  · subst hc
    rw [Messages_empty_cursor] at h
    injection h with h
    subst h
    refine ⟨(orderBy_sorted _ _ _).sublist (List.take_sublist _ _), ?_⟩
    intro m hm
    have h1 := (List.take_sublist _ _).subset hm
    exact (List.mem_filter.mp ((orderBy_perm _ _ _).mem_iff.mp h1)).1
  · cases hp : sc.ParseFloat cursor with
    | none =>
      rw [Messages_malformed_cursor sc rg db topicID cursor hc hp] at h
      exact Outcome.noConfusion h
    | some t =>
      rw [Messages_parsed_cursor sc rg db topicID cursor t hc hp] at h
      injection h with h
      subst h
      refine ⟨(orderBy_sorted _ _ _).sublist (List.take_sublist _ _), ?_⟩
      intro m hm
      have h1 := (List.take_sublist _ _).subset hm
      exact (List.mem_filter.mp ((orderBy_perm _ _ _).mem_iff.mp h1)).1

/-- The rows of a page fetched with a parsed cursor are older than the
cursor. -/
theorem Messages_values_before (sc : Strconv) (rg : RoostGroup) (db : DB) (topicID : Nat)
    (cursor : String) (t : ℚ) (page : PagedMessages) (hc : cursor ≠ "")
    (hp : sc.ParseFloat cursor = some t) (h : rg.Messages sc db topicID cursor = .ok page) :
    ∀ m ∈ page.values, m.CtimeSec < t := by
  rw [Messages_parsed_cursor sc rg db topicID cursor t hc hp] at h
  injection h with h
  subst h
  intro m hm
  have h1 := (List.take_sublist _ _).subset hm
  have h2 := (List.mem_filter.mp ((orderBy_perm _ _ _).mem_iff.mp h1)).2
  simp only [decide_eq_true_eq] at h2
  exact h2.2.2

/-- No row of a sorted page is older than its last row. -/
theorem last_is_oldest (v : List Message) (last : Message)
    (hs : v.Sorted (sqlLE (fun m => -m.CtimeSec) Message.ID)) (hl : v.getLast? = some last) :
    ∀ m ∈ v, last.CtimeSec ≤ m.CtimeSec := by
  intro m hm
  have hv : v = v.dropLast ++ [last] := (List.dropLast_append_getLast? last hl).symm
  rw [hv] at hm hs
  rcases List.mem_append.mp hm with h | h
  · have := (List.pairwise_append.mp hs).2.2 m h last (List.mem_singleton_self _)
    unfold sqlLE at this
    rcases this with h1 | ⟨h1, _⟩
    · exact le_of_lt (neg_lt_neg_iff.mp h1)
    · exact le_of_eq (neg_injective h1).symm
  · rw [List.mem_singleton.mp h]

/-- The page that `Messages` returns when the cursor stands after the first
`k` messages of the topic: the next twenty of them, or all that are left. -/
theorem Messages_at (sc : Strconv) (rg : RoostGroup) (db : DB) (topicID : Nat)
    (hd : ((rg.allMessages db topicID).map Message.CtimeSec).Nodup)
    (hround : ∀ m ∈ rg.allMessages db topicID,
      sc.ParseFloat (sc.FormatFloat m.CtimeSec) = some m.CtimeSec ∧
      sc.FormatFloat m.CtimeSec ≠ "")
    (k : Nat) (cursor : String)
    (hcur : (k = 0 ∧ cursor = "") ∨
      ∃ m, (rg.allMessages db topicID)[k - 1]? = some m ∧ 0 < k ∧
        cursor = sc.FormatFloat m.CtimeSec) :
    rg.Messages sc db topicID cursor =
      .ok (RoostGroup.Messages.result sc
        (((rg.allMessages db topicID).drop k).take MessagesPageSize)) := by
  rcases hcur with ⟨hk, hc⟩ | ⟨m, hm, hk, hc⟩
  · subst hk; subst hc
    rw [Messages_empty_cursor, selectMessages_eq, List.drop_zero]
  · obtain ⟨hlt, hget⟩ := List.getElem?_eq_some_iff.mp hm
    have hmem : m ∈ rg.allMessages db topicID := hget ▸ List.getElem_mem _
    obtain ⟨hrt, hne⟩ := hround m hmem
    subst hc
    rw [Messages_parsed_cursor sc rg db topicID _ m.CtimeSec hne hrt,
      selectMessagesBefore_eq rg db topicID _ hd,
      filter_before_eq_drop _ (allMessages_strict rg db topicID hd) (k - 1) hlt m.CtimeSec
        (by rw [hget])]
    have : k - 1 + 1 = k := by omega
    rw [this]

/-- Paging from the cursor that stands after the first `k` messages, with
enough fuel: the pages are the rest of the sequence cut into full pages and a
last page that is not full. -/
theorem pagesFrom_drop (sc : Strconv) (rg : RoostGroup) (db : DB) (topicID : Nat)
    (hd : ((rg.allMessages db topicID).map Message.CtimeSec).Nodup)
    (hround : ∀ m ∈ rg.allMessages db topicID,
      sc.ParseFloat (sc.FormatFloat m.CtimeSec) = some m.CtimeSec ∧
      sc.FormatFloat m.CtimeSec ≠ "")
    (fuel k : Nat) (cursor : String)
    (hfuel : ((rg.allMessages db topicID).length - k) / 20 + 1 ≤ fuel)
    (hcur : (k = 0 ∧ cursor = "") ∨
      ∃ m, (rg.allMessages db topicID)[k - 1]? = some m ∧ 0 < k ∧
        cursor = sc.FormatFloat m.CtimeSec) :
    ∃ pages, rg.pagesFrom sc db topicID fuel cursor = some pages ∧
      (pages.map PagedMessages.values).flatten = (rg.allMessages db topicID).drop k ∧
      pages.map PagedMessages.Count =
        List.replicate (((rg.allMessages db topicID).length - k) / 20) 20 ++
          [((rg.allMessages db topicID).length - k) % 20] ∧
      pages.map PagedMessages.AtEnd =
        List.replicate (((rg.allMessages db topicID).length - k) / 20) false ++ [true] := by
  induction fuel generalizing k cursor with
  | zero => omega
  | succ fuel ih =>
    have hpage := Messages_at sc rg db topicID hd hround k cursor hcur
    have h20 : MessagesPageSize = 20 := rfl
    rw [h20] at hpage
    unfold RoostGroup.pagesFrom
    rw [hpage]
    simp only []
    have hlen : (((rg.allMessages db topicID).drop k).take 20).length =
        min 20 ((rg.allMessages db topicID).length - k) := by
      rw [List.length_take, List.length_drop]
    by_cases hfull : (rg.allMessages db topicID).length - k < 20
    · have hl : (((rg.allMessages db topicID).drop k).take 20).length =
          (rg.allMessages db topicID).length - k := by rw [hlen]; omega
      have hat : (RoostGroup.Messages.result sc
          (((rg.allMessages db topicID).drop k).take 20)).AtEnd = true := by
        simp only [RoostGroup.Messages.result, hl, h20, bne_iff_ne, ne_eq]
        omega
      rw [if_pos hat]
      refine ⟨_, rfl, ?_, ?_, ?_⟩
      · simp only [List.map_cons, List.map_nil, List.flatten_cons, List.flatten_nil, List.append_nil]
        show ((rg.allMessages db topicID).drop k).take 20 = _
        rw [List.take_of_length_le]
        rw [List.length_drop]; omega
      · have h0 : ((rg.allMessages db topicID).length - k) / 20 = 0 := by omega
        have h1 : ((rg.allMessages db topicID).length - k) % 20 =
            (rg.allMessages db topicID).length - k := by omega
        rw [h0, h1]
        simp only [List.map_cons, List.map_nil, List.replicate_zero, List.nil_append]
        show [(((rg.allMessages db topicID).drop k).take 20).length] = _
        rw [hl]
      · have h0 : ((rg.allMessages db topicID).length - k) / 20 = 0 := by omega
        rw [h0]
        simp only [List.map_cons, List.map_nil, List.replicate_zero, List.nil_append, hat]
    · have hl : (((rg.allMessages db topicID).drop k).take 20).length = 20 := by
        rw [hlen]; omega
      have hat : ¬ (RoostGroup.Messages.result sc
          (((rg.allMessages db topicID).drop k).take 20)).AtEnd = true := by
        simp only [RoostGroup.Messages.result, hl, h20, bne_self_eq_false]
        exact Bool.false_ne_true
      rw [if_neg hat]
      have hk19 : k + 19 < (rg.allMessages db topicID).length := by omega
      have hlast : (((rg.allMessages db topicID).drop k).take 20).getLast? =
          some (rg.allMessages db topicID)[k + 19] := by
        rw [List.getLast?_eq_getElem?, hl, List.getElem?_take_of_lt (by omega),
          List.getElem?_drop, List.getElem?_eq_getElem hk19]
      have hcursor : (RoostGroup.Messages.result sc
          (((rg.allMessages db topicID).drop k).take 20)).Cursor =
          sc.FormatFloat (rg.allMessages db topicID)[k + 19].CtimeSec := by
        simp only [RoostGroup.Messages.result, hlast]
      obtain ⟨pages, hp, hjoin, hcount, hend⟩ := ih (k + 20)
        (sc.FormatFloat (rg.allMessages db topicID)[k + 19].CtimeSec) (by omega)
        (Or.inr ⟨_, by
          have : k + 20 - 1 = k + 19 := by omega
          rw [this]; exact List.getElem?_eq_getElem hk19, by omega, rfl⟩)
      rw [hcursor, hp]
      have hdiv : ((rg.allMessages db topicID).length - k) / 20 =
          ((rg.allMessages db topicID).length - (k + 20)) / 20 + 1 := by omega
      have hmod : ((rg.allMessages db topicID).length - k) % 20 =
          ((rg.allMessages db topicID).length - (k + 20)) % 20 := by omega
      refine ⟨_, rfl, ?_, ?_, ?_⟩
      · simp only [List.map_cons, List.flatten_cons, hjoin]
        show ((rg.allMessages db topicID).drop k).take 20 ++ _ = _
        have : (rg.allMessages db topicID).drop (k + 20) =
            ((rg.allMessages db topicID).drop k).drop 20 := by
          rw [List.drop_drop]
        rw [this, List.take_append_drop]
      · rw [hdiv, hmod, List.replicate_succ, List.cons_append, ← hcount, List.map_cons]
        congr 1
      · rw [hdiv, List.replicate_succ, List.cons_append, ← hend, List.map_cons]
        congr 1
        exact Bool.eq_false_iff.mpr hat

/-- The fuel that sufficed still suffices with one more call allowed. -/
theorem pagesFrom_mono (sc : Strconv) (rg : RoostGroup) (db : DB) (topicID : Nat)
    (fuel : Nat) (cursor : String) (pages : List PagedMessages)
    (h : rg.pagesFrom sc db topicID fuel cursor = some pages) :
    rg.pagesFrom sc db topicID (fuel + 1) cursor = some pages := by
  induction fuel generalizing cursor pages with
  | zero => simp [RoostGroup.pagesFrom] at h
  | succ fuel ih =>
    rw [RoostGroup.pagesFrom] at h ⊢
    cases hm : rg.Messages sc db topicID cursor with
    | ok page =>
      rw [hm] at h
      simp only [] at h ⊢
      by_cases hat : page.AtEnd = true
      · rw [if_pos hat] at h ⊢
        exact h
      · rw [if_neg hat] at h ⊢
        cases hr : rg.pagesFrom sc db topicID fuel page.Cursor with
        | none => rw [hr] at h; simp at h
        | some ps =>
          rw [hr] at h
          rw [ih page.Cursor ps hr]
          exact h
    | error e => rw [hm] at h; simp at h
    | panic => rw [hm] at h; simp at h

/-- A paging run makes no more calls than its fuel. -/
theorem pagesFrom_length_le (sc : Strconv) (rg : RoostGroup) (db : DB) (topicID : Nat)
    (fuel : Nat) (cursor : String) (pages : List PagedMessages)
    (h : rg.pagesFrom sc db topicID fuel cursor = some pages) :
    pages.length ≤ fuel := by
  induction fuel generalizing cursor pages with
  | zero => simp [RoostGroup.pagesFrom] at h
  | succ fuel ih =>
    rw [RoostGroup.pagesFrom] at h
    cases hm : rg.Messages sc db topicID cursor with
    | ok page =>
      rw [hm] at h
      simp only [] at h
      by_cases hat : page.AtEnd = true
      · rw [if_pos hat] at h
        injection h with h
        subst h
        simp
      · rw [if_neg hat] at h
        cases hr : rg.pagesFrom sc db topicID fuel page.Cursor with
        | none => rw [hr] at h; simp at h
        | some ps =>
          rw [hr] at h
          injection h with h
          subst h
          have := ih page.Cursor ps hr
          simp
          omega
    | error e => rw [hm] at h; simp at h
    | panic => rw [hm] at h; simp at h

/-- Every page of a paging run is the result of a call of `Messages`. -/
theorem pagesFrom_pages_ok (sc : Strconv) (rg : RoostGroup) (db : DB) (topicID : Nat)
    (fuel : Nat) (cursor : String) (pages : List PagedMessages)
    (h : rg.pagesFrom sc db topicID fuel cursor = some pages) :
    ∀ p ∈ pages, ∃ c, rg.Messages sc db topicID c = .ok p := by
  induction fuel generalizing cursor pages with
  | zero => simp [RoostGroup.pagesFrom] at h
  | succ fuel ih =>
    rw [RoostGroup.pagesFrom] at h
    cases hm : rg.Messages sc db topicID cursor with
    | ok page =>
      rw [hm] at h
      simp only [] at h
      by_cases hat : page.AtEnd = true
      · rw [if_pos hat] at h
        injection h with h
        subst h
        intro p hp
        rw [List.mem_singleton] at hp
        subst hp
        exact ⟨cursor, hm⟩
      · rw [if_neg hat] at h
        cases hr : rg.pagesFrom sc db topicID fuel page.Cursor with
        | none => rw [hr] at h; simp at h
        | some ps =>
          rw [hr] at h
          injection h with h
          subst h
          intro p hp
          rcases List.mem_cons.mp hp with rfl | hp
          · exact ⟨cursor, hm⟩
          · exact ih page.Cursor ps hr p hp
    | error e => rw [hm] at h; simp at h
    | panic => rw [hm] at h; simp at h

/-! ## Creating: the inserted row and the list read back -/

theorem foldl_max_spec (xs : List ℚ) (x : ℚ) :
    xs.foldl max x ∈ x :: xs ∧ ∀ y ∈ x :: xs, y ≤ xs.foldl max x := by
  induction xs generalizing x with
  | nil => simp
  | cons a xs ih =>
    obtain ⟨h1, h2⟩ := ih (max x a)
    simp only [List.foldl_cons]
    refine ⟨?_, ?_⟩
    · rcases List.mem_cons.mp h1 with h | h
      · rcases max_choice x a with hc | hc
        · rw [h, hc]; simp
        · rw [h, hc]; simp
      · exact List.mem_cons_of_mem _ (List.mem_cons_of_mem _ h)
    · intro y hy
      rcases List.mem_cons.mp hy with h | h
      · rw [h]; exact le_trans (le_max_left x a) (h2 _ (List.mem_cons_self _ _))
      · rcases List.mem_cons.mp h with h | h
        · rw [h]; exact le_trans (le_max_right x a) (h2 _ (List.mem_cons_self _ _))
        · exact h2 y (List.mem_cons_of_mem _ h)

theorem sqlMax_nil_iff (l : List ℚ) : sqlMax l = none ↔ l = [] := by
  cases l <;> simp [sqlMax]

theorem sqlMax_some (l : List ℚ) (m : ℚ) (h : sqlMax l = some m) :
    m ∈ l ∧ ∀ y ∈ l, y ≤ m := by
  cases l with
  | nil => simp [sqlMax] at h
  | cons x xs =>
    simp only [sqlMax, Option.some.injEq] at h
    rw [← h]
    exact foldl_max_spec xs x

theorem orderedInsert_append_last {α : Type} (r : α → α → Prop) [DecidableRel r]
    (a x : α) (s : List α) (h : r a x) :
    List.orderedInsert r a (s ++ [x]) = List.orderedInsert r a s ++ [x] := by
  induction s with
  | nil => simp [List.orderedInsert, h]
  | cons b s ih =>
    show (if r a b then a :: b :: (s ++ [x]) else b :: List.orderedInsert r a (s ++ [x])) =
      (if r a b then a :: b :: s else b :: List.orderedInsert r a s) ++ [x]
    split
    · rfl
    · rw [ih]; rfl

theorem insertionSort_append_last {α : Type} (r : α → α → Prop) [DecidableRel r]
    (x : α) (l : List α) (h : ∀ a ∈ l, r a x) :
    List.insertionSort r (l ++ [x]) = List.insertionSort r l ++ [x] := by
  induction l with
  | nil => simp
  | cons a l ih =>
    show List.orderedInsert r a (List.insertionSort r (l ++ [x])) =
      List.orderedInsert r a (List.insertionSort r l) ++ [x]
    rw [ih (fun b hb => h b (List.mem_cons_of_mem _ hb))]
    exact orderedInsert_append_last r a x _ (h a (List.mem_cons_self _ _))

theorem orderBy_append_last {α κ : Type} [LinearOrder κ] (k1 : α → ℚ) (k2 : α → κ)
    (x : α) (l : List α) (h : ∀ a ∈ l, k1 a < k1 x) :
    orderBy k1 k2 (l ++ [x]) = orderBy k1 k2 l ++ [x] :=
  insertionSort_append_last _ x l (fun a ha => Or.inl (h a ha))

theorem mem_orderBy {α κ : Type} [LinearOrder κ] (k1 : α → ℚ) (k2 : α → κ)
    (l : List α) (a : α) : a ∈ orderBy k1 k2 l ↔ a ∈ l :=
  (orderBy_perm k1 k2 l).mem_iff

/-- The position that a create call assigns, from the maximum of the
positions `l` of the target list. -/
theorem created_position (u : ℚ) (hu0 : 0 ≤ u) (hu1 : u < 1) (l : List ℚ) :
    (l = [] → (match sqlMax l with | some m => randomPosition u m (m + 2) | none => 0) = 0) ∧
    (∀ y ∈ l, y < (match sqlMax l with | some m => randomPosition u m (m + 2) | none => 0)) ∧
    (∀ m ∈ l, (∀ y ∈ l, y ≤ m) →
      m < (match sqlMax l with | some m => randomPosition u m (m + 2) | none => 0) ∧
      (match sqlMax l with | some m => randomPosition u m (m + 2) | none => 0) < m + 2) := by
  cases hm : sqlMax l with
  | none =>
    have hl := (sqlMax_nil_iff l).mp hm
    subst hl
    simp
  | some m0 =>
    obtain ⟨hmem, hle⟩ := sqlMax_some l m0 hm
    have hgt := randomPosition_gt u m0 (m0 + 2) (by linarith) hu0
    have hlt := randomPosition_lt u m0 (m0 + 2) (by linarith) hu1.le
    refine ⟨?_, ?_, ?_⟩
    · intro hl; subst hl; simp at hmem
    · intro y hy; exact lt_of_le_of_lt (hle y hy) hgt
    · intro m hml hmax
      have : m = m0 := le_antisymm (hle m hml) (hmax m0 hmem)
      subst this
      exact ⟨hgt, hlt⟩

theorem find_append_fresh {α : Type} (p : α → Bool) (l : List α) (x : α)
    (hfresh : ∀ a ∈ l, p a = false) (hx : p x = true) :
    (l ++ [x]).find? p = some x := by
  rw [List.find?_append]
  have : l.find? p = none := by
    rw [List.find?_eq_none]
    intro a ha
    simp [hfresh a ha]
  rw [this]
  simp [List.find?, hx]

theorem CreateTodo_eq (rg : RoostGroup) (db : DB) (u : ℚ) (newID : Nat) (nowTs : ℚ)
    (topicID : Nat) (label : String)
    (hfresh : ∀ t ∈ db.todos, ¬ (t.GroupID = rg.GroupID ∧ t.ID = newID)) :
    rg.CreateTodo db u newID nowTs topicID label =
      .ok (RoostGroup.CreateTodo.row rg db u newID nowTs topicID label,
        { db with
          todos := db.todos ++ [RoostGroup.CreateTodo.row rg db u newID nowTs topicID label] }) := by
  have hrow : ExecuteInsert rg newID nowTs
      { view := "todos",
        props := [("body", .text label), ("topic_id", .blob topicID),
          ("position", .real (RoostGroup.CreateTodo.position rg db u topicID)),
          ("read", .bool true)] } db =
      { db with
        todos := db.todos ++ [RoostGroup.CreateTodo.row rg db u newID nowTs topicID label] } := by
    simp [ExecuteInsert, Todo.setProp, RoostGroup.CreateTodo.row]
  unfold RoostGroup.CreateTodo
  simp only []
  show ((rg.Todo (ExecuteInsert rg newID nowTs
      { view := "todos",
        props := [("body", .text label), ("topic_id", .blob topicID),
          ("position", .real (RoostGroup.CreateTodo.position rg db u topicID)),
          ("read", .bool true)] } db) newID).bind fun todo => Outcome.ok (todo, _)) = _
  rw [hrow]
  unfold RoostGroup.Todo
  simp only []
  rw [find_append_fresh _ _ _ (fun t ht => by simpa using hfresh t ht)
    (by simp [RoostGroup.CreateTodo.row])]
  rfl

theorem CreateTodo_reread (rg : RoostGroup) (db : DB) (u : ℚ) (newID : Nat) (nowTs : ℚ)
    (topicID : Nat) (label : String) (hu0 : 0 ≤ u) (hu1 : u < 1) :
    (rg.Todos { db with
        todos := db.todos ++ [RoostGroup.CreateTodo.row rg db u newID nowTs topicID label] }
      topicID).incompleteTodos =
    (rg.Todos db topicID).incompleteTodos ++
      [RoostGroup.CreateTodo.row rg db u newID nowTs topicID label] := by
  unfold RoostGroup.Todos
  simp only []
  rw [List.filter_append]
  have hx : List.filter (fun t : Roost.Todo =>
      decide (t.GroupID = rg.GroupID ∧ t.TopicID = topicID ∧ t.Deleted = false ∧
        t.CompletedAt = 0)) [RoostGroup.CreateTodo.row rg db u newID nowTs topicID label] =
      [RoostGroup.CreateTodo.row rg db u newID nowTs topicID label] := by
    simp [RoostGroup.CreateTodo.row]
  rw [hx]
  apply orderBy_append_last
  intro a ha
  have := (created_position u hu0 hu1 _).2.1 a.Position (List.mem_map_of_mem _ ha)
  exact this

theorem CreateTopicPinned_eq (rg : RoostGroup) (db : DB) (u : ℚ) (newID : Nat) (nowTs : ℚ)
    (label : String) (pinned : Bool)
    (hfresh : ∀ t ∈ db.topics, ¬ (t.GroupID = rg.GroupID ∧ t.ID = newID)) :
    rg.CreateTopicPinned db u newID nowTs label pinned =
      .ok (RoostGroup.CreateTopicPinned.row rg db u newID nowTs label pinned,
        { db with
          topics := db.topics ++
            [RoostGroup.CreateTopicPinned.row rg db u newID nowTs label pinned] }) := by
  have hrow : ExecuteInsert rg newID nowTs
      { view := "topics",
        props := [("label", .text label), ("pinned", .bool pinned),
          (if pinned then "pin_position" else "position",
            .real (RoostGroup.CreateTopicPinned.position rg db u pinned))] } db =
      { db with
        topics := db.topics ++
          [RoostGroup.CreateTopicPinned.row rg db u newID nowTs label pinned] } := by
    cases pinned <;> simp [ExecuteInsert, Topic.setProp, RoostGroup.CreateTopicPinned.row]
  unfold RoostGroup.CreateTopicPinned RoostGroup.createTopicPinned
  simp only []
  show ((rg.Topic (ExecuteInsert rg newID nowTs
      { view := "topics",
        props := [("label", .text label), ("pinned", .bool pinned),
          (if pinned then "pin_position" else "position",
            .real (RoostGroup.CreateTopicPinned.position rg db u pinned))] } db) newID).bind
      fun topic => Outcome.ok (topic, _)) = _
  rw [hrow]
  unfold RoostGroup.Topic
  simp only []
  rw [find_append_fresh _ _ _ (fun t ht => by simpa using hfresh t ht)
    (by simp [RoostGroup.CreateTopicPinned.row])]
  exact congrArg
    (fun d => Outcome.ok (RoostGroup.CreateTopicPinned.row rg db u newID nowTs label pinned, d))
    hrow

theorem CreateTopicPinned_reread_pinned (rg : RoostGroup) (db : DB) (u : ℚ) (newID : Nat)
    (nowTs : ℚ) (label : String) (hu0 : 0 ≤ u) (hu1 : u < 1) :
    (rg.Topics { db with
        topics := db.topics ++
          [RoostGroup.CreateTopicPinned.row rg db u newID nowTs label true] }).pinnedTopics =
    (rg.Topics db).pinnedTopics ++
      [RoostGroup.CreateTopicPinned.row rg db u newID nowTs label true] := by
  unfold RoostGroup.Topics
  simp only []
  rw [List.filter_append]
  have hx : List.filter (fun t : Roost.Topic =>
      decide (t.GroupID = rg.GroupID ∧ t.Pinned = true))
        [RoostGroup.CreateTopicPinned.row rg db u newID nowTs label true] =
      [RoostGroup.CreateTopicPinned.row rg db u newID nowTs label true] := by
    simp [RoostGroup.CreateTopicPinned.row]
  rw [hx]
  apply orderBy_append_last
  intro a ha
  have := (created_position u hu0 hu1 _).2.1 a.PinPosition (List.mem_map_of_mem _ ha)
  simpa [RoostGroup.CreateTopicPinned.row, RoostGroup.CreateTopicPinned.position] using this

theorem CreateTopicPinned_reread_unpinned (rg : RoostGroup) (db : DB) (u : ℚ) (newID : Nat)
    (nowTs : ℚ) (label : String) (hu0 : 0 ≤ u) (hu1 : u < 1) :
    (rg.Topics { db with
        topics := db.topics ++
          [RoostGroup.CreateTopicPinned.row rg db u newID nowTs label false] }).unpinnedTopics =
    (rg.Topics db).unpinnedTopics ++
      [RoostGroup.CreateTopicPinned.row rg db u newID nowTs label false] := by
  unfold RoostGroup.Topics
  simp only []
  rw [List.filter_append]
  have hx : List.filter (fun t : Roost.Topic =>
      decide (t.GroupID = rg.GroupID ∧ t.Pinned = false))
        [RoostGroup.CreateTopicPinned.row rg db u newID nowTs label false] =
      [RoostGroup.CreateTopicPinned.row rg db u newID nowTs label false] := by
    simp [RoostGroup.CreateTopicPinned.row]
  rw [hx]
  apply orderBy_append_last
  intro a ha
  have := (created_position u hu0 hu1 _).2.1 a.Position (List.mem_map_of_mem _ ha)
  simpa [RoostGroup.CreateTopicPinned.row, RoostGroup.CreateTopicPinned.position] using this

/-! ## Reactions: the stored markers -/

theorem reaction_props_rune (x : Reaction) (active : Bool) (r : String) (entityID : Nat) :
    (([("active", Value.bool active), ("rune", Value.text r),
        ("entity_id", Value.blob entityID)] : List (String × Value)).foldl
      (fun y p => y.setProp p.1 p.2) x).Rune = r := by
  simp [Reaction.setProp]

/-! ## OffsetPager: fetches and fields -/

theorem scanResults_length (fts : Fts) (term hs he : String)
    (rows : List (Content × Option String)) (l : List Result)
    (h : scanResults fts term hs he rows = .ok l) : l.length = rows.length := by
  induction rows generalizing l with
  | nil =>
    simp only [scanResults] at h
    cases h
    rfl
  | cons row rows ih =>
    obtain ⟨c, name⟩ := row
    cases name with
    | none => simp [scanResults] at h
    | some n =>
      simp only [scanResults] at h
      cases hrest : scanResults fts term hs he rows with
      | ok rest =>
        rw [hrest] at h
        simp only [Outcome.bind] at h
        cases h
        simp [ih rest hrest]
      | error e => rw [hrest] at h; simp [Outcome.bind] at h
      | panic => rw [hrest] at h; simp [Outcome.bind] at h

theorem scanResults_ok (fts : Fts) (term hs he : String)
    (rows : List (Content × Option String)) (h : ∀ r ∈ rows, r.2.isSome = true) :
    ∃ l, scanResults fts term hs he rows = .ok l := by
  induction rows with
  | nil => exact ⟨[], rfl⟩
  | cons row rows ih =>
    obtain ⟨c, name⟩ := row
    cases name with
    | none => simpa using h (c, none) (List.mem_cons_self _ _)
    | some n =>
      obtain ⟨rest, hrest⟩ := ih (fun r hr => h r (List.mem_cons_of_mem _ hr))
      refine ⟨{ RowID := c.id, Text := fts.snippet hs he term c.text, EntityID := c.entity_id,
                GroupID := c.group_id, TopicID := c.topic_id, TopicName := n,
                Type_ := c.type_ } :: rest, ?_⟩
      simp only [scanResults, hrest, Outcome.bind]

theorem generateResultsGroup_length (fts : Fts) (db : DB) (groupID : Nat)
    (term hs he : String) (offset : Int) (l : List Result)
    (h : generateResultsGroup fts db groupID term hs he offset = .ok l) :
    l.length ≤ PageSize := by
  unfold generateResultsGroup at h
  cases hm : fts.match_ term with
  | none => rw [hm] at h; simp at h
  | some m =>
    rw [hm] at h
    simp only [] at h
    rw [scanResults_length _ _ _ _ _ _ h, List.length_take]
    exact Nat.min_le_left _ _

/-- The fetch succeeds for every term that is a query when each indexed entry
of the group lies in a stored topic. -/
theorem generateResultsGroup_ok (fts : Fts) (db : DB) (groupID : Nat)
    (term hs he : String) (offset : Int) (m : String → Bool) (hm : fts.match_ term = some m)
    (htopics : ∀ c ∈ db.contents, c.group_id = groupID →
      ∃ t ∈ db.topics, t.GroupID = c.group_id ∧ t.ID = c.topic_id) :
    ∃ l, generateResultsGroup fts db groupID term hs he offset = .ok l := by
  unfold generateResultsGroup
  rw [hm]
  simp only []
  apply scanResults_ok
  intro r hr
  have h1 := List.mem_of_mem_take hr
  have h2 := List.mem_of_mem_drop h1
  rw [(orderBy_perm _ _ _).mem_iff] at h2
  rw [List.mem_flatMap] at h2
  obtain ⟨c, hc, hrc⟩ := h2
  rw [List.mem_filter] at hc
  simp only [decide_eq_true_eq] at hc
  obtain ⟨t, ht, htc⟩ := htopics c hc.1 hc.2.1
  cases hf : db.topics.filter fun t => t.GroupID = c.group_id ∧ t.ID = c.topic_id with
  | nil =>
    have : t ∈ db.topics.filter fun t => t.GroupID = c.group_id ∧ t.ID = c.topic_id := by
      rw [List.mem_filter]; exact ⟨ht, by simpa using htc⟩
    rw [hf] at this
    simp at this
  | cons t1 ts =>
    rw [hf] at hrc
    simp only [List.mem_map] at hrc
    obtain ⟨x, _, rfl⟩ := hrc
    rfl

theorem NextPage_ok (fts : Fts) (db : DB) (res r : SearchResults)
    (h : NextPage fts db res = .ok r) :
    generateResultsGroup fts db res.GroupID res.Term res.HighlightStart res.HighlightEnd
      (res.Offset + 100) = .ok r.results ∧
    r = { res with results := r.results, Count := r.results.length, Offset := res.Offset + 100 } := by
  unfold NextPage at h
  simp only [] at h
  have e : ((PageSize : Nat) : Int) = 100 := rfl
  rw [e] at h
  cases hg : generateResultsGroup fts db res.GroupID res.Term res.HighlightStart res.HighlightEnd
      (res.Offset + 100) with
  | ok l =>
    rw [hg] at h
    simp only [Outcome.bind] at h
    cases h
    exact ⟨rfl, rfl⟩
  | error e => rw [hg] at h; simp [Outcome.bind] at h
  | panic => rw [hg] at h; simp [Outcome.bind] at h

theorem Search_ok (fts : Fts) (db : DB) (groupID : Nat) (term hs he : String)
    (r : SearchResults) (h : Search fts db groupID term hs he = .ok r) :
    generateResultsGroup fts db groupID term hs he 0 = .ok r.results ∧
    generateTotal fts db term = .ok r.Total ∧
    r = { GroupID := groupID, Term := term, HighlightStart := hs, HighlightEnd := he,
          Offset := 0, Total := r.Total, Count := r.results.length, results := r.results } := by
  unfold Search at h
  cases hg : generateResultsGroup fts db groupID term hs he 0 with
  | ok l =>
    rw [hg] at h
    simp only [Outcome.bind] at h
    cases ht : generateTotal fts db term with
    | ok total =>
      rw [ht] at h
      simp only [] at h
      cases h
      exact ⟨rfl, rfl, rfl⟩
    | error e => rw [ht] at h; simp at h
    | panic => rw [ht] at h; simp at h
  | error e => rw [hg] at h; simp [Outcome.bind] at h
  | panic => rw [hg] at h; simp [Outcome.bind] at h

theorem nextPages_fields (fts : Fts) (dbs : List DB) (r0 r : SearchResults)
    (h : nextPages fts dbs r0 = .ok r) :
    r.Offset = r0.Offset + 100 * (dbs.length : Int) ∧ r.Total = r0.Total ∧
    r.GroupID = r0.GroupID ∧ r.Term = r0.Term ∧ r.HighlightStart = r0.HighlightStart ∧
    r.HighlightEnd = r0.HighlightEnd := by
  induction dbs generalizing r0 with
  | nil =>
    simp only [nextPages] at h
    cases h
    simp
  | cons db dbs ih =>
    simp only [nextPages] at h
    cases hn : NextPage fts db r0 with
    | ok r1 =>
      rw [hn] at h
      simp only [Outcome.bind] at h
      obtain ⟨h1, h2, h3, h4, h5, h6⟩ := ih r1 h
      obtain ⟨_, e⟩ := NextPage_ok fts db r0 r1 hn
      rw [e] at h1 h2 h3 h4 h5 h6
      simp only [] at h1 h2 h3 h4 h5 h6
      refine ⟨?_, h2, h3, h4, h5, h6⟩
      rw [h1, List.length_cons]
      push_cast
      ring
    | error e => rw [hn] at h; simp [Outcome.bind] at h
    | panic => rw [hn] at h; simp [Outcome.bind] at h

theorem nextPages_succeeds (fts : Fts) (groupID : Nat) (term : String) (m : String → Bool)
    (hm : fts.match_ term = some m) (dbs : List DB)
    (htopics : ∀ d ∈ dbs, ∀ c ∈ d.contents, c.group_id = groupID →
      ∃ t ∈ d.topics, t.GroupID = c.group_id ∧ t.ID = c.topic_id)
    (r0 : SearchResults) (hg : r0.GroupID = groupID) (ht : r0.Term = term) :
    ∃ rk, nextPages fts dbs r0 = .ok rk := by
  induction dbs generalizing r0 with
  | nil => exact ⟨r0, rfl⟩
  | cons d dbs ih =>
    obtain ⟨l, hl⟩ := generateResultsGroup_ok fts d groupID term r0.HighlightStart
      r0.HighlightEnd (r0.Offset + (PageSize : Int)) m hm (htopics d (List.mem_cons_self _ _))
    have h1 : NextPage fts d r0 =
        .ok { r0 with results := l, Count := l.length, Offset := r0.Offset + (PageSize : Int) } := by
      unfold NextPage
      simp only []
      rw [hg, ht, hl]
      rfl
    obtain ⟨rk, hrk⟩ := ih (fun e he => htopics e (List.mem_cons_of_mem _ he))
      { r0 with results := l, Count := l.length, Offset := r0.Offset + (PageSize : Int) } hg ht
    exact ⟨rk, by simp only [nextPages, h1, Outcome.bind]; exact hrk⟩

theorem Search_succeeds (fts : Fts) (db : DB) (groupID : Nat) (term hs he : String)
    (m : String → Bool) (hm : fts.match_ term = some m)
    (htopics : ∀ c ∈ db.contents, c.group_id = groupID →
      ∃ t ∈ db.topics, t.GroupID = c.group_id ∧ t.ID = c.topic_id) :
    ∃ r, Search fts db groupID term hs he = .ok r := by
  obtain ⟨l, hl⟩ := generateResultsGroup_ok fts db groupID term hs he 0 m hm htopics
  unfold Search
  rw [hl]
  simp only [Outcome.bind, generateTotal, hm]
  exact ⟨_, rfl⟩

/-! ## UpdateDispatcher: receiving -/

theorem Next_closed_empty (u : Updates) (hc : u.updates.closed = true)
    (he : u.updates.buffer = []) :
    u.Next = some { updates := u.updates, item := none } := by
  unfold Updates.Next Chan.recv
  rw [he]
  simp [hc]

theorem Next_open_empty (u : Updates) (hc : u.updates.closed = false)
    (he : u.updates.buffer = []) : u.Next = none := by
  unfold Updates.Next Chan.recv
  rw [he]
  simp [hc]

theorem Next_queued (u : Updates) (x : Option Payload) (rest : List (Option Payload))
    (he : u.updates.buffer = x :: rest) :
    u.Next = some { updates := { u.updates with buffer := rest }, item := x } := by
  unfold Updates.Next Chan.recv
  rw [he]

theorem nextN_closed_empty (n : Nat) (u : Updates) (hc : u.updates.closed = true)
    (he : u.updates.buffer = []) :
    Updates.nextN (n + 1) u = some { updates := u.updates, item := none } := by
  induction n generalizing u with
  | zero =>
    simp only [Updates.nextN, Next_closed_empty u hc he]
  | succ n ih =>
    rw [Updates.nextN, Next_closed_empty u hc he]
    exact ih { updates := u.updates, item := none } hc he

theorem Type_Finished_iff (u : Updates) : u.Type_ = UpdateFinished ↔ u.item = none := by
  unfold Updates.Type_
  cases u.item with
  | none => simp
  | some p => cases p <;> simp <;> decide

/-! ## UpdateDispatcher: runs of sends and receives -/

theorem push_open (u : Updates) (x : Option Payload) (hc : u.updates.closed = false)
    (hl : u.updates.buffer.length < Chan.capacity) :
    u.push x = some { u with updates := { u.updates with buffer := u.updates.buffer ++ [x] } } := by
  unfold Updates.push Chan.send
  rw [if_pos ⟨hc, hl⟩]

theorem push_some (u v : Updates) (x : Option Payload) (h : u.push x = some v) :
    u.updates.closed = false ∧ u.updates.buffer.length < Chan.capacity ∧
    v = { u with updates := { u.updates with buffer := u.updates.buffer ++ [x] } } := by
  unfold Updates.push Chan.send at h
  by_cases hp : u.updates.closed = false ∧ u.updates.buffer.length < Chan.capacity
  · rw [if_pos hp] at h
    simp only [Option.some.injEq] at h
    exact ⟨hp.1, hp.2, h.symm⟩
  · rw [if_neg hp] at h
    simp at h

theorem Next_some_open (u v : Updates) (hc : u.updates.closed = false) (h : u.Next = some v) :
    u.updates.buffer = v.item :: v.updates.buffer ∧ v.updates.closed = false := by
  unfold Updates.Next Chan.recv at h
  cases hb : u.updates.buffer with
  | nil =>
    rw [hb] at h
    simp [hc] at h
  | cons x rest =>
    rw [hb] at h
    simp only [Option.some.injEq] at h
    subst h
    exact ⟨rfl, hc⟩

theorem run_fifo (ops : List ChanOp) (u v : Updates) (got : List (Option Payload))
    (hc : u.updates.closed = false) (h : Updates.run u ops = some (v, got)) :
    u.updates.buffer ++ ChanOp.pushed ops = got ++ v.updates.buffer ∧
    got.length = ops.count .next ∧ v.updates.closed = false := by
  induction ops generalizing u got with
  | nil =>
    simp only [Updates.run, Option.some.injEq, Prod.mk.injEq] at h
    obtain ⟨rfl, rfl⟩ := h
    simp [ChanOp.pushed, hc]
  | cons op ops ih =>
    cases op with
    | push x =>
      simp only [Updates.run] at h
      cases hp : u.push x with
      | none => rw [hp] at h; simp at h
      | some u1 =>
        rw [hp] at h
        simp only [] at h
        obtain ⟨_, _, e⟩ := push_some u u1 x hp
        have hc1 : u1.updates.closed = false := by rw [e]; exact hc
        obtain ⟨h1, h2, h3⟩ := ih u1 got hc1 h
        refine ⟨?_, ?_, h3⟩
        · rw [← h1, e]
          simp [ChanOp.pushed]
        · rw [h2]
          simp [List.count_cons]
    | next =>
      simp only [Updates.run] at h
      cases hn : u.Next with
      | none => rw [hn] at h; simp at h
      | some u1 =>
        rw [hn] at h
        simp only [] at h
        obtain ⟨e, hc1⟩ := Next_some_open u u1 hc hn
        cases hr : Updates.run u1 ops with
        | none => rw [hr] at h; simp at h
        | some p =>
          obtain ⟨u2, got2⟩ := p
          rw [hr] at h
          simp only [Option.some.injEq, Prod.mk.injEq] at h
          obtain ⟨rfl, rfl⟩ := h
          obtain ⟨h1, h2, h3⟩ := ih u1 got2 hc1 hr
          refine ⟨?_, ?_, h3⟩
          · rw [e]
            simp only [ChanOp.pushed, List.cons_append]
            rw [h1]
          · simp [List.count_cons, h2]

theorem run_alternate (xs : List (Option Payload)) (u : Updates)
    (hc : u.updates.closed = false) (he : u.updates.buffer = []) :
    ∃ v, Updates.run u (ChanOp.alternate xs) = some (v, xs) ∧ v.updates = u.updates := by
  induction xs generalizing u with
  | nil => exact ⟨u, rfl, rfl⟩
  | cons x xs ih =>
    have hp := push_open u x hc (by rw [he]; decide)
    obtain ⟨v, hv, hvu⟩ := ih { updates := u.updates, item := x } hc he
    refine ⟨v, ?_, hvu⟩
    show Updates.run u (.push x :: .next :: ChanOp.alternate xs) = _
    simp only [Updates.run, hp, he, List.nil_append, Updates.Next, Chan.recv]
    have e : ({ buffer := [], closed := u.updates.closed } : Chan) = u.updates := by
      rw [← he]
    rw [e, hv]

theorem run_pushes (xs : List (Option Payload)) (ops : List ChanOp)
    (b : List (Option Payload)) (it : Option Payload)
    (hl : b.length + xs.length ≤ Chan.capacity) :
    Updates.run ⟨⟨b, false⟩, it⟩ (xs.map .push ++ ops) =
      Updates.run ⟨⟨b ++ xs, false⟩, it⟩ ops := by
  induction xs generalizing b with
  | nil => simp
  | cons x xs ih =>
    have hlt : b.length < Chan.capacity := by
      simp only [List.length_cons] at hl; omega
    have hstep : Updates.run ⟨⟨b, false⟩, it⟩ (.push x :: (xs.map .push ++ ops)) =
        Updates.run ⟨⟨b ++ [x], false⟩, it⟩ (xs.map .push ++ ops) := by
      simp only [Updates.run, Updates.push, Chan.send, hlt, and_self, if_true]
    rw [List.map_cons, List.cons_append, hstep, ih (b ++ [x])
      (by simp only [List.length_append, List.length_cons, List.length_nil] at hl ⊢; omega)]
    simp

theorem run_nexts (ys : List (Option Payload)) (u : Updates) (he : u.updates.buffer = ys) :
    ∃ v, Updates.run u (List.replicate ys.length .next) = some (v, ys) ∧
      v.updates = { u.updates with buffer := [] } := by
  induction ys generalizing u with
  | nil => exact ⟨u, rfl, by rw [← he]⟩
  | cons y ys ih =>
    obtain ⟨v, hv, hvu⟩ := ih { updates := { u.updates with buffer := ys }, item := y } rfl
    refine ⟨v, ?_, hvu⟩
    simp only [List.length_cons, List.replicate_succ, Updates.run, Updates.Next, Chan.recv, he, hv]

/-! ## Todo lists and transport states -/

theorem orderBy_keys_sorted {α κ : Type} [LinearOrder κ] (k1 : α → ℚ) (k2 : α → κ)
    (rows : List α) : ((orderBy k1 k2 rows).map k1).Sorted (fun a b => a ≤ b) := by
  have h := orderBy_sorted k1 k2 rows
  unfold List.Sorted at h ⊢
  rw [List.pairwise_map]
  refine h.imp ?_
  intro a b hab
  rcases hab with hlt | ⟨heq, _⟩
  · exact le_of_lt hlt
  · exact le_of_eq heq

theorem filter_split_perm {α : Type} (l : List α) (p q : α → Bool) :
    ((l.filter fun a => p a && q a) ++ (l.filter fun a => p a && !q a)).Perm (l.filter p) := by
  induction l with
  | nil => simp
  | cons a l ih =>
    cases hp : p a <;> cases hq : q a <;> simp only [List.filter_cons, hp, hq, Bool.and_true,
      Bool.and_false, Bool.not_true, Bool.not_false, Bool.false_and, if_true, if_false,
      Bool.false_eq_true, List.cons_append]
    · exact ih
    · exact ih
    · exact List.perm_middle.trans (ih.cons a)
    · exact ih.cons a

theorem sortStrings_perm (keys : List String) : (sortStrings keys).Perm keys :=
  List.perm_insertionSort _ keys

theorem sortStrings_strict (keys : List String) (hk : keys.Nodup) :
    (sortStrings keys).Pairwise fun a b => a < b := by
  haveI : IsTotal String (fun a b => a.data ≤ b.data) := ⟨fun a b => le_total a.data b.data⟩
  haveI : IsTrans String (fun a b => a.data ≤ b.data) :=
    ⟨fun a b c h1 h2 => le_trans h1 h2⟩
  have hs : (sortStrings keys).Pairwise (fun a b => a.data ≤ b.data) :=
    List.sorted_insertionSort _ keys
  have hn : (sortStrings keys).Nodup := (sortStrings_perm keys).nodup_iff.mpr hk
  have hne : (sortStrings keys).Pairwise (fun a b => a ≠ b) := hn
  refine (hs.and hne).imp ?_
  intro a b h
  rw [String.lt_iff_toList_lt]
  refine lt_of_le_of_ne h.1 ?_
  intro e
  exact h.2 (String.ext e)

theorem mapIndex_mem (m : List (String × String)) (k : String)
    (hk : k ∈ m.map Prod.fst) : (k, mapIndex m k) ∈ m := by
  induction m with
  | nil => simp at hk
  | cons e m ih =>
    obtain ⟨k1, v1⟩ := e
    unfold mapIndex
    by_cases h : k = k1
    · subst h
      simp [List.lookup]
    · have hk2 : k ∈ m.map Prod.fst := by
        simp only [List.map_cons, List.mem_cons] at hk
        rcases hk with hk | hk
        · exact absurd hk h
        · exact hk
      have hb : (k == k1) = false := by simpa using h
      simp only [List.lookup, hb]
      exact List.mem_cons_of_mem _ (ih hk2)

theorem mapIndex_of_mem (m : List (String × String)) (hk : (m.map Prod.fst).Nodup)
    (k v : String) (h : (k, v) ∈ m) : mapIndex m k = v := by
  have h1 := mapIndex_mem m k (List.mem_map_of_mem Prod.fst h)
  by_contra hne
  have := List.inj_on_of_nodup_map hk h1 h rfl
  exact hne (congrArg Prod.snd this)

/-! ## OrderedListReorder: the interval and the batch -/

theorem targetPosition_eq_interval (u : ℚ) (p : List ℚ) (i j : Nat) :
    targetPosition u p i j =
      randomPosition u (targetInterval p i j).1 (targetInterval p i j).2 := by
  unfold targetPosition targetInterval
  split
  · rfl
  · split
    · rfl
    · split <;> rfl

theorem targetInterval_ordered (p : List ℚ) (i j : Nat) (hp : p.Pairwise (· < ·))
    (hj : j < p.length) : (targetInterval p i j).1 < (targetInterval p i j).2 := by
  unfold targetInterval
  split
  · simp
  · split
    · simp
    · rename_i h0 hn
      split
      · have h1 : j + 1 < p.length := by omega
        rw [List.getD_eq_getElem _ _ hj, List.getD_eq_getElem _ _ h1]
        exact List.pairwise_iff_getElem.mp hp j (j + 1) hj h1 (by omega)
      · have h1 : j - 1 < p.length := by omega
        rw [List.getD_eq_getElem _ _ hj, List.getD_eq_getElem _ _ h1]
        exact List.pairwise_iff_getElem.mp hp (j - 1) j h1 hj (by omega)

theorem enumFrom_filter_ne {α : Type} (l : List α) (k i : Nat) :
    ((l.enumFrom k).filter fun p => decide (p.1 ≠ k + i)).map Prod.snd = l.eraseIdx i := by
  induction l generalizing k i with
  | nil => rfl
  | cons a l ih =>
    cases i with
    | zero =>
      simp only [List.enumFrom_cons, List.filter_cons, Nat.add_zero, ne_eq, not_true_eq_false,
        decide_False, Bool.false_eq_true, if_false, List.eraseIdx_cons_zero]
      have h := ih (k + 1) l.length
      rw [List.eraseIdx_of_length_le (le_refl _)] at h
      have hf : ((l.enumFrom (k + 1)).filter fun p => decide (p.1 ≠ k)) =
          (l.enumFrom (k + 1)).filter fun p => decide (p.1 ≠ k + 1 + l.length) := by
        apply List.filter_congr
        intro p hp
        have := List.fst_lt_add_of_mem_enumFrom hp
        have := List.le_fst_of_mem_enumFrom hp
        simp only [ne_eq, decide_not, Bool.not_eq_eq_eq_not, Bool.not_not, decide_eq_decide]
        constructor <;> intro <;> omega
      rw [hf]
      exact h
    | succ i =>
      simp only [List.enumFrom_cons, List.filter_cons, List.eraseIdx_cons_succ]
      have hne : decide (k ≠ k + (i + 1)) = true := by
        simp only [ne_eq, decide_not, Bool.not_eq_eq_eq_not, Bool.not_true, decide_eq_false_iff_not]
        omega
      rw [if_pos hne, List.map_cons]
      have h := ih (k + 1) i
      rw [show k + 1 + i = k + (i + 1) by omega] at h
      rw [h]

theorem todo_applyUpdate_other_view (g : Nat) (w : Update) (t : Todo) (h : w.view ≠ "todos") :
    Todo.applyUpdate g w t = t := by
  unfold Todo.applyUpdate
  rw [if_neg (fun hc => h hc.1)]

theorem topic_applyUpdate_other_view (g : Nat) (w : Update) (t : Topic)
    (h : w.view ≠ "topics") : Topic.applyUpdate g w t = t := by
  unfold Topic.applyUpdate
  rw [if_neg (fun hc => h hc.1)]

theorem reaction_applyUpdate_other_view (g : Nat) (w : Update) (r : Reaction)
    (h : w.view ≠ "reactions") : Reaction.applyUpdate g w r = r := by
  unfold Reaction.applyUpdate
  rw [if_neg (fun hc => h hc.1)]

/-- A batch of updates of the view `topics` changes no row of another view. -/
theorem Execute_topics_only (g : Nat) (ws : List Update) (db : DB)
    (hv : ∀ w ∈ ws, w.view = "topics") :
    Execute g ws db =
      { db with
        topics := db.topics.map fun t => ws.foldl (fun r w => Topic.applyUpdate g w r) t } := by
  induction ws generalizing db with
  | nil => simp [Execute]
  | cons w ws ih =>
    have hw : w.view = "topics" := hv w (List.mem_cons_self _ _)
    have h1 : ∀ t : Todo, Todo.applyUpdate g w t = t :=
      fun t => todo_applyUpdate_other_view g w t (by rw [hw]; decide)
    have h2 : ∀ r : Reaction, Reaction.applyUpdate g w r = r :=
      fun r => reaction_applyUpdate_other_view g w r (by rw [hw]; decide)
    have hstep : Execute g (w :: ws) db =
        Execute g ws { db with topics := db.topics.map (Topic.applyUpdate g w) } := by
      show Execute g ws _ = _
      congr 1
      simp only [funext h1, funext h2, List.map_id']
    rw [hstep, ih _ (fun x hx => hv x (List.mem_cons_of_mem _ hx))]
    simp only [List.map_map, List.foldl_cons]
    rfl

/-- A batch of updates of the view `todos` changes no row of another view. -/
theorem Execute_todos_only (g : Nat) (ws : List Update) (db : DB)
    (hv : ∀ w ∈ ws, w.view = "todos") :
    Execute g ws db =
      { db with
        todos := db.todos.map fun t => ws.foldl (fun r w => Todo.applyUpdate g w r) t } := by
  induction ws generalizing db with
  | nil => simp [Execute]
  | cons w ws ih =>
    have hw : w.view = "todos" := hv w (List.mem_cons_self _ _)
    have h1 : ∀ t : Topic, Topic.applyUpdate g w t = t :=
      fun t => topic_applyUpdate_other_view g w t (by rw [hw]; decide)
    have h2 : ∀ r : Reaction, Reaction.applyUpdate g w r = r :=
      fun r => reaction_applyUpdate_other_view g w r (by rw [hw]; decide)
    have hstep : Execute g (w :: ws) db =
        Execute g ws { db with todos := db.todos.map (Todo.applyUpdate g w) } := by
      show Execute g ws _ = _
      congr 1
      simp only [funext h1, funext h2, List.map_id']
    rw [hstep, ih _ (fun x hx => hv x (List.mem_cons_of_mem _ hx))]
    simp only [List.map_map, List.foldl_cons]
    rfl

theorem targetTopics_ids_distinct (rg : RoostGroup) (db : DB) (pinned : Bool)
    (hkey : (db.topics.map fun t => (t.GroupID, t.ID)).Nodup) :
    (RoostGroup.MoveTopic.targetTopics pinned (rg.Topics db)).Pairwise
      fun a b => a.ID ≠ b.ID := by
  rw [moveTopic_targetTopics_eq]
  refine ids_distinct Topic.GroupID Topic.ID db.topics _ (RoostGroup.MoveTopic.sel rg pinned)
    rg.GroupID hkey (orderBy_perm _ _ _) ?_
  intro a ha
  unfold RoostGroup.MoveTopic.sel at ha
  cases pinned <;> simp at ha <;> exact ha.1

/-! ## OrderedListReorder: what a move reads and writes -/

theorem bind_ok_iff {α β : Type} (x : Outcome α) (f : α → Outcome β) (b : β) :
    x.bind f = .ok b ↔ ∃ a, x = .ok a ∧ f a = .ok b := by
  cases x with
  | ok a => simp [Outcome.bind]
  | error e => simp [Outcome.bind]
  | panic => simp [Outcome.bind]

theorem index_ok_mem {α : Type} (xs : List α) (z : Int) (a : α) (h : index xs z = .ok a) :
    a ∈ xs := by
  unfold index at h
  split at h
  · split at h
    · rename_i b hb
      cases h
      exact List.get?_mem hb
    · cases h
  · cases h

theorem index_bind_map {α β γ : Type} (f : α → β) (xs : List α) (z : Int)
    (F : β → Outcome γ) :
    (index xs z).bind (fun a => F (f a)) = (index (xs.map f) z).bind F := by
  unfold index
  split
  · simp only [List.get?_eq_getElem?, List.getElem?_map]
    cases xs[z.toNat]? <;> rfl
  · rfl

theorem choice_congr {α β : Type} (xs : List α) (ys : List β) (pos1 : α → ℚ) (pos2 : β → ℚ)
    (h : xs.map pos1 = ys.map pos2) (u : ℚ) (i j : Int) :
    (if j = 0 then
      (index xs 0).bind fun a =>
      .ok (randomPosition u (pos1 a - 2) (pos1 a))
    else if j = (xs.length : Int) - 1 then
      (index xs ((xs.length : Int) - 1)).bind fun a =>
      .ok (randomPosition u (pos1 a) (pos1 a + 2))
    else if j > i then
      (index xs j).bind fun a =>
      (index xs (j + 1)).bind fun b =>
      .ok (randomPosition u (pos1 a) (pos1 b))
    else
      (index xs (j - 1)).bind fun a =>
      (index xs j).bind fun b =>
      .ok (randomPosition u (pos1 a) (pos1 b))) =
    ((if j = 0 then
      (index ys 0).bind fun a =>
      .ok (randomPosition u (pos2 a - 2) (pos2 a))
    else if j = (ys.length : Int) - 1 then
      (index ys ((ys.length : Int) - 1)).bind fun a =>
      .ok (randomPosition u (pos2 a) (pos2 a + 2))
    else if j > i then
      (index ys j).bind fun a =>
      (index ys (j + 1)).bind fun b =>
      .ok (randomPosition u (pos2 a) (pos2 b))
    else
      (index ys (j - 1)).bind fun a =>
      (index ys j).bind fun b =>
      .ok (randomPosition u (pos2 a) (pos2 b))) : Outcome ℚ) := by
  have hlen : xs.length = ys.length := by
    have := congrArg List.length h
    simpa using this
  have e1 : ∀ (z : Int) (F : ℚ → Outcome ℚ),
      (index xs z).bind (fun a => F (pos1 a)) = (index ys z).bind (fun a => F (pos2 a)) := by
    intro z F
    rw [index_bind_map pos1, index_bind_map pos2, h]
  have e2 : ∀ (z1 z2 : Int),
      ((index xs z1).bind fun a => (index xs z2).bind fun b =>
        (Outcome.ok (randomPosition u (pos1 a) (pos1 b)) : Outcome ℚ)) =
      ((index ys z1).bind fun a => (index ys z2).bind fun b =>
        (Outcome.ok (randomPosition u (pos2 a) (pos2 b)) : Outcome ℚ)) := by
    intro z1 z2
    have s1 := e1 z1 (fun x => (index xs z2).bind fun b =>
      (Outcome.ok (randomPosition u x (pos1 b)) : Outcome ℚ))
    refine s1.trans ?_
    congr 1
    funext a
    exact e1 z2 (fun y => Outcome.ok (randomPosition u (pos2 a) y))
  rw [hlen]
  split
  · exact e1 0 (fun x => Outcome.ok (randomPosition u (x - 2) x))
  · split
    · exact e1 _ (fun x => Outcome.ok (randomPosition u x (x + 2)))
    · split
      · exact e2 _ _
      · exact e2 _ _

theorem topic_batch_congr (l1 l2 : List Topic) (z : Int) (c : Outcome ℚ) (r : List Update)
    (view posProp : String) (h : l1.map Topic.ID = l2.map Topic.ID) :
    ((index l1 z).bind fun topic => c.bind fun q =>
      (Outcome.ok (r ++ [{ view := view, id := topic.ID, props := [(posProp, .real q)] }]) :
        Outcome (List Update))) =
    ((index l2 z).bind fun topic => c.bind fun q =>
      (Outcome.ok (r ++ [{ view := view, id := topic.ID, props := [(posProp, .real q)] }]) :
        Outcome (List Update))) := by
  have e := index_bind_map Topic.ID l1 z (fun ident => c.bind fun q =>
    (Outcome.ok (r ++ [{ view := view, id := ident, props := [(posProp, .real q)] }]) :
      Outcome (List Update)))
  have e2 := index_bind_map Topic.ID l2 z (fun ident => c.bind fun q =>
    (Outcome.ok (r ++ [{ view := view, id := ident, props := [(posProp, .real q)] }]) :
      Outcome (List Update)))
  exact e.trans ((congrArg (fun l => (index l z).bind _) h).trans e2.symm)

theorem todo_batch_congr (l1 l2 : List Todo) (z : Int) (c : Outcome ℚ)
    (view posProp : String) (h : l1.map Todo.ID = l2.map Todo.ID) :
    ((index l1 z).bind fun todo => c.bind fun q =>
      (Outcome.ok [{ view := view, id := todo.ID, props := [(posProp, .real q)] }] :
        Outcome (List Update))) =
    ((index l2 z).bind fun todo => c.bind fun q =>
      (Outcome.ok [{ view := view, id := todo.ID, props := [(posProp, .real q)] }] :
        Outcome (List Update))) := by
  have e := index_bind_map Todo.ID l1 z (fun ident => c.bind fun q =>
    (Outcome.ok [{ view := view, id := ident, props := [(posProp, .real q)] }] :
      Outcome (List Update)))
  have e2 := index_bind_map Todo.ID l2 z (fun ident => c.bind fun q =>
    (Outcome.ok [{ view := view, id := ident, props := [(posProp, .real q)] }] :
      Outcome (List Update)))
  exact e.trans ((congrArg (fun l => (index l z).bind _) h).trans e2.symm)

theorem repair_congr (pinned : Bool) (f : Int) (k : Nat) (l1 l2 : List Topic)
    (h : l1.map Topic.ID = l2.map Topic.ID) :
    (RoostGroup.MoveTopic.repair pinned f k l1).2 =
      (RoostGroup.MoveTopic.repair pinned f k l2).2 ∧
    (RoostGroup.MoveTopic.repair pinned f k l1).1.map Topic.ID =
      (RoostGroup.MoveTopic.repair pinned f k l2).1.map Topic.ID ∧
    (RoostGroup.MoveTopic.repair pinned f k l1).1.map (RoostGroup.MoveTopic.pos pinned) =
      (RoostGroup.MoveTopic.repair pinned f k l2).1.map (RoostGroup.MoveTopic.pos pinned) := by
  induction l1 generalizing l2 k with
  | nil =>
    cases l2 with
    | nil => exact ⟨rfl, rfl, rfl⟩
    | cons b l2 => simp at h
  | cons a l1 ih =>
    cases l2 with
    | nil => simp at h
    | cons b l2 =>
      simp only [List.map_cons, List.cons.injEq] at h
      obtain ⟨h1, h2, h3⟩ := ih (k + 1) l2 h.2
      simp only [RoostGroup.MoveTopic.repair, List.map_cons, h1, h2, h3, h.1]
      refine ⟨trivial, ?_, ?_⟩
      · cases pinned <;> simp [h.1]
      · cases pinned <;> simp [RoostGroup.MoveTopic.pos]

theorem atZero_eq_all (pinned : Bool) (l : List Topic) :
    RoostGroup.MoveTopic.atZero pinned l =
      (l.map (RoostGroup.MoveTopic.pos pinned)).all fun x => decide (x = 0) := by
  unfold RoostGroup.MoveTopic.atZero
  induction l with
  | nil => rfl
  | cons a l ih => simp only [List.all_cons, List.map_cons, ih]

theorem repaired_congr (pinned : Bool) (f : Int) (l1 l2 : List Topic)
    (hid : l1.map Topic.ID = l2.map Topic.ID)
    (hpos : l1.map (RoostGroup.MoveTopic.pos pinned) =
      l2.map (RoostGroup.MoveTopic.pos pinned)) :
    (RoostGroup.MoveTopic.repaired pinned f l1).2 =
      (RoostGroup.MoveTopic.repaired pinned f l2).2 ∧
    (RoostGroup.MoveTopic.repaired pinned f l1).1.map Topic.ID =
      (RoostGroup.MoveTopic.repaired pinned f l2).1.map Topic.ID ∧
    (RoostGroup.MoveTopic.repaired pinned f l1).1.map (RoostGroup.MoveTopic.pos pinned) =
      (RoostGroup.MoveTopic.repaired pinned f l2).1.map (RoostGroup.MoveTopic.pos pinned) := by
  have hz : RoostGroup.MoveTopic.atZero pinned l1 = RoostGroup.MoveTopic.atZero pinned l2 := by
    rw [atZero_eq_all, atZero_eq_all, hpos]
  unfold RoostGroup.MoveTopic.repaired
  rw [hz]
  split
  · exact repair_congr pinned f 0 l1 l2 hid
  · exact ⟨rfl, hid, hpos⟩

/-- The batch of `MoveTopic` is the same on two storages whose target lists
carry the same identifiers and the same positions of the category. -/
theorem moveTopic_writer_congr (rg : RoostGroup) (db db2 : DB) (u : ℚ) (pinned : Bool)
    (from_ to_ : Int)
    (hid : (RoostGroup.MoveTopic.targetTopics pinned (rg.Topics db2)).map Topic.ID =
      (RoostGroup.MoveTopic.targetTopics pinned (rg.Topics db)).map Topic.ID)
    (hpos : (RoostGroup.MoveTopic.targetTopics pinned (rg.Topics db2)).map
        (RoostGroup.MoveTopic.pos pinned) =
      (RoostGroup.MoveTopic.targetTopics pinned (rg.Topics db)).map
        (RoostGroup.MoveTopic.pos pinned)) :
    RoostGroup.MoveTopic.writer rg db2 u pinned from_ to_ =
      RoostGroup.MoveTopic.writer rg db u pinned from_ to_ := by
  obtain ⟨h1, h2, h3⟩ := repaired_congr pinned from_ _ _ hid hpos
  unfold RoostGroup.MoveTopic.writer
  simp only []
  rw [choice_congr _ _ _ _ h3 u from_ to_, h1]
  exact topic_batch_congr _ _ from_ _ _ _ _ h2

/-- The batch of `MoveTodo` is the same on two storages whose target lists
carry the same identifiers and the same positions of the category. -/
theorem moveTodo_writer_congr (rg : RoostGroup) (db db2 : DB) (u : ℚ) (complete : Bool)
    (topicID : Nat) (from_ to_ : Int)
    (hid : (RoostGroup.MoveTodo.targetTodos complete (rg.Todos db2 topicID)).map Todo.ID =
      (RoostGroup.MoveTodo.targetTodos complete (rg.Todos db topicID)).map Todo.ID)
    (hpos : (RoostGroup.MoveTodo.targetTodos complete (rg.Todos db2 topicID)).map
        (RoostGroup.MoveTodo.pos complete) =
      (RoostGroup.MoveTodo.targetTodos complete (rg.Todos db topicID)).map
        (RoostGroup.MoveTodo.pos complete)) :
    RoostGroup.MoveTodo.writer rg db2 u complete topicID from_ to_ =
      RoostGroup.MoveTodo.writer rg db u complete topicID from_ to_ := by
  unfold RoostGroup.MoveTodo.writer
  simp only []
  rw [choice_congr _ _ _ _ hpos u from_ to_]
  exact todo_batch_congr _ _ from_ _ _ _ hid

theorem moveTopic_writer_form (rg : RoostGroup) (db : DB) (u : ℚ) (pinned : Bool)
    (from_ to_ : Int) (ws : List Update)
    (h : RoostGroup.MoveTopic.writer rg db u pinned from_ to_ = .ok ws) :
    ∃ topic q,
      topic ∈ (RoostGroup.MoveTopic.repaired pinned from_
        (RoostGroup.MoveTopic.targetTopics pinned (rg.Topics db))).1 ∧
      ws = (RoostGroup.MoveTopic.repaired pinned from_
          (RoostGroup.MoveTopic.targetTopics pinned (rg.Topics db))).2 ++
        [{ view := "topics", id := topic.ID,
           props := [(RoostGroup.MoveTopic.posProp pinned, .real q)] }] := by
  unfold RoostGroup.MoveTopic.writer at h
  simp only [] at h
  obtain ⟨topic, h1, h2⟩ := (bind_ok_iff _ _ _).mp h
  obtain ⟨q, _, h3⟩ := (bind_ok_iff _ _ _).mp h2
  exact ⟨topic, q, index_ok_mem _ _ _ h1, (Outcome.ok.inj h3).symm⟩

theorem moveTodo_writer_form (rg : RoostGroup) (db : DB) (u : ℚ) (complete : Bool)
    (topicID : Nat) (from_ to_ : Int) (ws : List Update)
    (h : RoostGroup.MoveTodo.writer rg db u complete topicID from_ to_ = .ok ws) :
    ∃ todo q,
      todo ∈ RoostGroup.MoveTodo.targetTodos complete (rg.Todos db topicID) ∧
      ws = [{ view := "todos", id := todo.ID,
              props := [(RoostGroup.MoveTodo.posProp complete, .real q)] }] := by
  unfold RoostGroup.MoveTodo.writer at h
  simp only [] at h
  obtain ⟨todo, h1, h2⟩ := (bind_ok_iff _ _ _).mp h
  obtain ⟨q, _, h3⟩ := (bind_ok_iff _ _ _).mp h2
  exact ⟨todo, q, index_ok_mem _ _ _ h1, (Outcome.ok.inj h3).symm⟩

theorem repaired_fst_map_ID (pinned : Bool) (f : Int) (l : List Topic) :
    (RoostGroup.MoveTopic.repaired pinned f l).1.map Topic.ID = l.map Topic.ID := by
  apply List.ext_getElem
  · simp only [List.length_map, repaired_fst_length]
  · intro m h1 h2
    simp only [List.length_map] at h1 h2
    simp only [List.getElem_map]
    exact repaired_fst_getElem_ID pinned f l m h2 h1

theorem repaired_batch_mem (pinned : Bool) (f : Int) (l : List Topic) :
    ∀ w ∈ (RoostGroup.MoveTopic.repaired pinned f l).2, ∃ a ∈ l, ∃ q, w =
      ({ view := "topics", id := a.ID,
         props := [(RoostGroup.MoveTopic.posProp pinned, .real q)] } : Update) := by
  unfold RoostGroup.MoveTopic.repaired
  split
  · exact repair_batch pinned f 0 l
  · intro w hw
    simp at hw

/-- Every update in the batch of `MoveTopic` sets the category's position
column of a member of the target list. -/
theorem moveTopic_batch (rg : RoostGroup) (db : DB) (u : ℚ) (pinned : Bool)
    (from_ to_ : Int) (ws : List Update)
    (h : RoostGroup.MoveTopic.writer rg db u pinned from_ to_ = .ok ws) :
    ∀ w ∈ ws, ∃ a ∈ RoostGroup.MoveTopic.targetTopics pinned (rg.Topics db), ∃ q, w =
      ({ view := "topics", id := a.ID,
         props := [(RoostGroup.MoveTopic.posProp pinned, .real q)] } : Update) := by
  obtain ⟨topic, q, hmem, rfl⟩ := moveTopic_writer_form rg db u pinned from_ to_ ws h
  intro w hw
  rw [List.mem_append] at hw
  rcases hw with hw | hw
  · exact repaired_batch_mem pinned from_ _ w hw
  · simp only [List.mem_singleton] at hw
    have hid : topic.ID ∈ (RoostGroup.MoveTopic.targetTopics pinned (rg.Topics db)).map
        Topic.ID := by
      rw [← repaired_fst_map_ID pinned from_]
      exact List.mem_map_of_mem _ hmem
    obtain ⟨a, ha, hae⟩ := List.mem_map.mp hid
    exact ⟨a, ha, q, by rw [hw, hae]⟩

theorem topic_fold_untouched (g : Nat) (ws : List Update) (t : Topic)
    (h : ∀ w ∈ ws, ¬ (t.GroupID = g ∧ t.ID = w.id)) :
    ws.foldl (fun r w => Topic.applyUpdate g w r) t = t := by
  induction ws with
  | nil => rfl
  | cons w ws ih =>
    have h1 : Topic.applyUpdate g w t = t := by
      unfold Topic.applyUpdate
      rw [if_neg (fun hc => h w (List.mem_cons_self _ _) hc.2)]
    rw [List.foldl_cons, h1]
    exact ih (fun x hx => h x (List.mem_cons_of_mem _ hx))

theorem todo_fold_untouched (g : Nat) (ws : List Update) (t : Todo)
    (h : ∀ w ∈ ws, ¬ (t.GroupID = g ∧ t.ID = w.id)) :
    ws.foldl (fun r w => Todo.applyUpdate g w r) t = t := by
  induction ws with
  | nil => rfl
  | cons w ws ih =>
    have h1 : Todo.applyUpdate g w t = t := by
      unfold Todo.applyUpdate
      rw [if_neg (fun hc => h w (List.mem_cons_self _ _) hc.2)]
    rw [List.foldl_cons, h1]
    exact ih (fun x hx => h x (List.mem_cons_of_mem _ hx))

theorem topic_fold_rest (g : Nat) (pinned : Bool) (ws : List Update)
    (hws : ∀ w ∈ ws, ∃ ident q, w =
      ({ view := "topics", id := ident,
         props := [(RoostGroup.MoveTopic.posProp pinned, .real q)] } : Update))
    (t : Topic) :
    (ws.foldl (fun r w => Topic.applyUpdate g w r) t).setProp
        (RoostGroup.MoveTopic.posProp pinned) (.real 0) =
      t.setProp (RoostGroup.MoveTopic.posProp pinned) (.real 0) := by
  induction ws generalizing t with
  | nil => rfl
  | cons w ws ih =>
    rw [List.foldl_cons, ih (fun x hx => hws x (List.mem_cons_of_mem _ hx))]
    obtain ⟨ident, q, rfl⟩ := hws w (List.mem_cons_self _ _)
    rw [topic_applyUpdate_pos]
    split
    · exact topic_setProp_setProp pinned q 0 t
    · rfl

theorem todo_setProp_setProp (complete : Bool) (q r : ℚ) (t : Todo) :
    (t.setProp (RoostGroup.MoveTodo.posProp complete) (.real q)).setProp
      (RoostGroup.MoveTodo.posProp complete) (.real r) =
    t.setProp (RoostGroup.MoveTodo.posProp complete) (.real r) := by
  cases complete <;> simp [RoostGroup.MoveTodo.posProp, Todo.setProp]

theorem targetTopics_mem (rg : RoostGroup) (db : DB) (pinned : Bool) (a : Topic) :
    a ∈ RoostGroup.MoveTopic.targetTopics pinned (rg.Topics db) ↔
      a ∈ db.topics ∧ RoostGroup.MoveTopic.sel rg pinned a = true := by
  rw [moveTopic_targetTopics_eq, mem_orderBy, List.mem_filter]

theorem targetTodos_mem (rg : RoostGroup) (db : DB) (complete : Bool) (topicID : Nat)
    (a : Todo) :
    a ∈ RoostGroup.MoveTodo.targetTodos complete (rg.Todos db topicID) ↔
      a ∈ db.todos ∧ RoostGroup.MoveTodo.sel rg complete topicID a = true := by
  rw [moveTodo_targetTodos_eq, mem_orderBy, List.mem_filter]

theorem topic_sel_group (rg : RoostGroup) (pinned : Bool) (a : Topic)
    (h : RoostGroup.MoveTopic.sel rg pinned a = true) : a.GroupID = rg.GroupID := by
  unfold RoostGroup.MoveTopic.sel at h
  cases pinned <;> simp at h <;> exact h.1

theorem todo_sel_group (rg : RoostGroup) (complete : Bool) (topicID : Nat) (a : Todo)
    (h : RoostGroup.MoveTodo.sel rg complete topicID a = true) : a.GroupID = rg.GroupID := by
  unfold RoostGroup.MoveTodo.sel at h
  cases complete <;> simp at h <;> exact h.1

theorem topic_other_pos_setProp (pinned : Bool) (q : ℚ) (t : Topic) :
    RoostGroup.MoveTopic.pos (!pinned)
      (t.setProp (RoostGroup.MoveTopic.posProp pinned) (.real q)) =
    RoostGroup.MoveTopic.pos (!pinned) t := by
  cases pinned <;> simp [RoostGroup.MoveTopic.pos, RoostGroup.MoveTopic.posProp, Topic.setProp]

theorem todo_other_pos_setProp (complete : Bool) (q : ℚ) (t : Todo) :
    RoostGroup.MoveTodo.pos (!complete)
      (t.setProp (RoostGroup.MoveTodo.posProp complete) (.real q)) =
    RoostGroup.MoveTodo.pos (!complete) t := by
  cases complete <;> simp [RoostGroup.MoveTodo.pos, RoostGroup.MoveTodo.posProp, Todo.setProp]

/-- The storage after a successful `MoveTopic`. -/
theorem MoveTopic_frame (rg : RoostGroup) (db db1 : DB) (u : ℚ) (pinned : Bool)
    (from_ to_ : Int) (hkey : (db.topics.map fun t => (t.GroupID, t.ID)).Nodup)
    (h : rg.MoveTopic db u pinned from_ to_ = .ok db1) :
    ∃ f : Topic → Topic, db1 = { db with topics := db.topics.map f } ∧
      ∀ t ∈ db.topics,
        (f t).setProp (RoostGroup.MoveTopic.posProp pinned) (.real 0) =
          t.setProp (RoostGroup.MoveTopic.posProp pinned) (.real 0) ∧
        RoostGroup.MoveTopic.pos (!pinned) (f t) = RoostGroup.MoveTopic.pos (!pinned) t ∧
        (RoostGroup.MoveTopic.sel rg pinned t = false → f t = t) := by
  unfold RoostGroup.MoveTopic at h
  obtain ⟨ws, hw, h2⟩ := (bind_ok_iff _ _ _).mp h
  have hb := moveTopic_batch rg db u pinned from_ to_ ws hw
  have hform : ∀ w ∈ ws, ∃ ident q, w =
      ({ view := "topics", id := ident,
         props := [(RoostGroup.MoveTopic.posProp pinned, .real q)] } : Update) := by
    intro w hw2
    obtain ⟨a, _, q, e⟩ := hb w hw2
    exact ⟨a.ID, q, e⟩
  have hv : ∀ w ∈ ws, w.view = "topics" := by
    intro w hw2
    obtain ⟨_, _, e⟩ := hform w hw2
    rw [e]
  refine ⟨fun t => ws.foldl (fun r w => Topic.applyUpdate rg.GroupID w r) t, ?_, ?_⟩
  · rw [← Execute_topics_only rg.GroupID ws db hv]
    exact (Outcome.ok.inj h2).symm
  · intro t ht
    have hrest := topic_fold_rest rg.GroupID pinned ws hform t
    refine ⟨hrest, ?_, ?_⟩
    · have e1 := topic_other_pos_setProp pinned 0
        (ws.foldl (fun r w => Topic.applyUpdate rg.GroupID w r) t)
      have e2 := topic_other_pos_setProp pinned 0 t
      simp only [] at hrest ⊢
      rw [← e1, hrest, e2]
    · intro hsel
      apply topic_fold_untouched
      intro w hw2 hc
      obtain ⟨a, ha, q, e⟩ := hb w hw2
      obtain ⟨ha1, ha2⟩ := (targetTopics_mem rg db pinned a).mp ha
      have hk : (t.GroupID, t.ID) = (a.GroupID, a.ID) := by
        rw [hc.1, hc.2, e, topic_sel_group rg pinned a ha2]
      have hta : t = a :=
        List.inj_on_of_nodup_map hkey ht ha1 hk
      rw [hta, ha2] at hsel
      cases hsel

/-- The storage after a successful `MoveTodo`. -/
theorem MoveTodo_frame (rg : RoostGroup) (db db1 : DB) (u : ℚ) (complete : Bool)
    (topicID : Nat) (from_ to_ : Int)
    (hkey : (db.todos.map fun t => (t.GroupID, t.ID)).Nodup)
    (h : rg.MoveTodo db u complete topicID from_ to_ = .ok db1) :
    ∃ f : Todo → Todo, db1 = { db with todos := db.todos.map f } ∧
      ∀ t ∈ db.todos,
        (f t).setProp (RoostGroup.MoveTodo.posProp complete) (.real 0) =
          t.setProp (RoostGroup.MoveTodo.posProp complete) (.real 0) ∧
        RoostGroup.MoveTodo.pos (!complete) (f t) = RoostGroup.MoveTodo.pos (!complete) t ∧
        (RoostGroup.MoveTodo.sel rg complete topicID t = false → f t = t) := by
  unfold RoostGroup.MoveTodo at h
  obtain ⟨ws, hw, h2⟩ := (bind_ok_iff _ _ _).mp h
  obtain ⟨todo, q, hmem, rfl⟩ := moveTodo_writer_form rg db u complete topicID from_ to_ ws hw
  refine ⟨fun t => Todo.applyUpdate rg.GroupID
    { view := "todos", id := todo.ID,
      props := [(RoostGroup.MoveTodo.posProp complete, .real q)] } t, ?_, ?_⟩
  · rw [← Outcome.ok.inj h2, Execute_todos_only rg.GroupID _ db (by simp)]
    rfl
  · intro t ht
    have hrest : (Todo.applyUpdate rg.GroupID
        { view := "todos", id := todo.ID,
          props := [(RoostGroup.MoveTodo.posProp complete, .real q)] } t).setProp
          (RoostGroup.MoveTodo.posProp complete) (.real 0) =
        t.setProp (RoostGroup.MoveTodo.posProp complete) (.real 0) := by
      rw [todo_applyUpdate_pos]
      split
      · exact todo_setProp_setProp complete q 0 t
      · rfl
    refine ⟨hrest, ?_, ?_⟩
    · have e1 := todo_other_pos_setProp complete 0
        (Todo.applyUpdate rg.GroupID
          { view := "todos", id := todo.ID,
            props := [(RoostGroup.MoveTodo.posProp complete, .real q)] } t)
      have e2 := todo_other_pos_setProp complete 0 t
      simp only [] at hrest ⊢
      rw [← e1, hrest, e2]
    · intro hsel
      show Todo.applyUpdate rg.GroupID
        { view := "todos", id := todo.ID,
          props := [(RoostGroup.MoveTodo.posProp complete, .real q)] } t = t
      rw [todo_applyUpdate_pos]
      split
      · rename_i hc
        obtain ⟨ha1, ha2⟩ := (targetTodos_mem rg db complete topicID todo).mp hmem
        have hk : (t.GroupID, t.ID) = (todo.GroupID, todo.ID) := by
          rw [hc.1, hc.2, todo_sel_group rg complete topicID todo ha2]
        have hta : t = todo := List.inj_on_of_nodup_map hkey ht ha1 hk
        rw [hta, ha2] at hsel
        cases hsel
      · rfl

/-! ## OrderedListReorder: repeated moves to the top -/

theorem Execute_todo_position_keys (g : Nat) (complete : Bool) (ident : Nat) (q : ℚ) (db : DB) :
    (Execute g [Update.mk "todos" ident [(RoostGroup.MoveTodo.posProp complete, .real q)]]
        db).todos.map (fun t => (t.GroupID, t.ID)) =
      db.todos.map fun t => (t.GroupID, t.ID) := by
  rw [Execute_single_todos, List.map_map]
  apply List.map_congr_left
  intro t _
  simp only [Function.comp, todo_applyUpdate_pos]
  split
  · obtain ⟨h1, h2, _⟩ := todo_sel_setProp complete q t
    rw [h1, h2]
  · rfl

theorem Execute_topic_position_keys (g : Nat) (pinned : Bool) (ws : List Update)
    (hws : ∀ w ∈ ws, ∃ ident q, w =
      ({ view := "topics", id := ident,
         props := [(RoostGroup.MoveTopic.posProp pinned, .real q)] } : Update))
    (db : DB) :
    (Execute g ws db).topics.map (fun t => (t.GroupID, t.ID)) =
      db.topics.map fun t => (t.GroupID, t.ID) := by
  rw [Execute_topics, List.map_map]
  apply List.map_congr_left
  intro t _
  obtain ⟨h1, h2, _⟩ := fold_positionBatch_keeps g pinned ws hws t
  simp only [Function.comp, h1, h2]

/-- One move to the top keeps the identifiers unique, the length of the list
and the strict order of its positions. -/
theorem MoveTodo_top_step (rg : RoostGroup) (db : DB) (u : ℚ) (complete : Bool)
    (topicID : Nat) (i n : Nat)
    (hkey : (db.todos.map fun t => (t.GroupID, t.ID)).Nodup)
    (hlen : (RoostGroup.MoveTodo.targetTodos complete (rg.Todos db topicID)).length = n)
    (hstrict : (RoostGroup.MoveTodo.targetTodos complete (rg.Todos db topicID)).Pairwise
      fun a b => RoostGroup.MoveTodo.pos complete a < RoostGroup.MoveTodo.pos complete b)
    (hi : i < n) (hu0 : 0 ≤ u) (hu1 : u ≤ 1) :
    ∃ db1, rg.MoveTodo db u complete topicID (i : Int) 0 = .ok db1 ∧
      (db1.todos.map fun t => (t.GroupID, t.ID)).Nodup ∧
      (RoostGroup.MoveTodo.targetTodos complete (rg.Todos db1 topicID)).length = n ∧
      (RoostGroup.MoveTodo.targetTodos complete (rg.Todos db1 topicID)).Pairwise
        fun a b => RoostGroup.MoveTodo.pos complete a < RoostGroup.MoveTodo.pos complete b := by
  have hi2 : i < (RoostGroup.MoveTodo.targetTodos complete (rg.Todos db topicID)).length := by
    rw [hlen]; exact hi
  have h0 : 0 < (RoostGroup.MoveTodo.targetTodos complete (rg.Todos db topicID)).length := by
    omega
  obtain ⟨h1, h2⟩ := MoveTodo_reread rg db u complete topicID i 0 _ rfl hkey hstrict hi2 h0
    hu0 hu1
  simp only [Nat.cast_zero] at h1
  refine ⟨_, h1, ?_, ?_, ?_⟩
  · rw [Execute_todo_position_keys]; exact hkey
  · rw [h2, relocated_length _ _ _ _ hi2, hlen]
  · rw [h2]
    exact relocated_target_strict (RoostGroup.MoveTodo.pos complete) _ i 0 _ u hstrict hi2 h0
      (todo_pos_setProp complete _ _) hu0 hu1

theorem moveTodosToTop_keeps (rg : RoostGroup) (complete : Bool) (topicID : Nat) (n : Nat)
    (moves : List (Nat × ℚ)) (hmoves : ∀ m ∈ moves, m.1 < n ∧ 0 ≤ m.2 ∧ m.2 ≤ 1) (db : DB)
    (hkey : (db.todos.map fun t => (t.GroupID, t.ID)).Nodup)
    (hlen : (RoostGroup.MoveTodo.targetTodos complete (rg.Todos db topicID)).length = n)
    (hstrict : (RoostGroup.MoveTodo.targetTodos complete (rg.Todos db topicID)).Pairwise
      fun a b => RoostGroup.MoveTodo.pos complete a < RoostGroup.MoveTodo.pos complete b) :
    ∃ db1, rg.moveTodosToTop complete topicID moves db = .ok db1 ∧
      (RoostGroup.MoveTodo.targetTodos complete (rg.Todos db1 topicID)).length = n ∧
      (RoostGroup.MoveTodo.targetTodos complete (rg.Todos db1 topicID)).Pairwise
        fun a b => RoostGroup.MoveTodo.pos complete a < RoostGroup.MoveTodo.pos complete b := by
  induction moves generalizing db with
  | nil => exact ⟨db, rfl, hlen, hstrict⟩
  | cons m ms ih =>
    obtain ⟨hm1, hm2, hm3⟩ := hmoves m (List.mem_cons_self _ _)
    obtain ⟨db1, h1, k1, l1, s1⟩ := MoveTodo_top_step rg db m.2 complete topicID m.1 n hkey hlen
      hstrict hm1 hm2 hm3
    obtain ⟨db2, h2, l2, s2⟩ := ih (fun x hx => hmoves x (List.mem_cons_of_mem _ hx)) db1 k1 l1 s1
    refine ⟨db2, ?_, l2, s2⟩
    simp only [RoostGroup.moveTodosToTop, h1, Outcome.bind]
    exact h2

theorem MoveTopic_top_step (rg : RoostGroup) (db : DB) (u : ℚ) (pinned : Bool) (i n : Nat)
    (hkey : (db.topics.map fun t => (t.GroupID, t.ID)).Nodup)
    (hlen : (RoostGroup.MoveTopic.targetTopics pinned (rg.Topics db)).length = n)
    (hstrict : (RoostGroup.MoveTopic.targetTopics pinned (rg.Topics db)).Pairwise
      fun a b => RoostGroup.MoveTopic.pos pinned a < RoostGroup.MoveTopic.pos pinned b)
    (hi : i < n) (hu0 : 0 ≤ u) (hu1 : u ≤ 1) :
    ∃ db1, rg.MoveTopic db u pinned (i : Int) 0 = .ok db1 ∧
      (db1.topics.map fun t => (t.GroupID, t.ID)).Nodup ∧
      (RoostGroup.MoveTopic.targetTopics pinned (rg.Topics db1)).length = n ∧
      (RoostGroup.MoveTopic.targetTopics pinned (rg.Topics db1)).Pairwise
        fun a b => RoostGroup.MoveTopic.pos pinned a < RoostGroup.MoveTopic.pos pinned b := by
  have hi2 : i < (RoostGroup.MoveTopic.targetTopics pinned (rg.Topics db)).length := by
    rw [hlen]; exact hi
  have h0 : 0 < (RoostGroup.MoveTopic.targetTopics pinned (rg.Topics db)).length := by
    omega
  obtain ⟨hs2, _, _⟩ := repaired_of_strict pinned i _ hstrict hi2
  have hrl := repaired_fst_length pinned (i : Int)
    (RoostGroup.MoveTopic.targetTopics pinned (rg.Topics db))
  obtain ⟨h1, h2⟩ := MoveTopic_reread rg db u pinned i 0 _ rfl hkey hs2 hi2 h0 hu0 hu1
  simp only [Nat.cast_zero] at h1
  refine ⟨_, h1, ?_, ?_, ?_⟩
  · rw [Execute_topic_position_keys rg.GroupID pinned]
    · exact hkey
    · intro w hw
      rw [List.mem_append] at hw
      rcases hw with hw | hw
      · exact repaired_batch pinned _ _ w hw
      · simp only [List.mem_singleton] at hw
        exact ⟨_, _, hw⟩
  · rw [h2, relocated_length _ _ _ _ (by rw [hrl]; exact hi2), hrl, hlen]
  · rw [h2]
    exact relocated_target_strict (RoostGroup.MoveTopic.pos pinned) _ i 0 _ u hs2
      (by rw [hrl]; exact hi2) (by rw [hrl]; exact h0) (topic_pos_setProp pinned _ _) hu0 hu1

theorem moveTopicsToTop_keeps (rg : RoostGroup) (pinned : Bool) (n : Nat)
    (moves : List (Nat × ℚ)) (hmoves : ∀ m ∈ moves, m.1 < n ∧ 0 ≤ m.2 ∧ m.2 ≤ 1) (db : DB)
    (hkey : (db.topics.map fun t => (t.GroupID, t.ID)).Nodup)
    (hlen : (RoostGroup.MoveTopic.targetTopics pinned (rg.Topics db)).length = n)
    (hstrict : (RoostGroup.MoveTopic.targetTopics pinned (rg.Topics db)).Pairwise
      fun a b => RoostGroup.MoveTopic.pos pinned a < RoostGroup.MoveTopic.pos pinned b) :
    ∃ db1, rg.moveTopicsToTop pinned moves db = .ok db1 ∧
      (RoostGroup.MoveTopic.targetTopics pinned (rg.Topics db1)).length = n ∧
      (RoostGroup.MoveTopic.targetTopics pinned (rg.Topics db1)).Pairwise
        fun a b => RoostGroup.MoveTopic.pos pinned a < RoostGroup.MoveTopic.pos pinned b := by
  induction moves generalizing db with
  | nil => exact ⟨db, rfl, hlen, hstrict⟩
  | cons m ms ih =>
    obtain ⟨hm1, hm2, hm3⟩ := hmoves m (List.mem_cons_self _ _)
    obtain ⟨db1, h1, k1, l1, s1⟩ := MoveTopic_top_step rg db m.2 pinned m.1 n hkey hlen
      hstrict hm1 hm2 hm3
    obtain ⟨db2, h2, l2, s2⟩ := ih (fun x hx => hmoves x (List.mem_cons_of_mem _ hx)) db1 k1 l1 s1
    refine ⟨db2, ?_, l2, s2⟩
    simp only [RoostGroup.moveTopicsToTop, h1, Outcome.bind]
    exact h2

theorem strict_adjacent_distinct {α : Type} (f : α → ℚ) (l : List α)
    (h : l.Pairwise fun a b => f a < f b) :
    (l.map f).Nodup ∧ (l.map f).Chain' (fun x y => x ≠ y) := by
  have hp : (l.map f).Pairwise (fun x y => x < y) := by
    rw [List.pairwise_map]; exact h
  exact ⟨hp.imp (fun hxy => ne_of_lt hxy), (hp.imp (fun hxy => ne_of_lt hxy)).chain'⟩

/-! ## TodoUpdater: the rows after a commit -/

theorem Commit_eq (tu : Roost.TodoUpdater) (db : DB) (nowTs : ℚ) :
    tu.Commit db nowTs =
      .ok ({ tu with completed := [], read := [] },
        { db with todos := db.todos.map (TodoUpdater.Commit.row tu nowTs) }) := by
  unfold TodoUpdater.Commit
  rw [Execute_todos_only]
  · rfl
  · intro w hw
    unfold TodoUpdater.Commit.writer at hw
    rw [List.mem_append, List.mem_map, List.mem_map] at hw
    rcases hw with ⟨e, _, rfl⟩ | ⟨e, _, rfl⟩
    · split <;> rfl
    · rfl

theorem read_fold (g : Nat) (read : List (Nat × Bool)) (t : Todo) :
    (read.map fun e => Update.mk "todos" e.1 [("read", .bool e.2)]).foldl
        (fun r w => Todo.applyUpdate g w r) t =
      { t with Read := ((read.map fun e => Update.mk "todos" e.1 [("read", .bool e.2)]).foldl
        (fun r w => Todo.applyUpdate g w r) t).Read } := by
  induction read generalizing t with
  | nil => rfl
  | cons e read ih =>
    simp only [List.map_cons, List.foldl_cons]
    rw [ih]
    unfold Todo.applyUpdate
    split
    · simp [Todo.setProp]
    · rfl

theorem completed_fold (g : Nat) (nowTs : ℚ) (completed : List (Nat × Bool))
    (hk : (completed.map Prod.fst).Nodup) (t : Todo) (hg : t.GroupID = g) :
    (completed.map fun e =>
      if e.2 then
        Update.mk "todos" e.1
          [("completed_at", .real nowTs), ("completed_position", .real (-nowTs))]
      else
        Update.mk "todos" e.1
          [("completed_at", .real 0), ("completed_position", .real 0)]).foldl
        (fun r w => Todo.applyUpdate g w r) t =
      match completed.lookup t.ID with
      | some true => { t with CompletedAt := nowTs, CompletedPosition := -nowTs }
      | some false => { t with CompletedAt := 0, CompletedPosition := 0 }
      | none => t := by
  induction completed generalizing t with
  | nil => rfl
  | cons e completed ih =>
    obtain ⟨k1, v1⟩ := e
    simp only [List.map_cons, List.nodup_cons] at hk
    simp only [List.map_cons, List.foldl_cons]
    by_cases hid : t.ID = k1
    · have hb : (t.ID == k1) = true := by simpa using hid
      simp only [List.lookup, hb]
      have hmiss : ∀ (x : Todo), x.GroupID = g → x.ID = k1 →
          (completed.map fun e =>
            if e.2 then
              Update.mk "todos" e.1
                [("completed_at", .real nowTs), ("completed_position", .real (-nowTs))]
            else
              Update.mk "todos" e.1
                [("completed_at", .real 0), ("completed_position", .real 0)]).foldl
              (fun r w => Todo.applyUpdate g w r) x = x := by
        intro x _ hx
        apply todo_fold_untouched
        intro w hw hc
        rw [List.mem_map] at hw
        obtain ⟨e2, he2, rfl⟩ := hw
        apply hk.1
        rw [List.mem_map]
        refine ⟨e2, he2, ?_⟩
        have : e2.1 = x.ID := by
          have h2 := hc.2
          split at h2 <;> exact h2.symm
        rw [this, hx]
      cases v1 with
      | true =>
        have h1 : Todo.applyUpdate g (Update.mk "todos" k1
            [("completed_at", .real nowTs), ("completed_position", .real (-nowTs))]) t =
            { t with CompletedAt := nowTs, CompletedPosition := -nowTs } := by
          unfold Todo.applyUpdate
          rw [if_pos ⟨rfl, hg, hid⟩]
          simp [Todo.setProp]
        simp only [if_true]
        rw [h1]
        exact hmiss _ hg hid
      | false =>
        have h1 : Todo.applyUpdate g (Update.mk "todos" k1
            [("completed_at", .real 0), ("completed_position", .real 0)]) t =
            { t with CompletedAt := 0, CompletedPosition := 0 } := by
          unfold Todo.applyUpdate
          rw [if_pos ⟨rfl, hg, hid⟩]
          simp [Todo.setProp]
        simp only [Bool.false_eq_true, if_false]
        rw [h1]
        exact hmiss _ hg hid
    · have hb : (t.ID == k1) = false := by simpa using hid
      simp only [List.lookup, hb]
      have h1 : ∀ w : Update, w.id = k1 → Todo.applyUpdate g w t = t := by
        intro w hw
        unfold Todo.applyUpdate
        rw [if_neg]
        intro hc
        exact hid (hc.2.2.trans hw)
      rw [h1 _ (by split <;> rfl)]
      exact ih hk.2 t hg

theorem lookup_of_mem (m : List (Nat × Bool)) (hk : (m.map Prod.fst).Nodup) (k : Nat)
    (v : Bool) (h : (k, v) ∈ m) : m.lookup k = some v := by
  induction m with
  | nil => simp at h
  | cons e m ih =>
    obtain ⟨k1, v1⟩ := e
    simp only [List.map_cons, List.nodup_cons] at hk
    rcases List.mem_cons.mp h with h1 | h1
    · cases h1
      simp [List.lookup]
    · have hne : k ≠ k1 := by
        intro hc
        apply hk.1
        rw [← hc]
        exact List.mem_map_of_mem Prod.fst h1
      have hb : (k == k1) = false := by simpa using hne
      simp only [List.lookup, hb]
      exact ih hk.2 h1

theorem mem_of_lookup (m : List (Nat × Bool)) (k : Nat) (v : Bool)
    (h : m.lookup k = some v) : (k, v) ∈ m := by
  induction m with
  | nil => simp [List.lookup] at h
  | cons e m ih =>
    obtain ⟨k1, v1⟩ := e
    by_cases hk : k = k1
    · have hb : (k == k1) = true := by simpa using hk
      simp only [List.lookup, hb, Option.some.injEq] at h
      rw [hk, h]
      exact List.mem_cons_self _ _
    · have hb : (k == k1) = false := by simpa using hk
      simp only [List.lookup, hb] at h
      exact List.mem_cons_of_mem _ (ih h)

/-- The row that `Commit` leaves for a row of the group: the completion
columns as the entry of `completed` for its id says, `read` as the batch leaves
it, every other column as before. -/
theorem Commit_row_spec (tu : Roost.TodoUpdater) (nowTs : ℚ) (t : Todo)
    (hk : (tu.completed.map Prod.fst).Nodup) (hg : t.GroupID = tu.rg.GroupID) :
    TodoUpdater.Commit.row tu nowTs t =
      { (match tu.completed.lookup t.ID with
          | some true => { t with CompletedAt := nowTs, CompletedPosition := -nowTs }
          | some false => { t with CompletedAt := 0, CompletedPosition := 0 }
          | none => t) with Read := (TodoUpdater.Commit.row tu nowTs t).Read } := by
  have h1 : TodoUpdater.Commit.row tu nowTs t =
      (tu.read.map fun e => Update.mk "todos" e.1 [("read", .bool e.2)]).foldl
        (fun r w => Todo.applyUpdate tu.rg.GroupID w r)
        (match tu.completed.lookup t.ID with
          | some true => { t with CompletedAt := nowTs, CompletedPosition := -nowTs }
          | some false => { t with CompletedAt := 0, CompletedPosition := 0 }
          | none => t) := by
    unfold TodoUpdater.Commit.row TodoUpdater.Commit.writer
    rw [List.foldl_append, completed_fold tu.rg.GroupID nowTs tu.completed hk t hg]
  have h2 := read_fold tu.rg.GroupID tu.read
    (match tu.completed.lookup t.ID with
      | some true => { t with CompletedAt := nowTs, CompletedPosition := -nowTs }
      | some false => { t with CompletedAt := 0, CompletedPosition := 0 }
      | none => t)
  rw [← h1] at h2
  exact h2

theorem Commit_row_other_group (tu : Roost.TodoUpdater) (nowTs : ℚ) (t : Todo)
    (hg : t.GroupID ≠ tu.rg.GroupID) : TodoUpdater.Commit.row tu nowTs t = t := by
  unfold TodoUpdater.Commit.row
  apply todo_fold_untouched
  intro w _ hc
  exact hg hc.1

theorem Commit_row_keeps (tu : Roost.TodoUpdater) (nowTs : ℚ) (t : Todo)
    (hk : (tu.completed.map Prod.fst).Nodup) :
    (TodoUpdater.Commit.row tu nowTs t).ID = t.ID ∧
    (TodoUpdater.Commit.row tu nowTs t).GroupID = t.GroupID ∧
    (TodoUpdater.Commit.row tu nowTs t).TopicID = t.TopicID ∧
    (TodoUpdater.Commit.row tu nowTs t).Deleted = t.Deleted ∧
    (TodoUpdater.Commit.row tu nowTs t).Position = t.Position := by
  by_cases hg : t.GroupID = tu.rg.GroupID
  · rw [Commit_row_spec tu nowTs t hk hg]
    cases tu.completed.lookup t.ID with
    | none => exact ⟨rfl, rfl, rfl, rfl, rfl⟩
    | some v => cases v <;> exact ⟨rfl, rfl, rfl, rfl, rfl⟩
  · rw [Commit_row_other_group tu nowTs t hg]
    exact ⟨rfl, rfl, rfl, rfl, rfl⟩

theorem Commit_row_completion (tu : Roost.TodoUpdater) (nowTs : ℚ) (t : Todo)
    (hk : (tu.completed.map Prod.fst).Nodup) (hg : t.GroupID = tu.rg.GroupID) :
    ((t.ID, true) ∈ tu.completed ∧
      (TodoUpdater.Commit.row tu nowTs t).CompletedAt = nowTs ∧
      (TodoUpdater.Commit.row tu nowTs t).CompletedPosition = -nowTs) ∨
    ((t.ID, false) ∈ tu.completed ∧
      (TodoUpdater.Commit.row tu nowTs t).CompletedAt = 0 ∧
      (TodoUpdater.Commit.row tu nowTs t).CompletedPosition = 0) ∨
    ((TodoUpdater.Commit.row tu nowTs t).CompletedAt = t.CompletedAt ∧
      (TodoUpdater.Commit.row tu nowTs t).CompletedPosition = t.CompletedPosition) := by
  rw [Commit_row_spec tu nowTs t hk hg]
  cases hl : tu.completed.lookup t.ID with
  | none => exact Or.inr (Or.inr ⟨rfl, rfl⟩)
  | some v =>
    cases v with
    | true => exact Or.inl ⟨mem_of_lookup _ _ _ hl, rfl, rfl⟩
    | false => exact Or.inr (Or.inl ⟨mem_of_lookup _ _ _ hl, rfl, rfl⟩)

theorem incompleteTodos_mem (rg : RoostGroup) (db : DB) (topicID : Nat) (x : Todo) :
    x ∈ (rg.Todos db topicID).incompleteTodos ↔
      x ∈ db.todos ∧ x.GroupID = rg.GroupID ∧ x.TopicID = topicID ∧ x.Deleted = false ∧
        x.CompletedAt = 0 := by
  rw [show (rg.Todos db topicID).incompleteTodos = orderBy Todo.Position Todo.ID _ from rfl,
    mem_orderBy, List.mem_filter]
  simp only [decide_eq_true_eq]

theorem completeTodos_mem (rg : RoostGroup) (db : DB) (topicID : Nat) (x : Todo) :
    x ∈ (rg.Todos db topicID).completeTodos ↔
      x ∈ db.todos ∧ x.GroupID = rg.GroupID ∧ x.TopicID = topicID ∧ x.Deleted = false ∧
        x.CompletedAt ≠ 0 := by
  rw [show (rg.Todos db topicID).completeTodos =
    orderBy Todo.CompletedPosition Todo.ID _ from rfl, mem_orderBy, List.mem_filter]
  simp only [decide_eq_true_eq]

/-- The lists of a topic after a `Commit` that marks the todo `t` of the
incomplete list complete. -/
theorem Commit_marked_lists (tu : Roost.TodoUpdater) (db : DB) (nowTs : ℚ) (topicID : Nat)
    (t : Todo) (hkeys : (tu.completed.map Prod.fst).Nodup)
    (hmark : (t.ID, true) ∈ tu.completed) (hnow : 0 < nowTs)
    (ht : t ∈ (tu.rg.Todos db topicID).incompleteTodos)
    (hearlier : ∀ x ∈ (tu.rg.Todos db topicID).completeTodos, -nowTs < x.CompletedPosition) :
    (∀ x ∈ (tu.rg.Todos { db with todos := db.todos.map (TodoUpdater.Commit.row tu nowTs) }
        topicID).incompleteTodos, x.ID ≠ t.ID) ∧
    ({ t with CompletedAt := nowTs, CompletedPosition := -nowTs,
              Read := (TodoUpdater.Commit.row tu nowTs t).Read } ∈
      (tu.rg.Todos { db with todos := db.todos.map (TodoUpdater.Commit.row tu nowTs) }
        topicID).completeTodos) ∧
    (∀ x ∈ (tu.rg.Todos { db with todos := db.todos.map (TodoUpdater.Commit.row tu nowTs) }
        topicID).completeTodos,
      -nowTs ≤ x.CompletedPosition ∧
      (x.CompletedPosition = -nowTs → (x.ID, true) ∈ tu.completed)) := by
  have hne : nowTs ≠ 0 := ne_of_gt hnow
  obtain ⟨ht1, ht2, ht3, ht4, _⟩ := (incompleteTodos_mem _ _ _ _).mp ht
  have hrow : ∀ x : Todo, x.GroupID = tu.rg.GroupID → x.ID = t.ID →
      TodoUpdater.Commit.row tu nowTs x =
        { x with CompletedAt := nowTs, CompletedPosition := -nowTs,
                 Read := (TodoUpdater.Commit.row tu nowTs x).Read } := by
    intro x hg hid
    have h := Commit_row_spec tu nowTs x hkeys hg
    have hl : tu.completed.lookup x.ID = some true := by
      rw [hid]; exact lookup_of_mem _ hkeys _ _ hmark
    rw [hl] at h
    exact h
  refine ⟨?_, ?_, ?_⟩
  · intro x' hx' hid
    obtain ⟨h1, h2, _, _, h5⟩ := (incompleteTodos_mem _ _ _ _).mp hx'
    simp only [List.mem_map] at h1
    obtain ⟨x, hx, rfl⟩ := h1
    obtain ⟨k1, k2, _⟩ := Commit_row_keeps tu nowTs x hkeys
    have e := hrow x (k2 ▸ h2) (k1 ▸ hid)
    rw [e] at h5
    exact hne h5
  · rw [completeTodos_mem]
    refine ⟨?_, ht2, ht3, ht4, hne⟩
    simp only [List.mem_map]
    exact ⟨t, ht1, hrow t ht2 rfl⟩
  · intro x' hx'
    obtain ⟨h1, h2, h3, h4, h5⟩ := (completeTodos_mem _ _ _ _).mp hx'
    simp only [List.mem_map] at h1
    obtain ⟨x, hx, rfl⟩ := h1
    obtain ⟨k1, k2, k3, k4, _⟩ := Commit_row_keeps tu nowTs x hkeys
    rcases Commit_row_completion tu nowTs x hkeys (k2 ▸ h2) with
      ⟨hm, _, hp⟩ | ⟨_, ha, _⟩ | ⟨ha, hp⟩
    · exact ⟨le_of_eq hp.symm, fun _ => k1 ▸ hm⟩
    · exact absurd ha h5
    · have hx2 : x ∈ (tu.rg.Todos db topicID).completeTodos := by
        rw [completeTodos_mem]
        exact ⟨hx, k2 ▸ h2, k3 ▸ h3, k4 ▸ h4, ha ▸ h5⟩
      have hlt := hearlier x hx2
      rw [hp]
      exact ⟨le_of_lt hlt, fun hc => absurd hc (ne_of_gt hlt)⟩

theorem orderedInsert_first {α : Type} (r : α → α → Prop) [DecidableRel r] (a : α)
    (m : List α) (h : ∀ c ∈ m, r a c) : List.orderedInsert r a m = a :: m := by
  cases m with
  | nil => rfl
  | cons b m =>
    show (if r a b then a :: b :: m else b :: List.orderedInsert r a m) = _
    rw [if_pos (h b (List.mem_cons_self _ _))]

theorem insertionSort_first {α : Type} (r : α → α → Prop) [DecidableRel r] (a : α)
    (l1 l2 : List α) (h : ∀ x ∈ l1 ++ l2, r a x ∧ ¬ r x a) :
    List.insertionSort r (l1 ++ a :: l2) = a :: List.insertionSort r (l1 ++ l2) := by
  induction l1 with
  | nil =>
    show List.orderedInsert r a (List.insertionSort r l2) = _
    apply orderedInsert_first
    intro c hc
    exact (h c ((List.perm_insertionSort r l2).mem_iff.mp hc)).1
  | cons b l1 ih =>
    show List.orderedInsert r b (List.insertionSort r (l1 ++ a :: l2)) =
      a :: List.orderedInsert r b (List.insertionSort r (l1 ++ l2))
    rw [ih (fun x hx => h x (List.mem_cons_of_mem _ hx))]
    show (if r b a then b :: a :: List.insertionSort r (l1 ++ l2)
      else a :: List.orderedInsert r b (List.insertionSort r (l1 ++ l2))) = _
    rw [if_neg (h b (List.mem_cons_self _ _)).2]

theorem orderedInsert_filter_neg {α : Type} (r : α → α → Prop) [DecidableRel r]
    (p : α → Bool) (a : α) (l : List α) (hp : p a = false) :
    (List.orderedInsert r a l).filter p = l.filter p := by
  induction l with
  | nil => simp [hp]
  | cons b l ih =>
    show (if r a b then a :: b :: l else b :: List.orderedInsert r a l).filter p = _
    split
    · rw [List.filter_cons, hp]; rfl
    · rw [List.filter_cons, List.filter_cons, ih]

theorem orderedInsert_filter_pos {α : Type} (r : α → α → Prop) [DecidableRel r]
    (htrans : ∀ a b c, r a b → r b c → r a c)
    (p : α → Bool) (a : α) (l : List α) (hs : l.Sorted r) (hp : p a = true) :
    (List.orderedInsert r a l).filter p = List.orderedInsert r a (l.filter p) := by
  induction l with
  | nil => simp [hp]
  | cons b l ih =>
    have hs2 : l.Sorted r := hs.of_cons
    have hb : ∀ c ∈ l, r b c := List.rel_of_sorted_cons hs
    show (if r a b then a :: b :: l else b :: List.orderedInsert r a l).filter p = _
    split
    · rename_i hab
      rw [List.filter_cons, hp, if_pos rfl]
      symm
      apply orderedInsert_first
      intro c hc
      have hc2 := List.mem_of_mem_filter hc
      rcases List.mem_cons.mp hc2 with h1 | h1
      · rw [h1]; exact hab
      · exact htrans _ _ _ hab (hb c h1)
    · rename_i hab
      rw [List.filter_cons, List.filter_cons]
      split
      · rw [ih hs2]
        show _ = (if r a b then a :: b :: l.filter p
          else b :: List.orderedInsert r a (l.filter p))
        rw [if_neg hab]
      · exact ih hs2

theorem insertionSort_filter {α : Type} (r : α → α → Prop) [DecidableRel r]
    (htotal : ∀ a b, r a b ∨ r b a) (htrans : ∀ a b c, r a b → r b c → r a c)
    (p : α → Bool) (l : List α) :
    (List.insertionSort r l).filter p = List.insertionSort r (l.filter p) := by
  haveI : IsTotal α r := ⟨htotal⟩
  haveI : IsTrans α r := ⟨htrans⟩
  induction l with
  | nil => rfl
  | cons a l ih =>
    show (List.orderedInsert r a (List.insertionSort r l)).filter p = _
    cases hp : p a with
    | false =>
      rw [orderedInsert_filter_neg r p a _ hp, ih, List.filter_cons, hp]
      rfl
    | true =>
      rw [orderedInsert_filter_pos r htrans p a _ (List.sorted_insertionSort r l) hp, ih,
        List.filter_cons, hp, if_pos rfl]
      rfl

theorem orderBy_filter_any {α κ : Type} [LinearOrder κ] (k1 : α → ℚ) (k2 : α → κ)
    (rows : List α) (p : α → Bool) :
    orderBy k1 k2 (rows.filter p) = (orderBy k1 k2 rows).filter p :=
  (insertionSort_filter _ (sqlLE_total k1 k2) (sqlLE_trans k1 k2) p rows).symm

theorem Commit_row_single (rg : RoostGroup) (nowTs : ℚ) (k : Nat) (x : Todo) :
    TodoUpdater.Commit.row ((rg.TodoUpdater).MarkComplete k true) nowTs x =
      if x.GroupID = rg.GroupID ∧ x.ID = k then
        { x with CompletedAt := nowTs, CompletedPosition := -nowTs }
      else x := by
  show Todo.applyUpdate rg.GroupID (Update.mk "todos" k
    [("completed_at", .real nowTs), ("completed_position", .real (-nowTs))]) x = _
  unfold Todo.applyUpdate
  by_cases h : x.GroupID = rg.GroupID ∧ x.ID = k
  · rw [if_pos ⟨rfl, h⟩, if_pos h]
    simp [Todo.setProp]
  · rw [if_neg (fun hc => h hc.2), if_neg h]

/-- The two lists of a topic after a `Commit` whose only mark completes the
todo `t` of the incomplete list. -/
theorem Commit_single_lists (rg : RoostGroup) (db : DB) (nowTs : ℚ) (topicID : Nat)
    (t : Todo) (hkey : (db.todos.map fun t => (t.GroupID, t.ID)).Nodup) (hnow : 0 < nowTs)
    (ht : t ∈ (rg.Todos db topicID).incompleteTodos)
    (hearlier : ∀ x ∈ (rg.Todos db topicID).completeTodos, -nowTs < x.CompletedPosition) :
    (rg.Todos { db with
        todos := db.todos.map
          (TodoUpdater.Commit.row ((rg.TodoUpdater).MarkComplete t.ID true) nowTs) }
      topicID).completeTodos =
      { t with CompletedAt := nowTs, CompletedPosition := -nowTs } ::
        (rg.Todos db topicID).completeTodos ∧
    (rg.Todos { db with
        todos := db.todos.map
          (TodoUpdater.Commit.row ((rg.TodoUpdater).MarkComplete t.ID true) nowTs) }
      topicID).incompleteTodos =
      (rg.Todos db topicID).incompleteTodos.filter fun x => decide (x.ID ≠ t.ID) := by
  have hne : nowTs ≠ 0 := ne_of_gt hnow
  obtain ⟨ht1, ht2, ht3, ht4, ht5⟩ := (incompleteTodos_mem _ _ _ _).mp ht
  obtain ⟨A, B, hAB⟩ := List.append_of_mem ht1
  have hother : ∀ x ∈ A ++ B, ¬ (x.GroupID = rg.GroupID ∧ x.ID = t.ID) := by
    intro x hx hc
    rw [hAB, List.map_append, List.map_cons] at hkey
    have hkeyx : (x.GroupID, x.ID) = (t.GroupID, t.ID) := by rw [hc.1, hc.2, ht2]
    rcases List.mem_append.mp hx with h | h
    · have h1 := (List.nodup_append.mp hkey).2.2
      exact h1 (List.mem_map_of_mem (fun t => (t.GroupID, t.ID)) h)
        (by rw [hkeyx]; exact List.mem_cons_self _ _)
    · have h1 := (List.nodup_cons.mp (List.nodup_append.mp hkey).2.1).1
      apply h1
      rw [← hkeyx]
      exact List.mem_map_of_mem (fun t => (t.GroupID, t.ID)) h
  have hmapA : ∀ l : List Todo, (∀ x ∈ l, ¬ (x.GroupID = rg.GroupID ∧ x.ID = t.ID)) →
      l.map (TodoUpdater.Commit.row ((rg.TodoUpdater).MarkComplete t.ID true) nowTs) = l := by
    intro l hl
    conv_rhs => rw [← List.map_id l]
    apply List.map_congr_left
    intro x hx
    rw [Commit_row_single, if_neg (hl x hx)]
    rfl
  have hmap : db.todos.map
      (TodoUpdater.Commit.row ((rg.TodoUpdater).MarkComplete t.ID true) nowTs) =
      A ++ { t with CompletedAt := nowTs, CompletedPosition := -nowTs } :: B := by
    rw [hAB, List.map_append, List.map_cons,
      hmapA A (fun x hx => hother x (List.mem_append_left _ hx)),
      hmapA B (fun x hx => hother x (List.mem_append_right _ hx)),
      Commit_row_single, if_pos ⟨ht2, rfl⟩]
  constructor
  · show orderBy Todo.CompletedPosition Todo.ID (List.filter _ (List.map _ db.todos)) =
      _ :: orderBy Todo.CompletedPosition Todo.ID (List.filter _ db.todos)
    rw [hmap, hAB]
    simp only [List.filter_append, List.filter_cons]
    rw [if_pos (by simp [ht2, ht3, ht4, hne]), if_neg (by simp [ht5])]
    apply insertionSort_first
    intro x hx
    have hx2 : x ∈ (rg.Todos db topicID).completeTodos := by
      rw [completeTodos_mem, hAB]
      rcases List.mem_append.mp hx with h | h
      · obtain ⟨h1, h2⟩ := List.mem_filter.mp h
        simp only [decide_eq_true_eq] at h2
        exact ⟨List.mem_append_left _ h1, h2⟩
      · obtain ⟨h1, h2⟩ := List.mem_filter.mp h
        simp only [decide_eq_true_eq] at h2
        exact ⟨List.mem_append_right _ (List.mem_cons_of_mem _ h1), h2⟩
    have hlt := hearlier x hx2
    refine ⟨Or.inl hlt, ?_⟩
    rintro (h | ⟨h, _⟩)
    · exact absurd hlt (not_lt.mpr (le_of_lt h))
    · exact absurd hlt (by rw [h]; exact lt_irrefl _)
  · show orderBy Todo.Position Todo.ID (List.filter _ (List.map _ db.todos)) =
      List.filter _ (orderBy Todo.Position Todo.ID (List.filter _ db.todos))
    rw [← orderBy_filter_any, hmap, hAB]
    congr 1
    rw [List.filter_filter, List.filter_append, List.filter_append, List.filter_cons,
      List.filter_cons, if_neg (by simp [hne]), if_neg (by simp)]
    have hf : ∀ l : List Todo, (∀ x ∈ l, ¬ (x.GroupID = rg.GroupID ∧ x.ID = t.ID)) →
        l.filter (fun x => decide (x.GroupID = rg.GroupID ∧ x.TopicID = topicID ∧
          x.Deleted = false ∧ x.CompletedAt = 0)) =
        l.filter (fun x => decide (x.ID ≠ t.ID) && decide (x.GroupID = rg.GroupID ∧
          x.TopicID = topicID ∧ x.Deleted = false ∧ x.CompletedAt = 0)) := by
      intro l hl
      apply List.filter_congr
      intro x hx
      by_cases hg : x.GroupID = rg.GroupID
      · have : x.ID ≠ t.ID := fun hc => hl x hx ⟨hg, hc⟩
        simp [this]
      · simp [hg]
    rw [hf A (fun x hx => hother x (List.mem_append_left _ hx)),
      hf B (fun x hx => hother x (List.mem_append_right _ hx))]

/-! ## Decimal numerals: reading back what was printed -/

theorem readDigits_cons (c : Char) (cs : List Char) (n : Nat) :
    readDigits (c :: cs) n =
      if c.isDigit then readDigits cs (10 * n + (c.toNat - 48)) else none := rfl

theorem splitAtPoint_cons (c : Char) (cs : List Char) :
    splitAtPoint (c :: cs) =
      if c = '.' then ([], some cs) else (c :: (splitAtPoint cs).1, (splitAtPoint cs).2) := rfl

theorem digitChar_isDigit : ∀ d, d < 10 →
    (Nat.digitChar d).isDigit = true ∧ (Nat.digitChar d).toNat - 48 = d := by
  decide

theorem isDigit_ne_point (c : Char) (h : c.isDigit = true) :
    c ≠ '.' ∧ c ≠ '-' ∧ c ≠ '+' := by
  refine ⟨?_, ?_, ?_⟩ <;> (intro hc; subst hc; revert h; decide)

theorem readDigits_toDigitsCore (fuel : Nat) : ∀ (n : Nat) (ds : List Char), n < fuel →
    readDigits (Nat.toDigitsCore 10 fuel n ds) 0 = readDigits ds n := by
  induction fuel with
  | zero => intro n ds h; omega
  | succ fuel ih =>
    intro n ds h
    obtain ⟨hd, hv⟩ := digitChar_isDigit (n % 10) (Nat.mod_lt _ (by norm_num))
    unfold Nat.toDigitsCore
    simp only []
    by_cases h0 : n / 10 = 0
    · rw [if_pos h0, readDigits_cons, if_pos hd, hv]
      have : n % 10 = n := Nat.mod_eq_of_lt (by omega)
      rw [this, Nat.mul_zero, Nat.zero_add]
    · rw [if_neg h0, ih (n / 10) _ (by omega), readDigits_cons, if_pos hd, hv,
        Nat.div_add_mod]

theorem readDigits_toDigits (n : Nat) : readDigits (Nat.toDigits 10 n) 0 = some n := by
  unfold Nat.toDigits
  rw [readDigits_toDigitsCore (n + 1) n [] (by omega)]
  rfl

theorem toDigitsCore_isDigit (fuel : Nat) : ∀ (n : Nat) (ds : List Char),
    (∀ c ∈ ds, c.isDigit = true) → ∀ c ∈ Nat.toDigitsCore 10 fuel n ds, c.isDigit = true := by
  induction fuel with
  | zero => intro n ds h; simpa [Nat.toDigitsCore] using h
  | succ fuel ih =>
    intro n ds h
    have hd := (digitChar_isDigit (n % 10) (Nat.mod_lt _ (by norm_num))).1
    have hds : ∀ c ∈ Nat.digitChar (n % 10) :: ds, c.isDigit = true := by
      intro c hc
      rcases List.mem_cons.mp hc with hc | hc
      · rw [hc]; exact hd
      · exact h c hc
    unfold Nat.toDigitsCore
    simp only []
    by_cases h0 : n / 10 = 0
    · rw [if_pos h0]; exact hds
    · rw [if_neg h0]; exact ih _ _ hds

theorem toDigitsCore_ne_nil (fuel : Nat) : ∀ (n : Nat) (ds : List Char), ds ≠ [] →
    Nat.toDigitsCore 10 fuel n ds ≠ [] := by
  induction fuel with
  | zero => intro n ds h; simpa [Nat.toDigitsCore] using h
  | succ fuel ih =>
    intro n ds _
    unfold Nat.toDigitsCore
    simp only []
    by_cases h0 : n / 10 = 0
    · rw [if_pos h0]; exact List.cons_ne_nil _ _
    · rw [if_neg h0]; exact ih _ _ (List.cons_ne_nil _ _)

theorem toDigits_isDigit (n : Nat) : ∀ c ∈ Nat.toDigits 10 n, c.isDigit = true :=
  toDigitsCore_isDigit (n + 1) n [] (by simp)

theorem toDigits_ne_nil (n : Nat) : Nat.toDigits 10 n ≠ [] := by
  unfold Nat.toDigits Nat.toDigitsCore
  simp only []
  by_cases h0 : n / 10 = 0
  · rw [if_pos h0]; exact List.cons_ne_nil _ _
  · rw [if_neg h0]; exact toDigitsCore_ne_nil _ _ _ (List.cons_ne_nil _ _)

theorem fractionDigits_length (k : Nat) : ∀ r, (fractionDigits k r).length = k := by
  induction k with
  | zero => intro r; rfl
  | succ k ih => intro r; simp [fractionDigits, ih]

theorem readDigits_fractionDigits (k : Nat) : ∀ (r a : Nat), r < 10 ^ k →
    readDigits (fractionDigits k r) a = some (a * 10 ^ k + r) := by
  induction k with
  | zero =>
    intro r a h
    have : r = 0 := by simpa using h
    subst this
    simp [fractionDigits, readDigits]
  | succ k ih =>
    intro r a h
    have hpos : 0 < 10 ^ k := by positivity
    have hlt : r / 10 ^ k < 10 := by
      rw [Nat.div_lt_iff_lt_mul hpos]
      calc r < 10 ^ (k + 1) := h
        _ = 10 * 10 ^ k := by ring
    obtain ⟨hd, hv⟩ := digitChar_isDigit _ hlt
    show readDigits (Nat.digitChar (r / 10 ^ k) :: fractionDigits k (r % 10 ^ k)) a = _
    rw [readDigits_cons, if_pos hd, hv, ih _ _ (Nat.mod_lt _ hpos)]
    congr 1
    have := Nat.div_add_mod r (10 ^ k)
    calc (10 * a + r / 10 ^ k) * 10 ^ k + r % 10 ^ k
        = a * (10 * 10 ^ k) + (10 ^ k * (r / 10 ^ k) + r % 10 ^ k) := by ring
      _ = a * 10 ^ (k + 1) + r := by rw [this]; ring

theorem splitAtPoint_digits : ∀ (ds rest : List Char), (∀ c ∈ ds, c.isDigit = true) →
    splitAtPoint (ds ++ rest) = (ds ++ (splitAtPoint rest).1, (splitAtPoint rest).2)
  | [], rest, _ => rfl
  | d :: ds, rest, h => by
    have hd : d ≠ '.' := (isDigit_ne_point d (h d (List.mem_cons_self _ _))).1
    have ih := splitAtPoint_digits ds rest fun c hc => h c (List.mem_cons_of_mem _ hc)
    show splitAtPoint (d :: (ds ++ rest)) = _
    rw [splitAtPoint_cons, if_neg hd, ih]
    rfl

theorem search_dvd (den : Nat) : ∀ (fuel k j : Nat), k ≤ j → j < k + fuel → den ∣ 10 ^ j →
    den ∣ 10 ^ decimalPlaces.search den fuel k := by
  intro fuel
  induction fuel with
  | zero => intro k j h1 h2; omega
  | succ fuel ih =>
    intro k j h1 h2 hj
    unfold decimalPlaces.search
    by_cases hk : den ∣ 10 ^ k
    · rw [if_pos hk]; exact hk
    · rw [if_neg hk]
      have : k ≠ j := fun e => hk (e ▸ hj)
      exact ih (k + 1) j (by omega) (by omega) hj

theorem dvd_ten_pow_self (den k : Nat) (hden : den ≠ 0) (h : den ∣ 10 ^ k) :
    den ∣ 10 ^ den := by
  rw [← Nat.factorization_prime_le_iff_dvd hden (by positivity)]
  intro p hp
  by_cases hpd : p ∣ den
  · have hp10 : p ∣ 10 := hp.dvd_of_dvd_pow (hpd.trans h)
    have h1 : 0 < (10 : Nat).factorization p :=
      hp.factorization_pos_of_dvd (by norm_num) hp10
    have h2 : den.factorization p < den := Nat.factorization_lt p hden
    rw [Nat.factorization_pow]
    simp only [Finsupp.smul_apply, smul_eq_mul]
    calc den.factorization p ≤ den := le_of_lt h2
      _ = den * 1 := (Nat.mul_one _).symm
      _ ≤ den * (10 : Nat).factorization p := Nat.mul_le_mul_left _ h1
  · rw [Nat.factorization_eq_zero_of_not_dvd hpd]
    exact Nat.zero_le _

theorem decimalPlaces_dvd (den : Nat) (hden : den ≠ 0) (h : ∃ k, den ∣ 10 ^ k) :
    den ∣ 10 ^ decimalPlaces den := by
  obtain ⟨k, hk⟩ := h
  exact search_dvd den (den + 1) 0 den (Nat.zero_le _) (by omega)
    (dvd_ten_pow_self den k hden hk)

theorem readDecimal_printed (w k r : Nat) (hr : r < 10 ^ k) :
    readDecimal (Nat.toDigits 10 w ++ (if k = 0 then [] else '.' :: fractionDigits k r)) =
      some ((w : ℚ) + (r : ℚ) / 10 ^ k) := by
  have hsplit := splitAtPoint_digits (Nat.toDigits 10 w)
    (if k = 0 then [] else '.' :: fractionDigits k r) (toDigits_isDigit w)
  unfold readDecimal
  rw [hsplit]
  by_cases hk : k = 0
  · subst hk
    have : r = 0 := by simpa using hr
    subst this
    simp [splitAtPoint, toDigits_ne_nil, readDigits_toDigits]
  · rw [if_neg hk]
    have h1 : splitAtPoint ('.' :: fractionDigits k r) = ([], some (fractionDigits k r)) := by
      rw [splitAtPoint_cons, if_pos rfl]
    rw [h1]
    simp only [List.append_nil]
    rw [if_neg (fun h => toDigits_ne_nil w h.1), readDigits_toDigits,
      readDigits_fractionDigits k r 0 hr, fractionDigits_length]
    simp

theorem formatDecimal_ne_empty (x : ℚ) : formatDecimal x ≠ "" := by
  intro h
  have hd := congrArg String.data h
  simp [formatDecimal, toDigits_ne_nil] at hd

theorem parseDecimal_formatDecimal (x : ℚ) (h : ∃ k, x.den ∣ 10 ^ k) :
    parseDecimal (formatDecimal x) = some x := by
  have hdvd := decimalPlaces_dvd x.den x.den_nz h
  set k := decimalPlaces x.den with hk
  have hpos : 0 < 10 ^ k := by positivity
  set n := x.num.natAbs * 10 ^ k / x.den with hn
  have hmul : n * x.den = x.num.natAbs * 10 ^ k :=
    Nat.div_mul_cancel (Dvd.dvd.mul_left hdvd _)
  have hread := readDecimal_printed (n / 10 ^ k) k (n % 10 ^ k) (Nat.mod_lt _ hpos)
  have hval : ((n / 10 ^ k : Nat) : ℚ) + ((n % 10 ^ k : Nat) : ℚ) / 10 ^ k =
      (x.num.natAbs : ℚ) / x.den := by
    have hden : (x.den : ℚ) ≠ 0 := by exact_mod_cast x.den_nz
    have hten : ((10 : ℚ) ^ k) ≠ 0 := by positivity
    have e1 : ((n / 10 ^ k : Nat) : ℚ) * 10 ^ k + ((n % 10 ^ k : Nat) : ℚ) = n := by
      have := Nat.div_add_mod n (10 ^ k)
      have h2 : (((10 ^ k * (n / 10 ^ k) + n % 10 ^ k : Nat)) : ℚ) = n := by rw [this]
      push_cast at h2
      linarith
    have e2 : (n : ℚ) * x.den = x.num.natAbs * 10 ^ k := by exact_mod_cast hmul
    field_simp
    rw [e1]
    linarith
  have hdata : (formatDecimal x).data =
      (if x.num < 0 then ['-'] else []) ++ (Nat.toDigits 10 (n / 10 ^ k) ++
        (if k = 0 then [] else '.' :: fractionDigits k (n % 10 ^ k))) := by
    simp [formatDecimal, ← hk, ← hn]
  unfold parseDecimal
  rw [hdata]
  by_cases hneg : x.num < 0
  · rw [if_pos hneg]
    show (readDecimal (Nat.toDigits 10 (n / 10 ^ k) ++
      (if k = 0 then [] else '.' :: fractionDigits k (n % 10 ^ k)))).map (fun y => -y) = some x
    rw [hread, hval]
    simp only [Option.map_some']
    congr 1
    have hx := Rat.num_div_den x
    have habs2 : ((x.num.natAbs : Nat) : ℚ) = -(x.num : ℚ) := by
      rw [Nat.cast_natAbs, abs_of_neg hneg, Int.cast_neg]
    rw [habs2, neg_div, neg_neg, hx]
  · rw [if_neg hneg, List.nil_append]
    obtain ⟨c, cs, hc⟩ := List.exists_cons_of_ne_nil (toDigits_ne_nil (n / 10 ^ k))
    have hcd : c.isDigit = true := toDigits_isDigit (n / 10 ^ k) c (by rw [hc]; simp)
    obtain ⟨_, hm, hp⟩ := isDigit_ne_point c hcd
    have hmatch : ∀ l : List Char,
        (match c :: l with
          | '-' :: cs => (readDecimal cs).map fun y => -y
          | '+' :: cs => readDecimal cs
          | cs => readDecimal cs) = readDecimal (c :: l) := by
      intro l
      split
      · rename_i heq; exact absurd (List.cons.inj heq).1 hm
      · rename_i heq; exact absurd (List.cons.inj heq).1 hp
      · rfl
    have hread2 := hread
    rw [hc] at hread2 ⊢
    rw [List.cons_append, hmatch, ← List.cons_append, hread2, hval]
    congr 1
    have hx := Rat.num_div_den x
    have habs2 : ((x.num.natAbs : Nat) : ℚ) = (x.num : ℚ) := by
      rw [Nat.cast_natAbs, abs_of_nonneg (not_lt.mp hneg)]
    rw [habs2, hx]

/-- What the two conversions give on sample inputs: whole numbers print
without a point, fractions with their digits and no trailing zero, negative
numbers with a sign; strings that are no numerals are rejected. -/
theorem decimalNumerals_samples :
    formatDecimal 3 = "3" ∧ formatDecimal 0 = "0" ∧
    formatDecimal (mkRat 5 4) = "1.25" ∧ formatDecimal (mkRat (-1) 2) = "-0.5" ∧
    formatDecimal (mkRat 1700000000123456 1000000) = "1700000000.123456" ∧
    parseDecimal "1.25" = some (mkRat 5 4) ∧ parseDecimal "-0.5" = some (mkRat (-1) 2) ∧
    parseDecimal "" = none ∧ parseDecimal "abc" = none ∧ parseDecimal "1.2.3" = none ∧
    parseDecimal "-" = none ∧ parseDecimal "." = none := by
  have h1 : formatDecimal (mkRat 5 4) = "1.25" := by decide
  have h2 : formatDecimal (mkRat (-1) 2) = "-0.5" := by decide
  refine ⟨by decide, by decide, h1, h2, by decide, ?_, ?_, by decide, by decide, by decide,
    by decide, by decide⟩
  · rw [← h1]; exact parseDecimal_formatDecimal _ ⟨2, by decide⟩
  · rw [← h2]; exact parseDecimal_formatDecimal _ ⟨1, by decide⟩

/-! ## Claims -/

/-- Counterexample to C1 as stated: three todos completed by one commit share
their completed position; moving the first to index 1 with the draw 1/2 writes
that same position again, the storage is unchanged and the list read back is
still 1, 2, 3, with the moved todo at index 0 and not at index 1. -/
theorem move_with_ties_counterexample :
    RoostGroup.MoveTodo ⟨7, 1⟩ committedTogether (1 / 2) true 9 0 1 = .ok committedTogether ∧
    (RoostGroup.Todos ⟨7, 1⟩ committedTogether 9).completeTodos.map Todo.ID = [1, 2, 3] ∧
    (RoostGroup.Todos ⟨7, 1⟩ committedTogether 9).completeTodos.map Todo.CompletedPosition =
      [-100, -100, -100] := by
  refine ⟨?_, by decide, by decide⟩
  have hl : RoostGroup.MoveTodo.targetTodos true (RoostGroup.Todos ⟨7, 1⟩ committedTogether 9) =
      committedTogether.todos := by decide
  have hq : targetPosition (1 / 2) (committedTogether.todos.map (RoostGroup.MoveTodo.pos true))
      0 1 = -100 := by
    simp [targetPosition, committedTogether, RoostGroup.MoveTodo.pos, randomPosition]
  have hw := moveTodo_writer_ok ⟨7, 1⟩ committedTogether (1 / 2) true 9 0 1 (by rw [hl]; decide)
    (by rw [hl]; decide)
  simp only [hl, hq, Nat.cast_zero, Nat.cast_one] at hw
  unfold RoostGroup.MoveTodo
  rw [hw]
  simp [Outcome.bind, Execute, committedTogether, Todo.applyUpdate, Todo.setProp,
    RoostGroup.MoveTodo.posProp]

/-- C1 (amended). In exact arithmetic, for every list as read from storage
whose positions are pairwise distinct, every pair of indices `from`, `to`
within the list and every draw of the allocator: after `MoveTodo`, respectively
`MoveTopic`, the list read back has the moved item at exactly index `to`, and
without that entry it is the old list without the entry at `from`.  Positions
are rationals here and `randomPosition` is not rounded, so the new position
lies strictly between its two bounds; in `float64` that fails when the bounds
are adjacent `float64` values. -/
theorem move_places_at_index_of_distinct (rg : RoostGroup) (db : DB) (u : ℚ) (from_ to_ : Nat)
    (hu0 : 0 ≤ u) (hu1 : u ≤ 1) :
    (∀ (complete : Bool) (topicID : Nat) (l : List Todo)
      (_ : RoostGroup.MoveTodo.targetTodos complete (rg.Todos db topicID) = l)
      (_ : (db.todos.map fun t => (t.GroupID, t.ID)).Nodup)
      (_ : (l.map (RoostGroup.MoveTodo.pos complete)).Nodup)
      (hfrom : from_ < l.length) (_ : to_ < l.length),
      ∃ q db1, rg.MoveTodo db u complete topicID (from_ : Int) (to_ : Int) = .ok db1 ∧
        (RoostGroup.MoveTodo.targetTodos complete (rg.Todos db1 topicID))[to_]? =
          some (l[from_].setProp (RoostGroup.MoveTodo.posProp complete) (.real q)) ∧
        (RoostGroup.MoveTodo.targetTodos complete (rg.Todos db1 topicID)).eraseIdx to_ =
          l.eraseIdx from_) ∧
    (∀ (pinned : Bool) (l : List Topic)
      (_ : RoostGroup.MoveTopic.targetTopics pinned (rg.Topics db) = l)
      (_ : (db.topics.map fun t => (t.GroupID, t.ID)).Nodup)
      (_ : (l.map (RoostGroup.MoveTopic.pos pinned)).Nodup)
      (hfrom : from_ < l.length) (_ : to_ < l.length),
      ∃ q db1, rg.MoveTopic db u pinned (from_ : Int) (to_ : Int) = .ok db1 ∧
        (RoostGroup.MoveTopic.targetTopics pinned (rg.Topics db1))[to_]? =
          some (l[from_].setProp (RoostGroup.MoveTopic.posProp pinned) (.real q)) ∧
        (RoostGroup.MoveTopic.targetTopics pinned (rg.Topics db1)).eraseIdx to_ =
          l.eraseIdx from_) := by
  refine ⟨?_, ?_⟩
  · intro complete topicID l hl hkey hd hfrom hto
    have hstrict := todos_strict_of_distinct rg db complete topicID l hl hd
    obtain ⟨h1, h2⟩ := MoveTodo_reread rg db u complete topicID from_ to_ l hl hkey hstrict
      hfrom hto hu0 hu1
    have hle : to_ ≤ (l.eraseIdx from_).length := by
      rw [List.length_eraseIdx, if_pos hfrom]; omega
    refine ⟨targetPosition u (l.map (RoostGroup.MoveTodo.pos complete)) from_ to_, _, h1, ?_, ?_⟩
    · rw [h2]; exact relocated_get l from_ to_ _ hle
    · rw [h2]; exact relocated_eraseIdx l from_ to_ _ hle
  · intro pinned l hl hkey hd hfrom hto
    have hstrict := topics_strict_of_distinct rg db pinned l hl hd
    obtain ⟨hs2, herase, _⟩ := repaired_of_strict pinned from_ l hstrict hfrom
    obtain ⟨h1, h2⟩ := MoveTopic_reread rg db u pinned from_ to_ l hl hkey hs2 hfrom hto hu0 hu1
    have hle : to_ ≤ ((RoostGroup.MoveTopic.repaired pinned (from_ : Int) l).1.eraseIdx
        from_).length := by
      rw [herase, List.length_eraseIdx, if_pos hfrom]; omega
    refine ⟨targetPosition u ((RoostGroup.MoveTopic.repaired pinned (from_ : Int) l).1.map
      (RoostGroup.MoveTopic.pos pinned)) from_ to_, _, h1, ?_, ?_⟩
    · rw [h2]; exact relocated_get _ from_ to_ _ hle
    · rw [h2, relocated_eraseIdx _ from_ to_ _ hle, herase]

/-- Witness of C1 (amended): the todo at index 3 of five todos is moved to
index 2, and the topic at index 1 of five unpinned topics is moved to index 2,
each with the draw 1/2. -/
theorem move_places_at_index_of_distinct_witness :
    ((0 : ℚ) ≤ 1 / 2 ∧ (1 / 2 : ℚ) ≤ 1 ∧
      RoostGroup.MoveTodo.targetTodos false (RoostGroup.Todos ⟨7, 1⟩ fiveTodos 9) = fiveTodos.todos ∧
      (fiveTodos.todos.map fun t => (t.GroupID, t.ID)).Nodup ∧
      (fiveTodos.todos.map (RoostGroup.MoveTodo.pos false)).Nodup ∧
      3 < fiveTodos.todos.length ∧ 2 < fiveTodos.todos.length ∧
      RoostGroup.MoveTopic.targetTopics false (RoostGroup.Topics ⟨7, 1⟩ listedTopics) =
        (listedTopics.topics.filter fun t => t.Pinned = false) ∧
      (listedTopics.topics.map fun t => (t.GroupID, t.ID)).Nodup ∧
      ((listedTopics.topics.filter fun t => t.Pinned = false).map
        (RoostGroup.MoveTopic.pos false)).Nodup ∧
      1 < (listedTopics.topics.filter fun t => t.Pinned = false).length ∧
      2 < (listedTopics.topics.filter fun t => t.Pinned = false).length) ∧
    (∃ db1, RoostGroup.MoveTodo ⟨7, 1⟩ fiveTodos (1 / 2) false 9 3 2 = .ok db1 ∧
      ((RoostGroup.Todos ⟨7, 1⟩ db1 9).incompleteTodos.map Todo.ID)[2]? = some 4 ∧
      ((RoostGroup.Todos ⟨7, 1⟩ db1 9).incompleteTodos.eraseIdx 2).map Todo.ID = [1, 2, 3, 5]) ∧
    (∃ db1, RoostGroup.MoveTopic ⟨7, 1⟩ listedTopics (1 / 2) false 1 2 = .ok db1 ∧
      ((RoostGroup.Topics ⟨7, 1⟩ db1).unpinnedTopics.map Topic.Label)[2]? = some "four" ∧
      ((RoostGroup.Topics ⟨7, 1⟩ db1).unpinnedTopics.eraseIdx 2).map Topic.Label =
        ["home", "five", "six", "seven"]) := by
  have hu0 : (0 : ℚ) ≤ 1 / 2 := by norm_num
  have hu1 : (1 / 2 : ℚ) ≤ 1 := by norm_num
  have hl : RoostGroup.MoveTodo.targetTodos false (RoostGroup.Todos ⟨7, 1⟩ fiveTodos 9) =
      fiveTodos.todos := by decide
  have hkey : (fiveTodos.todos.map fun t => (t.GroupID, t.ID)).Nodup := by decide
  have hd : (fiveTodos.todos.map (RoostGroup.MoveTodo.pos false)).Nodup := by decide
  have hl2 : RoostGroup.MoveTopic.targetTopics false (RoostGroup.Topics ⟨7, 1⟩ listedTopics) =
      (listedTopics.topics.filter fun t => t.Pinned = false) := by decide
  have hkey2 : (listedTopics.topics.map fun t => (t.GroupID, t.ID)).Nodup := by decide
  have hd2 : ((listedTopics.topics.filter fun t => t.Pinned = false).map
      (RoostGroup.MoveTopic.pos false)).Nodup := by decide
  refine ⟨⟨hu0, hu1, hl, hkey, hd, by decide, by decide, hl2, hkey2, hd2, by decide,
    by decide⟩, ?_, ?_⟩
  · obtain ⟨q, db1, h1, h2, h3⟩ :=
      (move_places_at_index_of_distinct ⟨7, 1⟩ fiveTodos (1 / 2) 3 2 hu0 hu1).1 false 9
        fiveTodos.todos hl hkey hd (by decide) (by decide)
    refine ⟨db1, h1, ?_, ?_⟩
    · have h4 : (RoostGroup.Todos ⟨7, 1⟩ db1 9).incompleteTodos[2]? = _ := h2
      rw [List.getElem?_map, h4]
      simp [fiveTodos, Todo.setProp, RoostGroup.MoveTodo.posProp]
    · have h4 : (RoostGroup.Todos ⟨7, 1⟩ db1 9).incompleteTodos.eraseIdx 2 = _ := h3
      rw [h4]
      decide
  · obtain ⟨q, db1, h1, h2, h3⟩ :=
      (move_places_at_index_of_distinct ⟨7, 1⟩ listedTopics (1 / 2) 1 2 hu0 hu1).2 false
        _ hl2 hkey2 hd2 (by decide) (by decide)
    refine ⟨db1, h1, ?_, ?_⟩
    · have h4 : (RoostGroup.Topics ⟨7, 1⟩ db1).unpinnedTopics[2]? = _ := h2
      rw [List.getElem?_map, h4]
      simp [listedTopics, Topic.setProp, RoostGroup.MoveTopic.posProp]
    · have h4 : (RoostGroup.Topics ⟨7, 1⟩ db1).unpinnedTopics.eraseIdx 2 = _ := h3
      rw [h4]
      decide

/-- C2. For every todo list (either category of a topic) whose positions are
strictly increasing, every pair of indices `from`, `to` within the list,
`from == to` included, and every allocator fraction in `[0.1, 0.9]` (the draw
`u` in `[0, 1]`): `MoveTodo` hands exactly one update to the writer, the one of
the moved todo, and after it the list read back has the moved todo at index
`to` and, with that entry taken out, is the old list with the entry at `from`
taken out. -/
theorem MoveTodo_places_at_index (rg : RoostGroup) (db : DB) (u : ℚ) (complete : Bool)
    (topicID : Nat) (from_ to_ : Nat) (l : List Todo)
    (hl : RoostGroup.MoveTodo.targetTodos complete (rg.Todos db topicID) = l)
    (hkey : (db.todos.map fun t => (t.GroupID, t.ID)).Nodup)
    (hstrict : l.Pairwise
      fun a b => RoostGroup.MoveTodo.pos complete a < RoostGroup.MoveTodo.pos complete b)
    (hfrom : from_ < l.length) (hto : to_ < l.length) (hu0 : 0 ≤ u) (hu1 : u ≤ 1) :
    ∃ q db1,
      RoostGroup.MoveTodo.writer rg db u complete topicID (from_ : Int) (to_ : Int) =
        .ok [{ view := "todos", id := l[from_].ID,
               props := [(RoostGroup.MoveTodo.posProp complete, .real q)] }] ∧
      rg.MoveTodo db u complete topicID (from_ : Int) (to_ : Int) = .ok db1 ∧
      RoostGroup.MoveTodo.targetTodos complete (rg.Todos db1 topicID) =
        relocated l from_ to_ (l[from_].setProp (RoostGroup.MoveTodo.posProp complete) (.real q)) ∧
      (RoostGroup.MoveTodo.targetTodos complete (rg.Todos db1 topicID))[to_]? =
        some (l[from_].setProp (RoostGroup.MoveTodo.posProp complete) (.real q)) ∧
      (RoostGroup.MoveTodo.targetTodos complete (rg.Todos db1 topicID)).eraseIdx to_ =
        l.eraseIdx from_ := by
  obtain ⟨h1, h2⟩ := MoveTodo_reread rg db u complete topicID from_ to_ l hl hkey hstrict hfrom
    hto hu0 hu1
  have hle : to_ ≤ (l.eraseIdx from_).length := by
    rw [List.length_eraseIdx, if_pos hfrom]; omega
  refine ⟨_, _, ?_, h1, h2, ?_, ?_⟩
  · have := moveTodo_writer_ok rg db u complete topicID from_ to_ (by rw [hl]; exact hfrom)
      (by rw [hl]; exact hto)
    subst hl
    exact this
  · rw [h2]; exact relocated_get l from_ to_ _ hle
  · rw [h2]; exact relocated_eraseIdx l from_ to_ _ hle

/-- The three moves of the tests on five todos "1" to "5", for every draw:
3 to 2 gives 1,2,4,3,5; 3 to 0 gives 4,1,2,3,5; 3 to 4 gives 1,2,3,5,4. -/
theorem MoveTodo_five_todos (u : ℚ) (hu0 : 0 ≤ u) (hu1 : u ≤ 1) :
    (∃ db1, RoostGroup.MoveTodo ⟨7, 1⟩ fiveTodos u false 9 3 2 = .ok db1 ∧
      (RoostGroup.Todos ⟨7, 1⟩ db1 9).incompleteTodos.map Todo.Body = ["1", "2", "4", "3", "5"]) ∧
    (∃ db1, RoostGroup.MoveTodo ⟨7, 1⟩ fiveTodos u false 9 3 0 = .ok db1 ∧
      (RoostGroup.Todos ⟨7, 1⟩ db1 9).incompleteTodos.map Todo.Body = ["4", "1", "2", "3", "5"]) ∧
    (∃ db1, RoostGroup.MoveTodo ⟨7, 1⟩ fiveTodos u false 9 3 4 = .ok db1 ∧
      (RoostGroup.Todos ⟨7, 1⟩ db1 9).incompleteTodos.map Todo.Body = ["1", "2", "3", "5", "4"]) := by
  have hl : RoostGroup.MoveTodo.targetTodos false (RoostGroup.Todos ⟨7, 1⟩ fiveTodos 9) =
      fiveTodos.todos := by decide
  have hkey : (fiveTodos.todos.map fun t => (t.GroupID, t.ID)).Nodup := by decide
  have hstrict : fiveTodos.todos.Pairwise
      (fun a b => RoostGroup.MoveTodo.pos false a < RoostGroup.MoveTodo.pos false b) := by decide
  refine ⟨?_, ?_, ?_⟩
  · obtain ⟨h2, h3⟩ := MoveTodo_reread ⟨7, 1⟩ fiveTodos u false 9 3 2
      fiveTodos.todos hl hkey hstrict (by decide) (by decide) hu0 hu1
    refine ⟨_, h2, ?_⟩
    have h4 : (RoostGroup.Todos ⟨7, 1⟩ _ 9).incompleteTodos = _ := h3
    rw [h4]
    simp [relocated, fiveTodos, Todo.setProp, RoostGroup.MoveTodo.posProp]
  · obtain ⟨h2, h3⟩ := MoveTodo_reread ⟨7, 1⟩ fiveTodos u false 9 3 0
      fiveTodos.todos hl hkey hstrict (by decide) (by decide) hu0 hu1
    refine ⟨_, h2, ?_⟩
    have h4 : (RoostGroup.Todos ⟨7, 1⟩ _ 9).incompleteTodos = _ := h3
    rw [h4]
    simp [relocated, fiveTodos, Todo.setProp, RoostGroup.MoveTodo.posProp]
  · obtain ⟨h2, h3⟩ := MoveTodo_reread ⟨7, 1⟩ fiveTodos u false 9 3 4
      fiveTodos.todos hl hkey hstrict (by decide) (by decide) hu0 hu1
    refine ⟨_, h2, ?_⟩
    have h4 : (RoostGroup.Todos ⟨7, 1⟩ _ 9).incompleteTodos = _ := h3
    rw [h4]
    simp [relocated, fiveTodos, Todo.setProp, RoostGroup.MoveTodo.posProp]

/-- Witness of C2: five todos "1" to "5", the todo at index 3 moved to index 2
with the draw 1/2. -/
theorem MoveTodo_places_at_index_witness :
    (RoostGroup.MoveTodo.targetTodos false (RoostGroup.Todos ⟨7, 1⟩ fiveTodos 9) = fiveTodos.todos ∧
      (fiveTodos.todos.map fun t => (t.GroupID, t.ID)).Nodup ∧
      fiveTodos.todos.Pairwise
        (fun a b => RoostGroup.MoveTodo.pos false a < RoostGroup.MoveTodo.pos false b) ∧
      3 < fiveTodos.todos.length ∧ 2 < fiveTodos.todos.length ∧
      (0 : ℚ) ≤ 1 / 2 ∧ (1 / 2 : ℚ) ≤ 1) ∧
    ∃ db1, RoostGroup.MoveTodo ⟨7, 1⟩ fiveTodos (1 / 2) false 9 3 2 = .ok db1 ∧
      (RoostGroup.Todos ⟨7, 1⟩ db1 9).incompleteTodos.map Todo.Body = ["1", "2", "4", "3", "5"] := by
  have hl : RoostGroup.MoveTodo.targetTodos false (RoostGroup.Todos ⟨7, 1⟩ fiveTodos 9) =
      fiveTodos.todos := by decide
  have hkey : (fiveTodos.todos.map fun t => (t.GroupID, t.ID)).Nodup := by decide
  have hstrict : fiveTodos.todos.Pairwise
      (fun a b => RoostGroup.MoveTodo.pos false a < RoostGroup.MoveTodo.pos false b) := by decide
  have hu0 : (0 : ℚ) ≤ 1 / 2 := by norm_num
  have hu1 : (1 / 2 : ℚ) ≤ 1 := by norm_num
  refine ⟨⟨hl, hkey, hstrict, by decide, by decide, hu0, hu1⟩, ?_⟩
  obtain ⟨q, db1, _, h2, h3, _, _⟩ := MoveTodo_places_at_index ⟨7, 1⟩ fiveTodos (1 / 2) false 9 3 2
    fiveTodos.todos hl hkey hstrict (by decide) (by decide) hu0 hu1
  refine ⟨db1, h2, ?_⟩
  have h4 : (RoostGroup.Todos ⟨7, 1⟩ db1 9).incompleteTodos = _ := h3
  rw [h4]
  simp [relocated, fiveTodos, Todo.setProp, RoostGroup.MoveTodo.posProp]

/-- C3. Zero-collision repair for topics: for every topic list (pinned or
unpinned) in which every position is 0 and every pair of indices `from`, `to`
within the list, one `MoveTopic` call hands to the writer an update of position
`i` for each member at index `i` other than the moved one, followed by the
update of the moved member; after it the list read back has the same length,
strictly ascending (so pairwise distinct) positions, the moved member at index
`to`, and without that entry it is the old list, positions set to the indices,
without the entry at `from`. -/
theorem MoveTopic_zero_repair (rg : RoostGroup) (db : DB) (u : ℚ) (pinned : Bool)
    (from_ to_ : Nat) (l : List Topic)
    (hl : RoostGroup.MoveTopic.targetTopics pinned (rg.Topics db) = l)
    (hkey : (db.topics.map fun t => (t.GroupID, t.ID)).Nodup)
    (hzero : ∀ t ∈ l, RoostGroup.MoveTopic.pos pinned t = 0)
    (hfrom : from_ < l.length) (hto : to_ < l.length) (hu0 : 0 ≤ u) (hu1 : u ≤ 1) :
    ∃ q db1,
      RoostGroup.MoveTopic.writer rg db u pinned (from_ : Int) (to_ : Int) =
        .ok (((l.enum.filter fun p => decide (p.1 ≠ from_)).map fun p =>
            ({ view := "topics", id := p.2.ID,
               props := [(RoostGroup.MoveTopic.posProp pinned, .real (p.1 : ℚ))] } : Update)) ++
          [{ view := "topics", id := l[from_].ID,
             props := [(RoostGroup.MoveTopic.posProp pinned, .real q)] }]) ∧
      rg.MoveTopic db u pinned (from_ : Int) (to_ : Int) = .ok db1 ∧
      (RoostGroup.MoveTopic.targetTopics pinned (rg.Topics db1)).length = l.length ∧
      (RoostGroup.MoveTopic.targetTopics pinned (rg.Topics db1)).Pairwise
        (fun a b => RoostGroup.MoveTopic.pos pinned a < RoostGroup.MoveTopic.pos pinned b) ∧
      RoostGroup.MoveTopic.targetTopics pinned (rg.Topics db1) =
        relocated
          (l.enum.map fun p =>
            p.2.setProp (RoostGroup.MoveTopic.posProp pinned) (.real (p.1 : ℚ)))
          from_ to_ (l[from_].setProp (RoostGroup.MoveTopic.posProp pinned) (.real q)) ∧
      (RoostGroup.MoveTopic.targetTopics pinned (rg.Topics db1))[to_]? =
        some (l[from_].setProp (RoostGroup.MoveTopic.posProp pinned) (.real q)) ∧
      (RoostGroup.MoveTopic.targetTopics pinned (rg.Topics db1)).eraseIdx to_ =
        (l.enum.map fun p =>
          p.2.setProp (RoostGroup.MoveTopic.posProp pinned) (.real (p.1 : ℚ))).eraseIdx from_ := by
  have hz : RoostGroup.MoveTopic.atZero pinned l = true := (atZero_iff pinned l).mpr hzero
  have hrep := repaired_of_atZero pinned (from_ : Int) l hz
  have hlen := repaired_fst_length pinned (from_ : Int) l
  have hs2 : (RoostGroup.MoveTopic.repaired pinned (from_ : Int) l).1.Pairwise
      fun a b => RoostGroup.MoveTopic.pos pinned a < RoostGroup.MoveTopic.pos pinned b := by
    rw [hrep]; exact repair_fst_strict pinned _ l
  obtain ⟨h1, h2⟩ := MoveTopic_reread rg db u pinned from_ to_ l hl hkey hs2 hfrom hto hu0 hu1
  have hw := moveTopic_writer_ok rg db u pinned from_ to_ l hl hfrom hto
  have hle : to_ ≤ ((RoostGroup.MoveTopic.repaired pinned (from_ : Int) l).1.eraseIdx
      from_).length := by
    rw [List.length_eraseIdx, if_pos (by omega)]; omega
  have hfst : (RoostGroup.MoveTopic.repaired pinned (from_ : Int) l).1 =
      l.enum.map fun p =>
        p.2.setProp (RoostGroup.MoveTopic.posProp pinned) (.real (p.1 : ℚ)) := by
    rw [hrep]; exact repair_fst_eq pinned _ 0 l
  have hsnd : (RoostGroup.MoveTopic.repaired pinned (from_ : Int) l).2 =
      (l.enum.filter fun p => decide (p.1 ≠ from_)).map fun p =>
        ({ view := "topics", id := p.2.ID,
           props := [(RoostGroup.MoveTopic.posProp pinned, .real (p.1 : ℚ))] } : Update) := by
    rw [hrep]; exact repair_snd_eq pinned from_ 0 l
  refine ⟨targetPosition u ((RoostGroup.MoveTopic.repaired pinned (from_ : Int) l).1.map
    (RoostGroup.MoveTopic.pos pinned)) from_ to_, _, ?_, h1, ?_, ?_, ?_, ?_, ?_⟩
  · rw [hw, hsnd]
  · rw [h2, relocated_length _ _ _ _ (by omega), hlen]
  · rw [h2]
    exact relocated_target_strict _ _ from_ to_ _ u hs2 (by omega) (by omega)
      (topic_pos_setProp _ _ _) hu0 hu1
  · rw [h2, hfst]
  · rw [h2]; exact relocated_get _ from_ to_ _ hle
  · rw [h2, relocated_eraseIdx _ from_ to_ _ hle, hfst]

/-- Witness of C3: the unpinned topics home, four, five, six, seven, all at
position 0; the topic at index 1 is moved to index 2 with the draw 1/2 and the
list read back is home, five, four, six, seven. -/
theorem MoveTopic_zero_repair_witness :
    (RoostGroup.MoveTopic.targetTopics false (RoostGroup.Topics ⟨7, 1⟩ zeroTopics) =
        (zeroTopics.topics.filter fun t => t.Pinned = false) ∧
      (zeroTopics.topics.map fun t => (t.GroupID, t.ID)).Nodup ∧
      (∀ t ∈ zeroTopics.topics.filter fun t => t.Pinned = false,
        RoostGroup.MoveTopic.pos false t = 0) ∧
      1 < (zeroTopics.topics.filter fun t => t.Pinned = false).length ∧
      2 < (zeroTopics.topics.filter fun t => t.Pinned = false).length ∧
      (0 : ℚ) ≤ 1 / 2 ∧ (1 / 2 : ℚ) ≤ 1) ∧
    ∃ db1, RoostGroup.MoveTopic ⟨7, 1⟩ zeroTopics (1 / 2) false 1 2 = .ok db1 ∧
      (RoostGroup.Topics ⟨7, 1⟩ db1).unpinnedTopics.map Topic.Label =
        ["home", "five", "four", "six", "seven"] := by
  have hl : RoostGroup.MoveTopic.targetTopics false (RoostGroup.Topics ⟨7, 1⟩ zeroTopics) =
      (zeroTopics.topics.filter fun t => t.Pinned = false) := by decide
  have hkey : (zeroTopics.topics.map fun t => (t.GroupID, t.ID)).Nodup := by decide
  have hzero : ∀ t ∈ zeroTopics.topics.filter fun t => t.Pinned = false,
      RoostGroup.MoveTopic.pos false t = 0 := by decide
  have hu0 : (0 : ℚ) ≤ 1 / 2 := by norm_num
  have hu1 : (1 / 2 : ℚ) ≤ 1 := by norm_num
  refine ⟨⟨hl, hkey, hzero, by decide, by decide, hu0, hu1⟩, ?_⟩
  obtain ⟨q, db1, _, h2, _, _, h5, _, _⟩ := MoveTopic_zero_repair ⟨7, 1⟩ zeroTopics (1 / 2) false 1 2
    _ hl hkey hzero (by decide) (by decide) hu0 hu1
  refine ⟨db1, h2, ?_⟩
  have h7 : (RoostGroup.Topics ⟨7, 1⟩ db1).unpinnedTopics = _ := h5
  rw [h7]
  simp [relocated, zeroTopics, Topic.setProp, RoostGroup.MoveTopic.posProp, List.enum,
    List.enumFrom]

/-- C4, the code at the failing input: three completed todos whose completed
positions are all 0.  `MoveTodo` of index 0 to index 1 hands one update to the
writer, position 0 for the moved todo, whatever the draw; the storage is
unchanged, every position is still 0 and the list read back is still 1, 2, 3. -/
theorem MoveTodo_zero_list_unrepaired (u : ℚ) :
    RoostGroup.MoveTodo.writer ⟨7, 1⟩ completedByUpdate u true 9 0 1 =
      .ok [{ view := "todos", id := 1, props := [("completed_position", .real 0)] }] ∧
    RoostGroup.MoveTodo ⟨7, 1⟩ completedByUpdate u true 9 0 1 = .ok completedByUpdate ∧
    (RoostGroup.Todos ⟨7, 1⟩ completedByUpdate 9).completeTodos.map Todo.ID = [1, 2, 3] ∧
    (RoostGroup.Todos ⟨7, 1⟩ completedByUpdate 9).completeTodos.map Todo.CompletedPosition =
      [0, 0, 0] := by
  have hl : RoostGroup.MoveTodo.targetTodos true (RoostGroup.Todos ⟨7, 1⟩ completedByUpdate 9) =
      completedByUpdate.todos := by decide
  have hq : targetPosition u (completedByUpdate.todos.map (RoostGroup.MoveTodo.pos true))
      0 1 = 0 := by
    simp [targetPosition, completedByUpdate, RoostGroup.MoveTodo.pos, randomPosition]
  have hw := moveTodo_writer_ok ⟨7, 1⟩ completedByUpdate u true 9 0 1 (by rw [hl]; decide)
    (by rw [hl]; decide)
  simp only [hl, hq, Nat.cast_zero, Nat.cast_one] at hw
  have hw2 : RoostGroup.MoveTodo.writer ⟨7, 1⟩ completedByUpdate u true 9 0 1 =
      .ok [{ view := "todos", id := 1, props := [("completed_position", .real 0)] }] := by
    rw [hw]; rfl
  refine ⟨hw2, ?_, by decide, by decide⟩
  unfold RoostGroup.MoveTodo
  rw [hw2]
  simp [Outcome.bind, Execute, completedByUpdate, Todo.applyUpdate, Todo.setProp]

/-- C5. For all bounds `low < high` and every draw `u` of `rand.Float64()`
(`0 <= u < 1`), `randomPosition` returns `low + f*(high - low)` for a fraction
`f` with `0.1 <= f <= 0.9`; the result lies between `low + 0.1*(high - low)` and
`low + 0.9*(high - low)` and strictly inside the open interval `(low, high)`. -/
theorem randomPosition_bounds (low high u : ℚ) (hlh : low < high) (hu0 : 0 ≤ u) (hu1 : u < 1) :
    (∃ f : ℚ, 1 / 10 ≤ f ∧ f ≤ 9 / 10 ∧ randomPosition u low high = low + f * (high - low)) ∧
    low + 1 / 10 * (high - low) ≤ randomPosition u low high ∧
    randomPosition u low high ≤ low + 9 / 10 * (high - low) ∧
    low < randomPosition u low high ∧ randomPosition u low high < high := by
  have hd : 0 < high - low := sub_pos.mpr hlh
  have h1 : 0 ≤ (u * (8 / 10)) * (high - low) := mul_nonneg (by linarith) hd.le
  have h2 : 0 ≤ ((1 - u) * (8 / 10)) * (high - low) := mul_nonneg (by nlinarith) hd.le
  refine ⟨⟨u * (8 / 10) + 1 / 10, by linarith, by linarith, randomPosition_eq u low high⟩,
    ?_, ?_, randomPosition_gt u low high hlh hu0, randomPosition_lt u low high hlh hu1.le⟩
  · rw [randomPosition_eq]; nlinarith
  · rw [randomPosition_eq]; nlinarith

/-- Witness of C5: the draw 1/2 between the bounds 0 and 2. -/
theorem randomPosition_bounds_witness :
    ((0 : ℚ) < 2 ∧ (0 : ℚ) ≤ 1 / 2 ∧ (1 / 2 : ℚ) < 1) ∧
    ((∃ f : ℚ, 1 / 10 ≤ f ∧ f ≤ 9 / 10 ∧ randomPosition (1 / 2) 0 2 = 0 + f * (2 - 0)) ∧
    0 + 1 / 10 * (2 - 0) ≤ randomPosition (1 / 2) 0 2 ∧
    randomPosition (1 / 2) 0 2 ≤ 0 + 9 / 10 * (2 - 0) ∧
    0 < randomPosition (1 / 2) 0 2 ∧ randomPosition (1 / 2) 0 2 < 2) :=
  ⟨⟨by norm_num, by norm_num, by norm_num⟩,
    randomPosition_bounds 0 2 (1 / 2) (by norm_num) (by norm_num) (by norm_num)⟩

/-- Counterexample to C6 as stated: on a list of five todos `MoveTodo` with
`from = 5` does not return an error, it panics. -/
theorem move_out_of_range_counterexample :
    RoostGroup.MoveTodo ⟨7, 1⟩ fiveTodos (1 / 2) false 9 5 0 = .panic ∧
    ¬ ∃ e, RoostGroup.MoveTodo ⟨7, 1⟩ fiveTodos (1 / 2) false 9 5 0 = .error e := by
  have hl : RoostGroup.MoveTodo.targetTodos false (RoostGroup.Todos ⟨7, 1⟩ fiveTodos 9) =
      fiveTodos.todos := by decide
  have hp : RoostGroup.MoveTodo ⟨7, 1⟩ fiveTodos (1 / 2) false 9 5 0 = .panic := by
    unfold RoostGroup.MoveTodo RoostGroup.MoveTodo.writer
    simp only [hl]
    rw [index_ge _ 5 (by decide)]
    rfl
  refine ⟨hp, ?_⟩
  rintro ⟨e, he⟩
  rw [hp] at he
  exact Outcome.noConfusion he

/-- C6 (amended). For every list of length `n`, the empty list included, and
every pair `(from, to)` with `from` or `to` outside `[0, n)`: `MoveTodo` and
`MoveTopic` end in a run-time index panic and return no error value; the panic
comes before `writer.Execute()`, so no batch, and with it no position write, is
submitted to storage. -/
theorem move_out_of_range_panics (rg : RoostGroup) (db : DB) (u : ℚ) (from_ to_ : Int) :
    (∀ (complete : Bool) (topicID : Nat),
      ¬ (0 ≤ from_ ∧
          from_ < (RoostGroup.MoveTodo.targetTodos complete (rg.Todos db topicID)).length ∧
          0 ≤ to_ ∧
          to_ < (RoostGroup.MoveTodo.targetTodos complete (rg.Todos db topicID)).length) →
      RoostGroup.MoveTodo.writer rg db u complete topicID from_ to_ = .panic ∧
      rg.MoveTodo db u complete topicID from_ to_ = .panic) ∧
    (∀ (pinned : Bool),
      ¬ (0 ≤ from_ ∧
          from_ < (RoostGroup.MoveTopic.targetTopics pinned (rg.Topics db)).length ∧
          0 ≤ to_ ∧
          to_ < (RoostGroup.MoveTopic.targetTopics pinned (rg.Topics db)).length) →
      RoostGroup.MoveTopic.writer rg db u pinned from_ to_ = .panic ∧
      rg.MoveTopic db u pinned from_ to_ = .panic) := by
  refine ⟨?_, ?_⟩
  · intro complete topicID h
    have hw : RoostGroup.MoveTodo.writer rg db u complete topicID from_ to_ = .panic := by
      unfold RoostGroup.MoveTodo.writer
      simp only []
      by_cases hf : 0 ≤ from_ ∧
          from_ < (RoostGroup.MoveTodo.targetTodos complete (rg.Todos db topicID)).length
      · obtain ⟨a, ha⟩ := index_inside _ from_ hf.1 hf.2
        rw [ha, choice_panic _ _ u from_ to_ hf.1 hf.2 (by omega)]
        rfl
      · rw [index_outside _ from_ (by omega)]
        rfl
    refine ⟨hw, ?_⟩
    unfold RoostGroup.MoveTodo
    rw [hw]
    rfl
  · intro pinned h
    have hlen := repaired_fst_length pinned from_
      (RoostGroup.MoveTopic.targetTopics pinned (rg.Topics db))
    have hw : RoostGroup.MoveTopic.writer rg db u pinned from_ to_ = .panic := by
      unfold RoostGroup.MoveTopic.writer
      simp only []
      by_cases hf : 0 ≤ from_ ∧
          from_ < (RoostGroup.MoveTopic.targetTopics pinned (rg.Topics db)).length
      · obtain ⟨a, ha⟩ := index_inside
          (RoostGroup.MoveTopic.repaired pinned from_
            (RoostGroup.MoveTopic.targetTopics pinned (rg.Topics db))).1 from_ hf.1 (by omega)
        rw [ha, choice_panic _ _ u from_ to_ hf.1 (by omega) (by omega)]
        rfl
      · rw [index_outside _ from_ (by omega)]
        rfl
    refine ⟨hw, ?_⟩
    unfold RoostGroup.MoveTopic
    rw [hw]
    rfl

/-- Witness of C6 (amended): five todos with `from = 5`, `to = 0`, and the
unpinned topics of `zeroTopics` with `from = 0`, `to = -1`. -/
theorem move_out_of_range_panics_witness :
    (¬ ((0 : Int) ≤ 5 ∧
        (5 : Int) <
          (RoostGroup.MoveTodo.targetTodos false (RoostGroup.Todos ⟨7, 1⟩ fiveTodos 9)).length ∧
        (0 : Int) ≤ 0 ∧
        (0 : Int) <
          (RoostGroup.MoveTodo.targetTodos false (RoostGroup.Todos ⟨7, 1⟩ fiveTodos 9)).length) ∧
      RoostGroup.MoveTodo.writer ⟨7, 1⟩ fiveTodos (1 / 2) false 9 5 0 = .panic ∧
      RoostGroup.MoveTodo ⟨7, 1⟩ fiveTodos (1 / 2) false 9 5 0 = .panic) ∧
    (¬ ((0 : Int) ≤ 0 ∧
        (0 : Int) <
          (RoostGroup.MoveTopic.targetTopics false (RoostGroup.Topics ⟨7, 1⟩ zeroTopics)).length ∧
        (0 : Int) ≤ -1 ∧
        (-1 : Int) <
          (RoostGroup.MoveTopic.targetTopics false (RoostGroup.Topics ⟨7, 1⟩ zeroTopics)).length) ∧
      RoostGroup.MoveTopic.writer ⟨7, 1⟩ zeroTopics (1 / 2) false 0 (-1) = .panic ∧
      RoostGroup.MoveTopic ⟨7, 1⟩ zeroTopics (1 / 2) false 0 (-1) = .panic) := by
  have hl : RoostGroup.MoveTodo.targetTodos false (RoostGroup.Todos ⟨7, 1⟩ fiveTodos 9) =
      fiveTodos.todos := by decide
  have h : ¬ ((0 : Int) ≤ 5 ∧
      (5 : Int) <
        (RoostGroup.MoveTodo.targetTodos false (RoostGroup.Todos ⟨7, 1⟩ fiveTodos 9)).length ∧
      (0 : Int) ≤ 0 ∧
      (0 : Int) <
        (RoostGroup.MoveTodo.targetTodos false (RoostGroup.Todos ⟨7, 1⟩ fiveTodos 9)).length) := by
    rw [hl]; decide
  have h2 : ¬ ((0 : Int) ≤ 0 ∧
      (0 : Int) <
        (RoostGroup.MoveTopic.targetTopics false (RoostGroup.Topics ⟨7, 1⟩ zeroTopics)).length ∧
      (0 : Int) ≤ -1 ∧
      (-1 : Int) <
        (RoostGroup.MoveTopic.targetTopics false (RoostGroup.Topics ⟨7, 1⟩ zeroTopics)).length) := by
    intro hc
    exact absurd hc.2.2.1 (by decide)
  exact ⟨⟨h, (move_out_of_range_panics ⟨7, 1⟩ fiveTodos (1 / 2) 5 0).1 false 9 h⟩,
    ⟨h2, (move_out_of_range_panics ⟨7, 1⟩ zeroTopics (1 / 2) 0 (-1)).2 false h2⟩⟩

/-- Counterexample to C7 as stated: of twenty-one messages with one shared
creation time the first page holds twenty and hands out the cursor "5"; the
second page asks for messages older than 5, is empty and reports `AtEnd`.  The
pages hold twenty messages, the sequence has twenty-one: the message with
identifier 21 is on no page. -/
theorem paging_with_ties_counterexample :
    (RoostGroup.allMessages ⟨7, 1⟩ sameSecond 9).length = 21 ∧
    ((RoostGroup.pagesFrom wholeNumbers ⟨7, 1⟩ sameSecond 9 5 "").map fun pages =>
      pages.map fun p => (p.Count, p.AtEnd, p.Cursor)) = some [(20, false, "5"), (0, true, "")] ∧
    ((RoostGroup.pagesFrom wholeNumbers ⟨7, 1⟩ sameSecond 9 5 "").map fun pages =>
      ((pages.map PagedMessages.values).flatten.map Message.ID).contains 21) = some false ∧
    ((RoostGroup.allMessages ⟨7, 1⟩ sameSecond 9).map Message.ID).contains 21 = true := by
  decide

/-- C7 (amended). CursorPager completeness: for every topic whose messages
have pairwise distinct creation timestamps, with `strconv` reading every such
timestamp it has printed back as the same number, the pages obtained by calling
`Messages` with the empty cursor and then with the previous page's `Cursor`
until `AtEnd` are reached within `n/20 + 1` calls; concatenated they are the
full sequence (descending creation time), which has no duplicates; all pages
but the last hold 20 items with `AtEnd` false, the last holds `n % 20` with
`AtEnd` true.  For 43 messages the pages have sizes 20, 20, 3 with `AtEnd`
false, false, true. -/
theorem pagesFrom_complete (sc : Strconv) (rg : RoostGroup) (db : DB) (topicID : Nat)
    (fuel : Nat)
    (hd : ((rg.allMessages db topicID).map Message.CtimeSec).Nodup)
    (hround : ∀ m ∈ rg.allMessages db topicID,
      sc.ParseFloat (sc.FormatFloat m.CtimeSec) = some m.CtimeSec ∧
      sc.FormatFloat m.CtimeSec ≠ "")
    (hfuel : (rg.allMessages db topicID).length / 20 + 1 ≤ fuel) :
    ∃ pages, rg.pagesFrom sc db topicID fuel "" = some pages ∧
      (pages.map PagedMessages.values).flatten = rg.allMessages db topicID ∧
      (rg.allMessages db topicID).Nodup ∧
      pages.map PagedMessages.Count =
        List.replicate ((rg.allMessages db topicID).length / 20) 20 ++
          [(rg.allMessages db topicID).length % 20] ∧
      pages.map PagedMessages.AtEnd =
        List.replicate ((rg.allMessages db topicID).length / 20) false ++ [true] ∧
      ((rg.allMessages db topicID).length = 43 →
        pages.map (fun p => (p.Count, p.AtEnd)) = [(20, false), (20, false), (3, true)]) := by
  obtain ⟨pages, h1, h2, h3, h4⟩ := pagesFrom_drop sc rg db topicID hd hround fuel 0 ""
    (by simpa using hfuel) (Or.inl ⟨rfl, rfl⟩)
  rw [List.drop_zero] at h2
  rw [Nat.sub_zero] at h3 h4
  refine ⟨pages, h1, h2, hd.of_map _, h3, h4, ?_⟩
  intro h43
  rw [h43] at h3 h4
  have hz := List.zip_map' PagedMessages.Count PagedMessages.AtEnd pages
  rw [h3, h4] at hz
  rw [← hz]
  rfl

set_option maxRecDepth 100000 in

/-- Witness of C7 (amended): forty-three messages created one per second. -/
theorem pagesFrom_complete_witness :
    (((RoostGroup.allMessages ⟨7, 1⟩ (helloMessages 43) 9).map Message.CtimeSec).Nodup ∧
      (∀ m ∈ RoostGroup.allMessages ⟨7, 1⟩ (helloMessages 43) 9,
        wholeNumbers.ParseFloat (wholeNumbers.FormatFloat m.CtimeSec) = some m.CtimeSec ∧
        wholeNumbers.FormatFloat m.CtimeSec ≠ "") ∧
      (RoostGroup.allMessages ⟨7, 1⟩ (helloMessages 43) 9).length / 20 + 1 ≤ 3 ∧
      (RoostGroup.allMessages ⟨7, 1⟩ (helloMessages 43) 9).length = 43) ∧
    ∃ pages, RoostGroup.pagesFrom wholeNumbers ⟨7, 1⟩ (helloMessages 43) 9 3 "" = some pages ∧
      (pages.map PagedMessages.values).flatten = RoostGroup.allMessages ⟨7, 1⟩ (helloMessages 43) 9 ∧
      pages.map (fun p => (p.Count, p.AtEnd)) = [(20, false), (20, false), (3, true)] := by
  have hd : ((RoostGroup.allMessages ⟨7, 1⟩ (helloMessages 43) 9).map Message.CtimeSec).Nodup := by
    decide
  have hround : ∀ m ∈ RoostGroup.allMessages ⟨7, 1⟩ (helloMessages 43) 9,
      wholeNumbers.ParseFloat (wholeNumbers.FormatFloat m.CtimeSec) = some m.CtimeSec ∧
      wholeNumbers.FormatFloat m.CtimeSec ≠ "" := by decide
  have hfuel : (RoostGroup.allMessages ⟨7, 1⟩ (helloMessages 43) 9).length / 20 + 1 ≤ 3 := by
    decide
  have h43 : (RoostGroup.allMessages ⟨7, 1⟩ (helloMessages 43) 9).length = 43 := by decide
  obtain ⟨pages, h1, h2, _, _, _, h6⟩ :=
    pagesFrom_complete wholeNumbers ⟨7, 1⟩ (helloMessages 43) 9 3 hd hround hfuel
  exact ⟨⟨hd, hround, hfuel, h43⟩, pages, h1, h2, h6 h43⟩

/-- C8. Stable pagination under appends: for every storage state, every
non-empty cursor that parses to the timestamp `t` and every list `A` of appended
messages whose timestamps are all `>= t`, `Messages` with that cursor over the
storage with `A` appended returns the same result (items, `Cursor`, `AtEnd`,
`Count`) as over the storage without `A`. -/
theorem Messages_stable_under_appends (sc : Strconv) (rg : RoostGroup) (db : DB)
    (topicID : Nat) (cursor : String) (t : ℚ) (A : List Message)
    (hc : cursor ≠ "") (hp : sc.ParseFloat cursor = some t)
    (hA : ∀ m ∈ A, t ≤ m.CtimeSec) :
    rg.Messages sc { db with messages := db.messages ++ A } topicID cursor =
      rg.Messages sc db topicID cursor := by
  rw [Messages_parsed_cursor sc rg _ topicID cursor t hc hp,
    Messages_parsed_cursor sc rg db topicID cursor t hc hp]
  have h : rg.selectMessagesBefore { db with messages := db.messages ++ A } topicID t =
      rg.selectMessagesBefore db topicID t := by
    unfold RoostGroup.selectMessagesBefore
    simp only [List.filter_append]
    have hnil : (A.filter fun m =>
        decide (m.GroupID = rg.GroupID ∧ m.TopicID = topicID ∧ m.CtimeSec < t)) = [] := by
      rw [List.filter_eq_nil_iff]
      intro m hm
      simp only [decide_eq_true_eq, not_and, not_lt]
      exact fun _ _ => hA m hm
    rw [hnil, List.append_nil]
  rw [h]

/-- Witness of C8: three messages of seconds 1, 2, 3, the cursor "2", and two
appended messages of seconds 2 and 5. -/
theorem Messages_stable_under_appends_witness :
    (("2" : String) ≠ "" ∧ wholeNumbers.ParseFloat "2" = some 2 ∧
      ∀ m ∈ ([{ ID := 4, GroupID := 7, CtimeSec := 2, TopicID := 9, Body := "new" },
              { ID := 5, GroupID := 7, CtimeSec := 5, TopicID := 9, Body := "newer" }] :
              List Message), (2 : ℚ) ≤ m.CtimeSec) ∧
    RoostGroup.Messages wholeNumbers ⟨7, 1⟩
      { threeMessages with messages := threeMessages.messages ++
          [{ ID := 4, GroupID := 7, CtimeSec := 2, TopicID := 9, Body := "new" },
           { ID := 5, GroupID := 7, CtimeSec := 5, TopicID := 9, Body := "newer" }] } 9 "2" =
      RoostGroup.Messages wholeNumbers ⟨7, 1⟩ threeMessages 9 "2" := by
  have h1 : ("2" : String) ≠ "" := by decide
  have h2 : wholeNumbers.ParseFloat "2" = some 2 := by decide
  have h3 : ∀ m ∈ ([{ ID := 4, GroupID := 7, CtimeSec := 2, TopicID := 9, Body := "new" },
      { ID := 5, GroupID := 7, CtimeSec := 5, TopicID := 9, Body := "newer" }] :
      List Message), (2 : ℚ) ≤ m.CtimeSec := by decide
  exact ⟨⟨h1, h2, h3⟩,
    Messages_stable_under_appends wholeNumbers ⟨7, 1⟩ threeMessages 9 "2" 2 _ h1 h2 h3⟩

/-- C9. For every call of `Messages` with a non-empty cursor that parses to
`t`, every returned item has a creation timestamp strictly less than `t`.
Consequently, when `strconv` reads every timestamp it has printed back as the
same number (and prints no empty string), a page and the page fetched with its
`Cursor` have no message in common. -/
theorem Messages_strictly_older (sc : Strconv) (rg : RoostGroup) (db : DB) (topicID : Nat) :
    (∀ (cursor : String) (t : ℚ) (page : PagedMessages),
      cursor ≠ "" → sc.ParseFloat cursor = some t →
      rg.Messages sc db topicID cursor = .ok page →
      ∀ m ∈ page.values, m.CtimeSec < t) ∧
    ((∀ m ∈ db.messages,
        sc.ParseFloat (sc.FormatFloat m.CtimeSec) = some m.CtimeSec ∧
        sc.FormatFloat m.CtimeSec ≠ "") →
      ∀ (cursor : String) (page next : PagedMessages),
        rg.Messages sc db topicID cursor = .ok page →
        rg.Messages sc db topicID page.Cursor = .ok next →
        ∀ m ∈ page.values, m ∉ next.values) := by
  refine ⟨fun cursor t page hc hp h => Messages_values_before sc rg db topicID cursor t page hc hp h,
    ?_⟩
  intro hround cursor page next h1 h2 m hm hm2
  obtain ⟨hsorted, hsub⟩ := Messages_values_sorted sc rg db topicID cursor page h1
  obtain ⟨hres, _⟩ := Messages_ok_result sc rg db topicID cursor page h1
  cases hlast : page.values.getLast? with
  | none =>
    rw [List.getLast?_eq_none_iff] at hlast
    rw [hlast] at hm
    exact absurd hm (List.not_mem_nil _)
  | some last =>
    have hmem : last ∈ page.values := List.mem_of_getLast?_eq_some hlast
    obtain ⟨hrt, hne⟩ := hround last (hsub last hmem)
    have hcur : page.Cursor = sc.FormatFloat last.CtimeSec := by
      rw [hres]
      simp only [RoostGroup.Messages.result, hlast]
    rw [hcur] at h2
    have hlt := Messages_values_before sc rg db topicID _ last.CtimeSec next hne hrt h2 m hm2
    have hle := last_is_oldest page.values last hsorted hlast m hm
    exact absurd hlt (not_lt.mpr hle)

/-- Witness of C9: three messages of seconds 1, 2, 3; the page of the cursor
"3" holds the messages of seconds 2 and 1, and the page chained after the first
page is empty. -/
theorem Messages_strictly_older_witness :
    (("3" : String) ≠ "" ∧ wholeNumbers.ParseFloat "3" = some 3 ∧
      RoostGroup.Messages wholeNumbers ⟨7, 1⟩ threeMessages 9 "3" =
        .ok { AtEnd := true, Cursor := "1", Count := 2,
              values := (threeMessages.messages.take 2).reverse } ∧
      (∀ m ∈ threeMessages.messages,
        wholeNumbers.ParseFloat (wholeNumbers.FormatFloat m.CtimeSec) = some m.CtimeSec ∧
        wholeNumbers.FormatFloat m.CtimeSec ≠ "") ∧
      RoostGroup.Messages wholeNumbers ⟨7, 1⟩ threeMessages 9 "" =
        .ok { AtEnd := true, Cursor := "1", Count := 3,
              values := threeMessages.messages.reverse } ∧
      RoostGroup.Messages wholeNumbers ⟨7, 1⟩ threeMessages 9 "1" =
        .ok { AtEnd := true, Cursor := "", Count := 0, values := [] }) ∧
    (∀ m ∈ (threeMessages.messages.take 2).reverse, m.CtimeSec < 3) ∧
    (∀ m ∈ threeMessages.messages.reverse, m ∉ ([] : List Message)) := by
  have h1 : ("3" : String) ≠ "" := by decide
  have h2 : wholeNumbers.ParseFloat "3" = some 3 := by decide
  have h3 : RoostGroup.Messages wholeNumbers ⟨7, 1⟩ threeMessages 9 "3" =
      .ok { AtEnd := true, Cursor := "1", Count := 2,
            values := (threeMessages.messages.take 2).reverse } := by decide
  have h4 : ∀ m ∈ threeMessages.messages,
      wholeNumbers.ParseFloat (wholeNumbers.FormatFloat m.CtimeSec) = some m.CtimeSec ∧
      wholeNumbers.FormatFloat m.CtimeSec ≠ "" := by decide
  have h5 : RoostGroup.Messages wholeNumbers ⟨7, 1⟩ threeMessages 9 "" =
      .ok { AtEnd := true, Cursor := "1", Count := 3,
            values := threeMessages.messages.reverse } := by decide
  have h6 : RoostGroup.Messages wholeNumbers ⟨7, 1⟩ threeMessages 9 "1" =
      .ok { AtEnd := true, Cursor := "", Count := 0, values := [] } := by decide
  exact ⟨⟨h1, h2, h3, h4, h5, h6⟩,
    (Messages_strictly_older wholeNumbers ⟨7, 1⟩ threeMessages 9).1 "3" 3 _ h1 h2 h3,
    (Messages_strictly_older wholeNumbers ⟨7, 1⟩ threeMessages 9).2 h4 "" _ _ h5 h6⟩

/-- C10. For every result of `Messages`: `Count` is the number of returned
items, `Count` is at most `MessagesPageSize`, which is 20, and `AtEnd` is true
if and only if `Count < 20`. -/
theorem Messages_count_atEnd (sc : Strconv) (rg : RoostGroup) (db : DB) (topicID : Nat)
    (cursor : String) (page : PagedMessages)
    (h : rg.Messages sc db topicID cursor = .ok page) :
    page.Count = page.values.length ∧ page.Count ≤ MessagesPageSize ∧
    MessagesPageSize = 20 ∧ (page.AtEnd = true ↔ page.Count < 20) := by
  obtain ⟨hres, hlen⟩ := Messages_ok_result sc rg db topicID cursor page h
  have hc : page.Count = page.values.length := by rw [hres]; rfl
  have ha : page.AtEnd = (page.values.length != MessagesPageSize) := by rw [hres]; rfl
  refine ⟨hc, by rw [hc]; exact hlen, rfl, ?_⟩
  rw [ha, hc]
  have h20 : MessagesPageSize = 20 := rfl
  rw [h20] at hlen ⊢
  simp only [bne_iff_ne, ne_eq]
  omega

/-- Witness of C10: the first page of three messages. -/
theorem Messages_count_atEnd_witness :
    RoostGroup.Messages wholeNumbers ⟨7, 1⟩ threeMessages 9 "" =
      .ok { AtEnd := true, Cursor := "1", Count := 3,
            values := threeMessages.messages.reverse } ∧
    ((3 : Nat) = threeMessages.messages.reverse.length ∧ 3 ≤ MessagesPageSize ∧
      MessagesPageSize = 20 ∧ (true = true ↔ 3 < 20)) := by
  have h : RoostGroup.Messages wholeNumbers ⟨7, 1⟩ threeMessages 9 "" =
      .ok { AtEnd := true, Cursor := "1", Count := 3,
            values := threeMessages.messages.reverse } := by decide
  exact ⟨h, Messages_count_atEnd wholeNumbers ⟨7, 1⟩ threeMessages 9 "" _ h⟩

/-- C11. For every result of `Messages`: `Cursor` is the empty string when the
page has no items; otherwise `Cursor` is `strconv.FormatFloat` of the creation
timestamp of the last item of the page.  With the two conversions taken in
exact arithmetic on decimal numerals, and timestamps that have a finite decimal
expansion, as every `float64` value has: that `Cursor` is not empty,
`strconv.ParseFloat` reads it back as exactly that timestamp, and the next call
with it selects with that timestamp as its bound. -/
theorem Messages_cursor_reads_back (rg : RoostGroup) (db : DB) (topicID : Nat)
    (hdec : ∀ m ∈ db.messages, ∃ k, m.CtimeSec.den ∣ 10 ^ k) :
    (∀ (sc : Strconv) (cursor : String) (page : PagedMessages),
      rg.Messages sc db topicID cursor = .ok page →
      (page.values = [] → page.Cursor = "") ∧
      ∀ last, page.values.getLast? = some last →
        page.Cursor = sc.FormatFloat last.CtimeSec) ∧
    (∀ (cursor : String) (page : PagedMessages),
      rg.Messages decimalNumerals db topicID cursor = .ok page →
      ∀ last, page.values.getLast? = some last →
        page.Cursor = formatDecimal last.CtimeSec ∧
        page.Cursor ≠ "" ∧
        parseDecimal page.Cursor = some last.CtimeSec ∧
        rg.Messages decimalNumerals db topicID page.Cursor =
          .ok (RoostGroup.Messages.result decimalNumerals
            (rg.selectMessagesBefore db topicID last.CtimeSec))) := by
  have hgen : ∀ (sc : Strconv) (cursor : String) (page : PagedMessages),
      rg.Messages sc db topicID cursor = .ok page →
      (page.values = [] → page.Cursor = "") ∧
      ∀ last, page.values.getLast? = some last →
        page.Cursor = sc.FormatFloat last.CtimeSec := by
    intro sc cursor page h
    obtain ⟨hres, _⟩ := Messages_ok_result sc rg db topicID cursor page h
    refine ⟨?_, ?_⟩
    · intro hnil
      rw [hres]
      simp [RoostGroup.Messages.result, hnil]
    · intro last hlast
      rw [hres]
      simp only [RoostGroup.Messages.result, hlast]
  refine ⟨hgen, ?_⟩
  intro cursor page h last hlast
  have hcur : page.Cursor = formatDecimal last.CtimeSec :=
    (hgen decimalNumerals cursor page h).2 last hlast
  have hmem : last ∈ db.messages :=
    (Messages_values_sorted decimalNumerals rg db topicID cursor page h).2 last
      (by rw [← List.dropLast_append_getLast? last hlast]; simp)
  have hne : page.Cursor ≠ "" := by
    rw [hcur]; exact formatDecimal_ne_empty _
  have hparse : parseDecimal page.Cursor = some last.CtimeSec := by
    rw [hcur]; exact parseDecimal_formatDecimal _ (hdec last hmem)
  exact ⟨hcur, hne, hparse,
    Messages_parsed_cursor decimalNumerals rg db topicID page.Cursor last.CtimeSec hne hparse⟩

/-- Witness of C11: the first page of three messages created at
1700000000.123456, 1700000001.5 and 1700000002.25 ends with the oldest of them
and carries the cursor "1700000000.123456", which is read back as that
timestamp. -/
theorem Messages_cursor_reads_back_witness :
    (∀ m ∈ fractionMessages.messages, ∃ k, m.CtimeSec.den ∣ 10 ^ k) ∧
    RoostGroup.Messages decimalNumerals ⟨7, 1⟩ fractionMessages 9 "" =
      .ok { AtEnd := true, Cursor := "1700000000.123456", Count := 3,
            values := fractionMessages.messages.reverse } ∧
    fractionMessages.messages.reverse.getLast? =
      some { ID := 1, GroupID := 7, CtimeSec := mkRat 1700000000123456 1000000, TopicID := 9,
             Body := "hello 0" } ∧
    ("1700000000.123456" : String) = formatDecimal (mkRat 1700000000123456 1000000) ∧
    ("1700000000.123456" : String) ≠ "" ∧
    parseDecimal "1700000000.123456" = some (mkRat 1700000000123456 1000000) ∧
    RoostGroup.Messages decimalNumerals ⟨7, 1⟩ fractionMessages 9 "1700000000.123456" =
      .ok (RoostGroup.Messages.result decimalNumerals
        (RoostGroup.selectMessagesBefore ⟨7, 1⟩ fractionMessages 9
          (mkRat 1700000000123456 1000000))) := by
  have hdec : ∀ m ∈ fractionMessages.messages, ∃ k, m.CtimeSec.den ∣ 10 ^ k := by
    intro m hm
    exact ⟨6, by revert m; decide⟩
  have h : RoostGroup.Messages decimalNumerals ⟨7, 1⟩ fractionMessages 9 "" =
      .ok { AtEnd := true, Cursor := "1700000000.123456", Count := 3,
            values := fractionMessages.messages.reverse } := by decide
  have hl : fractionMessages.messages.reverse.getLast? =
      some { ID := 1, GroupID := 7, CtimeSec := mkRat 1700000000123456 1000000, TopicID := 9,
             Body := "hello 0" } := by
    decide
  exact ⟨hdec, h, hl,
    (Messages_cursor_reads_back ⟨7, 1⟩ fractionMessages 9 hdec).2 "" _ h _ hl⟩

/-- C12. MalformedCursor: for every non-empty cursor that `strconv.ParseFloat`
rejects, `Messages` returns an error and no page; in particular it does not
return the first page. -/
theorem Messages_rejects_malformed (sc : Strconv) (rg : RoostGroup) (db : DB) (topicID : Nat)
    (cursor : String) (hc : cursor ≠ "") (hp : sc.ParseFloat cursor = none) :
    (∃ e, rg.Messages sc db topicID cursor = .error e) ∧
    (∀ page, rg.Messages sc db topicID cursor ≠ .ok page) ∧
    rg.Messages sc db topicID cursor ≠ rg.Messages sc db topicID "" := by
  have h := Messages_malformed_cursor sc rg db topicID cursor hc hp
  refine ⟨⟨_, h⟩, ?_, ?_⟩
  · intro page hpage
    rw [h] at hpage
    exact Outcome.noConfusion hpage
  · rw [h, Messages_empty_cursor]
    exact fun hh => Outcome.noConfusion hh

/-- Witness of C12: the cursor "abc" on three messages. -/
theorem Messages_rejects_malformed_witness :
    (("abc" : String) ≠ "" ∧ wholeNumbers.ParseFloat "abc" = none) ∧
    (∃ e, RoostGroup.Messages wholeNumbers ⟨7, 1⟩ threeMessages 9 "abc" = .error e) ∧
    (∀ page, RoostGroup.Messages wholeNumbers ⟨7, 1⟩ threeMessages 9 "abc" ≠ .ok page) ∧
    RoostGroup.Messages wholeNumbers ⟨7, 1⟩ threeMessages 9 "abc" ≠
      RoostGroup.Messages wholeNumbers ⟨7, 1⟩ threeMessages 9 "" := by
  have h1 : ("abc" : String) ≠ "" := by decide
  have h2 : wholeNumbers.ParseFloat "abc" = none := by decide
  exact ⟨⟨h1, h2⟩, Messages_rejects_malformed wholeNumbers ⟨7, 1⟩ threeMessages 9 "abc" h1 h2⟩

/-- C13. End-of-stream quirk: for every topic holding exactly `20*k` messages,
`k >= 1` (and `k = 0` as well), with pairwise distinct timestamps (which `strconv` prints and reads
back unchanged), paging from the empty cursor makes `k + 1` calls: `k` pages of
20 items with `AtEnd` false, then one page with `Count` 0, no items and `AtEnd`
true.  `k` calls do not reach a page with `AtEnd`. -/
theorem paging_needs_empty_fetch (sc : Strconv) (rg : RoostGroup) (db : DB) (topicID : Nat)
    (k : Nat)
    (hlen : (rg.allMessages db topicID).length = 20 * k)
    (hd : ((rg.allMessages db topicID).map Message.CtimeSec).Nodup)
    (hround : ∀ m ∈ rg.allMessages db topicID,
      sc.ParseFloat (sc.FormatFloat m.CtimeSec) = some m.CtimeSec ∧
      sc.FormatFloat m.CtimeSec ≠ "") :
    (∃ pages, rg.pagesFrom sc db topicID (k + 1) "" = some pages ∧
      pages.length = k + 1 ∧
      pages.map PagedMessages.Count = List.replicate k 20 ++ [0] ∧
      pages.map PagedMessages.AtEnd = List.replicate k false ++ [true] ∧
      (pages.map PagedMessages.values).flatten = rg.allMessages db topicID ∧
      ∃ last, pages.getLast? = some last ∧ last.values = [] ∧ last.Count = 0 ∧
        last.AtEnd = true) ∧
    rg.pagesFrom sc db topicID k "" = none := by
  have hdiv : (rg.allMessages db topicID).length / 20 = k := by omega
  have hmod : (rg.allMessages db topicID).length % 20 = 0 := by omega
  obtain ⟨pages, h1, h2, h3, h4⟩ := pagesFrom_drop sc rg db topicID hd hround (k + 1) 0 ""
    (by simp only [Nat.sub_zero]; omega) (Or.inl ⟨rfl, rfl⟩)
  rw [List.drop_zero] at h2
  rw [Nat.sub_zero, hdiv] at h3 h4
  rw [hmod] at h3
  have hl : pages.length = k + 1 := by
    have := congrArg List.length h3
    simpa using this
  refine ⟨⟨pages, h1, hl, h3, h4, h2, ?_⟩, ?_⟩
  · cases hlast : pages.getLast? with
    | none =>
      rw [List.getLast?_eq_none_iff] at hlast
      rw [hlast] at hl
      simp at hl
    | some last =>
      have hp : pages = pages.dropLast ++ [last] :=
        (List.dropLast_append_getLast? last hlast).symm
      have hc : last.Count = 0 := by
        have h5 := congrArg List.getLast? h3
        rw [hp, List.map_append] at h5
        simpa using h5
      have ha : last.AtEnd = true := by
        have h5 := congrArg List.getLast? h4
        rw [hp, List.map_append] at h5
        simpa using h5
      have hmem : last ∈ pages := List.mem_of_getLast?_eq_some hlast
      refine ⟨last, rfl, ?_, hc, ha⟩
      obtain ⟨c, hcall⟩ := pagesFrom_pages_ok sc rg db topicID (k + 1) "" pages h1 last hmem
      obtain ⟨hres, _⟩ := Messages_ok_result sc rg db topicID c last hcall
      have hcount : last.Count = last.values.length := by rw [hres]; rfl
      rw [hc] at hcount
      exact List.length_eq_zero.mp hcount.symm
  · cases hk2 : rg.pagesFrom sc db topicID k "" with
    | none => rfl
    | some ps =>
      have h5 := pagesFrom_mono sc rg db topicID k "" ps hk2
      rw [h1] at h5
      injection h5 with h5
      have h6 := pagesFrom_length_le sc rg db topicID k "" ps hk2
      rw [← h5, hl] at h6
      omega

set_option maxRecDepth 100000 in
/-- Witness of C13: forty messages created one per second, `k = 2`. -/
theorem paging_needs_empty_fetch_witness :
    ((RoostGroup.allMessages ⟨7, 1⟩ (helloMessages 40) 9).length = 20 * 2 ∧
      ((RoostGroup.allMessages ⟨7, 1⟩ (helloMessages 40) 9).map Message.CtimeSec).Nodup ∧
      ∀ m ∈ RoostGroup.allMessages ⟨7, 1⟩ (helloMessages 40) 9,
        wholeNumbers.ParseFloat (wholeNumbers.FormatFloat m.CtimeSec) = some m.CtimeSec ∧
        wholeNumbers.FormatFloat m.CtimeSec ≠ "") ∧
    (∃ pages, RoostGroup.pagesFrom wholeNumbers ⟨7, 1⟩ (helloMessages 40) 9 3 "" = some pages ∧
      pages.map PagedMessages.Count = [20, 20, 0] ∧
      pages.map PagedMessages.AtEnd = [false, false, true]) ∧
    RoostGroup.pagesFrom wholeNumbers ⟨7, 1⟩ (helloMessages 40) 9 2 "" = none := by
  have hlen : (RoostGroup.allMessages ⟨7, 1⟩ (helloMessages 40) 9).length = 20 * 2 := by decide
  have hd : ((RoostGroup.allMessages ⟨7, 1⟩ (helloMessages 40) 9).map Message.CtimeSec).Nodup := by
    decide
  have hround : ∀ m ∈ RoostGroup.allMessages ⟨7, 1⟩ (helloMessages 40) 9,
      wholeNumbers.ParseFloat (wholeNumbers.FormatFloat m.CtimeSec) = some m.CtimeSec ∧
      wholeNumbers.FormatFloat m.CtimeSec ≠ "" := by decide
  obtain ⟨⟨pages, h1, _, h3, h4, _, _⟩, h5⟩ :=
    paging_needs_empty_fetch wholeNumbers ⟨7, 1⟩ (helloMessages 40) 9 2 hlen hd hround
  exact ⟨⟨hlen, hd, hround⟩, ⟨pages, h1, h3, h4⟩, h5⟩

/-- C20. Create appends, for every draw `u` of `rand.Float64()` (`0 <= u < 1`)
and every identifier that is new in the group.  `CreateTodo` succeeds; when the
topic has no incomplete todo the created todo has position 0; its position lies
strictly between `max` and `max + 2` for the largest position `max` of the
incomplete todos of the topic, and is greater than the position of each of
them; the incomplete list read back after the call is the old list followed by
the created todo.  The same holds for `CreateTopicPinned` with the pinned
topics and `PinPosition` for a pinned topic, the unpinned topics and
`Position` otherwise. -/
theorem create_appends (rg : RoostGroup) (db : DB) (u : ℚ) (newID : Nat) (nowTs : ℚ)
    (topicID : Nat) (label : String) (pinned : Bool) (hu0 : 0 ≤ u) (hu1 : u < 1)
    (hfreshTodo : ∀ t ∈ db.todos, ¬ (t.GroupID = rg.GroupID ∧ t.ID = newID))
    (hfreshTopic : ∀ t ∈ db.topics, ¬ (t.GroupID = rg.GroupID ∧ t.ID = newID)) :
    (∃ todo db1, rg.CreateTodo db u newID nowTs topicID label = .ok (todo, db1) ∧
      ((rg.Todos db topicID).incompleteTodos = [] → todo.Position = 0) ∧
      (∀ m ∈ (rg.Todos db topicID).incompleteTodos,
        (∀ x ∈ (rg.Todos db topicID).incompleteTodos, x.Position ≤ m.Position) →
        m.Position < todo.Position ∧ todo.Position < m.Position + 2) ∧
      (∀ x ∈ (rg.Todos db topicID).incompleteTodos, x.Position < todo.Position) ∧
      (rg.Todos db1 topicID).incompleteTodos =
        (rg.Todos db topicID).incompleteTodos ++ [todo]) ∧
    (∃ topic db1, rg.CreateTopicPinned db u newID nowTs label pinned = .ok (topic, db1) ∧
      (RoostGroup.CreateTopicPinned.targetTopics pinned (rg.Topics db) = [] →
        RoostGroup.CreateTopicPinned.pos pinned topic = 0) ∧
      (∀ m ∈ RoostGroup.CreateTopicPinned.targetTopics pinned (rg.Topics db),
        (∀ x ∈ RoostGroup.CreateTopicPinned.targetTopics pinned (rg.Topics db),
          RoostGroup.CreateTopicPinned.pos pinned x ≤ RoostGroup.CreateTopicPinned.pos pinned m) →
        RoostGroup.CreateTopicPinned.pos pinned m < RoostGroup.CreateTopicPinned.pos pinned topic ∧
        RoostGroup.CreateTopicPinned.pos pinned topic <
          RoostGroup.CreateTopicPinned.pos pinned m + 2) ∧
      (∀ x ∈ RoostGroup.CreateTopicPinned.targetTopics pinned (rg.Topics db),
        RoostGroup.CreateTopicPinned.pos pinned x < RoostGroup.CreateTopicPinned.pos pinned topic) ∧
      RoostGroup.CreateTopicPinned.targetTopics pinned (rg.Topics db1) =
        RoostGroup.CreateTopicPinned.targetTopics pinned (rg.Topics db) ++ [topic]) := by
  constructor
  · refine ⟨_, _, CreateTodo_eq rg db u newID nowTs topicID label hfreshTodo, ?_, ?_, ?_,
      CreateTodo_reread rg db u newID nowTs topicID label hu0 hu1⟩
    all_goals
      have hc := created_position u hu0 hu1 ((db.todos.filter fun t =>
        t.GroupID = rg.GroupID ∧ t.TopicID = topicID ∧ t.Deleted = false ∧
          t.CompletedAt = 0).map Todo.Position)
      have hmem : ∀ x : Roost.Todo, x ∈ (rg.Todos db topicID).incompleteTodos ↔
          x ∈ db.todos.filter fun t =>
            t.GroupID = rg.GroupID ∧ t.TopicID = topicID ∧ t.Deleted = false ∧
              t.CompletedAt = 0 := fun x => mem_orderBy _ _ _ x
    · intro hnil
      apply hc.1
      have : (db.todos.filter fun t =>
            t.GroupID = rg.GroupID ∧ t.TopicID = topicID ∧ t.Deleted = false ∧
              t.CompletedAt = 0) = [] := by
        apply List.eq_nil_of_length_eq_zero
        have h := congrArg List.length hnil
        rw [show (rg.Todos db topicID).incompleteTodos = orderBy Todo.Position Todo.ID _ from rfl,
          orderBy_length] at h
        exact h
      rw [this]; rfl
    · intro m hm hmax
      apply hc.2.2 m.Position (List.mem_map_of_mem _ ((hmem m).mp hm))
      intro y hy
      obtain ⟨x, hx, rfl⟩ := List.mem_map.mp hy
      exact hmax x ((hmem x).mpr hx)
    · intro x hx
      exact hc.2.1 x.Position (List.mem_map_of_mem _ ((hmem x).mp hx))
  · cases pinned with
    | true =>
      refine ⟨_, _, CreateTopicPinned_eq rg db u newID nowTs label true hfreshTopic, ?_, ?_, ?_,
        CreateTopicPinned_reread_pinned rg db u newID nowTs label hu0 hu1⟩
      all_goals
        have hc := created_position u hu0 hu1 ((db.topics.filter fun t =>
          t.GroupID = rg.GroupID ∧ t.Pinned = true).map Topic.PinPosition)
        have hmem : ∀ x : Roost.Topic, x ∈ (rg.Topics db).pinnedTopics ↔
            x ∈ db.topics.filter fun t => t.GroupID = rg.GroupID ∧ t.Pinned = true :=
          fun x => mem_orderBy _ _ _ x
        simp only [RoostGroup.CreateTopicPinned.targetTopics, RoostGroup.CreateTopicPinned.pos,
          if_true]
      · intro hnil
        apply hc.1
        have : (db.topics.filter fun t => t.GroupID = rg.GroupID ∧ t.Pinned = true) = [] := by
          apply List.eq_nil_of_length_eq_zero
          have h := congrArg List.length hnil
          rw [show (rg.Topics db).pinnedTopics =
            orderBy Topic.PinPosition Topic.CtimeSec _ from rfl, orderBy_length] at h
          exact h
        rw [this]; rfl
      · intro m hm hmax
        apply hc.2.2 m.PinPosition (List.mem_map_of_mem _ ((hmem m).mp hm))
        intro y hy
        obtain ⟨x, hx, rfl⟩ := List.mem_map.mp hy
        exact hmax x ((hmem x).mpr hx)
      · intro x hx
        exact hc.2.1 x.PinPosition (List.mem_map_of_mem _ ((hmem x).mp hx))
    | false =>
      refine ⟨_, _, CreateTopicPinned_eq rg db u newID nowTs label false hfreshTopic, ?_, ?_, ?_,
        CreateTopicPinned_reread_unpinned rg db u newID nowTs label hu0 hu1⟩
      all_goals
        have hc := created_position u hu0 hu1 ((db.topics.filter fun t =>
          t.GroupID = rg.GroupID ∧ t.Pinned = false).map Topic.Position)
        have hmem : ∀ x : Roost.Topic, x ∈ (rg.Topics db).unpinnedTopics ↔
            x ∈ db.topics.filter fun t => t.GroupID = rg.GroupID ∧ t.Pinned = false :=
          fun x => mem_orderBy _ _ _ x
        simp only [RoostGroup.CreateTopicPinned.targetTopics, RoostGroup.CreateTopicPinned.pos,
          Bool.false_eq_true, if_false]
      · intro hnil
        apply hc.1
        have : (db.topics.filter fun t => t.GroupID = rg.GroupID ∧ t.Pinned = false) = [] := by
          apply List.eq_nil_of_length_eq_zero
          have h := congrArg List.length hnil
          rw [show (rg.Topics db).unpinnedTopics =
            orderBy Topic.Position Topic.CtimeSec _ from rfl, orderBy_length] at h
          exact h
        rw [this]; rfl
      · intro m hm hmax
        apply hc.2.2 m.Position (List.mem_map_of_mem _ ((hmem m).mp hm))
        intro y hy
        obtain ⟨x, hx, rfl⟩ := List.mem_map.mp hy
        exact hmax x ((hmem x).mpr hx)
      · intro x hx
        exact hc.2.1 x.Position (List.mem_map_of_mem _ ((hmem x).mp hx))

/-- Witness of C20: in the group of the listed topics, whose pinned topics have
the positions 0, 1, 2, the draw 1/2 gives a new pinned topic a position between
2 and 4 at the end of the pinned list, and the first todo of topic 1 the
position 0. -/
theorem create_appends_witness :
    ((0 : ℚ) ≤ 1 / 2 ∧ (1 / 2 : ℚ) < 1 ∧
      (∀ t ∈ listedTopics.todos, ¬ (t.GroupID = 7 ∧ t.ID = 20)) ∧
      (∀ t ∈ listedTopics.topics, ¬ (t.GroupID = 7 ∧ t.ID = 20))) ∧
    (∃ todo db1, RoostGroup.CreateTodo ⟨7, 1⟩ listedTopics (1 / 2) 20 50 1 "milk" =
        .ok (todo, db1) ∧ todo.Position = 0 ∧
      (RoostGroup.Todos ⟨7, 1⟩ db1 1).incompleteTodos = [todo]) ∧
    (∃ topic db1, RoostGroup.CreateTopicPinned ⟨7, 1⟩ listedTopics (1 / 2) 20 50 "milk" true =
        .ok (topic, db1) ∧ 2 < topic.PinPosition ∧ topic.PinPosition < 4 ∧
      (RoostGroup.Topics ⟨7, 1⟩ db1).pinnedTopics.map Topic.Label =
        ["one", "two", "three", "milk"]) := by
  have hu0 : (0 : ℚ) ≤ 1 / 2 := by norm_num
  have hu1 : (1 / 2 : ℚ) < 1 := by norm_num
  have hf1 : ∀ t ∈ listedTopics.todos, ¬ (t.GroupID = 7 ∧ t.ID = 20) := by decide
  have hf2 : ∀ t ∈ listedTopics.topics, ¬ (t.GroupID = 7 ∧ t.ID = 20) := by decide
  refine ⟨⟨hu0, hu1, hf1, hf2⟩, ?_⟩
  obtain ⟨⟨todo, db1, h1, h2, _, _, h5⟩, ⟨topic, db2, k1, _, k3, _, k5⟩⟩ :=
    create_appends ⟨7, 1⟩ listedTopics (1 / 2) 20 50 1 "milk" true hu0 hu1 hf1 hf2
  have hempty : (RoostGroup.Todos ⟨7, 1⟩ listedTopics 1).incompleteTodos = [] := by decide
  have hpinned : (RoostGroup.Topics ⟨7, 1⟩ listedTopics).pinnedTopics =
      [listedTopics.topics[1], listedTopics.topics[2], listedTopics.topics[3]] := by decide
  refine ⟨⟨todo, db1, h1, h2 hempty, ?_⟩, ⟨topic, db2, k1, ?_, ?_, ?_⟩⟩
  · rw [h5, hempty]; rfl
  · have := k3 listedTopics.topics[3]
      (by simp [RoostGroup.CreateTopicPinned.targetTopics, hpinned])
      (by simp only [RoostGroup.CreateTopicPinned.targetTopics, if_true, hpinned]; decide)
    simpa [RoostGroup.CreateTopicPinned.pos, listedTopics] using this.1
  · have := k3 listedTopics.topics[3]
      (by simp [RoostGroup.CreateTopicPinned.targetTopics, hpinned])
      (by simp only [RoostGroup.CreateTopicPinned.targetTopics, if_true, hpinned]; decide)
    have h := this.2
    simp [RoostGroup.CreateTopicPinned.pos, listedTopics] at h
    linarith
  · have h : (RoostGroup.Topics ⟨7, 1⟩ db2).pinnedTopics = _ := k5
    simp only [RoostGroup.CreateTopicPinned.targetTopics, if_true] at h
    have e := CreateTopicPinned_eq ⟨7, 1⟩ listedTopics (1 / 2) 20 50 "milk" true hf2
    rw [e] at k1
    have e1 : topic = RoostGroup.CreateTopicPinned.row ⟨7, 1⟩ listedTopics (1 / 2) 20 50 "milk" true :=
      (congrArg Prod.fst (Outcome.ok.inj k1)).symm
    rw [h, hpinned, e1]
    simp [RoostGroup.CreateTopicPinned.row, listedTopics]

/-- Counterexample to C19 as stated: identity 1 has the reaction "ab" stored
on entity 3 of group 7.  The marker "ab" has two clusters, and
`SetReaction(3, "ab", false)` of that identity returns no error: the lookup
finds the stored row, the marker is not validated, and the row is written with
`active` false. -/
theorem SetReaction_stored_marker_counterexample :
    plainLetters.GraphemeClusterCount "ab" = 2 ∧
    RoostGroup.SetReaction plainLetters ⟨7, 1⟩ twoLetterReaction 20 50 3 "ab" false =
      .ok { todos := []
            topics := []
            messages := []
            reactions :=
              [ { ID := 11, GroupID := 7, IdentityID := 1, Rune := "ab", Active := false,
                  EntityID := 3 } ] } ∧
    RoostGroup.SetReaction plainLetters ⟨7, 1⟩ twoLetterReaction 20 50 3 "ab" false ≠
      .error "expected 1 grapheme cluster, got 2" ∧
    RoostGroup.SetReaction plainLetters ⟨7, 1⟩ twoLetterReaction 20 50 3 "ab" false ≠
      .ok twoLetterReaction := by
  decide

/-- C19 (amended). ValidationError.  For every entity, flag and marker string
`r` whose cluster count `c` is not 1, when the caller has no reaction with the
marker `r` stored on the entity: `SetReaction` returns the error
"expected 1 grapheme cluster, got c", so it ends before a writer is made and
nothing is written.  When the caller has such a reaction stored, `SetReaction`
returns no error whatever the count is: it updates that row.  In a storage
whose markers all have one cluster every marker with another count is rejected,
and every successful `SetReaction` leaves such a storage. -/
theorem SetReaction_validates_unstored (us : Uniseg) (rg : RoostGroup) (db : DB) (newID : Nat)
    (nowTs : ℚ) (entityID : Nat) (r : String) (active : Bool) :
    ((∀ x ∈ db.reactions, ¬(x.GroupID = rg.GroupID ∧ x.EntityID = entityID ∧
          x.IdentityID = rg.IdentityTag ∧ x.Rune = r)) →
      us.GraphemeClusterCount r ≠ 1 →
      rg.SetReaction us db newID nowTs entityID r active =
        .error ("expected 1 grapheme cluster, got " ++ Nat.repr (us.GraphemeClusterCount r))) ∧
    ((∃ x ∈ db.reactions, x.GroupID = rg.GroupID ∧ x.EntityID = entityID ∧
          x.IdentityID = rg.IdentityTag ∧ x.Rune = r) →
      ∃ reaction ∈ db.reactions,
        (reaction.GroupID = rg.GroupID ∧ reaction.EntityID = entityID ∧
          reaction.IdentityID = rg.IdentityTag ∧ reaction.Rune = r) ∧
        rg.SetReaction us db newID nowTs entityID r active =
          .ok (Execute rg.GroupID
            [Update.mk "reactions" reaction.ID
              [("active", .bool active), ("rune", .text r), ("entity_id", .blob entityID)]]
            db)) ∧
    ((∀ x ∈ db.reactions, us.GraphemeClusterCount x.Rune = 1) →
      (us.GraphemeClusterCount r ≠ 1 →
        rg.SetReaction us db newID nowTs entityID r active =
          .error ("expected 1 grapheme cluster, got " ++
            Nat.repr (us.GraphemeClusterCount r))) ∧
      ∀ db1, rg.SetReaction us db newID nowTs entityID r active = .ok db1 →
        ∀ x ∈ db1.reactions, us.GraphemeClusterCount x.Rune = 1) := by
  unfold RoostGroup.SetReaction
  cases hfind : db.reactions.find? fun x =>
      x.GroupID = rg.GroupID ∧ x.EntityID = entityID ∧ x.IdentityID = rg.IdentityTag ∧
        x.Rune = r with
  | none =>
    simp only []
    have hnone := List.find?_eq_none.mp hfind
    simp only [decide_eq_true_eq] at hnone
    refine ⟨?_, ?_, ?_⟩
    · intro _ hc
      rw [if_pos hc]
    · rintro ⟨x, hx, hp⟩
      exact absurd hp (hnone x hx)
    · intro hstored
      constructor
      · intro hc
        rw [if_pos hc]
      · intro db1 h1
        by_cases hc : us.GraphemeClusterCount r ≠ 1
        · rw [if_pos hc] at h1; cases h1
        · rw [if_neg hc] at h1
          have hc1 : us.GraphemeClusterCount r = 1 := not_not.mp hc
          have e := Outcome.ok.inj h1
          subst e
          intro x hx
          simp only [ExecuteInsert] at hx
          simp at hx
          rcases hx with hx | hx
          · exact hstored x hx
          · rw [hx]
            simpa [Reaction.setProp] using hc1
  | some reaction =>
    have hmem := List.mem_of_find?_eq_some hfind
    have hp := List.find?_some hfind
    simp only [decide_eq_true_eq] at hp
    simp only []
    refine ⟨?_, ?_, ?_⟩
    · intro hno
      exact absurd hp (hno reaction hmem)
    · intro _
      exact ⟨reaction, hmem, hp, rfl⟩
    · intro hstored
      have hr : us.GraphemeClusterCount r = 1 := by
        rw [← hp.2.2.2]; exact hstored reaction hmem
      constructor
      · intro hc; exact absurd hr hc
      · intro db1 h1
        have e := Outcome.ok.inj h1
        subst e
        intro x hx
        simp only [Execute, List.foldl_cons, List.foldl_nil, List.mem_map] at hx
        obtain ⟨y, hy, rfl⟩ := hx
        unfold Reaction.applyUpdate
        split
        · rw [reaction_props_rune]; exact hr
        · exact hstored y hy

/-- Witness of C19 (amended): identity 1 has the reaction "a" stored on entity
3 and none with the marker "ab", which has two clusters, so "ab" is rejected
with "got 2". -/
theorem SetReaction_validates_unstored_witness :
    (∀ x ∈ oneReaction.reactions, ¬(x.GroupID = 7 ∧ x.EntityID = 3 ∧ x.IdentityID = 1 ∧
      x.Rune = "ab")) ∧
    plainLetters.GraphemeClusterCount "ab" ≠ 1 ∧
    RoostGroup.SetReaction plainLetters ⟨7, 1⟩ oneReaction 20 50 3 "ab" true =
      .error "expected 1 grapheme cluster, got 2" :=
  ⟨by decide, by decide,
    (SetReaction_validates_unstored plainLetters ⟨7, 1⟩ oneReaction 20 50 3 "ab" true).1
      (by decide) (by decide)⟩

/-- C14, the code at the failing input: "milk" occurs in one indexed entry of
group 7 and in one of group 8.  `Search` in group 7 returns that one entry with
`Count` 1 and `Total` 2, and the next page is empty: `generateTotal` counts the
matches of all groups, while one result is in the group and can be reached by
paging. -/
theorem Search_total_counts_all_groups :
    Search plainFts twoGroups 7 "milk" "<b>" "</b>" = .ok milkSearch ∧
    milkSearch.Total = 2 ∧ milkSearch.Count = 1 ∧
    (twoGroups.contents.filter fun c =>
      c.group_id = 7 ∧ hasInfix "milk".data c.text.data = true).length = 1 ∧
    (twoGroups.contents.filter fun c => hasInfix "milk".data c.text.data = true).length = 2 ∧
    generateTotal plainFts twoGroups "milk" = .ok 2 ∧
    NextPage plainFts twoGroups milkSearch =
      .ok { milkSearch with Offset := 100, Count := 0, results := [] } := by
  decide

/-- Counterexample to C15 as stated: after the `Search` for "milk" two more
entries with "milk" are stored.  The `NextPage` that follows returns `Total` 2,
the value of the first page, while the count statement gives 4 at that time
(and 3 of the matching entries are in the group). -/
theorem NextPage_total_counterexample :
    Search plainFts twoGroups 7 "milk" "<b>" "</b>" = .ok milkSearch ∧
    NextPage plainFts twoGroupsLater milkSearch =
      .ok { milkSearch with Offset := 100, Count := 0, results := [] } ∧
    ({ milkSearch with Offset := 100, Count := 0, results := [] } : SearchResults).Total = 2 ∧
    generateTotal plainFts twoGroupsLater "milk" = .ok 4 ∧
    (twoGroupsLater.contents.filter fun c =>
      c.group_id = 7 ∧ hasInfix "milk".data c.text.data = true).length = 3 := by
  decide

/-- C15, amended. Only `Search` computes `Total`: it is the result of the
count statement on the storage at the time of the `Search` call.  A successful
`NextPage` returns the `Total` of the record it was given, so after any number
of `NextPage` calls, whatever the storage holds at the time of each, `Total`
is still the value of the first page. -/
theorem NextPage_keeps_Total (fts : Fts) (db : DB) (groupID : Nat) (term hs he : String)
    (dbs : List DB) (r0 rk : SearchResults)
    (h0 : Search fts db groupID term hs he = .ok r0)
    (hk : nextPages fts dbs r0 = .ok rk) :
    generateTotal fts db term = .ok r0.Total ∧ rk.Total = r0.Total ∧
    ∀ db1 r, NextPage fts db1 rk = .ok r → r.Total = r0.Total := by
  obtain ⟨_, h2, _⟩ := Search_ok fts db groupID term hs he r0 h0
  obtain ⟨_, h4, _⟩ := nextPages_fields fts dbs r0 rk hk
  refine ⟨h2, h4, ?_⟩
  intro db1 r h
  have := (nextPages_fields fts [db1] rk r (by simp only [nextPages, h, Outcome.bind])).2.1
  rw [this, h4]

/-- Witness of C15: the search for "milk" and one `NextPage` after two more
matching entries were stored. -/
theorem NextPage_keeps_Total_witness :
    (Search plainFts twoGroups 7 "milk" "<b>" "</b>" = .ok milkSearch ∧
      nextPages plainFts [twoGroupsLater] milkSearch =
        .ok { milkSearch with Offset := 100, Count := 0, results := [] }) ∧
    generateTotal plainFts twoGroups "milk" = .ok 2 ∧
    ({ milkSearch with Offset := 100, Count := 0, results := [] } : SearchResults).Total = 2 :=
  ⟨⟨by decide, by decide⟩,
    (NextPage_keeps_Total plainFts twoGroups 7 "milk" "<b>" "</b>" [twoGroupsLater] milkSearch
      { milkSearch with Offset := 100, Count := 0, results := [] } (by decide) (by decide)).1,
    (NextPage_keeps_Total plainFts twoGroups 7 "milk" "<b>" "</b>" [twoGroupsLater] milkSearch
      { milkSearch with Offset := 100, Count := 0, results := [] } (by decide) (by decide)).2.1⟩

/-- C16. For a term that is a query, with every indexed entry of the group in
a stored topic at the time of each call: `Search` succeeds with `Offset` 0,
`Count` the number of results fetched at offset 0, at most `PageSize` = 100,
and the group, term and highlight marks it was given; `k` successive `NextPage`
calls then succeed and leave `Offset = 100 * k` and those four fields as they
were.  Every successful `NextPage`, on any record, sets `Offset` to the
previous `Offset + 100`, `results` to the fetch at that offset, `Count` to
their number, at most 100, and leaves `GroupID`, `Term`, `HighlightStart` and
`HighlightEnd` unchanged.  (`Offset` is an unbounded integer here.) -/
theorem Search_NextPage_offsets (fts : Fts) (db : DB) (groupID : Nat) (term hs he : String)
    (m : String → Bool) (dbs : List DB) (hm : fts.match_ term = some m)
    (htopics : ∀ d ∈ db :: dbs, ∀ c ∈ d.contents, c.group_id = groupID →
      ∃ t ∈ d.topics, t.GroupID = c.group_id ∧ t.ID = c.topic_id) :
    (∃ r0 rk, Search fts db groupID term hs he = .ok r0 ∧
      r0.Offset = 0 ∧ r0.Count ≤ PageSize ∧ r0.Count = r0.results.length ∧
      generateResultsGroup fts db groupID term hs he 0 = .ok r0.results ∧
      r0.GroupID = groupID ∧ r0.Term = term ∧ r0.HighlightStart = hs ∧ r0.HighlightEnd = he ∧
      nextPages fts dbs r0 = .ok rk ∧ rk.Offset = 100 * (dbs.length : Int) ∧
      rk.GroupID = groupID ∧ rk.Term = term ∧ rk.HighlightStart = hs ∧ rk.HighlightEnd = he) ∧
    (∀ db1 res r, NextPage fts db1 res = .ok r →
      r.Offset = res.Offset + 100 ∧
      generateResultsGroup fts db1 res.GroupID res.Term res.HighlightStart res.HighlightEnd
        (res.Offset + 100) = .ok r.results ∧
      r.Count = r.results.length ∧ r.Count ≤ PageSize ∧
      r.GroupID = res.GroupID ∧ r.Term = res.Term ∧ r.HighlightStart = res.HighlightStart ∧
      r.HighlightEnd = res.HighlightEnd) := by
  constructor
  · obtain ⟨r0, h0⟩ := Search_succeeds fts db groupID term hs he m hm
      (htopics db (List.mem_cons_self _ _))
    obtain ⟨g0, _, e0⟩ := Search_ok fts db groupID term hs he r0 h0
    have a1 : r0.Offset = 0 := by rw [e0]
    have a2 : r0.Count = r0.results.length := by rw [e0]
    have a3 : r0.GroupID = groupID := by rw [e0]
    have a4 : r0.Term = term := by rw [e0]
    have a5 : r0.HighlightStart = hs := by rw [e0]
    have a6 : r0.HighlightEnd = he := by rw [e0]
    obtain ⟨rk, hk⟩ := nextPages_succeeds fts groupID term m hm dbs
      (fun d hd => htopics d (List.mem_cons_of_mem _ hd)) r0 a3 a4
    obtain ⟨b1, _, b3, b4, b5, b6⟩ := nextPages_fields fts dbs r0 rk hk
    refine ⟨r0, rk, h0, a1, ?_, a2, g0, a3, a4, a5, a6, hk, ?_, ?_, ?_, ?_, ?_⟩
    · rw [a2]; exact generateResultsGroup_length fts db groupID term hs he 0 _ g0
    · rw [b1, a1]; ring
    · rw [b3, a3]
    · rw [b4, a4]
    · rw [b5, a5]
    · rw [b6, a6]
  · intro db1 res r h
    obtain ⟨g, e⟩ := NextPage_ok fts db1 res r h
    have c1 : r.Offset = res.Offset + 100 := by rw [e]
    have c2 : r.Count = r.results.length := by rw [e]
    have c3 : r.GroupID = res.GroupID := by rw [e]
    have c4 : r.Term = res.Term := by rw [e]
    have c5 : r.HighlightStart = res.HighlightStart := by rw [e]
    have c6 : r.HighlightEnd = res.HighlightEnd := by rw [e]
    refine ⟨c1, g, c2, ?_, c3, c4, c5, c6⟩
    rw [c2]
    exact generateResultsGroup_length fts db1 _ _ _ _ _ _ g

/-- Witness of C16: the search for "milk" in group 7 and two `NextPage` calls,
the second after more entries were stored; the offset ends at 200. -/
theorem Search_NextPage_offsets_witness :
    (plainFts.match_ "milk" = some (fun text => hasInfix "milk".data text.data) ∧
      ∀ d ∈ [twoGroups, twoGroups, twoGroupsLater], ∀ c ∈ d.contents, c.group_id = 7 →
        ∃ t ∈ d.topics, t.GroupID = c.group_id ∧ t.ID = c.topic_id) ∧
    Search plainFts twoGroups 7 "milk" "<b>" "</b>" = .ok milkSearch ∧
    milkSearch.Offset = 0 ∧ milkSearch.Count ≤ 100 ∧
    ∃ rk, nextPages plainFts [twoGroups, twoGroupsLater] milkSearch = .ok rk ∧
      rk.Offset = 200 ∧ rk.Term = "milk" := by
  have hm : plainFts.match_ "milk" = some (fun text => hasInfix "milk".data text.data) := rfl
  have ht : ∀ d ∈ [twoGroups, twoGroups, twoGroupsLater], ∀ c ∈ d.contents, c.group_id = 7 →
      ∃ t ∈ d.topics, t.GroupID = c.group_id ∧ t.ID = c.topic_id := by decide
  have hs : Search plainFts twoGroups 7 "milk" "<b>" "</b>" = .ok milkSearch := by decide
  obtain ⟨⟨r0, rk, h0, _, _, _, _, _, _, _, _, hk, hoff, _, hterm, _, _⟩, _⟩ :=
    Search_NextPage_offsets plainFts twoGroups 7 "milk" "<b>" "</b>" _
      [twoGroups, twoGroupsLater] hm ht
  have e : r0 = milkSearch := Outcome.ok.inj (h0.symm.trans hs)
  subst e
  exact ⟨⟨hm, ht⟩, hs, rfl, by decide, rk, hk, by simpa using hoff, hterm⟩

/-- Counterexample to C17 as stated, on the channel as the repository leaves
it (open): a nil item is pushed and a `Next()` makes `Type()` report
`UpdateFinished`; the `Next()` after it blocks, the channel being empty.  With a
view update pushed behind the nil item, the `Next()` after `UpdateFinished`
reports that view update. -/
theorem Finished_not_absorbing_counterexample :
    Updates.run (Updates.make ⟨[], false⟩) [.push none, .next] =
      some (⟨⟨[], false⟩, none⟩, [none]) ∧
    Updates.Type_ ⟨⟨[], false⟩, none⟩ = UpdateFinished ∧
    Updates.Next ⟨⟨[], false⟩, none⟩ = none ∧
    Updates.run (Updates.make ⟨[], false⟩)
        [.push none, .push (some (.viewUpdate "todos")), .next] =
      some (⟨⟨[some (.viewUpdate "todos")], false⟩, none⟩, [none]) ∧
    Updates.Type_ ⟨⟨[some (.viewUpdate "todos")], false⟩, none⟩ = UpdateFinished ∧
    Updates.Next ⟨⟨[some (.viewUpdate "todos")], false⟩, none⟩ =
      some ⟨⟨[], false⟩, some (.viewUpdate "todos")⟩ ∧
    Updates.Type_ ⟨⟨[], false⟩, some (.viewUpdate "todos")⟩ = UpdateViewUpdate := by
  decide

/-- C17, amended. `Type()` reports `UpdateFinished` exactly when the current
item is nil.  On a channel that is closed and empty the marker is absorbing:
each of any number of further `Next()` calls returns at once, leaves the
channel as it is and makes `Type()` report `UpdateFinished`.  On an open
channel it is not: a `Next()` makes the oldest queued item current, whatever
the item before it was, and blocks while nothing is queued. -/
theorem Finished_absorbing_when_closed (u : Updates) (hc : u.updates.closed = true)
    (he : u.updates.buffer = []) :
    (∀ n, ∃ v, Updates.nextN (n + 1) u = some v ∧ v.Type_ = UpdateFinished ∧
      v.updates = u.updates) ∧
    (∀ w : Updates, w.Type_ = UpdateFinished ↔ w.item = none) ∧
    (∀ w : Updates, w.updates.closed = false → w.updates.buffer = [] → w.Next = none) ∧
    (∀ (w : Updates) x rest, w.updates.buffer = x :: rest →
      w.Next = some { updates := { w.updates with buffer := rest }, item := x }) := by
  refine ⟨?_, Type_Finished_iff, Next_open_empty, Next_queued⟩
  intro n
  exact ⟨_, nextN_closed_empty n u hc he, rfl, rfl⟩

/-- Witness of C17: on a closed, empty channel three further `Next()` calls
end with `UpdateFinished`. -/
theorem Finished_absorbing_when_closed_witness :
    ((Updates.make ⟨[], true⟩).updates.closed = true ∧
      (Updates.make ⟨[], true⟩).updates.buffer = []) ∧
    ∃ v, Updates.nextN 3 (Updates.make ⟨[], true⟩) = some v ∧ v.Type_ = UpdateFinished :=
  ⟨⟨rfl, rfl⟩,
    match (Finished_absorbing_when_closed (Updates.make ⟨[], true⟩) rfl rfl).1 2 with
    | ⟨v, h1, h2, _⟩ => ⟨v, h1, h2⟩⟩

/-- C18. FIFO delivery on the open channel.  In every run of completed sends
and `Next()` calls that starts with an empty channel, the items that the
`Next()` calls have made current, in call order, followed by the items still
queued, are the items sent, in the order sent: each `Next()` exposes one item,
none is dropped, repeated, merged or moved.  Once the channel is drained the
items exposed are exactly the items sent.  Such runs exist for every finite
sequence of items: the one that receives each item right after it is sent, and,
for at most 100 items (the capacity), the one that sends all before receiving
the first. -/
theorem Next_delivers_fifo (xs : List (Option Payload)) (ops : List ChanOp) (v : Updates)
    (got : List (Option Payload)) (hp : ChanOp.pushed ops = xs)
    (h : Updates.run (Updates.make ⟨[], false⟩) ops = some (v, got)) :
    got ++ v.updates.buffer = xs ∧ got.length = ops.count .next ∧
    (v.updates.buffer = [] → got = xs) ∧
    (∃ w, Updates.run (Updates.make ⟨[], false⟩) (ChanOp.alternate xs) = some (w, xs)) ∧
    (xs.length ≤ Chan.capacity →
      ∃ w, Updates.run (Updates.make ⟨[], false⟩) (ChanOp.batch xs) = some (w, xs)) := by
  obtain ⟨h1, h2, _⟩ := run_fifo ops (Updates.make ⟨[], false⟩) v got rfl h
  rw [hp] at h1
  have h1 : xs = got ++ v.updates.buffer := by simpa [Updates.make] using h1
  refine ⟨h1.symm, h2, ?_, ?_, ?_⟩
  · intro he
    rw [he, List.append_nil] at h1
    exact h1.symm
  · obtain ⟨w, hw, _⟩ := run_alternate xs (Updates.make ⟨[], false⟩) rfl rfl
    exact ⟨w, hw⟩
  · intro hl
    obtain ⟨w, hw, _⟩ := run_nexts xs
      { updates := { buffer := [] ++ xs, closed := false }, item := none } (by simp)
    refine ⟨w, ?_⟩
    unfold ChanOp.batch
    show Updates.run ⟨⟨[], false⟩, none⟩ (xs.map .push ++ List.replicate xs.length .next) = _
    rw [run_pushes xs _ [] none (by simpa using hl)]
    exact hw

/-- Witness of C18: three updates, the second sent before the first is
received. -/
theorem Next_delivers_fifo_witness :
    (ChanOp.pushed [.push (some (.viewUpdate "todos")), .push (some (.entityUpdate "todos" 7 1)),
        .next, .push (some .messagesFetched), .next, .next] =
      [some (.viewUpdate "todos"), some (.entityUpdate "todos" 7 1), some .messagesFetched] ∧
      Updates.run (Updates.make ⟨[], false⟩)
        [.push (some (.viewUpdate "todos")), .push (some (.entityUpdate "todos" 7 1)),
          .next, .push (some .messagesFetched), .next, .next] =
        some (⟨⟨[], false⟩, some .messagesFetched⟩,
          [some (.viewUpdate "todos"), some (.entityUpdate "todos" 7 1),
            some .messagesFetched])) ∧
    ([some (.viewUpdate "todos"), some (.entityUpdate "todos" 7 1), some .messagesFetched] ++
        (⟨⟨[], false⟩, some .messagesFetched⟩ : Updates).updates.buffer =
      [some (.viewUpdate "todos"), some (.entityUpdate "todos" 7 1), some .messagesFetched]) :=
  ⟨⟨by decide, by decide⟩,
    (Next_delivers_fifo
      [some (.viewUpdate "todos"), some (.entityUpdate "todos" 7 1), some .messagesFetched]
      [.push (some (.viewUpdate "todos")), .push (some (.entityUpdate "todos" 7 1)),
        .next, .push (some .messagesFetched), .next, .next]
      ⟨⟨[], false⟩, some .messagesFetched⟩
      [some (.viewUpdate "todos"), some (.entityUpdate "todos" 7 1), some .messagesFetched]
      (by decide) (by decide)).1⟩

/-- C26. `Type()` is a function of the current item alone.  It reports
`UpdateFinished` exactly when the item is nil, which it is before the first
`Next()`; it reports the tag of each of the seven payload types exactly for the
items of that type, and `UpdateUnknown` exactly for the items of any other
type.  The nine tags are the numbers 3 to 11, pairwise distinct. -/
theorem Type_is_total (u : Updates) :
    (∀ c : Chan, (Updates.make c).Type_ = UpdateFinished) ∧
    (u.Type_ = UpdateFinished ↔ u.item = none) ∧
    (u.Type_ = UpdateAppState ↔ ∃ s, u.item = some (.appState s)) ∧
    (u.Type_ = UpdateGroupUpdate ↔
      ∃ a b c d e f g, u.item = some (.groupUpdate a b c d e f g)) ∧
    (u.Type_ = UpdateViewUpdate ↔ ∃ n, u.item = some (.viewUpdate n)) ∧
    (u.Type_ = UpdateEntityUpdate ↔ ∃ n g e, u.item = some (.entityUpdate n g e)) ∧
    (u.Type_ = UpdateIntroUpdate ↔ ∃ g i s t, u.item = some (.introUpdate g i s t)) ∧
    (u.Type_ = UpdateTransportStateUpdate ↔
      ∃ a s, u.item = some (.transportStateUpdate a s)) ∧
    (u.Type_ = UpdateMessagesFetched ↔ u.item = some .messagesFetched) ∧
    (u.Type_ = UpdateUnknown ↔ ∃ n, u.item = some (.other n)) ∧
    [UpdateAppState, UpdateGroupUpdate, UpdateViewUpdate, UpdateEntityUpdate,
      UpdateIntroUpdate, UpdateTransportStateUpdate, UpdateMessagesFetched, UpdateUnknown,
      UpdateFinished] = [3, 4, 5, 6, 7, 8, 9, 10, 11] ∧
    [UpdateAppState, UpdateGroupUpdate, UpdateViewUpdate, UpdateEntityUpdate,
      UpdateIntroUpdate, UpdateTransportStateUpdate, UpdateMessagesFetched, UpdateUnknown,
      UpdateFinished].Nodup := by
  refine ⟨fun _ => rfl, ?_, ?_, ?_, ?_, ?_, ?_, ?_, ?_, ?_, rfl, by decide⟩
  all_goals
    obtain ⟨c, item⟩ := u
    rcases item with _ | p
    · simp [Updates.Type_, UpdateFinished, UpdateAppState, UpdateGroupUpdate, UpdateViewUpdate,
        UpdateEntityUpdate, UpdateIntroUpdate, UpdateTransportStateUpdate,
        UpdateMessagesFetched, UpdateUnknown]
    · cases p <;>
        simp [Updates.Type_, UpdateFinished, UpdateAppState, UpdateGroupUpdate,
          UpdateViewUpdate, UpdateEntityUpdate, UpdateIntroUpdate, UpdateTransportStateUpdate,
          UpdateMessagesFetched, UpdateUnknown]

/-- C27, the code at the failing input: one pinned topic "one" and the unpinned
topics "home", "four", "five", so `Count` is 4 and the concatenation is one,
home, four, five.  `Topic(0)` is "one"; `Topic(1)` is "five", not "home";
`Topic(2)` and `Topic(3)` panic.  For every `Topics` value and every index
`i` not below the number of pinned topics, `Topic(i)` is the index expression
`unpinnedTopics[i + len(pinnedTopics)]`. -/
theorem Topic_index_past_pinned :
    (RoostGroup.Topics ⟨7, 1⟩ onePinned).Count = 4 ∧
    ((RoostGroup.Topics ⟨7, 1⟩ onePinned).pinnedTopics ++
      (RoostGroup.Topics ⟨7, 1⟩ onePinned).unpinnedTopics).map Topic.Label =
      ["one", "home", "four", "five"] ∧
    (RoostGroup.Topics ⟨7, 1⟩ onePinned).Topic 0 = .ok onePinned.topics[1] ∧
    (RoostGroup.Topics ⟨7, 1⟩ onePinned).Topic 1 = .ok onePinned.topics[3] ∧
    (RoostGroup.Topics ⟨7, 1⟩ onePinned).Topic 2 = .panic ∧
    (RoostGroup.Topics ⟨7, 1⟩ onePinned).Topic 3 = .panic ∧
    (∀ (t : Topics) (i : Int), (t.pinnedTopics.length : Int) ≤ i →
      t.Topic i = index t.unpinnedTopics (i + (t.pinnedTopics.length : Int))) := by
  refine ⟨by decide, by decide, by decide, by decide, by decide, by decide, ?_⟩
  intro t i h
  unfold Topics.Topic
  rw [if_neg (not_lt.mpr h)]

/-- C28, the code at the failing input: `Complete()` is true exactly for the
todos whose `CompletedAt` is 0.  It is false for every todo of a complete list
and true for every todo of an incomplete list; the three todos completed at
time 100 all report false. -/
theorem Complete_is_inverted :
    (∀ t : Todo, t.Complete = true ↔ t.CompletedAt = 0) ∧
    (∀ (rg : RoostGroup) (db : DB) (topicID : Nat),
      (∀ t ∈ (rg.Todos db topicID).completeTodos, t.Complete = false) ∧
      (∀ t ∈ (rg.Todos db topicID).incompleteTodos, t.Complete = true)) ∧
    (RoostGroup.Todos ⟨7, 1⟩ committedTogether 9).completeTodos.map Todo.CompletedAt =
      [100, 100, 100] ∧
    (RoostGroup.Todos ⟨7, 1⟩ committedTogether 9).completeTodos.map Todo.Complete =
      [false, false, false] := by
  refine ⟨fun t => by simp [Todo.Complete], ?_, by decide, by decide⟩
  intro rg db topicID
  constructor
  · intro t ht
    have h := (mem_orderBy _ _ _ t).mp ht
    rw [List.mem_filter] at h
    simp only [decide_eq_true_eq] at h
    simp [Todo.Complete, h.2.2.2.2]
  · intro t ht
    have h := (mem_orderBy _ _ _ t).mp ht
    rw [List.mem_filter] at h
    simp only [decide_eq_true_eq] at h
    simp [Todo.Complete, h.2.2.2.2]

/-- C29. `Todos` partitions the todos of a topic, for every storage state and
topic.  The two lists together hold exactly the stored rows of the group and
topic that are not deleted, each as often as it is stored; the incomplete list
holds those with `completed_at == 0` and the complete list the others, so a row
is never in both and a deleted row is in neither; the two counts are the
lengths of the lists; the incomplete list is in ascending order of `position`
and the complete list of `completed_position`. -/
theorem Todos_partition (rg : RoostGroup) (db : DB) (topicID : Nat) :
    ((rg.Todos db topicID).incompleteTodos ++ (rg.Todos db topicID).completeTodos).Perm
      (db.todos.filter fun t =>
        t.GroupID = rg.GroupID ∧ t.TopicID = topicID ∧ t.Deleted = false) ∧
    (∀ t, t ∈ (rg.Todos db topicID).incompleteTodos ↔
      t ∈ db.todos ∧ t.GroupID = rg.GroupID ∧ t.TopicID = topicID ∧ t.Deleted = false ∧
        t.CompletedAt = 0) ∧
    (∀ t, t ∈ (rg.Todos db topicID).completeTodos ↔
      t ∈ db.todos ∧ t.GroupID = rg.GroupID ∧ t.TopicID = topicID ∧ t.Deleted = false ∧
        t.CompletedAt ≠ 0) ∧
    (∀ t, ¬ (t ∈ (rg.Todos db topicID).incompleteTodos ∧
      t ∈ (rg.Todos db topicID).completeTodos)) ∧
    (∀ t, t.Deleted = true → t ∉ (rg.Todos db topicID).incompleteTodos ∧
      t ∉ (rg.Todos db topicID).completeTodos) ∧
    (rg.Todos db topicID).IncompleteCount = (rg.Todos db topicID).incompleteTodos.length ∧
    (rg.Todos db topicID).CompleteCount = (rg.Todos db topicID).completeTodos.length ∧
    ((rg.Todos db topicID).incompleteTodos.map Todo.Position).Sorted (fun a b => a ≤ b) ∧
    ((rg.Todos db topicID).completeTodos.map Todo.CompletedPosition).Sorted
      (fun a b => a ≤ b) := by
  have hinc : ∀ t, t ∈ (rg.Todos db topicID).incompleteTodos ↔
      t ∈ db.todos ∧ t.GroupID = rg.GroupID ∧ t.TopicID = topicID ∧ t.Deleted = false ∧
        t.CompletedAt = 0 := by
    intro t
    rw [show (rg.Todos db topicID).incompleteTodos = orderBy Todo.Position Todo.ID _ from rfl,
      mem_orderBy, List.mem_filter]
    simp only [decide_eq_true_eq]
  have hcomp : ∀ t, t ∈ (rg.Todos db topicID).completeTodos ↔
      t ∈ db.todos ∧ t.GroupID = rg.GroupID ∧ t.TopicID = topicID ∧ t.Deleted = false ∧
        t.CompletedAt ≠ 0 := by
    intro t
    rw [show (rg.Todos db topicID).completeTodos =
      orderBy Todo.CompletedPosition Todo.ID _ from rfl, mem_orderBy, List.mem_filter]
    simp only [decide_eq_true_eq]
  refine ⟨?_, hinc, hcomp, ?_, ?_, rfl, rfl, orderBy_keys_sorted _ _ _, orderBy_keys_sorted _ _ _⟩
  · have h1 := orderBy_perm Todo.Position Todo.ID
      (db.todos.filter fun t =>
        t.GroupID = rg.GroupID ∧ t.TopicID = topicID ∧ t.Deleted = false ∧ t.CompletedAt = 0)
    have h2 := orderBy_perm Todo.CompletedPosition Todo.ID
      (db.todos.filter fun t =>
        t.GroupID = rg.GroupID ∧ t.TopicID = topicID ∧ t.Deleted = false ∧ t.CompletedAt ≠ 0)
    refine (h1.append h2).trans ?_
    have e := filter_split_perm db.todos
      (fun t => decide (t.GroupID = rg.GroupID ∧ t.TopicID = topicID ∧ t.Deleted = false))
      (fun t => decide (t.CompletedAt = 0))
    have e1 : (db.todos.filter fun t =>
        decide (t.GroupID = rg.GroupID ∧ t.TopicID = topicID ∧ t.Deleted = false ∧
          t.CompletedAt = 0)) =
        db.todos.filter fun t =>
          decide (t.GroupID = rg.GroupID ∧ t.TopicID = topicID ∧ t.Deleted = false) &&
            decide (t.CompletedAt = 0) := by
      congr 1
      funext t
      simp only [← Bool.decide_and, and_assoc]
    have e2 : (db.todos.filter fun t =>
        decide (t.GroupID = rg.GroupID ∧ t.TopicID = topicID ∧ t.Deleted = false ∧
          t.CompletedAt ≠ 0)) =
        db.todos.filter fun t =>
          decide (t.GroupID = rg.GroupID ∧ t.TopicID = topicID ∧ t.Deleted = false) &&
            !decide (t.CompletedAt = 0) := by
      congr 1
      funext t
      simp only [← decide_not, ← Bool.decide_and, and_assoc, ne_eq]
    rw [e1, e2]
    exact e
  · intro t h
    exact ((hcomp t).mp h.2).2.2.2.2 ((hinc t).mp h.1).2.2.2.2
  · intro t hd
    constructor
    · intro h
      have := ((hinc t).mp h).2.2.2.1
      rw [hd] at this
      exact absurd this (by decide)
    · intro h
      have := ((hcomp t).mp h).2.2.2.1
      rw [hd] at this
      exact absurd this (by decide)

/-- C30. For every map `m` from URL to state, given by its entries with the
keys pairwise distinct: `Len()` is the number of keys; the URLs are in strictly
increasing order and are, taken together, the keys of `m`; for every index
`0 <= i < Len()`, `URL(i)` and `State(i)` return without failing, and `State(i)`
is `m[URL(i)]`, the state of the entry of `m` with that URL.  Outside that range
both panic. -/
theorem makeTransportStates_sorted (m : List (String × String))
    (hk : (m.map Prod.fst).Nodup) :
    (makeTransportStates m).Len = (m.length : Int) ∧
    (makeTransportStates m).urls.Pairwise (fun a b => a < b) ∧
    (makeTransportStates m).urls.Perm (m.map Prod.fst) ∧
    (∀ i : Nat, i < m.length →
      ∃ k, (makeTransportStates m).URL (i : Int) = .ok k ∧
        (makeTransportStates m).State (i : Int) = .ok (mapIndex m k) ∧
        (k, mapIndex m k) ∈ m ∧ ∀ v, (k, v) ∈ m → v = mapIndex m k) ∧
    (∀ i : Int, i < 0 ∨ (m.length : Int) ≤ i →
      (makeTransportStates m).URL i = .panic ∧ (makeTransportStates m).State i = .panic) := by
  have hlen : (makeTransportStates m).urls.length = m.length := by
    show (sortStrings (m.map Prod.fst)).length = m.length
    rw [(sortStrings_perm _).length_eq, List.length_map]
  have hlen2 : (makeTransportStates m).states.length = m.length := by
    show ((sortStrings (m.map Prod.fst)).map fun k => mapIndex m k).length = m.length
    rw [List.length_map, (sortStrings_perm _).length_eq, List.length_map]
  refine ⟨by unfold TransportStates.Len; rw [hlen], sortStrings_strict _ hk,
    sortStrings_perm _, ?_, ?_⟩
  · intro i hi
    have h1 : i < (makeTransportStates m).urls.length := by rw [hlen]; exact hi
    have h2 : i < (makeTransportStates m).states.length := by rw [hlen2]; exact hi
    have hmem : (makeTransportStates m).urls[i] ∈ m.map Prod.fst :=
      (sortStrings_perm _).mem_iff.mp (List.getElem_mem _)
    refine ⟨(makeTransportStates m).urls[i], index_natCast _ i h1, ?_,
      mapIndex_mem m _ hmem, ?_⟩
    · unfold TransportStates.State
      rw [index_natCast _ i h2]
      congr 1
      show ((sortStrings (m.map Prod.fst)).map fun k => mapIndex m k)[i] = _
      rw [List.getElem_map]
      rfl
    · intro v hv
      exact (mapIndex_of_mem m hk _ v hv).symm
  · intro i hi
    unfold TransportStates.URL TransportStates.State
    rcases hi with hi | hi
    · exact ⟨index_neg _ i hi, index_neg _ i hi⟩
    · exact ⟨index_ge _ i (by rw [hlen]; exact hi), index_ge _ i (by rw [hlen2]; exact hi)⟩

/-- Witness of C30: three transports given in the order b, a, c. -/
theorem makeTransportStates_sorted_witness :
    ([("wss://b", "connected"), ("wss://a", "connecting"), ("wss://c", "closed")].map
      Prod.fst).Nodup ∧
    makeTransportStates
        [("wss://b", "connected"), ("wss://a", "connecting"), ("wss://c", "closed")] =
      ⟨["wss://a", "wss://b", "wss://c"], ["connecting", "connected", "closed"]⟩ ∧
    (makeTransportStates
      [("wss://b", "connected"), ("wss://a", "connecting"), ("wss://c", "closed")]).Len = 3 ∧
    (makeTransportStates
      [("wss://b", "connected"), ("wss://a", "connecting"),
        ("wss://c", "closed")]).urls.Pairwise (fun a b => a < b) :=
  ⟨by decide, by decide,
    (makeTransportStates_sorted
      [("wss://b", "connected"), ("wss://a", "connecting"), ("wss://c", "closed")]
      (by decide)).1,
    (makeTransportStates_sorted
      [("wss://b", "connected"), ("wss://a", "connecting"), ("wss://c", "closed")]
      (by decide)).2.1⟩

/-- C24. Target interval selection, for every todo list and every topic list
and every pair of indices `from`, `to` within both.  The one update that
`MoveTodo` writes for the moved todo, and the update that `MoveTopic` writes for
the moved topic after the repair updates, carry the allocator's value
`randomPosition(a, b)` for the bounds `(a, b)` that `targetInterval` gives on
the positions of the list (for topics, the positions after the zero repair):
`(p[0] - 2, p[0])` if `to == 0`, else `(p[n-1], p[n-1] + 2)` if `to == n-1`,
else `(p[to], p[to+1])` if `to > from`, else `(p[to-1], p[to])`.  Both
functions apply the same choice to the same positions and indices.  On
strictly ascending positions the bounds are in order and the value lies
strictly between them. -/
theorem target_interval_selection (rg : RoostGroup) (db : DB) (u : ℚ) (complete : Bool)
    (topicID : Nat) (pinned : Bool) (i j : Nat) (lt : List Todo) (lp : List Topic)
    (hlt : RoostGroup.MoveTodo.targetTodos complete (rg.Todos db topicID) = lt)
    (hlp : RoostGroup.MoveTopic.targetTopics pinned (rg.Topics db) = lp)
    (hit : i < lt.length) (hjt : j < lt.length) (hip : i < lp.length) (hjp : j < lp.length) :
    RoostGroup.MoveTodo.writer rg db u complete topicID (i : Int) (j : Int) =
      .ok [{ view := "todos", id := lt[i].ID,
             props := [(RoostGroup.MoveTodo.posProp complete,
               .real (randomPosition u
                 (targetInterval (lt.map (RoostGroup.MoveTodo.pos complete)) i j).1
                 (targetInterval (lt.map (RoostGroup.MoveTodo.pos complete)) i j).2))] }] ∧
    RoostGroup.MoveTopic.writer rg db u pinned (i : Int) (j : Int) =
      .ok ((RoostGroup.MoveTopic.repaired pinned (i : Int) lp).2 ++
        [{ view := "topics", id := lp[i].ID,
           props := [(RoostGroup.MoveTopic.posProp pinned,
             .real (randomPosition u
               (targetInterval ((RoostGroup.MoveTopic.repaired pinned (i : Int) lp).1.map
                 (RoostGroup.MoveTopic.pos pinned)) i j).1
               (targetInterval ((RoostGroup.MoveTopic.repaired pinned (i : Int) lp).1.map
                 (RoostGroup.MoveTopic.pos pinned)) i j).2))] }]) ∧
    (∀ p : List ℚ, p.Pairwise (· < ·) → j < p.length → 0 ≤ u → u < 1 →
      (targetInterval p i j).1 < (targetInterval p i j).2 ∧
      (targetInterval p i j).1 <
        randomPosition u (targetInterval p i j).1 (targetInterval p i j).2 ∧
      randomPosition u (targetInterval p i j).1 (targetInterval p i j).2 <
        (targetInterval p i j).2) := by
  refine ⟨?_, ?_, ?_⟩
  · have h := moveTodo_writer_ok rg db u complete topicID i j (by rw [hlt]; exact hit)
      (by rw [hlt]; exact hjt)
    subst hlt
    rw [h, targetPosition_eq_interval]
  · have h := moveTopic_writer_ok rg db u pinned i j lp hlp hip hjp
    rw [h, targetPosition_eq_interval]
  · intro p hp hj hu0 hu1
    have h := targetInterval_ordered p i j hp hj
    exact ⟨h, randomPosition_gt u _ _ h hu0, randomPosition_lt u _ _ h hu1.le⟩

/-- Witness of C24: the todo and the unpinned topic at index 1 of two lists with
the positions 0 to 4 moved to index 2: both get a position from `(2, 3)`. -/
theorem target_interval_selection_witness :
    (RoostGroup.MoveTodo.targetTodos false (RoostGroup.Todos ⟨7, 1⟩ todosAndTopics 9) =
        fiveTodos.todos ∧
      RoostGroup.MoveTopic.targetTopics false (RoostGroup.Topics ⟨7, 1⟩ todosAndTopics) =
        [listedTopics.topics[0], listedTopics.topics[4], listedTopics.topics[5],
          listedTopics.topics[6], listedTopics.topics[7]] ∧
      1 < fiveTodos.todos.length ∧ 2 < fiveTodos.todos.length) ∧
    RoostGroup.MoveTodo.writer ⟨7, 1⟩ todosAndTopics (1 / 2) false 9 1 2 =
      .ok [{ view := "todos", id := 2,
             props := [("position", .real (randomPosition (1 / 2) 2 3))] }] ∧
    RoostGroup.MoveTopic.writer ⟨7, 1⟩ todosAndTopics (1 / 2) false 1 2 =
      .ok [{ view := "topics", id := 5,
             props := [("position", .real (randomPosition (1 / 2) 2 3))] }] := by
  have hlt : RoostGroup.MoveTodo.targetTodos false (RoostGroup.Todos ⟨7, 1⟩ todosAndTopics 9) =
      fiveTodos.todos := by decide
  have hlp : RoostGroup.MoveTopic.targetTopics false (RoostGroup.Topics ⟨7, 1⟩ todosAndTopics) =
      [listedTopics.topics[0], listedTopics.topics[4], listedTopics.topics[5],
        listedTopics.topics[6], listedTopics.topics[7]] := by decide
  obtain ⟨h1, h2, _⟩ := target_interval_selection ⟨7, 1⟩ todosAndTopics (1 / 2) false 9 false 1 2
    _ _ hlt hlp (by decide) (by decide) (by decide) (by decide)
  have e1 : targetInterval (fiveTodos.todos.map (RoostGroup.MoveTodo.pos false)) 1 2 =
      (2, 3) := by decide
  have e2 : RoostGroup.MoveTopic.repaired false ((1 : Nat) : Int)
      [listedTopics.topics[0], listedTopics.topics[4], listedTopics.topics[5],
        listedTopics.topics[6], listedTopics.topics[7]] =
      ([listedTopics.topics[0], listedTopics.topics[4], listedTopics.topics[5],
        listedTopics.topics[6], listedTopics.topics[7]], []) := by decide
  have e3 : targetInterval
      ([listedTopics.topics[0], listedTopics.topics[4], listedTopics.topics[5],
        listedTopics.topics[6], listedTopics.topics[7]].map (RoostGroup.MoveTopic.pos false))
      1 2 = (2, 3) := by decide
  rw [e1] at h1
  rw [e2, e3] at h2
  exact ⟨⟨hlt, hlp, by decide, by decide⟩, h1, h2⟩

/-- C25. Single write, for every pair of indices `from`, `to` within the list.
`MoveTodo` hands exactly one update to the writer: the moved todo's id with a
position.  `MoveTopic` on a list in which some position is not 0 hands exactly
one update to the writer, the moved topic's id with its new position, and the
storage after the call differs from the one before only in the category's
position field of the row with that id.  On a list in which every position is
0 it hands `n` updates to the writer: for each other member, in list order, its
id with its index as position, and last the moved topic's id with its new
position, which is the only update with that id. -/
theorem move_single_write (rg : RoostGroup) (db : DB) (u : ℚ) (complete : Bool)
    (topicID : Nat) (pinned : Bool) (i j : Nat) (lt : List Todo) (lp : List Topic)
    (hlt : RoostGroup.MoveTodo.targetTodos complete (rg.Todos db topicID) = lt)
    (hlp : RoostGroup.MoveTopic.targetTopics pinned (rg.Topics db) = lp)
    (hkey : (db.topics.map fun t => (t.GroupID, t.ID)).Nodup)
    (hit : i < lt.length) (hjt : j < lt.length) (hip : i < lp.length) (hjp : j < lp.length) :
    (∃ q, RoostGroup.MoveTodo.writer rg db u complete topicID (i : Int) (j : Int) =
      .ok [{ view := "todos", id := lt[i].ID,
             props := [(RoostGroup.MoveTodo.posProp complete, .real q)] }]) ∧
    ((∃ t ∈ lp, RoostGroup.MoveTopic.pos pinned t ≠ 0) →
      ∃ q, RoostGroup.MoveTopic.writer rg db u pinned (i : Int) (j : Int) =
          .ok [{ view := "topics", id := lp[i].ID,
                 props := [(RoostGroup.MoveTopic.posProp pinned, .real q)] }] ∧
        rg.MoveTopic db u pinned (i : Int) (j : Int) =
          .ok { db with
                topics := db.topics.map fun t =>
                  if t.GroupID = rg.GroupID ∧ t.ID = lp[i].ID then
                    t.setProp (RoostGroup.MoveTopic.posProp pinned) (.real q)
                  else t }) ∧
    ((∀ t ∈ lp, RoostGroup.MoveTopic.pos pinned t = 0) →
      ∃ ws q, RoostGroup.MoveTopic.writer rg db u pinned (i : Int) (j : Int) = .ok ws ∧
        ws.length = lp.length ∧
        ws = ((lp.enum.filter fun p => decide (p.1 ≠ i)).map fun p =>
            ({ view := "topics", id := p.2.ID,
               props := [(RoostGroup.MoveTopic.posProp pinned, .real (p.1 : ℚ))] } : Update)) ++
          [{ view := "topics", id := lp[i].ID,
             props := [(RoostGroup.MoveTopic.posProp pinned, .real q)] }] ∧
        ws.map Update.id = (lp.eraseIdx i).map Topic.ID ++ [lp[i].ID] ∧
        (ws.filter fun w => decide (w.id = lp[i].ID)) =
          [{ view := "topics", id := lp[i].ID,
             props := [(RoostGroup.MoveTopic.posProp pinned, .real q)] }]) := by
  have hw := moveTopic_writer_ok rg db u pinned i j lp hlp hip hjp
  refine ⟨?_, ?_, ?_⟩
  · have h := moveTodo_writer_ok rg db u complete topicID i j (by rw [hlt]; exact hit)
      (by rw [hlt]; exact hjt)
    subst hlt
    exact ⟨_, h⟩
  · rintro ⟨t, ht, hne⟩
    have hz : RoostGroup.MoveTopic.atZero pinned lp = false := by
      rw [Bool.eq_false_iff]
      intro hc
      exact hne ((atZero_iff pinned lp).mp hc t ht)
    rw [repaired_of_not_atZero pinned _ lp hz] at hw
    simp only [List.nil_append] at hw
    refine ⟨_, hw, ?_⟩
    unfold RoostGroup.MoveTopic
    rw [hw]
    simp only [Outcome.bind]
    rw [Execute_topics_only _ _ _ (by simp)]
    simp only [List.foldl_cons, List.foldl_nil, topic_applyUpdate_pos]
  · intro hzero
    have hz : RoostGroup.MoveTopic.atZero pinned lp = true := (atZero_iff pinned lp).mpr hzero
    rw [repaired_of_atZero pinned _ lp hz, repair_snd_eq] at hw
    have hids : ((lp.enum.filter fun p => decide (p.1 ≠ i)).map fun p => p.2.ID) =
        (lp.eraseIdx i).map Topic.ID := by
      have h := enumFrom_filter_ne lp 0 i
      simp only [Nat.zero_add] at h
      rw [← h, List.map_map]
      rfl
    have hdist := targetTopics_ids_distinct rg db pinned hkey
    rw [hlp] at hdist
    have henum : lp.enum = lp.enumFrom 0 := rfl
    rw [henum] at hids ⊢
    refine ⟨_, _, hw, ?_, rfl, ?_, ?_⟩
    · simp only [List.length_append, List.length_map, List.length_singleton]
      have h := congrArg List.length hids
      simp only [List.length_map] at h
      rw [h, List.length_eraseIdx, if_pos hip]
      omega
    · simp only [List.map_append, List.map_map, List.map_cons, List.map_nil]
      rw [← hids]
      rfl
    · rw [List.filter_append]
      have hnone : ((((lp.enumFrom 0).filter fun p => decide (p.1 ≠ i)).map fun p =>
          ({ view := "topics", id := p.2.ID,
             props := [(RoostGroup.MoveTopic.posProp pinned, .real (p.1 : ℚ))] } : Update)).filter
          fun w => decide (w.id = lp[i].ID)) = [] := by
        rw [List.filter_eq_nil_iff]
        intro w hw2
        rw [List.mem_map] at hw2
        obtain ⟨p, hp, rfl⟩ := hw2
        rw [List.mem_filter] at hp
        obtain ⟨hp1, hp2⟩ := hp
        simp only [ne_eq, decide_not, Bool.not_eq_eq_eq_not, Bool.not_true,
          decide_eq_false_iff_not] at hp2
        have hp3 := List.mem_enumFrom hp1
        simp only [Nat.zero_add, Nat.sub_zero] at hp3
        obtain ⟨_, hlt2, hget⟩ := hp3
        simp only [decide_eq_true_eq]
        intro hc
        have hpw := List.pairwise_iff_getElem.mp hdist
        rcases Nat.lt_or_gt_of_ne hp2 with hlt3 | hgt3
        · exact hpw p.1 i hlt2 hip hlt3 (by rw [← hget]; exact hc)
        · exact hpw i p.1 hip hlt2 hgt3 (by rw [← hget]; exact hc.symm)
      rw [hnone]
      simp

/-- Witness of C25: index 1 moved to index 2 in lists of five.  With the
positions 0 to 4 the batch of `MoveTopic` is the one update of topic 5; with
every position 0 it has five updates, the last of them for topic 5. -/
theorem move_single_write_witness :
    (RoostGroup.MoveTodo.targetTodos false (RoostGroup.Todos ⟨7, 1⟩ todosAndTopics 9) =
        fiveTodos.todos ∧
      RoostGroup.MoveTopic.targetTopics false (RoostGroup.Topics ⟨7, 1⟩ todosAndTopics) =
        [listedTopics.topics[0], listedTopics.topics[4], listedTopics.topics[5],
          listedTopics.topics[6], listedTopics.topics[7]] ∧
      (todosAndTopics.topics.map fun t => (t.GroupID, t.ID)).Nodup ∧
      RoostGroup.MoveTopic.targetTopics false (RoostGroup.Topics ⟨7, 1⟩ todosAndZeroTopics) =
        [zeroTopics.topics[0], zeroTopics.topics[4], zeroTopics.topics[5],
          zeroTopics.topics[6], zeroTopics.topics[7]] ∧
      (todosAndZeroTopics.topics.map fun t => (t.GroupID, t.ID)).Nodup ∧
      1 < fiveTodos.todos.length ∧ 2 < fiveTodos.todos.length) ∧
    (∃ q, RoostGroup.MoveTodo.writer ⟨7, 1⟩ todosAndTopics (1 / 2) false 9 1 2 =
      .ok [{ view := "todos", id := 2, props := [("position", .real q)] }]) ∧
    (∃ q, RoostGroup.MoveTopic.writer ⟨7, 1⟩ todosAndTopics (1 / 2) false 1 2 =
      .ok [{ view := "topics", id := 5, props := [("position", .real q)] }]) ∧
    (∃ ws, RoostGroup.MoveTopic.writer ⟨7, 1⟩ todosAndZeroTopics (1 / 2) false 1 2 = .ok ws ∧
      ws.length = 5 ∧ ws.map Update.id = [1, 6, 7, 8, 5]) := by
  have hlt : RoostGroup.MoveTodo.targetTodos false (RoostGroup.Todos ⟨7, 1⟩ todosAndTopics 9) =
      fiveTodos.todos := by decide
  have hlp : RoostGroup.MoveTopic.targetTopics false (RoostGroup.Topics ⟨7, 1⟩ todosAndTopics) =
      [listedTopics.topics[0], listedTopics.topics[4], listedTopics.topics[5],
        listedTopics.topics[6], listedTopics.topics[7]] := by decide
  have hkey : (todosAndTopics.topics.map fun t => (t.GroupID, t.ID)).Nodup := by decide
  have hlt0 : RoostGroup.MoveTodo.targetTodos false
      (RoostGroup.Todos ⟨7, 1⟩ todosAndZeroTopics 9) = fiveTodos.todos := by decide
  have hlp0 : RoostGroup.MoveTopic.targetTopics false
      (RoostGroup.Topics ⟨7, 1⟩ todosAndZeroTopics) =
      [zeroTopics.topics[0], zeroTopics.topics[4], zeroTopics.topics[5],
        zeroTopics.topics[6], zeroTopics.topics[7]] := by decide
  have hkey0 : (todosAndZeroTopics.topics.map fun t => (t.GroupID, t.ID)).Nodup := by decide
  obtain ⟨⟨q1, h1⟩, h2, _⟩ := move_single_write ⟨7, 1⟩ todosAndTopics (1 / 2) false 9 false 1 2
    _ _ hlt hlp hkey (by decide) (by decide) (by decide) (by decide)
  obtain ⟨q2, h2, _⟩ := h2 ⟨listedTopics.topics[4], by simp, by decide⟩
  obtain ⟨_, _, h3⟩ := move_single_write ⟨7, 1⟩ todosAndZeroTopics (1 / 2) false 9 false 1 2
    _ _ hlt0 hlp0 hkey0 (by decide) (by decide) (by decide) (by decide)
  obtain ⟨ws, q3, h3, h4, _, h5, _⟩ := h3 (by decide)
  exact ⟨⟨hlt, hlp, hkey, hlp0, hkey0, by decide, by decide⟩, ⟨q1, h1⟩, ⟨q2, h2⟩,
    ⟨ws, h3, h4, h5⟩⟩

/-- C22. Category isolation, for every `MoveTopic(pinned, from, to)` and every
`MoveTodo(complete, topicID, from, to)` on a storage with unique identifiers
per group.  Reads: the batch handed to the writer is the same on any other
storage whose list of the category has the same identifiers and the same values
in the category's position field.  Writes: every update of the batch addresses
a member of the category's list and sets the category's position column alone.
Effect: after a successful call the storage differs only in the rows of the
view; every row is as before but for the category's position field, its other
position field included, and every row outside the category's list is as
before altogether. -/
theorem move_category_isolation (rg : RoostGroup) (db : DB) (u : ℚ) (pinned complete : Bool)
    (topicID : Nat) (from_ to_ : Int)
    (hkeyT : (db.topics.map fun t => (t.GroupID, t.ID)).Nodup)
    (hkeyD : (db.todos.map fun t => (t.GroupID, t.ID)).Nodup) :
    ((∀ db2 : DB,
        (RoostGroup.MoveTopic.targetTopics pinned (rg.Topics db2)).map Topic.ID =
          (RoostGroup.MoveTopic.targetTopics pinned (rg.Topics db)).map Topic.ID →
        (RoostGroup.MoveTopic.targetTopics pinned (rg.Topics db2)).map
            (RoostGroup.MoveTopic.pos pinned) =
          (RoostGroup.MoveTopic.targetTopics pinned (rg.Topics db)).map
            (RoostGroup.MoveTopic.pos pinned) →
        RoostGroup.MoveTopic.writer rg db2 u pinned from_ to_ =
          RoostGroup.MoveTopic.writer rg db u pinned from_ to_) ∧
      (∀ ws, RoostGroup.MoveTopic.writer rg db u pinned from_ to_ = .ok ws →
        ∀ w ∈ ws, ∃ a ∈ RoostGroup.MoveTopic.targetTopics pinned (rg.Topics db), ∃ q, w =
          ({ view := "topics", id := a.ID,
             props := [(RoostGroup.MoveTopic.posProp pinned, .real q)] } : Update)) ∧
      (∀ db1, rg.MoveTopic db u pinned from_ to_ = .ok db1 →
        ∃ f : Topic → Topic, db1 = { db with topics := db.topics.map f } ∧
          ∀ t ∈ db.topics,
            (f t).setProp (RoostGroup.MoveTopic.posProp pinned) (.real 0) =
              t.setProp (RoostGroup.MoveTopic.posProp pinned) (.real 0) ∧
            RoostGroup.MoveTopic.pos (!pinned) (f t) = RoostGroup.MoveTopic.pos (!pinned) t ∧
            (RoostGroup.MoveTopic.sel rg pinned t = false → f t = t))) ∧
    ((∀ db2 : DB,
        (RoostGroup.MoveTodo.targetTodos complete (rg.Todos db2 topicID)).map Todo.ID =
          (RoostGroup.MoveTodo.targetTodos complete (rg.Todos db topicID)).map Todo.ID →
        (RoostGroup.MoveTodo.targetTodos complete (rg.Todos db2 topicID)).map
            (RoostGroup.MoveTodo.pos complete) =
          (RoostGroup.MoveTodo.targetTodos complete (rg.Todos db topicID)).map
            (RoostGroup.MoveTodo.pos complete) →
        RoostGroup.MoveTodo.writer rg db2 u complete topicID from_ to_ =
          RoostGroup.MoveTodo.writer rg db u complete topicID from_ to_) ∧
      (∀ ws, RoostGroup.MoveTodo.writer rg db u complete topicID from_ to_ = .ok ws →
        ∃ a ∈ RoostGroup.MoveTodo.targetTodos complete (rg.Todos db topicID), ∃ q, ws =
          [({ view := "todos", id := a.ID,
              props := [(RoostGroup.MoveTodo.posProp complete, .real q)] } : Update)]) ∧
      (∀ db1, rg.MoveTodo db u complete topicID from_ to_ = .ok db1 →
        ∃ f : Todo → Todo, db1 = { db with todos := db.todos.map f } ∧
          ∀ t ∈ db.todos,
            (f t).setProp (RoostGroup.MoveTodo.posProp complete) (.real 0) =
              t.setProp (RoostGroup.MoveTodo.posProp complete) (.real 0) ∧
            RoostGroup.MoveTodo.pos (!complete) (f t) =
              RoostGroup.MoveTodo.pos (!complete) t ∧
            (RoostGroup.MoveTodo.sel rg complete topicID t = false → f t = t))) := by
  refine ⟨⟨?_, ?_, ?_⟩, ⟨?_, ?_, ?_⟩⟩
  · intro db2 hid hpos
    exact moveTopic_writer_congr rg db db2 u pinned from_ to_ hid hpos
  · intro ws h
    exact moveTopic_batch rg db u pinned from_ to_ ws h
  · intro db1 h
    exact MoveTopic_frame rg db db1 u pinned from_ to_ hkeyT h
  · intro db2 hid hpos
    exact moveTodo_writer_congr rg db db2 u complete topicID from_ to_ hid hpos
  · intro ws h
    obtain ⟨todo, q, hmem, e⟩ := moveTodo_writer_form rg db u complete topicID from_ to_ ws h
    exact ⟨todo, hmem, q, e⟩
  · intro db1 h
    exact MoveTodo_frame rg db db1 u complete topicID from_ to_ hkeyD h

/-- Witness of C22: the unpinned topic at index 1 of the listed topics moved to
index 2.  The todos, the pinned topics and every pin position are as before. -/
theorem move_category_isolation_witness :
    ((todosAndTopics.topics.map fun t => (t.GroupID, t.ID)).Nodup ∧
      (todosAndTopics.todos.map fun t => (t.GroupID, t.ID)).Nodup) ∧
    ∃ db1, RoostGroup.MoveTopic ⟨7, 1⟩ todosAndTopics (1 / 2) false 1 2 = .ok db1 ∧
      db1.todos = todosAndTopics.todos ∧
      db1.topics.map Topic.PinPosition = todosAndTopics.topics.map Topic.PinPosition ∧
      ∀ t ∈ todosAndTopics.topics, t.Pinned = true → t ∈ db1.topics := by
  have hkT : (todosAndTopics.topics.map fun t => (t.GroupID, t.ID)).Nodup := by decide
  have hkD : (todosAndTopics.todos.map fun t => (t.GroupID, t.ID)).Nodup := by decide
  have hlp : RoostGroup.MoveTopic.targetTopics false (RoostGroup.Topics ⟨7, 1⟩ todosAndTopics) =
      [listedTopics.topics[0], listedTopics.topics[4], listedTopics.topics[5],
        listedTopics.topics[6], listedTopics.topics[7]] := by decide
  have hw := moveTopic_writer_ok ⟨7, 1⟩ todosAndTopics (1 / 2) false 1 2 _ hlp (by decide)
    (by decide)
  have hm : ∃ db1, RoostGroup.MoveTopic ⟨7, 1⟩ todosAndTopics (1 / 2) false 1 2 = .ok db1 := by
    unfold RoostGroup.MoveTopic
    simp only [Nat.cast_one, Nat.cast_ofNat] at hw
    rw [hw]
    exact ⟨_, rfl⟩
  obtain ⟨db1, h1⟩ := hm
  obtain ⟨f, e, hf⟩ := (move_category_isolation ⟨7, 1⟩ todosAndTopics (1 / 2) false false 9 1 2
    hkT hkD).1.2.2 db1 h1
  refine ⟨⟨hkT, hkD⟩, db1, h1, by rw [e], ?_, ?_⟩
  · rw [e]
    simp only [List.map_map]
    apply List.map_congr_left
    intro t ht
    exact (hf t ht).2.1
  · intro t ht hp
    have hs : RoostGroup.MoveTopic.sel ⟨7, 1⟩ false t = false := by
      simp [RoostGroup.MoveTopic.sel, hp]
    rw [e]
    have := List.mem_map_of_mem f ht
    rw [(hf t ht).2.2 hs] at this
    exact this

/-- C23. Top-insertion regression guard in exact arithmetic.  From every todo
list (either category of a topic) and every topic list (pinned or unpinned)
with pairwise distinct positions, every sequence of moves to index 0, 40 of
them or any other number, each from an index within the list and with an
allocator fraction in `[0.1, 0.9]` (a draw `u` in `[0, 1]`), succeeds, and in
the list read back after the last move the length is as before, the positions
ascend strictly, and so they are pairwise distinct and distinct for adjacent
items. -/
theorem top_moves_stay_distinct (rg : RoostGroup) (db : DB) (complete : Bool) (topicID : Nat)
    (pinned : Bool) (movesT movesP : List (Nat × ℚ)) (lt : List Todo) (lp : List Topic)
    (hlt : RoostGroup.MoveTodo.targetTodos complete (rg.Todos db topicID) = lt)
    (hlp : RoostGroup.MoveTopic.targetTopics pinned (rg.Topics db) = lp)
    (hkeyD : (db.todos.map fun t => (t.GroupID, t.ID)).Nodup)
    (hkeyT : (db.topics.map fun t => (t.GroupID, t.ID)).Nodup)
    (hdt : (lt.map (RoostGroup.MoveTodo.pos complete)).Nodup)
    (hdp : (lp.map (RoostGroup.MoveTopic.pos pinned)).Nodup)
    (hmT : ∀ m ∈ movesT, m.1 < lt.length ∧ 0 ≤ m.2 ∧ m.2 ≤ 1)
    (hmP : ∀ m ∈ movesP, m.1 < lp.length ∧ 0 ≤ m.2 ∧ m.2 ≤ 1) :
    (∃ db1, rg.moveTodosToTop complete topicID movesT db = .ok db1 ∧
      (RoostGroup.MoveTodo.targetTodos complete (rg.Todos db1 topicID)).length = lt.length ∧
      (RoostGroup.MoveTodo.targetTodos complete (rg.Todos db1 topicID)).Pairwise
        (fun a b => RoostGroup.MoveTodo.pos complete a < RoostGroup.MoveTodo.pos complete b) ∧
      ((RoostGroup.MoveTodo.targetTodos complete (rg.Todos db1 topicID)).map
        (RoostGroup.MoveTodo.pos complete)).Nodup ∧
      ((RoostGroup.MoveTodo.targetTodos complete (rg.Todos db1 topicID)).map
        (RoostGroup.MoveTodo.pos complete)).Chain' (fun x y => x ≠ y)) ∧
    (∃ db1, rg.moveTopicsToTop pinned movesP db = .ok db1 ∧
      (RoostGroup.MoveTopic.targetTopics pinned (rg.Topics db1)).length = lp.length ∧
      (RoostGroup.MoveTopic.targetTopics pinned (rg.Topics db1)).Pairwise
        (fun a b => RoostGroup.MoveTopic.pos pinned a < RoostGroup.MoveTopic.pos pinned b) ∧
      ((RoostGroup.MoveTopic.targetTopics pinned (rg.Topics db1)).map
        (RoostGroup.MoveTopic.pos pinned)).Nodup ∧
      ((RoostGroup.MoveTopic.targetTopics pinned (rg.Topics db1)).map
        (RoostGroup.MoveTopic.pos pinned)).Chain' (fun x y => x ≠ y)) := by
  constructor
  · have hs := todos_strict_of_distinct rg db complete topicID lt hlt hdt
    rw [← hlt] at hs
    obtain ⟨db1, h1, h2, h3⟩ := moveTodosToTop_keeps rg complete topicID lt.length movesT hmT db
      hkeyD (by rw [hlt]) hs
    obtain ⟨h4, h5⟩ := strict_adjacent_distinct _ _ h3
    exact ⟨db1, h1, h2, h3, h4, h5⟩
  · have hs := topics_strict_of_distinct rg db pinned lp hlp hdp
    rw [← hlp] at hs
    obtain ⟨db1, h1, h2, h3⟩ := moveTopicsToTop_keeps rg pinned lp.length movesP hmP db
      hkeyT (by rw [hlp]) hs
    obtain ⟨h4, h5⟩ := strict_adjacent_distinct _ _ h3
    exact ⟨db1, h1, h2, h3, h4, h5⟩

/-- Witness of C23: 40 times the last of five todos, and of five unpinned
topics, is moved to the top with the draw 1. -/
theorem top_moves_stay_distinct_witness :
    (RoostGroup.MoveTodo.targetTodos false (RoostGroup.Todos ⟨7, 1⟩ todosAndTopics 9) =
        fiveTodos.todos ∧
      RoostGroup.MoveTopic.targetTopics false (RoostGroup.Topics ⟨7, 1⟩ todosAndTopics) =
        [listedTopics.topics[0], listedTopics.topics[4], listedTopics.topics[5],
          listedTopics.topics[6], listedTopics.topics[7]] ∧
      (todosAndTopics.todos.map fun t => (t.GroupID, t.ID)).Nodup ∧
      (todosAndTopics.topics.map fun t => (t.GroupID, t.ID)).Nodup ∧
      (fiveTodos.todos.map (RoostGroup.MoveTodo.pos false)).Nodup ∧
      ([listedTopics.topics[0], listedTopics.topics[4], listedTopics.topics[5],
        listedTopics.topics[6], listedTopics.topics[7]].map
          (RoostGroup.MoveTopic.pos false)).Nodup ∧
      (List.replicate 40 ((4 : Nat), (1 : ℚ))).length = 40 ∧
      ∀ m ∈ List.replicate 40 ((4 : Nat), (1 : ℚ)), m.1 < 5 ∧ 0 ≤ m.2 ∧ m.2 ≤ 1) ∧
    (∃ db1, RoostGroup.moveTodosToTop ⟨7, 1⟩ false 9 (List.replicate 40 (4, 1)) todosAndTopics =
        .ok db1 ∧
      (RoostGroup.MoveTodo.targetTodos false (RoostGroup.Todos ⟨7, 1⟩ db1 9)).length = 5 ∧
      ((RoostGroup.MoveTodo.targetTodos false (RoostGroup.Todos ⟨7, 1⟩ db1 9)).map
        (RoostGroup.MoveTodo.pos false)).Nodup) ∧
    (∃ db1, RoostGroup.moveTopicsToTop ⟨7, 1⟩ false (List.replicate 40 (4, 1)) todosAndTopics =
        .ok db1 ∧
      (RoostGroup.MoveTopic.targetTopics false (RoostGroup.Topics ⟨7, 1⟩ db1)).length = 5 ∧
      ((RoostGroup.MoveTopic.targetTopics false (RoostGroup.Topics ⟨7, 1⟩ db1)).map
        (RoostGroup.MoveTopic.pos false)).Nodup) := by
  have hlt : RoostGroup.MoveTodo.targetTodos false (RoostGroup.Todos ⟨7, 1⟩ todosAndTopics 9) =
      fiveTodos.todos := by decide
  have hlp : RoostGroup.MoveTopic.targetTopics false (RoostGroup.Topics ⟨7, 1⟩ todosAndTopics) =
      [listedTopics.topics[0], listedTopics.topics[4], listedTopics.topics[5],
        listedTopics.topics[6], listedTopics.topics[7]] := by decide
  have hkD : (todosAndTopics.todos.map fun t => (t.GroupID, t.ID)).Nodup := by decide
  have hkT : (todosAndTopics.topics.map fun t => (t.GroupID, t.ID)).Nodup := by decide
  have hdt : (fiveTodos.todos.map (RoostGroup.MoveTodo.pos false)).Nodup := by decide
  have hdp : ([listedTopics.topics[0], listedTopics.topics[4], listedTopics.topics[5],
      listedTopics.topics[6], listedTopics.topics[7]].map
        (RoostGroup.MoveTopic.pos false)).Nodup := by decide
  have hm : ∀ m ∈ List.replicate 40 ((4 : Nat), (1 : ℚ)), m.1 < 5 ∧ 0 ≤ m.2 ∧ m.2 ≤ 1 := by
    intro m hm
    rw [List.mem_replicate] at hm
    rw [hm.2]
    decide
  obtain ⟨⟨d1, a1, a2, _, a4, _⟩, ⟨d2, b1, b2, _, b4, _⟩⟩ :=
    top_moves_stay_distinct ⟨7, 1⟩ todosAndTopics false 9 false (List.replicate 40 (4, 1))
      (List.replicate 40 (4, 1)) _ _ hlt hlp hkD hkT hdt hdp hm hm
  exact ⟨⟨hlt, hlp, hkD, hkT, hdt, hdp, by simp, hm⟩, ⟨d1, a1, a2, a4⟩, ⟨d2, b1, b2, b4⟩⟩

/-- Counterexample to C21 as stated: of five todos, todo 1 is marked complete
and committed at time 100, which leaves `oneCommitted` with the complete list
holding todo 1 at `completed_position` -100; then todo 2 is marked complete and
committed at time 200.  Todo 2 gets the `completed_position` -200, below that
of todo 1, and the complete list read back is 2, 1: the new entry is first, not
last. -/
theorem Commit_sorts_first_counterexample :
    ((RoostGroup.TodoUpdater ⟨7, 1⟩).MarkComplete 1 true).Commit fiveTodos 100 =
      .ok (RoostGroup.TodoUpdater ⟨7, 1⟩, oneCommitted) ∧
    ((RoostGroup.Todos ⟨7, 1⟩ oneCommitted 9).completeTodos.map fun t =>
      (t.ID, t.CompletedPosition)) = [(1, -100)] ∧
    ((((RoostGroup.TodoUpdater ⟨7, 1⟩).MarkComplete 2 true).Commit oneCommitted 200).bind
      fun p =>
        .ok (((RoostGroup.Todos ⟨7, 1⟩ p.2 9).completeTodos.map fun t =>
            (t.ID, t.CompletedPosition)),
          (RoostGroup.Todos ⟨7, 1⟩ p.2 9).incompleteTodos.map Todo.ID)) =
      .ok ([(2, -200), (1, -100)], [3, 4, 5]) := by
  decide

/-- C21, amended. Category change on `Commit`, for a todo `t` of the incomplete
list of a topic that the updater marks complete, a commit time `nowTs > 0` and
a complete list whose positions all lie above `-nowTs` (as they do after
commits at earlier times).  `Commit` succeeds and empties the two maps.  After
it no todo with the id of `t` is in the incomplete list, and `t` is in the
complete list with `completed_at = nowTs` and `completed_position = -nowTs`,
the negated commit time and not a draw of the allocator; every position of the
complete list is at least `-nowTs`, with equality only for todos marked
complete in the same commit.  When the mark of `t` is the only entry of the
updater and identifiers are unique, the complete list is the old one with `t`
put first, and the incomplete list is the old one without `t`. -/
theorem Commit_complete_sorts_first (tu : Roost.TodoUpdater) (db : DB) (nowTs : ℚ)
    (topicID : Nat) (t : Todo) (hkeys : (tu.completed.map Prod.fst).Nodup)
    (hmark : (t.ID, true) ∈ tu.completed) (hnow : 0 < nowTs)
    (ht : t ∈ (tu.rg.Todos db topicID).incompleteTodos)
    (hearlier : ∀ x ∈ (tu.rg.Todos db topicID).completeTodos, -nowTs < x.CompletedPosition) :
    ∃ db1 r, tu.Commit db nowTs = .ok ({ tu with completed := [], read := [] }, db1) ∧
      (∀ x ∈ (tu.rg.Todos db1 topicID).incompleteTodos, x.ID ≠ t.ID) ∧
      ({ t with CompletedAt := nowTs, CompletedPosition := -nowTs, Read := r } ∈
        (tu.rg.Todos db1 topicID).completeTodos) ∧
      (∀ x ∈ (tu.rg.Todos db1 topicID).completeTodos,
        -nowTs ≤ x.CompletedPosition ∧
        (x.CompletedPosition = -nowTs → (x.ID, true) ∈ tu.completed)) ∧
      (tu.completed = [(t.ID, true)] → tu.read = [] →
        (db.todos.map fun t => (t.GroupID, t.ID)).Nodup →
        (tu.rg.Todos db1 topicID).completeTodos =
          { t with CompletedAt := nowTs, CompletedPosition := -nowTs } ::
            (tu.rg.Todos db topicID).completeTodos ∧
        (tu.rg.Todos db1 topicID).incompleteTodos =
          (tu.rg.Todos db topicID).incompleteTodos.filter fun x => decide (x.ID ≠ t.ID)) := by
  obtain ⟨h1, h2, h3⟩ := Commit_marked_lists tu db nowTs topicID t hkeys hmark hnow ht hearlier
  refine ⟨_, _, Commit_eq tu db nowTs, h1, h2, h3, ?_⟩
  intro hc hr hkey
  have htu : tu = (tu.rg.TodoUpdater).MarkComplete t.ID true := by
    obtain ⟨rg, c, r⟩ := tu
    simp only [] at hc hr
    subst hc hr
    rfl
  have h := Commit_single_lists tu.rg db nowTs topicID t hkey hnow ht hearlier
  rw [← htu] at h
  exact h

/-- Witness of C21: with todo 1 completed at time 100, todo 2 is marked complete
and committed at time 200; the complete list becomes 2, 1 and the incomplete
list 3, 4, 5. -/
theorem Commit_complete_sorts_first_witness :
    ((((RoostGroup.TodoUpdater ⟨7, 1⟩).MarkComplete 2 true).completed.map Prod.fst).Nodup ∧
      (oneCommitted.todos[1].ID, true) ∈
        ((RoostGroup.TodoUpdater ⟨7, 1⟩).MarkComplete 2 true).completed ∧
      (0 : ℚ) < 200 ∧
      oneCommitted.todos[1] ∈ (RoostGroup.Todos ⟨7, 1⟩ oneCommitted 9).incompleteTodos ∧
      ∀ x ∈ (RoostGroup.Todos ⟨7, 1⟩ oneCommitted 9).completeTodos,
        -(200 : ℚ) < x.CompletedPosition) ∧
    ∃ db1, ((RoostGroup.TodoUpdater ⟨7, 1⟩).MarkComplete 2 true).Commit oneCommitted 200 =
        .ok (RoostGroup.TodoUpdater ⟨7, 1⟩, db1) ∧
      (RoostGroup.Todos ⟨7, 1⟩ db1 9).completeTodos.map Todo.ID = [2, 1] ∧
      (RoostGroup.Todos ⟨7, 1⟩ db1 9).completeTodos.map Todo.CompletedPosition =
        [-200, -100] ∧
      (RoostGroup.Todos ⟨7, 1⟩ db1 9).incompleteTodos.map Todo.ID = [3, 4, 5] := by
  have a1 : (((RoostGroup.TodoUpdater ⟨7, 1⟩).MarkComplete 2 true).completed.map
      Prod.fst).Nodup := by decide
  have a2 : (oneCommitted.todos[1].ID, true) ∈
      ((RoostGroup.TodoUpdater ⟨7, 1⟩).MarkComplete 2 true).completed := by decide
  have a3 : (0 : ℚ) < 200 := by decide
  have a4 : oneCommitted.todos[1] ∈
      (RoostGroup.Todos ⟨7, 1⟩ oneCommitted 9).incompleteTodos := by decide
  have a5 : ∀ x ∈ (RoostGroup.Todos ⟨7, 1⟩ oneCommitted 9).completeTodos,
      -(200 : ℚ) < x.CompletedPosition := by decide
  obtain ⟨db1, r, h1, _, _, _, h5⟩ := Commit_complete_sorts_first
    ((RoostGroup.TodoUpdater ⟨7, 1⟩).MarkComplete 2 true) oneCommitted 200 9
    oneCommitted.todos[1] a1 a2 a3 a4 a5
  obtain ⟨h6, h7⟩ := h5 (by decide) (by decide) (by decide)
  have hc : (RoostGroup.Todos ⟨7, 1⟩ oneCommitted 9).completeTodos =
      [oneCommitted.todos[0]] := by decide
  have hi : (RoostGroup.Todos ⟨7, 1⟩ oneCommitted 9).incompleteTodos =
      [oneCommitted.todos[1], oneCommitted.todos[2], oneCommitted.todos[3],
        oneCommitted.todos[4]] := by decide
  have h6b : (RoostGroup.Todos ⟨7, 1⟩ db1 9).completeTodos = _ := h6
  have h7b : (RoostGroup.Todos ⟨7, 1⟩ db1 9).incompleteTodos = _ := h7
  have hc2 : (RoostGroup.Todos
      ((RoostGroup.TodoUpdater ⟨7, 1⟩).MarkComplete 2 true).rg oneCommitted 9).completeTodos =
      [oneCommitted.todos[0]] := hc
  have hi2 : (RoostGroup.Todos
      ((RoostGroup.TodoUpdater ⟨7, 1⟩).MarkComplete 2 true).rg oneCommitted 9).incompleteTodos =
      [oneCommitted.todos[1], oneCommitted.todos[2], oneCommitted.todos[3],
        oneCommitted.todos[4]] := hi
  rw [hc2] at h6b
  rw [hi2] at h7b
  refine ⟨⟨a1, a2, a3, a4, a5⟩, db1, h1, ?_, ?_, ?_⟩
  · rw [h6b]; decide
  · rw [h6b]; decide
  · rw [h7b]; decide

end Roost
